import Mathlib

/-!
# MeMo-Tracer: timing cores and TAGE predictor

A shallow embedding of `src/mybitset.h`, `src/tage.{h,cpp}` and the
`src/MeMo/*Model.{h,cpp}` timing cores, followed by theorems about them.

Conventions of the embedding:

* unsigned machine integers are natural numbers reduced with an explicit
  `% 2 ^ w` at every operation that can leave the range;
* C++ arrays and vectors are total maps from the index to the cell
  (`Nat → α`); an access outside the allocated range is undefined in C++ and
  is not given a meaning of its own here;
* a pointer that may be null is an `Option`;
* a function that can stop on `assert` returns an `Option` (`none` = abort),
  unless its doc comment says that the assertion is kept as a precondition;
* objects behind an interface that is not part of the sources (the filter
  cache, the contention recorder) are parameters.
-/

namespace MeMo

/-! ## Machine words -/

/-- Reduction of a natural number to an unsigned 64-bit word. -/
def w64 (n : Nat) : Nat := n % 2 ^ 64

/-- Reduction of a natural number to an unsigned 32-bit word. -/
def w32 (n : Nat) : Nat := n % 2 ^ 32

/-- Reduction of a natural number to an unsigned 8-bit word. -/
def w8 (n : Nat) : Nat := n % 2 ^ 8

/-- Unsigned 64-bit subtraction `a - b` (wraps around below zero). -/
def sub64 (a b : Nat) : Nat := (a % 2 ^ 64 + (2 ^ 64 - b % 2 ^ 64)) % 2 ^ 64

/-- Unsigned 32-bit subtraction `a - b` (wraps around below zero). -/
def sub32 (a b : Nat) : Nat := (a % 2 ^ 32 + (2 ^ 32 - b % 2 ^ 32)) % 2 ^ 32

/-- Modelled from the spec: the macro `MAX(a, b)` of `bithacks.h`, which is
not part of the sources: the larger of its two arguments,
`(a > b) ? a : b`. -/
def MAX (a b : Nat) : Nat := if a > b then a else b

/-! ## `mybitset.h` -/

/-- The struct `mybitset`: a length (`uint8_t`) and 64 data bits. -/
structure mybitset where
  len : Nat
  data : Nat

namespace mybitset

/-- The constructor `mybitset(_len)`: all data bits are zero. -/
def new (len : Nat) : mybitset := { len := len, data := 0 }

/-- The helper `bit_mask(pos)`, `1ULL << pos`. For `pos ≥ 64` the C++ shift
is undefined; here it gives `2 ^ pos % 2 ^ 64 = 0`. -/
def bit_mask (pos : Nat) : Nat := w64 (1 <<< pos)

/-- The helper `max_mask(len)`, `(1ULL << len) - 1`. -/
def max_mask (len : Nat) : Nat := sub64 (w64 (1 <<< len)) 1

/-- The method `get(pos)`: `data & bit_mask(pos)` converted to `bool`. -/
def get (b : mybitset) (pos : Nat) : Bool := (b.data &&& bit_mask pos) != 0

/-- The method `set(pos, val)`:
`data = (data & ~bit_mask(pos)) | bit_mask(pos)`; `val` is not used by the
body. -/
def set (b : mybitset) (pos : Nat) (_val : Bool) : mybitset :=
  { b with data := (b.data &&& (2 ^ 64 - 1 - bit_mask pos)) ||| bit_mask pos }

/-- The operator `<<=`: `data <<= shift` on 64 bits. -/
def shl (b : mybitset) (shift : Nat) : mybitset :=
  { b with data := w64 (b.data <<< shift) }

/-- The method `to_ulong()`: `data & max_mask(len)`. -/
def to_ulong (b : mybitset) : Nat := b.data &&& max_mask b.len

end mybitset

/-! ## `std::bitset` as used by the predictor

A `std::bitset<N>` is the natural number whose binary digits are its bits. -/

/-- Read of bit `i`, `b[i]`. -/
def bitGet (b i : Nat) : Bool := b.testBit i

/-- Write of bit `i`, `b[i] = v`: the bit is flipped when it differs from
`v`. -/
def bitAssign (b i : Nat) (v : Bool) : Nat :=
  if b.testBit i = v then b else b ^^^ 2 ^ i

/-- Shift `b <<= 1` of a `std::bitset<n>`: the top bit falls off. -/
def bitShl1 (n b : Nat) : Nat := (2 * b) % 2 ^ n

/-! ## `tage.h` -/

def T0_COUNTER_MAX : Nat := 7
def TI_COUNTER_MAX : Nat := 7
def USE_ALT_COUNTER_MAX : Nat := 7
def BASE_PREDICTOR_SIZE : Nat := 128
def TAGE_TAG_SIZE : Nat := 14
def MAX_ALLOCATIONS : Nat := 1
def HIST_BUFFER_SIZE : Nat := 64

/-- The member array `hist_lengths[9]`: a place holder at index 0, then
`HIST_LENGTH_1 .. HIST_LENGTH_8`. -/
def hist_lengths (tableNum : Nat) : Nat :=
  [0, 8, 16, 24, 32, 40, 48, 56, 64].getD tableNum 0

/-- The member `tag_mask`, `(1ULL << TAGE_TAG_SIZE) - 1`. -/
def tag_mask : Nat := sub64 (w64 (1 <<< TAGE_TAG_SIZE)) 1

/-- The struct `TageEntry`. The `uint8_t useful` only ever holds `false` or
`true`. -/
structure TageEntry where
  counter : Nat
  tag : Nat
  useful : Bool

/-- The data members of `class BranchPredictorTage`. `basePredictor` and
`tage` are maps from the index (table, then index) to the cell. -/
structure BranchPredictorTage where
  historyBuffer : Nat
  providerIndex : Int
  altProviderIndex : Int
  useAltOnNa : Nat
  providerPredIndex : Nat
  providerPred : Bool
  altProviderPred : Bool
  table_num : Nat
  index_size : Nat
  idx_mask : Nat
  basePredictor : Nat → Nat
  tage : Nat → Nat → TageEntry

namespace BranchPredictorTage

/-- The constructor `BranchPredictorTage(_table_num, _index_size)`; `none`
when `assert(table_num <= 8)` fails. Both arguments are `uint8_t`. The cells
`tage[i][j]` created by the two `resize` loops start as zero. -/
def new (_table_num _index_size : Nat) : Option BranchPredictorTage :=
  if w8 _table_num ≤ 8 then
    some
      { historyBuffer := 0
        providerIndex := -1
        altProviderIndex := -1
        useAltOnNa := 0
        providerPredIndex := 99999
        providerPred := false
        altProviderPred := false
        table_num := w8 _table_num
        index_size := w8 _index_size
        idx_mask := sub64 (w64 (1 <<< w8 _index_size)) 1
        basePredictor := fun _ => T0_COUNTER_MAX / 2
        tage := fun _ _ => { counter := 0, tag := 0, useful := false } }
  else none

/-- The fold loop of `GetTageIndex`,
`for (sm, lg; sm <= lg; sm++, lg--)` on the `mybitset subHistory`; the first
argument bounds the number of rounds (the loop is entered with `sm = 0` and
`lg = hist_lengths[tableNum] - 1`, so `hist_lengths[tableNum]` rounds are
never exceeded). -/
def GetTageIndexLoop (s : BranchPredictorTage) :
    Nat → Nat → Nat → mybitset → mybitset
  | 0, _, _, subHistory => subHistory
  | fuel + 1, sm, lg, subHistory =>
    if sm ≤ lg then
      let lastVal := subHistory.get (sub64 s.index_size 1)
      let midVal := subHistory.get (sub64 (s.index_size / 2) 1)
      let sub1 := subHistory.shl 1
      let sub2 := sub1.set 0 (xor lastVal (bitGet s.historyBuffer sm))
      let sub3 := sub2.set (s.index_size / 2) (xor midVal (bitGet s.historyBuffer lg))
      GetTageIndexLoop s fuel (w32 (sm + 1)) (sub32 lg 1) sub3
    else subHistory

/-- The method `GetTageIndex(PC, tableNum)`. `assert(index_size <= 64)` is
kept as a precondition. -/
def GetTageIndex (s : BranchPredictorTage) (PC tableNum : Nat) : Nat :=
  if tableNum = 0 then 999999
  else
    let subHistory :=
      GetTageIndexLoop s (hist_lengths tableNum) 0 (sub32 (hist_lengths tableNum) 1)
        (mybitset.new s.index_size)
    subHistory.to_ulong ^^^ (PC &&& s.idx_mask)

/-- The fold loop of `GetTageTag` on a `std::bitset<TAGE_TAG_SIZE>`; the
first argument bounds the number of rounds as in `GetTageIndexLoop`. -/
def GetTageTagLoop (s : BranchPredictorTage) : Nat → Nat → Nat → Nat → Nat
  | 0, _, _, subHistory => subHistory
  | fuel + 1, sm, lg, subHistory =>
    if sm ≤ lg then
      let lastVal := bitGet subHistory (TAGE_TAG_SIZE - 1)
      let midVal := bitGet subHistory (TAGE_TAG_SIZE / 2 - 1)
      let sub1 := bitShl1 TAGE_TAG_SIZE subHistory
      let sub2 := bitAssign sub1 0 (xor lastVal (bitGet s.historyBuffer sm))
      let sub3 := bitAssign sub2 (TAGE_TAG_SIZE / 2) (xor midVal (bitGet s.historyBuffer lg))
      GetTageTagLoop s fuel (w32 (sm + 1)) (sub32 lg 1) sub3
    else subHistory

/-- The method `GetTageTag(PC, tableNum)`. -/
def GetTageTag (s : BranchPredictorTage) (PC tableNum : Nat) : Nat :=
  if tableNum = 0 then 999999
  else
    let subHistory :=
      GetTageTagLoop s (hist_lengths tableNum) 0 (sub32 (hist_lengths tableNum) 1) 0
    subHistory ^^^ (PC &&& tag_mask)

/-- The loop `for (table = table_num; table >= 1; table--)` of
`GetTagePredictions`, by recursion on `table`; the Boolean is
`*usefulBitNull`. `idx` and `tag` are `uint32_t`. -/
def GetTagePredictionsLoop (PC : Nat) :
    Nat → BranchPredictorTage × Bool → BranchPredictorTage × Bool
  | 0, r => r
  | t + 1, (s, usefulBitNull) =>
    if s.providerIndex ≠ -1 ∧ s.altProviderIndex ≠ -1 then (s, usefulBitNull)
    else
      let table := t + 1
      let idx := w32 (s.GetTageIndex PC table)
      let tag := w32 (s.GetTageTag PC table)
      if (s.tage table idx).tag = tag then
        let counterVal := (s.tage table idx).counter
        if s.providerIndex = -1 then
          GetTagePredictionsLoop PC t
            ({ s with
                providerIndex := table
                providerPredIndex := idx
                providerPred := decide (counterVal > TI_COUNTER_MAX / 2) },
              (s.tage table idx).useful == false)
        else
          GetTagePredictionsLoop PC t
            ({ s with
                altProviderIndex := table
                altProviderPred := decide (counterVal ≥ TI_COUNTER_MAX / 2) },
              usefulBitNull)
      else GetTagePredictionsLoop PC t (s, usefulBitNull)

/-- The part of `GetTagePredictions` after the loop: the base predictor
fills whichever of provider and alt provider is still `-1`. -/
def GetTagePredictionsBase (PC : Nat) (s : BranchPredictorTage) : BranchPredictorTage :=
  if s.providerIndex = -1 ∨ s.altProviderIndex = -1 then
    let basePredictorIndex := w32 (PC % BASE_PREDICTOR_SIZE)
    let counterVal := s.basePredictor basePredictorIndex
    let s1 :=
      if s.providerIndex = -1 then
        { s with
            providerIndex := 0
            providerPredIndex := basePredictorIndex
            providerPred := decide (counterVal > T0_COUNTER_MAX / 2) }
      else s
    if s1.altProviderIndex = -1 then
      { s1 with
          altProviderIndex := 0
          altProviderPred := decide (counterVal > T0_COUNTER_MAX / 2) }
    else s1
  else s

/-- The method `GetTagePredictions(PC, usefulBitNull)`: the new state and the
value left in `*usefulBitNull`, whose value on entry is the third
argument. -/
def GetTagePredictions (s : BranchPredictorTage) (PC : Nat) (usefulBitNull : Bool) :
    BranchPredictorTage × Bool :=
  let s0 := { s with providerIndex := -1, altProviderIndex := -1, providerPredIndex := 999999 }
  let r := GetTagePredictionsLoop PC s0.table_num (s0, usefulBitNull)
  (GetTagePredictionsBase PC r.1, r.2)

/-- The method `GetPrediction(PC)`: the returned direction and the state it
leaves. -/
def GetPrediction (s : BranchPredictorTage) (PC : Nat) : Bool × BranchPredictorTage :=
  let r := s.GetTagePredictions PC false
  if r.2 = true ∧ r.1.useAltOnNa > USE_ALT_COUNTER_MAX / 2 then (r.1.altProviderPred, r.1)
  else (r.1.providerPred, r.1)

/-- The saturating step applied by `UpdateProviderCounter` to `*counter`. -/
def stepCounter (resolveDir : Bool) (counter : Nat) : Nat :=
  if resolveDir = false ∧ counter > 0 then counter - 1
  else if resolveDir = true ∧ counter < T0_COUNTER_MAX then counter + 1
  else counter

/-- The method `UpdateProviderCounter(resolveDir)`. The `int providerIndex`
indexes the vector `tage`; a negative value is outside the vector. -/
def UpdateProviderCounter (s : BranchPredictorTage) (resolveDir : Bool) : BranchPredictorTage :=
  if s.providerIndex = 0 then
    { s with
        basePredictor :=
          Function.update s.basePredictor s.providerPredIndex
            (stepCounter resolveDir (s.basePredictor s.providerPredIndex)) }
  else
    let t := s.providerIndex.toNat
    let e := s.tage t s.providerPredIndex
    { s with
        tage :=
          Function.update s.tage t
            (Function.update (s.tage t) s.providerPredIndex
              { e with counter := stepCounter resolveDir e.counter }) }

/-- The loop `for (uint8_t table = providerIndex + 1; table <= table_num;
table++)` of `AllocateNewEntries`; the first argument counts the values of
`table` still to visit. `newEntries[i]` has `counter = TI_COUNTER_MAX / 2` and
`useful = false`. -/
def AllocateNewEntriesLoop (PC : Nat) :
    Nat → Nat → Nat → BranchPredictorTage → BranchPredictorTage
  | 0, _, _, s => s
  | n + 1, table, allocationCount, s =>
    if allocationCount ≥ MAX_ALLOCATIONS then s
    else
      let predictorIndex := w32 (s.GetTageIndex PC table)
      if (s.tage table predictorIndex).useful = false then
        let newEntry : TageEntry :=
          { counter := TI_COUNTER_MAX / 2, useful := false, tag := w32 (s.GetTageTag PC table) }
        AllocateNewEntriesLoop PC n (table + 1) (allocationCount + 1)
          { s with
              tage := Function.update s.tage table
                (Function.update (s.tage table) predictorIndex newEntry) }
      else
        AllocateNewEntriesLoop PC n (table + 1) allocationCount
          { s with
              tage := Function.update s.tage table
                (Function.update (s.tage table) predictorIndex
                  { s.tage table predictorIndex with useful := false }) }

/-- The method `AllocateNewEntries(PC)`. -/
def AllocateNewEntries (s : BranchPredictorTage) (PC : Nat) : BranchPredictorTage :=
  let table := ((s.providerIndex + 1) % 256).toNat
  AllocateNewEntriesLoop PC (s.table_num + 1 - table) table 0 s

/-- The method `SetU(truthValue)`. -/
def SetU (s : BranchPredictorTage) (truthValue : Bool) : BranchPredictorTage :=
  if s.providerIndex > 0 then
    let t := s.providerIndex.toNat
    { s with
        tage :=
          Function.update s.tage t
            (Function.update (s.tage t) s.providerPredIndex
              { s.tage t s.providerPredIndex with useful := truthValue }) }
  else s

/-- The method `UpdateHistory(resolveDir)`. -/
def UpdateHistory (s : BranchPredictorTage) (resolveDir : Bool) : BranchPredictorTage :=
  { s with
      historyBuffer := bitAssign (bitShl1 HIST_BUFFER_SIZE s.historyBuffer) 0 resolveDir }

/-- The method `UpdatePredictor(PC, resolveDir, predDir, branchTarget)`. -/
def UpdatePredictor (s : BranchPredictorTage) (PC : Nat) (resolveDir predDir : Bool)
    (_branchTarget : Nat) : BranchPredictorTage :=
  let s1 := s.UpdateProviderCounter resolveDir
  let s2 := if resolveDir ≠ predDir then s1.AllocateNewEntries PC else s1
  let s3 :=
    if s2.altProviderPred ≠ s2.providerPred then
      if s2.altProviderPred = resolveDir then
        let s2a := s2.SetU false
        if s2a.useAltOnNa < USE_ALT_COUNTER_MAX then
          { s2a with useAltOnNa := s2a.useAltOnNa + 1 }
        else s2a
      else
        let s2b := s2.SetU true
        if s2b.useAltOnNa > 0 then { s2b with useAltOnNa := s2b.useAltOnNa - 1 } else s2b
    else s2
  s3.UpdateHistory resolveDir

/-- The method `predict(branchPc, taken, branch_target)`: the returned
Boolean and the state it leaves. -/
def predict (s : BranchPredictorTage) (branchPc : Nat) (taken : Bool) (branch_target : Nat) :
    Bool × BranchPredictorTage :=
  let r := s.GetPrediction branchPc
  let s1 := r.2.UpdatePredictor branchPc taken r.1 branch_target
  (taken == r.1, s1)

/-- One call of `predict` as seen by the caller of a sequence of calls: the
arguments `(branchPc, taken, branch_target)`. -/
abbrev PredictCall : Type := Nat × Bool × Nat

/-- The state after a sequence of `predict` calls, first call first. -/
def predictAll (s : BranchPredictorTage) (calls : List PredictCall) : BranchPredictorTage :=
  calls.foldl (fun st c => (st.predict c.1 c.2.1 c.2.2).2) s

/-- Every base-predictor counter, every tagged-table counter and
`useAltOnNa` are at most 7. -/
def CountersInRange (s : BranchPredictorTage) : Prop :=
  (∀ i, s.basePredictor i ≤ T0_COUNTER_MAX) ∧
  (∀ t i, (s.tage t i).counter ≤ TI_COUNTER_MAX) ∧
  s.useAltOnNa ≤ USE_ALT_COUNTER_MAX

/-- The members that a lookup does not write: the tables, `useAltOnNa`, the
history and the configuration. The remaining members are the per-lookup
scratch fields. -/
def persistent (s : BranchPredictorTage) :
    (Nat → Nat) × (Nat → Nat → TageEntry) × Nat × Nat × Nat × Nat × Nat :=
  (s.basePredictor, s.tage, s.useAltOnNa, s.historyBuffer, s.table_num, s.index_size,
    s.idx_mask)

/-- Two states of a running lookup that agree on everything a lookup can
still read: all members but `providerPred` and `altProviderPred`, and each of
these two as soon as its index has been chosen. -/
def LookupAgree (s r : BranchPredictorTage) : Prop :=
  s.persistent = r.persistent ∧ s.providerIndex = r.providerIndex ∧
  s.altProviderIndex = r.altProviderIndex ∧ s.providerPredIndex = r.providerPredIndex ∧
  (s.providerIndex ≠ -1 → s.providerPred = r.providerPred) ∧
  (s.altProviderIndex ≠ -1 → s.altProviderPred = r.altProviderPred)

/-- Loop invariant of the lookup for the tables above `t`: no hit yet, or a
provider above `t` and no alt provider, or both with the provider above the alt
provider. -/
def LookupInv (s : BranchPredictorTage) (t : Nat) : Prop :=
  (s.providerIndex = -1 ∧ s.altProviderIndex = -1) ∨
  ((t : Int) < s.providerIndex ∧ s.providerIndex ≤ s.table_num ∧ s.altProviderIndex = -1) ∨
  (0 < s.altProviderIndex ∧ s.altProviderIndex < s.providerIndex ∧
    s.providerIndex ≤ s.table_num)

end BranchPredictorTage

/-! ## Decoded basic blocks and external interfaces -/

def FETCH_STAGE : Nat := 1
def DECODE_STAGE : Nat := 4
def ISSUE_STAGE : Nat := 7
def DISPATCH_STAGE : Nat := 13
def L1I_LAT : Nat := 3
def L1D_LAT : Nat := 4

/-- Modelled from the spec: the uop types of `decoder.h`, which is not part
of the sources: `type ∈ {GENERAL, LOAD, STORE, STORE_ADDR, FENCE}`. -/
inductive UopType where
  | UOP_GENERAL
  | UOP_LOAD
  | UOP_STORE
  | UOP_STORE_ADDR
  | UOP_FENCE
  deriving DecidableEq

/-- Modelled from the spec: the struct `DynUop` of `decoder.h`, which is not
part of the sources. `rs` and `rd` are the two-element arrays `rs[2]` and
`rd[2]`. -/
structure DynUop where
  decCycle : Nat
  rs : Nat × Nat
  rd : Nat × Nat
  lat : Nat
  portMask : Nat
  extraSlots : Nat
  type : UopType
  deriving DecidableEq

/-- Modelled from the spec: the struct `DynBbl`; the member `uops` is the
length of the array `uop`. -/
structure DynBbl where
  uop : List DynUop
  deriving DecidableEq

/-- Modelled from the spec: the struct `BblInfo`, with `oooBbl[0]` as
`oooBbl`. -/
structure BblInfo where
  instrs : Nat
  bytes : Nat
  oooBbl : DynBbl
  deriving DecidableEq

/-- Modelled from the spec: the interface of `FilterCache`
(`filter_cache.h` is not part of the sources): `load(addr, reqCycle)` and
`store(addr, reqCycle)` return the response cycle, `contextSwitch()`
invalidates; each may change the cache, whose state has type `κ`. -/
structure FilterCache (κ : Type) where
  load : κ → Nat → Nat → Nat × κ
  store : κ → Nat → Nat → Nat × κ
  contextSwitch : κ → κ

/-- The calls `cRec.record(curCycle, dispatchCycle, respCycle)` made so far,
oldest first; the recorder itself is not part of the sources. -/
abbrev RecorderLog : Type := List (Nat × Nat × Nat)

/-- The address stored for a predicated-false memory operation,
`(Address)-1L`. -/
def predFalseAddr : Nat := 2 ^ 64 - 1

/-! ## `MeMo/CacheModel.{h,cpp}` -/

/-- The data members of `class CacheModel` that its methods read or write
(`ooo_width` and `ooo_prf_ports` are constants that no method reads). `l1d`
is the state of the filter cache behind the pointer, `cRec` the log of
`record` calls. -/
structure CacheModel (κ : Type) where
  l1d : κ
  phaseEndCycle : Nat
  curCycle : Nat
  regScoreboard : Nat → Nat
  prevBbl : Option BblInfo
  loadAddrs : Nat → Nat
  storeAddrs : Nat → Nat
  loads : Nat
  stores : Nat
  lastStoreCommitCycle : Nat
  lastStoreAddrCommitCycle : Nat
  decodeCycle : Nat
  instrs : Nat
  cRec : RecorderLog

/-- The locals that the uop loop of `CacheModel::bbl` carries from one round
to the next, with the object itself. -/
structure CacheLoop (κ : Type) where
  core : CacheModel κ
  loadIdx : Nat
  storeIdx : Nat
  prevDecCycle : Nat

namespace CacheModel

variable {κ : Type}

/-- The constructor. `phaseLength` is `zinfo->phaseLength`; the members that
the constructor leaves uninitialised (`loadAddrs`, `storeAddrs`, `loads`,
`stores`) are arguments. -/
def new (l1d : κ) (phaseLength : Nat) (loadAddrs storeAddrs : Nat → Nat)
    (loads stores : Nat) : CacheModel κ :=
  { l1d := l1d
    phaseEndCycle := phaseLength
    curCycle := 0
    regScoreboard := fun _ => 0
    prevBbl := none
    loadAddrs := loadAddrs
    storeAddrs := storeAddrs
    loads := loads
    stores := stores
    lastStoreCommitCycle := 0
    lastStoreAddrCommitCycle := 0
    decodeCycle := DECODE_STAGE
    instrs := 0
    cRec := [] }

/-- The method `contextSwitch(gid)`. -/
def contextSwitch (fc : FilterCache κ) (s : CacheModel κ) (gid : Int) : CacheModel κ :=
  if gid = -1 then { s with prevBbl := none, l1d := fc.contextSwitch s.l1d } else s

/-- The method `load(addr)`: `loadAddrs[loads++] = addr`. -/
def load (s : CacheModel κ) (addr : Nat) : CacheModel κ :=
  { s with loadAddrs := Function.update s.loadAddrs s.loads addr, loads := w32 (s.loads + 1) }

/-- The method `store(addr)`: `storeAddrs[stores++] = addr`. -/
def store (s : CacheModel κ) (addr : Nat) : CacheModel κ :=
  { s with
      storeAddrs := Function.update s.storeAddrs s.stores addr, stores := w32 (s.stores + 1) }

/-- The method `predFalseLoad()`. -/
def predFalseLoad (s : CacheModel κ) : CacheModel κ :=
  { s with
      loadAddrs := Function.update s.loadAddrs s.loads predFalseAddr
      loads := w32 (s.loads + 1) }

/-- The method `predFalseStore()`. -/
def predFalseStore (s : CacheModel κ) : CacheModel κ :=
  { s with
      storeAddrs := Function.update s.storeAddrs s.stores predFalseAddr
      stores := w32 (s.stores + 1) }

/-- The callback `PredLoadFunc(tid, addr, pred)` on the core of `tid`. -/
def PredLoadFunc (s : CacheModel κ) (addr : Nat) (pred : Bool) : CacheModel κ :=
  if pred then s.load addr else s.predFalseLoad

/-- The callback `PredStoreFunc(tid, addr, pred)` on the core of `tid`. -/
def PredStoreFunc (s : CacheModel κ) (addr : Nat) (pred : Bool) : CacheModel κ :=
  if pred then s.store addr else s.predFalseStore

/-- The callback `BranchFunc`, whose body is empty. -/
def BranchFunc (s : CacheModel κ) (_pc : Nat) (_taken : Bool) (_takenNpc _notTakenNpc : Nat) :
    CacheModel κ := s

/-- The method `advance(targetCycle)`; `none` when
`assert(targetCycle > curCycle)` fails. -/
def advance (s : CacheModel κ) (targetCycle : Nat) : Option (CacheModel κ) :=
  if targetCycle > s.curCycle then
    some
      { s with
          decodeCycle := w64 (s.decodeCycle + sub64 targetCycle s.curCycle)
          curCycle := targetCycle }
  else none

/-- The value of `curCycle` after the decode step of a uop, the one written
to `regScoreboard[0]`. -/
def uopCurCycle (s : CacheModel κ) (prevDecCycle : Nat) (uop : DynUop) : Nat :=
  MAX s.curCycle (w64 (s.decodeCycle + sub32 uop.decCycle prevDecCycle))

/-- The first part of a round of the uop loop, up to
`curCycle = MAX(curCycle, dispatchCycle)`: the object and the local
`dispatchCycle`. -/
def uopIssue (s : CacheModel κ) (prevDecCycle : Nat) (uop : DynUop) : CacheModel κ × Nat :=
  let decDiff := sub32 uop.decCycle prevDecCycle
  let decodeCycle := w64 (s.decodeCycle + decDiff)
  let curCycle := MAX s.curCycle decodeCycle
  let regScoreboard := Function.update s.regScoreboard 0 curCycle
  let c0 := regScoreboard uop.rs.1
  let c1 := regScoreboard uop.rs.2
  let c2 := curCycle
  let c3 := curCycle
  let cOps := MAX c0 c1
  let dispatchCycle := MAX cOps (w64 (MAX c2 c3 + (DISPATCH_STAGE - ISSUE_STAGE)))
  ({ s with
      decodeCycle := decodeCycle
      curCycle := MAX curCycle dispatchCycle
      regScoreboard := regScoreboard },
    dispatchCycle)

/-- The `switch (uop->type)` of the uop loop: the object, `loadIdx`,
`storeIdx` and the local `commitCycle`. -/
def uopLsu (fc : FilterCache κ) (s : CacheModel κ) (loadIdx storeIdx dispatchCycle : Nat)
    (uop : DynUop) : CacheModel κ × Nat × Nat × Nat :=
  match uop.type with
  | .UOP_GENERAL => (s, loadIdx, storeIdx, w64 (dispatchCycle + uop.lat))
  | .UOP_LOAD =>
    let dispatchCycle := MAX (w64 (s.lastStoreAddrCommitCycle + 1)) dispatchCycle
    let addr := s.loadAddrs loadIdx
    if addr ≠ predFalseAddr then
      let r := fc.load s.l1d addr dispatchCycle
      let reqSatisfiedCycle := w64 (r.1 + L1D_LAT)
      ({ s with l1d := r.2, cRec := s.cRec ++ [(s.curCycle, dispatchCycle, reqSatisfiedCycle)] },
        w32 (loadIdx + 1), storeIdx, reqSatisfiedCycle)
    else (s, w32 (loadIdx + 1), storeIdx, dispatchCycle)
  | .UOP_STORE =>
    let dispatchCycle := MAX (w64 (s.lastStoreAddrCommitCycle + 1)) dispatchCycle
    let addr := s.storeAddrs storeIdx
    let r := fc.store s.l1d addr dispatchCycle
    let reqSatisfiedCycle := w64 (r.1 + L1D_LAT)
    ({ s with
        l1d := r.2
        cRec := s.cRec ++ [(s.curCycle, dispatchCycle, reqSatisfiedCycle)]
        lastStoreCommitCycle := MAX s.lastStoreCommitCycle reqSatisfiedCycle },
      loadIdx, w32 (storeIdx + 1), reqSatisfiedCycle)
  | .UOP_STORE_ADDR =>
    let commitCycle := w64 (dispatchCycle + uop.lat)
    ({ s with lastStoreAddrCommitCycle := MAX s.lastStoreAddrCommitCycle commitCycle },
      loadIdx, storeIdx, commitCycle)
  | .UOP_FENCE =>
    let commitCycle := w64 (dispatchCycle + uop.lat)
    ({ s with
        lastStoreAddrCommitCycle :=
          MAX commitCycle (MAX s.lastStoreAddrCommitCycle s.lastStoreCommitCycle) },
      loadIdx, storeIdx, commitCycle)

/-- The local `commitCycle` of a round of the uop loop. -/
def uopCommitCycle (fc : FilterCache κ) (st : CacheLoop κ) (uop : DynUop) : Nat :=
  let r := st.core.uopIssue st.prevDecCycle uop
  (uopLsu fc r.1 st.loadIdx st.storeIdx r.2 uop).2.2.2

/-- One round of the loop `for (i = 0; i < bbl->uops; i++)` of
`CacheModel::bbl`. -/
def simUop (fc : FilterCache κ) (st : CacheLoop κ) (uop : DynUop) : CacheLoop κ :=
  let r := st.core.uopIssue st.prevDecCycle uop
  let l := uopLsu fc r.1 st.loadIdx st.storeIdx r.2 uop
  let commitCycle := l.2.2.2
  { core :=
      { l.1 with
          regScoreboard :=
            Function.update (Function.update l.1.regScoreboard uop.rd.1 commitCycle)
              uop.rd.2 commitCycle }
    loadIdx := l.2.1
    storeIdx := l.2.2.1
    prevDecCycle := w32 uop.decCycle }

/-- The loop `for (fetchAddr = bblAddr; fetchAddr < endAddr;
fetchAddr += lineSize)` of `CacheModel::bbl` on the object and the local
`fetchCycle`. The first argument bounds the number of rounds; with
`lineSize > 0` and no wrap-around of `fetchAddr` the loop leaves through its
condition within `endAddr - bblAddr` rounds. Where the source loop does not
end (`fetchAddr` wrapping around 64 bits below `endAddr`), the value after the
last round of the bound is not a state of the program. -/
def fetchLoop (lineSize endAddr : Nat) : Nat → Nat → CacheModel κ × Nat → CacheModel κ × Nat
  | 0, _, r => r
  | fuel + 1, fetchAddr, (s, fetchCycle) =>
    if fetchAddr < endAddr then
      let fetchLat := L1I_LAT
      fetchLoop lineSize endAddr fuel (w64 (fetchAddr + lineSize))
        ({ s with cRec := s.cRec ++ [(s.curCycle, s.curCycle, w64 (s.curCycle + fetchLat))] },
          w64 (fetchCycle + fetchLat))
    else (s, fetchCycle)

/-- The frontend part of `CacheModel::bbl`, from
`fetchCycle = decodeCycle - (DECODE_STAGE - FETCH_STAGE)` to the update of
`decodeCycle`. `lineBits` is the global of `zsim.h`. -/
def frontend (lineBits : Nat) (s : CacheModel κ) (bblAddr : Nat) (bblInfo : BblInfo) :
    CacheModel κ :=
  let fetchCycle := sub64 s.decodeCycle (DECODE_STAGE - FETCH_STAGE)
  let lineSize := w32 (1 <<< lineBits)
  let endAddr := w64 (bblAddr + bblInfo.bytes)
  let r := fetchLoop lineSize endAddr (endAddr - bblAddr) bblAddr (s, fetchCycle)
  let decodeCycle := w64 (r.1.decodeCycle + 1)
  let minFetchDecCycle := w64 (r.2 + (DECODE_STAGE - FETCH_STAGE))
  if minFetchDecCycle > decodeCycle then { r.1 with decodeCycle := minFetchDecCycle }
  else { r.1 with decodeCycle := decodeCycle }

/-- The uop loop of `CacheModel::bbl` on the uops of the previous block, in
the order of the array, after `prevBbl = bblInfo`. -/
def simUops (fc : FilterCache κ) (s : CacheModel κ) (bblInfo : BblInfo)
    (uops : List DynUop) : CacheLoop κ :=
  uops.foldl (simUop fc)
    { core := { s with prevBbl := some bblInfo }, loadIdx := 0, storeIdx := 0, prevDecCycle := 0 }

/-- The part of `CacheModel::bbl` that simulates the block `prev` found in
`prevBbl`; `none` when one of the three assertions fails. `total_pcount` is
the value of the global when the assertion reads it. The periodic flush of
the statistics at the end of the method touches only process-wide counters
and the statistics back end, and is left out. -/
def simulate (fc : FilterCache κ) (lineBits total_pcount : Nat) (s : CacheModel κ)
    (prev : BblInfo) (bblAddr : Nat) (bblInfo : BblInfo) : Option (CacheModel κ) :=
  let bblInstrs := w32 prev.instrs
  let st := simUops fc s bblInfo prev.oooBbl.uop
  let s1 := { st.core with instrs := w64 (st.core.instrs + bblInstrs) }
  if s1.instrs = total_pcount ∧ st.loadIdx = s1.loads ∧ st.storeIdx = s1.stores then
    some (frontend lineBits { s1 with loads := 0, stores := 0 } bblAddr bblInfo)
  else none

/-- The method `bbl(bblAddr, bblInfo, tid)`. -/
def bbl (fc : FilterCache κ) (lineBits total_pcount : Nat) (s : CacheModel κ)
    (bblAddr : Nat) (bblInfo : BblInfo) : Option (CacheModel κ) :=
  match s.prevBbl with
  | none => some { s with prevBbl := some bblInfo, loads := 0, stores := 0 }
  | some prev => simulate fc lineBits total_pcount s prev bblAddr bblInfo

end CacheModel

/-- The callbacks that reach a core: the six instrumentation callbacks of
`InstrFuncPtrs` and the methods `contextSwitch` and `advance`. A `bbl`
event carries the value that the global `total_pcount` has when the call
reads it. -/
inductive CoreEvent where
  | load (addr : Nat)
  | store (addr : Nat)
  | predLoad (addr : Nat) (pred : Bool)
  | predStore (addr : Nat) (pred : Bool)
  | branch (pc : Nat) (taken : Bool) (takenNpc notTakenNpc : Nat)
  | bbl (bblAddr : Nat) (bblInfo : BblInfo) (total_pcount : Nat)
  | contextSwitch (gid : Int)
  | advance (targetCycle : Nat)

namespace CoreEvent

/-- The event is a call of `contextSwitch`. -/
def isContextSwitch : CoreEvent → Bool
  | contextSwitch _ => true
  | _ => false

/-- The blocks of the `bbl` events of a trace, in order. -/
def bbls : List CoreEvent → List BblInfo
  | [] => []
  | bbl _ b _ :: es => b :: bbls es
  | _ :: es => bbls es

end CoreEvent

namespace CacheModel

variable {κ : Type}

/-- The effect of one callback on a `CacheModel`; `none` when an assertion
fails. -/
def step (fc : FilterCache κ) (lineBits : Nat) (s : CacheModel κ) :
    CoreEvent → Option (CacheModel κ)
  | .load addr => some (s.load addr)
  | .store addr => some (s.store addr)
  | .predLoad addr pred => some (s.PredLoadFunc addr pred)
  | .predStore addr pred => some (s.PredStoreFunc addr pred)
  | .branch pc taken takenNpc notTakenNpc => some (s.BranchFunc pc taken takenNpc notTakenNpc)
  | .bbl bblAddr bblInfo total_pcount => bbl fc lineBits total_pcount s bblAddr bblInfo
  | .contextSwitch gid => some (contextSwitch fc s gid)
  | .advance targetCycle => s.advance targetCycle

/-- The effect of a sequence of callbacks, first callback first. -/
def run (fc : FilterCache κ) (lineBits : Nat) (s : CacheModel κ) :
    List CoreEvent → Option (CacheModel κ)
  | [] => some s
  | e :: es => (step fc lineBits s e).bind fun s1 => run fc lineBits s1 es

end CacheModel

/-! ## `MeMo/FetchModel.{h,cpp}` -/

/-- The data members of `class FetchModel` that its methods read or write.
`l1i` is the state of the filter cache behind the pointer, `branchPred` the
predictor object, `profFetchStalls` the value of the counter, `cRec` the log
of `record` calls. -/
structure FetchModel (κ : Type) where
  l1i : κ
  fetch_bytes_per_cycle : Nat
  phaseEndCycle : Nat
  curCycle : Nat
  regScoreboard : Nat → Nat
  prevBbl : Option BblInfo
  profFetchStalls : Nat
  branchPred : BranchPredictorTage
  branchPc : Nat
  branchTaken : Bool
  branchTakenNpc : Nat
  branchNotTakenNpc : Nat
  decodeCycle : Nat
  instrs : Nat
  mispredBranches : Nat
  cRec : RecorderLog

/-- The locals that the uop loop of `FetchModel::bbl` carries from one round
to the next, with the object itself. -/
structure FetchLoop (κ : Type) where
  core : FetchModel κ
  prevDecCycle : Nat
  lastCommitCycle : Nat

namespace FetchModel

variable {κ : Type}

/-- The constructor; `none` when the constructor of the predictor fails.
`phaseLength` is `zinfo->phaseLength`, `tage_num_tables` and
`tage_index_size` come from `ooo_params`; the members that the constructor
leaves uninitialised (`branchTaken`, `branchTakenNpc`, `branchNotTakenNpc`)
are arguments, and the counter `profFetchStalls`, created by `initStats`,
starts at 0. -/
def new (l1i : κ) (fetch_bytes_per_cycle tage_num_tables tage_index_size phaseLength : Nat)
    (branchTaken : Bool) (branchTakenNpc branchNotTakenNpc : Nat) : Option (FetchModel κ) :=
  (BranchPredictorTage.new tage_num_tables tage_index_size).map fun branchPred =>
    { l1i := l1i
      fetch_bytes_per_cycle := fetch_bytes_per_cycle
      phaseEndCycle := phaseLength
      curCycle := 0
      regScoreboard := fun _ => 0
      prevBbl := none
      profFetchStalls := 0
      branchPred := branchPred
      branchPc := 0
      branchTaken := branchTaken
      branchTakenNpc := branchTakenNpc
      branchNotTakenNpc := branchNotTakenNpc
      decodeCycle := DECODE_STAGE
      instrs := 0
      mispredBranches := 0
      cRec := [] }

/-- The method `contextSwitch(gid)`. -/
def contextSwitch (fc : FilterCache κ) (s : FetchModel κ) (gid : Int) : FetchModel κ :=
  if gid = -1 then { s with prevBbl := none, l1i := fc.contextSwitch s.l1i } else s

/-- The method `branch(pc, taken, takenNpc, notTakenNpc)`. -/
def branch (s : FetchModel κ) (pc : Nat) (taken : Bool) (takenNpc notTakenNpc : Nat) :
    FetchModel κ :=
  { s with
      branchPc := pc
      branchTaken := taken
      branchTakenNpc := takenNpc
      branchNotTakenNpc := notTakenNpc }

/-- The method `advance(targetCycle)`; `none` when
`assert(targetCycle > curCycle)` fails. -/
def advance (s : FetchModel κ) (targetCycle : Nat) : Option (FetchModel κ) :=
  if targetCycle > s.curCycle then
    some
      { s with
          decodeCycle := w64 (s.decodeCycle + sub64 targetCycle s.curCycle)
          curCycle := targetCycle }
  else none

/-- The value of `curCycle` after the decode step of a uop, the one written
to `regScoreboard[0]`. -/
def uopCurCycle (s : FetchModel κ) (prevDecCycle : Nat) (uop : DynUop) : Nat :=
  MAX s.curCycle (w64 (s.decodeCycle + sub32 uop.decCycle prevDecCycle))

/-- The local `dispatchCycle` of a round of the uop loop. -/
def uopDispatchCycle (s : FetchModel κ) (prevDecCycle : Nat) (uop : DynUop) : Nat :=
  let curCycle := s.uopCurCycle prevDecCycle uop
  let regScoreboard := Function.update s.regScoreboard 0 curCycle
  let c0 := regScoreboard uop.rs.1
  let c1 := regScoreboard uop.rs.2
  let c2 := curCycle
  let c3 := curCycle
  let cOps := MAX c0 c1
  MAX cOps (w64 (MAX c2 c3 + (DISPATCH_STAGE - ISSUE_STAGE)))

/-- The local `commitCycle` of a round of the uop loop,
`dispatchCycle + uop->lat`. -/
def uopCommitCycle (s : FetchModel κ) (prevDecCycle : Nat) (uop : DynUop) : Nat :=
  w64 (s.uopDispatchCycle prevDecCycle uop + uop.lat)

/-- One round of the loop `for (i = 0; i < bbl->uops; i++)` of
`FetchModel::bbl`. -/
def simUop (st : FetchLoop κ) (uop : DynUop) : FetchLoop κ :=
  let s := st.core
  let decDiff := sub32 uop.decCycle st.prevDecCycle
  let decodeCycle := w64 (s.decodeCycle + decDiff)
  let curCycle := MAX s.curCycle decodeCycle
  let regScoreboard := Function.update s.regScoreboard 0 curCycle
  let commitCycle := s.uopCommitCycle st.prevDecCycle uop
  { core :=
      { s with
          decodeCycle := decodeCycle
          curCycle := curCycle
          regScoreboard :=
            Function.update (Function.update regScoreboard uop.rd.1 commitCycle)
              uop.rd.2 commitCycle }
    prevDecCycle := w32 uop.decCycle
    lastCommitCycle := commitCycle }

/-- The loop `for (i = 0; i < 5*64/lineSize; i++)` of the wrong-path
fetches, on the object and the local `reqCycle`; the first argument counts the
values of `i` still to visit. A division by `lineSize = 0` or by
`fetch_bytes_per_cycle = 0` stops the program; that both are positive is kept
as a precondition. -/
def wrongPathLoop (fc : FilterCache κ) (lineSize wrongPathAddr lastCommitCycle : Nat) :
    Nat → Nat → FetchModel κ × Nat → FetchModel κ × Nat
  | 0, _, r => r
  | n + 1, i, (s, reqCycle) =>
    let r := fc.load s.l1i (w64 (wrongPathAddr + w32 (lineSize * i))) s.curCycle
    let fetchLat := sub64 r.1 s.curCycle
    let s1 :=
      { s with
          l1i := r.2
          cRec := s.cRec ++ [(s.curCycle, s.curCycle, w64 (s.curCycle + fetchLat))] }
    let respCycle := w64 (reqCycle + fetchLat)
    if respCycle > lastCommitCycle then (s1, reqCycle)
    else
      wrongPathLoop fc lineSize wrongPathAddr lastCommitCycle n (w32 (i + 1))
        (s1, w64 (respCycle + lineSize / s.fetch_bytes_per_cycle))

/-- The loop `for (fetchAddr = bblAddr; fetchAddr < endAddr;
fetchAddr += min(lineSize, fetch_bytes_per_cycle))` on the object and the
local `fetchCycle`. The first argument bounds the number of rounds; with a
positive stride and no wrap-around of `fetchAddr` the loop leaves through its
condition within `endAddr - bblAddr` rounds. Where the source loop does not
end (a stride of 0, or `fetchAddr` wrapping around 64 bits below `endAddr`),
the value after the last round of the bound is not a state of the program. -/
def fetchLoop (fc : FilterCache κ) (stride endAddr : Nat) :
    Nat → Nat → FetchModel κ × Nat → FetchModel κ × Nat
  | 0, _, r => r
  | fuel + 1, fetchAddr, (s, fetchCycle) =>
    if fetchAddr < endAddr then
      let r := fc.load s.l1i fetchAddr s.curCycle
      let fetchLat := sub64 r.1 s.curCycle
      fetchLoop fc stride endAddr fuel (w64 (fetchAddr + stride))
        ({ s with
            l1i := r.2
            cRec := s.cRec ++ [(s.curCycle, s.curCycle, w64 (s.curCycle + fetchLat))] },
          w64 (fetchCycle + fetchLat))
    else (s, fetchCycle)

/-- The branch-prediction part of the frontend of `FetchModel::bbl`, from
`branchTarget = ...` to `branchPc = 0`, on the object and the local
`fetchCycle`. `predict` is called only when `branchPc` is not 0. -/
def frontendBranch (fc : FilterCache κ) (lineSize lastCommitCycle : Nat)
    (s : FetchModel κ) (fetchCycle : Nat) : FetchModel κ × Nat :=
  let branchTarget := if s.branchTaken then s.branchTakenNpc else s.branchNotTakenNpc
  if s.branchPc ≠ 0 then
    let p := s.branchPred.predict s.branchPc s.branchTaken branchTarget
    let s1 := { s with branchPred := p.2 }
    if p.1 = false then
      let s2 := { s1 with mispredBranches := w64 (s1.mispredBranches + 1) }
      let wrongPathAddr := if s2.branchTaken then s2.branchNotTakenNpc else s2.branchTakenNpc
      let r := wrongPathLoop fc lineSize wrongPathAddr lastCommitCycle (5 * 64 / lineSize) 0
        (s2, fetchCycle)
      ({ r.1 with branchPc := 0 }, lastCommitCycle)
    else ({ s1 with branchPc := 0 }, fetchCycle)
  else ({ s with branchPc := 0 }, fetchCycle)

/-- The frontend part of `FetchModel::bbl`, from
`fetchCycle = decodeCycle - (DECODE_STAGE - FETCH_STAGE)` to the update of
`decodeCycle`. `lineBits` is the global of `zsim.h`. -/
def frontend (fc : FilterCache κ) (lineBits lastCommitCycle : Nat) (s : FetchModel κ)
    (bblAddr : Nat) (bblInfo : BblInfo) : FetchModel κ :=
  let fetchCycle := sub64 s.decodeCycle (DECODE_STAGE - FETCH_STAGE)
  let lineSize := w32 (1 <<< lineBits)
  let b := frontendBranch fc lineSize lastCommitCycle s fetchCycle
  let endAddr := w64 (bblAddr + bblInfo.bytes)
  let r := fetchLoop fc (min lineSize b.1.fetch_bytes_per_cycle) endAddr (endAddr - bblAddr)
    bblAddr b
  let decodeCycle := w64 (r.1.decodeCycle + 1)
  let minFetchDecCycle := w64 (r.2 + (DECODE_STAGE - FETCH_STAGE))
  if minFetchDecCycle > decodeCycle then
    { r.1 with
        profFetchStalls := w64 (r.1.profFetchStalls + sub64 minFetchDecCycle decodeCycle)
        decodeCycle := minFetchDecCycle }
  else { r.1 with decodeCycle := decodeCycle }

/-- The uop loop of `FetchModel::bbl` on the uops of the previous block, in
the order of the array, after `prevBbl = bblInfo`. -/
def simUops (s : FetchModel κ) (bblInfo : BblInfo) (uops : List DynUop) : FetchLoop κ :=
  uops.foldl simUop
    { core := { s with prevBbl := some bblInfo }, prevDecCycle := 0, lastCommitCycle := 0 }

/-- The part of `FetchModel::bbl` that simulates the block `prev` found in
`prevBbl`; `none` when `assert(instrs == total_pcount)` fails.
`total_pcount` is the value of the global when the assertion reads it. The
periodic flush of the statistics at the end of the method touches only
process-wide counters and the statistics back end, and is left out. -/
def simulate (fc : FilterCache κ) (lineBits total_pcount : Nat) (s : FetchModel κ)
    (prev : BblInfo) (bblAddr : Nat) (bblInfo : BblInfo) : Option (FetchModel κ) :=
  let bblInstrs := w32 prev.instrs
  let st := simUops s bblInfo prev.oooBbl.uop
  let s1 := { st.core with instrs := w64 (st.core.instrs + bblInstrs) }
  if s1.instrs = total_pcount then
    some (frontend fc lineBits st.lastCommitCycle s1 bblAddr bblInfo)
  else none

/-- The method `bbl(bblAddr, bblInfo, tid)`. -/
def bbl (fc : FilterCache κ) (lineBits total_pcount : Nat) (s : FetchModel κ)
    (bblAddr : Nat) (bblInfo : BblInfo) : Option (FetchModel κ) :=
  match s.prevBbl with
  | none => some { s with prevBbl := some bblInfo }
  | some prev => simulate fc lineBits total_pcount s prev bblAddr bblInfo

/-- The effect of one callback on a `FetchModel`; `none` when an assertion
fails. `LoadFunc`, `StoreFunc`, `PredLoadFunc` and `PredStoreFunc` have empty
bodies. -/
def step (fc : FilterCache κ) (lineBits : Nat) (s : FetchModel κ) :
    CoreEvent → Option (FetchModel κ)
  | .load _ => some s
  | .store _ => some s
  | .predLoad _ _ => some s
  | .predStore _ _ => some s
  | .branch pc taken takenNpc notTakenNpc => some (s.branch pc taken takenNpc notTakenNpc)
  | .bbl bblAddr bblInfo total_pcount => bbl fc lineBits total_pcount s bblAddr bblInfo
  | .contextSwitch gid => some (contextSwitch fc s gid)
  | .advance targetCycle => s.advance targetCycle

/-- The effect of a sequence of callbacks, first callback first. -/
def run (fc : FilterCache κ) (lineBits : Nat) (s : FetchModel κ) :
    List CoreEvent → Option (FetchModel κ)
  | [] => some s
  | e :: es => (step fc lineBits s e).bind fun s1 => run fc lineBits s1 es

end FetchModel

/-! ## `MeMo/IssueModel.{h,cpp}` -/

def FWD_ENTRIES : Nat := 32

/-- The struct `FwdEntry`. -/
structure FwdEntry where
  addr : Nat
  storeCycle : Nat

/-- The method `FwdEntry::set(a, c)`. -/
def FwdEntry.set (_e : FwdEntry) (a c : Nat) : FwdEntry := { addr := a, storeCycle := c }

/-- Modelled from the spec: the interfaces of `WindowStructure`,
`ReorderBuffer` and `CycleQueue` (`legos.h` is not part of the sources), whose
states have the types `W`, `R` and `Q`. `advancePos(curCycle)`,
`schedule(curCycle, dispatchCycle, portMask, extraSlots)` and
`longAdvance(curCycle, targetCycle)` take `curCycle` (and `dispatchCycle`) by
reference and return the new values with the new window;
`minAllocCycle()` reads, `markRetire(cycle)` and `markLeave(cycle)`
record. -/
structure IssueEnv (W R Q : Type) where
  advancePos : W → Nat → W × Nat
  schedule : W → Nat → Nat → Nat → Nat → W × Nat × Nat
  longAdvance : W → Nat → Nat → W × Nat
  robMinAllocCycle : R → Nat
  robMarkRetire : R → Nat → R
  queueMinAllocCycle : Q → Nat
  queueMarkLeave : Q → Nat → Q

/-- The data members of `class IssueModel`. `insWindow`, `rob`, `loadQueue`,
`storeQueue` and `uopQueue` are the states of the objects behind the
pointers, `profIssueStalls` the value of the counter. -/
structure IssueModel (W R Q : Type) where
  ooo_width : Nat
  ooo_prf_ports : Nat
  phaseEndCycle : Nat
  curCycle : Nat
  regScoreboard : Nat → Nat
  prevBbl : Option BblInfo
  profIssueStalls : Nat
  loadAddrs : Nat → Nat
  storeAddrs : Nat → Nat
  loads : Nat
  stores : Nat
  lastStoreCommitCycle : Nat
  lastStoreAddrCommitCycle : Nat
  loadQueue : R
  storeQueue : R
  curCycleRFReads : Nat
  curCycleIssuedUops : Nat
  insWindow : W
  rob : R
  decodeCycle : Nat
  uopQueue : Q
  instrs : Nat
  fwdArray : Nat → FwdEntry
  cRec : RecorderLog

/-- The locals that the uop loop of `IssueModel::bbl` carries from one round
to the next, with the object itself. -/
structure IssueLoop (W R Q : Type) where
  core : IssueModel W R Q
  loadIdx : Nat
  storeIdx : Nat
  prevDecCycle : Nat

namespace IssueModel

variable {W R Q : Type}

/-- The constructor. `phaseLength` is `zinfo->phaseLength`; the objects
created for `insWindow`, `rob`, `loadQueue`, `storeQueue` and `uopQueue` and
the members that the constructor leaves uninitialised (`loadAddrs`,
`storeAddrs`, `loads`, `stores`, `lastStoreCommitCycle`,
`lastStoreAddrCommitCycle`, `fwdArray`) are arguments, and the counter
`profIssueStalls`, created by `initStats`, starts at 0. -/
def new (ooo_width ooo_prf_ports phaseLength : Nat) (insWindow : W)
    (rob loadQueue storeQueue : R) (uopQueue : Q) (loadAddrs storeAddrs : Nat → Nat)
    (loads stores lastStoreCommitCycle lastStoreAddrCommitCycle : Nat)
    (fwdArray : Nat → FwdEntry) : IssueModel W R Q :=
  { ooo_width := ooo_width
    ooo_prf_ports := ooo_prf_ports
    phaseEndCycle := phaseLength
    curCycle := 0
    regScoreboard := fun _ => 0
    prevBbl := none
    profIssueStalls := 0
    loadAddrs := loadAddrs
    storeAddrs := storeAddrs
    loads := loads
    stores := stores
    lastStoreCommitCycle := lastStoreCommitCycle
    lastStoreAddrCommitCycle := lastStoreAddrCommitCycle
    loadQueue := loadQueue
    storeQueue := storeQueue
    curCycleRFReads := 0
    curCycleIssuedUops := 0
    insWindow := insWindow
    rob := rob
    decodeCycle := DECODE_STAGE
    uopQueue := uopQueue
    instrs := 0
    fwdArray := fwdArray
    cRec := [] }

/-- The method `advance(targetCycle)`; `none` when one of its two assertions
fails. -/
def advance (env : IssueEnv W R Q) (s : IssueModel W R Q) (targetCycle : Nat) :
    Option (IssueModel W R Q) :=
  if targetCycle > s.curCycle then
    let r := env.longAdvance s.insWindow s.curCycle targetCycle
    let s1 :=
      { s with
          decodeCycle := w64 (s.decodeCycle + sub64 targetCycle s.curCycle)
          insWindow := r.1
          curCycle := w64 r.2
          curCycleRFReads := 0
          curCycleIssuedUops := 0 }
    if targetCycle = s1.curCycle then some s1 else none
  else none

/-- The method `contextSwitch(gid)`. -/
def contextSwitch (s : IssueModel W R Q) (gid : Int) : IssueModel W R Q :=
  if gid = -1 then { s with prevBbl := none } else s

/-- The loop `for (i = 0; i < cdDiff; i++) insWindow->advancePos(curCycle)`. -/
def advancePosTimes (env : IssueEnv W R Q) : Nat → IssueModel W R Q → IssueModel W R Q
  | 0, s => s
  | n + 1, s =>
    let r := env.advancePos s.insWindow s.curCycle
    advancePosTimes env n { s with insWindow := r.1, curCycle := w64 r.2 }

/-- One call `insWindow->advancePos(curCycle)`. -/
def advancePos (env : IssueEnv W R Q) (s : IssueModel W R Q) : IssueModel W R Q :=
  let r := env.advancePos s.insWindow s.curCycle
  { s with insWindow := r.1, curCycle := w64 r.2 }

/-- The decode-stall step of a round of the uop loop, up to
`uopQueue->markLeave(curCycle)`. -/
def uopDecode (env : IssueEnv W R Q) (s : IssueModel W R Q) (prevDecCycle : Nat)
    (uop : DynUop) : IssueModel W R Q :=
  let decDiff := sub32 uop.decCycle prevDecCycle
  let s1 :=
    { s with
        decodeCycle :=
          MAX (w64 (s.decodeCycle + decDiff)) (w64 (env.queueMinAllocCycle s.uopQueue)) }
  let s2 :=
    if s1.decodeCycle > s1.curCycle then
      let cdDiff := w32 (sub64 s1.decodeCycle s1.curCycle)
      advancePosTimes env cdDiff { s1 with curCycleIssuedUops := 0, curCycleRFReads := 0 }
    else s1
  { s2 with uopQueue := env.queueMarkLeave s2.uopQueue s2.curCycle }

/-- The issue-width step of a round of the uop loop, up to
`curCycleIssuedUops++`. -/
def uopIssueWidth (env : IssueEnv W R Q) (s : IssueModel W R Q) : IssueModel W R Q :=
  let s1 :=
    if s.curCycleIssuedUops ≥ s.ooo_width then
      advancePos env
        { s with
            profIssueStalls := w64 (s.profIssueStalls + 1)
            curCycleIssuedUops := 0
            curCycleRFReads := 0 }
    else s
  { s1 with curCycleIssuedUops := w32 (s1.curCycleIssuedUops + 1) }

/-- The register-file step of a round of the uop loop, from
`regScoreboard[0] = curCycle` to the end of the read-stall test: the object
and the locals `c0` and `c1`. -/
def uopRFReads (env : IssueEnv W R Q) (s : IssueModel W R Q) (uop : DynUop) :
    IssueModel W R Q × Nat × Nat :=
  let s1 := { s with regScoreboard := Function.update s.regScoreboard 0 s.curCycle }
  let c0 := s1.regScoreboard uop.rs.1
  let c1 := s1.regScoreboard uop.rs.2
  let s2 :=
    { s1 with
        curCycleRFReads :=
          w32 (s1.curCycleRFReads + ((if c0 < s1.curCycle then 1 else 0) +
            (if c1 < s1.curCycle then 1 else 0))) }
  let s3 :=
    if s2.curCycleRFReads > s2.ooo_prf_ports then
      advancePos env
        { s2 with
            curCycleRFReads := sub32 s2.curCycleRFReads s2.ooo_prf_ports
            curCycleIssuedUops := 0 }
    else s2
  (s3, c0, c1)

/-- The dispatch step of a round of the uop loop, from
`c2 = rob->minAllocCycle()` to the reset of the per-cycle counters after
`schedule`: the object and the local `dispatchCycle`. -/
def uopSchedule (env : IssueEnv W R Q) (s : IssueModel W R Q) (c0 c1 : Nat) (uop : DynUop) :
    IssueModel W R Q × Nat :=
  let c2 := w64 (env.robMinAllocCycle s.rob)
  let c3 := s.curCycle
  let cOps := MAX c0 c1
  let dispatchCycle := MAX cOps (w64 (MAX c2 c3 + (DISPATCH_STAGE - ISSUE_STAGE)))
  let r := env.schedule s.insWindow s.curCycle dispatchCycle uop.portMask uop.extraSlots
  let s1 := { s with insWindow := r.1, curCycle := w64 r.2.1 }
  let s2 :=
    if s1.curCycle > c3 then { s1 with curCycleIssuedUops := 0, curCycleRFReads := 0 } else s1
  (s2, w64 r.2.2)

/-- The `switch (uop->type)` of the uop loop: the object, `loadIdx`,
`storeIdx` and the local `commitCycle`. -/
def uopLsu (env : IssueEnv W R Q) (s : IssueModel W R Q)
    (loadIdx storeIdx dispatchCycle : Nat) (uop : DynUop) :
    IssueModel W R Q × Nat × Nat × Nat :=
  match uop.type with
  | .UOP_GENERAL => (s, loadIdx, storeIdx, w64 (dispatchCycle + uop.lat))
  | .UOP_LOAD =>
    let lqCycle := w64 (env.robMinAllocCycle s.loadQueue)
    let dispatchCycle := if lqCycle > dispatchCycle then lqCycle else dispatchCycle
    let dispatchCycle := MAX (w64 (s.lastStoreAddrCommitCycle + 1)) dispatchCycle
    let addr := s.loadAddrs loadIdx
    let reqSatisfiedCycle := w64 (dispatchCycle + L1D_LAT)
    let fwdIdx := w32 ((addr >>> 2) &&& (FWD_ENTRIES - 1))
    let reqSatisfiedCycle :=
      if (s.fwdArray fwdIdx).addr = addr then
        MAX reqSatisfiedCycle (s.fwdArray fwdIdx).storeCycle
      else reqSatisfiedCycle
    let commitCycle := reqSatisfiedCycle
    ({ s with loadQueue := env.robMarkRetire s.loadQueue commitCycle },
      w32 (loadIdx + 1), storeIdx, commitCycle)
  | .UOP_STORE =>
    let sqCycle := w64 (env.robMinAllocCycle s.storeQueue)
    let dispatchCycle := if sqCycle > dispatchCycle then sqCycle else dispatchCycle
    let dispatchCycle := MAX (w64 (s.lastStoreAddrCommitCycle + 1)) dispatchCycle
    let addr := s.storeAddrs storeIdx
    let reqSatisfiedCycle := w64 (dispatchCycle + L1D_LAT)
    let fwdIdx := (addr >>> 2) &&& (FWD_ENTRIES - 1)
    let commitCycle := reqSatisfiedCycle
    ({ s with
        fwdArray :=
          Function.update s.fwdArray fwdIdx ((s.fwdArray fwdIdx).set addr reqSatisfiedCycle)
        lastStoreCommitCycle := MAX s.lastStoreCommitCycle reqSatisfiedCycle
        storeQueue := env.robMarkRetire s.storeQueue commitCycle },
      loadIdx, w32 (storeIdx + 1), commitCycle)
  | .UOP_STORE_ADDR =>
    let commitCycle := w64 (dispatchCycle + uop.lat)
    ({ s with lastStoreAddrCommitCycle := MAX s.lastStoreAddrCommitCycle commitCycle },
      loadIdx, storeIdx, commitCycle)
  | .UOP_FENCE =>
    let commitCycle := w64 (dispatchCycle + uop.lat)
    ({ s with
        lastStoreAddrCommitCycle :=
          MAX commitCycle
            (MAX s.lastStoreAddrCommitCycle (w64 (s.lastStoreCommitCycle + uop.lat))) },
      loadIdx, storeIdx, commitCycle)

/-- One round of the loop `for (i = 0; i < bbl->uops; i++)` of
`IssueModel::bbl`. -/
def simUop (env : IssueEnv W R Q) (st : IssueLoop W R Q) (uop : DynUop) : IssueLoop W R Q :=
  let s1 := uopDecode env st.core st.prevDecCycle uop
  let s2 := uopIssueWidth env s1
  let f := uopRFReads env s2 uop
  let d := uopSchedule env f.1 f.2.1 f.2.2 uop
  let l := uopLsu env d.1 st.loadIdx st.storeIdx d.2 uop
  let commitCycle := l.2.2.2
  let s3 := { l.1 with rob := env.robMarkRetire l.1.rob commitCycle }
  { core :=
      { s3 with
          regScoreboard :=
            Function.update (Function.update s3.regScoreboard uop.rd.1 commitCycle)
              uop.rd.2 commitCycle }
    loadIdx := l.2.1
    storeIdx := l.2.2.1
    prevDecCycle := w32 uop.decCycle }

/-- The part of `IssueModel::bbl` that simulates the block `prev` found in
`prevBbl`; `none` when `assert(instrs == total_pcount)` fails.
`total_pcount` is the value of the global when the assertion reads it. The
periodic flush of the statistics at the end of the method touches only
process-wide counters and the statistics back end, and is left out. -/
def simulate (env : IssueEnv W R Q) (total_pcount : Nat) (s : IssueModel W R Q)
    (prev : BblInfo) (bblInfo : BblInfo) : Option (IssueModel W R Q) :=
  let bblInstrs := w32 prev.instrs
  let st := prev.oooBbl.uop.foldl (simUop env)
    { core := { s with prevBbl := some bblInfo }, loadIdx := 0, storeIdx := 0, prevDecCycle := 0 }
  let s1 := { st.core with instrs := w64 (st.core.instrs + bblInstrs) }
  if s1.instrs = total_pcount then some s1 else none

/-- The method `bbl(bblAddr, bblInfo, tid)`. -/
def bbl (env : IssueEnv W R Q) (total_pcount : Nat) (s : IssueModel W R Q)
    (_bblAddr : Nat) (bblInfo : BblInfo) : Option (IssueModel W R Q) :=
  match s.prevBbl with
  | none => some { s with prevBbl := some bblInfo }
  | some prev => simulate env total_pcount s prev bblInfo

end IssueModel

/-! ## Traces and side conditions used by the theorems -/

/-- The sum of the values `decDiff = uop->decCycle - prevDecCycle` that the
uop loop adds to `decodeCycle`, for the uops of a block in order, starting
with the given `prevDecCycle`. -/
def decodeSum : List DynUop → Nat → Nat
  | [], _ => 0
  | uop :: uops, prevDecCycle =>
    sub32 uop.decCycle prevDecCycle + decodeSum uops (w32 uop.decCycle)

/-- No addition to `decodeCycle` made by the callback wraps around 64 bits:
for `bbl` the additions of the uop loop and the final `decodeCycle++`, for
`advance` the addition of `targetCycle - curCycle`. The arguments are
`decodeCycle`, `curCycle` and `prevBbl` before the callback. -/
def DecodeNoWrap (decodeCycle curCycle : Nat) (prevBbl : Option BblInfo) : CoreEvent → Prop
  | .bbl _ _ _ =>
    match prevBbl with
    | none => True
    | some prev => decodeCycle + decodeSum prev.oooBbl.uop 0 + 1 < 2 ^ 64
  | .advance targetCycle => decodeCycle + (targetCycle - curCycle) < 2 ^ 64
  | _ => True

instance DecodeNoWrap.instDecidable (decodeCycle curCycle : Nat) (prevBbl : Option BblInfo)
    (e : CoreEvent) : Decidable (DecodeNoWrap decodeCycle curCycle prevBbl e) :=
  match e, prevBbl with
  | .bbl _ _ _, none => isTrue trivial
  | .bbl _ _ _, some prev =>
    inferInstanceAs (Decidable (decodeCycle + decodeSum prev.oooBbl.uop 0 + 1 < 2 ^ 64))
  | .advance targetCycle, _ =>
    inferInstanceAs (Decidable (decodeCycle + (targetCycle - curCycle) < 2 ^ 64))
  | .load _, _ => isTrue trivial
  | .store _, _ => isTrue trivial
  | .predLoad _ _, _ => isTrue trivial
  | .predStore _ _, _ => isTrue trivial
  | .branch _ _ _ _, _ => isTrue trivial
  | .contextSwitch _, _ => isTrue trivial

/-- `DecodeNoWrap` holds at every callback of a run of a `CacheModel`. -/
def CacheModel.DecodeNoWrapRun {κ : Type} (fc : FilterCache κ) (lineBits : Nat) :
    CacheModel κ → List CoreEvent → Prop
  | _, [] => True
  | s, e :: es =>
    DecodeNoWrap s.decodeCycle s.curCycle s.prevBbl e ∧
      ∀ s1, CacheModel.step fc lineBits s e = some s1 →
        CacheModel.DecodeNoWrapRun fc lineBits s1 es

/-- `DecodeNoWrap` holds at every callback of a run of a `FetchModel`. -/
def FetchModel.DecodeNoWrapRun {κ : Type} (fc : FilterCache κ) (lineBits : Nat) :
    FetchModel κ → List CoreEvent → Prop
  | _, [] => True
  | s, e :: es =>
    DecodeNoWrap s.decodeCycle s.curCycle s.prevBbl e ∧
      ∀ s1, FetchModel.step fc lineBits s e = some s1 →
        FetchModel.DecodeNoWrapRun fc lineBits s1 es

/-- The sum of the 32-bit instruction counts of the blocks that `bbl`
simulates when the blocks `bs` arrive in order while `p` waits in
`prevBbl`: all of `p` and `bs` but the last. -/
def simulatedInstrs : Option BblInfo → List BblInfo → Nat
  | _, [] => 0
  | none, b :: bs => simulatedInstrs (some b) bs
  | some p, b :: bs => w32 p.instrs + simulatedInstrs (some b) bs

/-- The object with `prevBbl` replaced. -/
def CacheModel.withPrevBbl {κ : Type} (p : Option BblInfo) (s : CacheModel κ) : CacheModel κ :=
  { s with prevBbl := p }

/-- The object with `prevBbl` replaced. -/
def FetchModel.withPrevBbl {κ : Type} (p : Option BblInfo) (s : FetchModel κ) : FetchModel κ :=
  { s with prevBbl := p }

/-- The loop state with `prevBbl` of the object replaced. -/
def CacheLoop.withPrevBbl {κ : Type} (p : Option BblInfo) (st : CacheLoop κ) : CacheLoop κ :=
  { st with core := st.core.withPrevBbl p }

/-- The loop state with `prevBbl` of the object replaced. -/
def FetchLoop.withPrevBbl {κ : Type} (p : Option BblInfo) (st : FetchLoop κ) : FetchLoop κ :=
  { st with core := st.core.withPrevBbl p }

/-- The local `dispatchCycle` of a round of the uop loop of `CacheModel::bbl`
before the `switch`. -/
def CacheModel.uopDispatchCycle {κ : Type} (st : CacheLoop κ) (uop : DynUop) : Nat :=
  (st.core.uopIssue st.prevDecCycle uop).2

/-- The local `dispatchCycle` of a `UOP_LOAD` or `UOP_STORE` round of the uop
loop of `CacheModel::bbl` after
`dispatchCycle = MAX(lastStoreAddrCommitCycle+1, dispatchCycle)`: the cycle of
the request to the filter cache. -/
def CacheModel.uopMemDispatchCycle {κ : Type} (st : CacheLoop κ) (uop : DynUop) : Nat :=
  MAX (w64 ((st.core.uopIssue st.prevDecCycle uop).1.lastStoreAddrCommitCycle + 1))
    (st.core.uopIssue st.prevDecCycle uop).2

namespace IssueModel

variable {W R Q : Type}

/-- The members that the `switch` of the uop loop of `IssueModel::bbl` reads
besides its locals. -/
def lsuInputs (s : IssueModel W R Q) :
    (Nat → Nat) × (Nat → Nat) × Nat × Nat × (Nat → FwdEntry) × R × R :=
  (s.loadAddrs, s.storeAddrs, s.lastStoreCommitCycle, s.lastStoreAddrCommitCycle, s.fwdArray,
    s.loadQueue, s.storeQueue)

/-- The part of a round of the uop loop of `IssueModel::bbl` before the
`switch`: the object and the local `dispatchCycle` when the `switch` is
entered. -/
def uopPreLsu (env : IssueEnv W R Q) (st : IssueLoop W R Q) (uop : DynUop) :
    IssueModel W R Q × Nat :=
  let s1 := uopDecode env st.core st.prevDecCycle uop
  let s2 := uopIssueWidth env s1
  let f := uopRFReads env s2 uop
  uopSchedule env f.1 f.2.1 f.2.2 uop

/-- The local `dispatchCycle` of a `UOP_LOAD` round of the uop loop of
`IssueModel::bbl` after the wait for the load queue and
`dispatchCycle = MAX(lastStoreAddrCommitCycle+1, dispatchCycle)`. -/
def uopLoadDispatchCycle (env : IssueEnv W R Q) (st : IssueLoop W R Q) (uop : DynUop) : Nat :=
  let d := uopPreLsu env st uop
  let lqCycle := w64 (env.robMinAllocCycle d.1.loadQueue)
  let dispatchCycle := if lqCycle > d.2 then lqCycle else d.2
  MAX (w64 (d.1.lastStoreAddrCommitCycle + 1)) dispatchCycle

/-- The local `dispatchCycle` of a `UOP_STORE` round of the uop loop of
`IssueModel::bbl` after the wait for the store queue and
`dispatchCycle = MAX(lastStoreAddrCommitCycle+1, dispatchCycle)`. -/
def uopStoreDispatchCycle (env : IssueEnv W R Q) (st : IssueLoop W R Q) (uop : DynUop) : Nat :=
  let d := uopPreLsu env st uop
  let sqCycle := w64 (env.robMinAllocCycle d.1.storeQueue)
  let dispatchCycle := if sqCycle > d.2 then sqCycle else d.2
  MAX (w64 (d.1.lastStoreAddrCommitCycle + 1)) dispatchCycle

/-- The local `commitCycle` of a round of the uop loop of
`IssueModel::bbl`. -/
def uopCommitCycle (env : IssueEnv W R Q) (st : IssueLoop W R Q) (uop : DynUop) : Nat :=
  let d := uopPreLsu env st uop
  (uopLsu env d.1 st.loadIdx st.storeIdx d.2 uop).2.2.2

/-- No `UOP_STORE` among the uops, which take their addresses from
`storeAddrs` in order from `storeIdx` on, has a buffered address of the
forwarding slot `slot`. -/
def NoStoreToSlot (storeAddrs : Nat → Nat) (slot : Nat) : List DynUop → Nat → Prop
  | [], _ => True
  | uop :: uops, storeIdx =>
    if uop.type = .UOP_STORE then
      (storeAddrs storeIdx >>> 2) &&& (FWD_ENTRIES - 1) ≠ slot ∧
        NoStoreToSlot storeAddrs slot uops (w32 (storeIdx + 1))
    else NoStoreToSlot storeAddrs slot uops storeIdx

end IssueModel

namespace FetchModel

variable {κ : Type}

/-- The members that the branch-prediction part of `FetchModel::bbl` reads or
writes, with `fetch_bytes_per_cycle`. -/
def branchView (s : FetchModel κ) : Nat × Bool × Nat × Nat × BranchPredictorTage × Nat × Nat :=
  (s.branchPc, s.branchTaken, s.branchTakenNpc, s.branchNotTakenNpc, s.branchPred,
    s.mispredBranches, s.fetch_bytes_per_cycle)

/-- The sum, without wrap-around, of the values `fetchLat` that the loop
`for (fetchAddr = bblAddr; fetchAddr < endAddr; ...)` of `FetchModel::bbl`
adds to `fetchCycle`; the arguments are those of `fetchLoop`. -/
def fetchLatSum (fc : FilterCache κ) (stride endAddr : Nat) : Nat → Nat → FetchModel κ → Nat
  | 0, _, _ => 0
  | fuel + 1, fetchAddr, s =>
    if fetchAddr < endAddr then
      let r := fc.load s.l1i fetchAddr s.curCycle
      let fetchLat := sub64 r.1 s.curCycle
      fetchLat +
        fetchLatSum fc stride endAddr fuel (w64 (fetchAddr + stride))
          { s with
              l1i := r.2
              cRec := s.cRec ++ [(s.curCycle, s.curCycle, w64 (s.curCycle + fetchLat))] }
    else 0

/-- The value of the local `lastCommitCycle` of a call of `FetchModel::bbl`
after its uop loop over the uops of `prev`: the `commitCycle` of the last
uop, or 0 when `prev` has no uop. -/
def bblLastCommitCycle (s : FetchModel κ) (prev bblInfo : BblInfo) : Nat :=
  (simUops s bblInfo prev.oooBbl.uop).lastCommitCycle

/-- The sum, without wrap-around, of the values `fetchLat` of the fetches of
the block `bblInfo` in the call of `FetchModel::bbl` that simulates `prev`. -/
def bblFetchLat (fc : FilterCache κ) (lineBits : Nat) (s : FetchModel κ) (prev : BblInfo)
    (bblAddr : Nat) (bblInfo : BblInfo) : Nat :=
  let st := simUops s bblInfo prev.oooBbl.uop
  let s1 := { st.core with instrs := w64 (st.core.instrs + w32 prev.instrs) }
  let fetchCycle := sub64 s1.decodeCycle (DECODE_STAGE - FETCH_STAGE)
  let lineSize := w32 (1 <<< lineBits)
  let b := frontendBranch fc lineSize st.lastCommitCycle s1 fetchCycle
  let endAddr := w64 (bblAddr + bblInfo.bytes)
  fetchLatSum fc (min lineSize b.1.fetch_bytes_per_cycle) endAddr (endAddr - bblAddr) bblAddr b.1

end FetchModel

/-! ## `BasicBlockMap.h` -/

/-- The class `BasicBlockKey`: the members `addr` and `instrs`, both
`const uint64_t`. -/
structure BasicBlockKey where
  addr : Nat
  instrs : Nat
  deriving DecidableEq

namespace BasicBlockKey

/-- The constructor `BasicBlockKey(uint64_t _addr, uint64_t _instrs)`; the
parameters have 64 bits. -/
def new (_addr _instrs : Nat) : BasicBlockKey := { addr := w64 _addr, instrs := w64 _instrs }

/-- The friend `operator<`, which compares `addr` alone. -/
def lt (p1 p2 : BasicBlockKey) : Bool := decide (p1.addr < p2.addr)

/-- The friend `operator==`. -/
def eq (p1 p2 : BasicBlockKey) : Bool := p1.addr == p2.addr && p1.instrs == p2.instrs

/-- The method `hash()`: `addr ^ (instrs << 32)` on `uint64_t`. -/
def hash (k : BasicBlockKey) : Nat := k.addr ^^^ w64 (k.instrs <<< 32)

end BasicBlockKey

/-- The call operator of `struct BasicBlockHash`, which converts `k.hash()` to
`std::size_t` (64 bits). -/
def BasicBlockHash (k : BasicBlockKey) : Nat := w64 k.hash

namespace BranchPredictorTage

/-- The test `tage[table][idx].tag == tag` that `GetTagePredictions` makes for
table `t`, with `idx` and `tag` the `uint32_t` copies of `GetTageIndex(PC, t)`
and `GetTageTag(PC, t)`. -/
def tagHit (s : BranchPredictorTage) (PC t : Nat) : Prop :=
  (s.tage t (w32 (s.GetTageIndex PC t))).tag = w32 (s.GetTageTag PC t)

instance tagHitDecidable (s : BranchPredictorTage) (PC t : Nat) : Decidable (s.tagHit PC t) :=
  inferInstanceAs (Decidable (_ = _))

/-- The table that a descending walk `for (table = t; table >= 1; table--)`
stops at when it looks for the first table passing the test `tagHit`: the
largest such table in `[1, t]`, and `0` when there is none. -/
def topHit (s : BranchPredictorTage) (PC : Nat) : Nat → Nat
  | 0 => 0
  | t + 1 => if s.tagHit PC (t + 1) then t + 1 else topHit s PC t

end BranchPredictorTage

namespace BranchPredictorTage

/-- The statement `if (altProviderPred != providerPred) { ... }` of
`UpdatePredictor`, between the allocation and `UpdateHistory`. -/
def UpdateUseful (s : BranchPredictorTage) (resolveDir : Bool) : BranchPredictorTage :=
  if s.altProviderPred ≠ s.providerPred then
    if s.altProviderPred = resolveDir then
      let s2a := s.SetU false
      if s2a.useAltOnNa < USE_ALT_COUNTER_MAX then
        { s2a with useAltOnNa := s2a.useAltOnNa + 1 }
      else s2a
    else
      let s2b := s.SetU true
      if s2b.useAltOnNa > 0 then { s2b with useAltOnNa := s2b.useAltOnNa - 1 } else s2b
  else s

end BranchPredictorTage

/-! ## The tag fold in the words of the specification

The definitions of this section follow the description of the fold, not the
code; `GetTageTag` is compared with them. -/

/-- Spec-worded: the register `r` with bit `i` set to `v`. -/
def specPutBit (r i : Nat) (v : Bool) : Nat :=
  if v then r ||| 2 ^ i else r ^^^ (r &&& 2 ^ i)

/-- Spec-worded: one round of the 14-bit fold on the register `r` with the
history `h`: read `last` = bit 13 and `mid` = bit 6, shift left by 1 dropping
bit 14, then set bit 0 to `last XOR h[sm]` and bit 7 to `mid XOR h[lg]`. -/
def specFold14Round (h r sm lg : Nat) : Nat :=
  let last := r.testBit 13
  let mid := r.testBit 6
  let r1 := (r <<< 1) % 2 ^ 14
  let r2 := specPutBit r1 0 (xor last (h.testBit sm))
  specPutBit r2 7 (xor mid (h.testBit lg))

/-- Spec-worded: the rounds `for sm = .., lg = .. while sm <= lg` of the fold,
with `lg` an integer so that it can pass below zero; the first argument bounds
the number of rounds. -/
def specFold14Loop (h : Nat) : Nat → Nat → Int → Nat → Nat
  | 0, _, _, r => r
  | fuel + 1, sm, lg, r =>
    if (sm : Int) ≤ lg then
      specFold14Loop h fuel (sm + 1) (lg - 1) (specFold14Round h r sm lg.toNat)
    else r

/-- Spec-worded: `fold14(h, L)`, the 14-bit register obtained from 0 by the
rounds `sm = 0.., lg = L - 1..` while `sm <= lg`. There are at most `L` rounds,
so the bound `L` never ends the loop. -/
def specFold14 (h L : Nat) : Nat := specFold14Loop h L 0 ((L : Int) - 1) 0

namespace IssueModel

variable {W R Q : Type}

/-- The effect of one callback on an `IssueModel`; `none` when an assertion
fails. `LoadFunc`, `StoreFunc`, `PredLoadFunc`, `PredStoreFunc` and
`BranchFunc` have empty bodies. -/
def step (env : IssueEnv W R Q) (s : IssueModel W R Q) : CoreEvent → Option (IssueModel W R Q)
  | .load _ => some s
  | .store _ => some s
  | .predLoad _ _ => some s
  | .predStore _ _ => some s
  | .branch _ _ _ _ => some s
  | .bbl bblAddr bblInfo total_pcount => bbl env total_pcount s bblAddr bblInfo
  | .contextSwitch gid => some (contextSwitch s gid)
  | .advance targetCycle => advance env s targetCycle

/-- The effect of a sequence of callbacks, first callback first. -/
def run (env : IssueEnv W R Q) (s : IssueModel W R Q) :
    List CoreEvent → Option (IssueModel W R Q)
  | [] => some s
  | e :: es => (step env s e).bind fun s1 => run env s1 es

/-- The loop state of `IssueModel::bbl` when the round of the uop after the
uops `pre` starts, in the call that stores `bblInfo` in `prevBbl`. -/
def roundStart (env : IssueEnv W R Q) (s : IssueModel W R Q) (bblInfo : BblInfo)
    (pre : List DynUop) : IssueLoop W R Q :=
  pre.foldl (simUop env)
    { core := { s with prevBbl := some bblInfo }, loadIdx := 0, storeIdx := 0, prevDecCycle := 0 }

end IssueModel

namespace CoreEvent

/-- The addresses that the load callbacks of a trace write to `loadAddrs`, in
order: the address of a `LoadFunc` or of a `PredLoadFunc` with `pred` true,
and `-1` for a `PredLoadFunc` with `pred` false. -/
def bufferedLoads : List CoreEvent → List Nat
  | [] => []
  | load addr :: es => addr :: bufferedLoads es
  | predLoad addr pred :: es => (if pred then addr else predFalseAddr) :: bufferedLoads es
  | _ :: es => bufferedLoads es

end CoreEvent

namespace CacheModel

/-- The number of rounds of the loop `for (fetchAddr = bblAddr;
fetchAddr < endAddr; fetchAddr += lineSize)` of `CacheModel::bbl`; the
arguments are those of `fetchLoop`, whose condition does not read the
object. -/
def fetchRounds (lineSize endAddr : Nat) : Nat → Nat → Nat
  | 0, _ => 0
  | fuel + 1, fetchAddr =>
    if fetchAddr < endAddr then 1 + fetchRounds lineSize endAddr fuel (w64 (fetchAddr + lineSize))
    else 0

end CacheModel

/-- Spec-worded: the number of distinct cache lines of size `lineSize` that
the byte range `[bblAddr, bblAddr + bytes)` overlaps: the number of distinct
values of `(bblAddr + k) / lineSize` for the offsets `k < bytes`. -/
def linesOverlapped (bblAddr bytes lineSize : Nat) : Nat :=
  ((Finset.range bytes).image fun k => (bblAddr + k) / lineSize).card

/-- The uop with its `type` replaced by `UOP_GENERAL`: two uops have the same
image exactly when they differ at most in their `type` fields. -/
def DynUop.eraseType (u : DynUop) : DynUop :=
  { u with type := .UOP_GENERAL }

/-- The block with the `type` of every uop replaced by `UOP_GENERAL`: two
blocks have the same image exactly when they differ at most in the `type`
fields of their uops. -/
def BblInfo.eraseTypes (b : BblInfo) : BblInfo :=
  { b with oooBbl := { uop := b.oooBbl.uop.map DynUop.eraseType } }

namespace FetchModel

variable {κ : Type}

/-- The calls `l1i->load` that the loop
`for (i = 0; i < 5*64/lineSize; i++)` of the wrong-path fetches makes, in
order: for each call the address `wrongPathAddr + lineSize*i`, the local
`fetchLat` and the local `respCycle = reqCycle + fetchLat`. The arguments are
those of `wrongPathLoop`. -/
def wrongPathTrace (fc : FilterCache κ) (lineSize wrongPathAddr lastCommitCycle : Nat) :
    Nat → Nat → FetchModel κ × Nat → List (Nat × Nat × Nat)
  | 0, _, _ => []
  | n + 1, i, (s, reqCycle) =>
    let addr := w64 (wrongPathAddr + w32 (lineSize * i))
    let r := fc.load s.l1i addr s.curCycle
    let fetchLat := sub64 r.1 s.curCycle
    let s1 :=
      { s with
          l1i := r.2
          cRec := s.cRec ++ [(s.curCycle, s.curCycle, w64 (s.curCycle + fetchLat))] }
    let respCycle := w64 (reqCycle + fetchLat)
    if respCycle > lastCommitCycle then [(addr, fetchLat, respCycle)]
    else
      (addr, fetchLat, respCycle) ::
        wrongPathTrace fc lineSize wrongPathAddr lastCommitCycle n (w32 (i + 1))
          (s1, w64 (respCycle + lineSize / s.fetch_bytes_per_cycle))

/-- The wrong-path calls `l1i->load` of the branch-prediction part of the
frontend of `FetchModel::bbl`, as address, `fetchLat` and `respCycle`: those
of `wrongPathTrace` when `predict` is called and returns false, none
otherwise. The arguments are those of `frontendBranch`. -/
def wrongPathFetches (fc : FilterCache κ) (lineSize lastCommitCycle : Nat)
    (s : FetchModel κ) (fetchCycle : Nat) : List (Nat × Nat × Nat) :=
  let branchTarget := if s.branchTaken then s.branchTakenNpc else s.branchNotTakenNpc
  if s.branchPc ≠ 0 then
    let p := s.branchPred.predict s.branchPc s.branchTaken branchTarget
    let s1 := { s with branchPred := p.2 }
    if p.1 = false then
      let s2 := { s1 with mispredBranches := w64 (s1.mispredBranches + 1) }
      let wrongPathAddr := if s2.branchTaken then s2.branchNotTakenNpc else s2.branchTakenNpc
      wrongPathTrace fc lineSize wrongPathAddr lastCommitCycle (5 * 64 / lineSize) 0
        (s2, fetchCycle)
    else []
  else []

end FetchModel

/-- Modelled from the spec: the calls `getCid(tid)` and `TakeBarrier(tid, cid)`
of the scheduler, which are not part of the sources:
`TakeBarrier(tid, cid) -> newCid` is a rendezvous that may migrate `tid` to a
different `cid`. `β` is the state of the scheduler, which `getCid` reads and
`TakeBarrier` may change; both are taken to leave the members of the core
alone. -/
structure Barrier (β : Type) where
  getCid : β → Nat → Nat
  TakeBarrier : β → Nat → Nat → Nat × β

namespace Barrier

variable {β : Type}

/-- The state of the scheduler after the calls `cid = getCid(tid)` and
`TakeBarrier(tid, cid)` of one round of the phase loop. -/
def next (bar : Barrier β) (tid : Nat) (b : β) : β :=
  (bar.TakeBarrier b tid (bar.getCid b tid)).2

/-- In the state `b` of the scheduler, the call `TakeBarrier(tid, cid)` with
`cid = getCid(tid)` returns `cid`. -/
def keeps (bar : Barrier β) (tid : Nat) (b : β) : Prop :=
  (bar.TakeBarrier b tid (bar.getCid b tid)).1 = bar.getCid b tid

instance keeps.instDecidable (bar : Barrier β) (tid : Nat) (b : β) :
    Decidable (bar.keeps tid b) :=
  inferInstanceAs (Decidable ((bar.TakeBarrier b tid (bar.getCid b tid)).1 = bar.getCid b tid))

end Barrier

/-- The loop `while (core->curCycle > core->phaseEndCycle)` of
`CacheModel::BblFunc` on the core and the state of the scheduler.
`phaseLength` is `zinfo->phaseLength`. The first argument bounds the number of
evaluations of the loop condition; `none` when the bound is reached. -/
def CacheModel.phaseLoop {κ β : Type} (bar : Barrier β) (phaseLength tid : Nat) :
    Nat → CacheModel κ × β → Option (CacheModel κ × β)
  | 0, _ => none
  | fuel + 1, (core, b) =>
    if core.curCycle > core.phaseEndCycle then
      let core1 := { core with phaseEndCycle := w64 (core.phaseEndCycle + phaseLength) }
      let cid := bar.getCid b tid
      let r := bar.TakeBarrier b tid cid
      if r.1 ≠ cid then some (core1, r.2)
      else CacheModel.phaseLoop bar phaseLength tid fuel (core1, r.2)
    else some (core, b)

/-- The loop `while (core->curCycle > core->phaseEndCycle)` of
`FetchModel::BblFunc` on the core and the state of the scheduler.
`phaseLength` is `zinfo->phaseLength`. The first argument bounds the number of
evaluations of the loop condition; `none` when the bound is reached. -/
def FetchModel.phaseLoop {κ β : Type} (bar : Barrier β) (phaseLength tid : Nat) :
    Nat → FetchModel κ × β → Option (FetchModel κ × β)
  | 0, _ => none
  | fuel + 1, (core, b) =>
    if core.curCycle > core.phaseEndCycle then
      let core1 := { core with phaseEndCycle := w64 (core.phaseEndCycle + phaseLength) }
      let cid := bar.getCid b tid
      let r := bar.TakeBarrier b tid cid
      if r.1 ≠ cid then some (core1, r.2)
      else FetchModel.phaseLoop bar phaseLength tid fuel (core1, r.2)
    else some (core, b)

/-- A filter cache without state that answers every request 100 cycles after
the request cycle. -/
def cache100 : FilterCache Unit :=
  { load := fun k _ c => (c + 100, k)
    store := fun k _ c => (c + 100, k)
    contextSwitch := fun k => k }

/-- A `UOP_GENERAL` uop without sources, of latency `lat`, that writes the
registers `rd0` and `rd1`. -/
def generalUop (lat rd0 rd1 : Nat) : DynUop :=
  { decCycle := 0, rs := (0, 0), rd := (rd0, rd1), lat := lat, portMask := 0, extraSlots := 0,
    type := .UOP_GENERAL }

/-- A block of one instruction and four bytes with the given uops. -/
def blockOf (uops : List DynUop) : BblInfo :=
  { instrs := 1, bytes := 4, oooBbl := { uop := uops } }

/-- A freshly constructed `CacheModel` on `cache100`, phase length 1000, with
the given values in the uninitialised `loads` and `stores`. -/
def cacheModel0 (loads stores : Nat) : CacheModel Unit :=
  CacheModel.new () 1000 (fun _ => 0) (fun _ => 0) loads stores

/-- Collaborators of an `IssueModel` without state: the window leaves
`curCycle` and `dispatchCycle` alone except that `advancePos` adds one cycle
and `longAdvance` jumps to the target; the queues never delay. -/
def issueEnv0 : IssueEnv Unit Unit Unit :=
  { advancePos := fun w c => (w, c + 1)
    schedule := fun w c d _ _ => (w, c, d)
    longAdvance := fun w _ t => (w, t)
    robMinAllocCycle := fun _ => 0
    robMarkRetire := fun r _ => r
    queueMinAllocCycle := fun _ => 0
    queueMarkLeave := fun q _ => q }

/-- A freshly constructed `IssueModel` on `issueEnv0` with the given values in
the uninitialised `loads` and `stores`. -/
def issueModel0 (loads stores : Nat) : IssueModel Unit Unit Unit :=
  IssueModel.new 4 2 1000 () () () () () (fun _ => 0) (fun _ => 0) loads stores 0 0
    (fun _ => { addr := 0, storeCycle := 0 })

/-- A `FetchModel` with the given clocks and block waiting in `prevBbl`, on a
fresh predictor with 4 tables of `2 ^ 10` entries. -/
def fetchModel0 (curCycle decodeCycle : Nat) (prevBbl : Option BblInfo) : FetchModel Unit :=
  { l1i := ()
    fetch_bytes_per_cycle := 16
    phaseEndCycle := 1000
    curCycle := curCycle
    regScoreboard := fun _ => 0
    prevBbl := prevBbl
    profFetchStalls := 0
    branchPred :=
      { historyBuffer := 0, providerIndex := -1, altProviderIndex := -1, useAltOnNa := 0,
        providerPredIndex := 99999, providerPred := false, altProviderPred := false,
        table_num := 4, index_size := 10, idx_mask := 1023,
        basePredictor := fun _ => 3,
        tage := fun _ _ => { counter := 0, tag := 0, useful := false } }
    branchPc := 0
    branchTaken := false
    branchTakenNpc := 0
    branchNotTakenNpc := 0
    decodeCycle := decodeCycle
    instrs := 0
    mispredBranches := 0
    cRec := [] }

/-- A uop of the given type without sources, of latency 1, decoded in cycle
`decCycle`, that writes the registers `rd0` and `rd1`. -/
def uopOf (type : UopType) (decCycle rd0 rd1 : Nat) : DynUop :=
  { decCycle := decCycle, rs := (0, 0), rd := (rd0, rd1), lat := 1, portMask := 0,
    extraSlots := 0, type := type }

/-- The loop state at the start of the uop loop of `CacheModel::bbl` on a
freshly constructed core on `cache100` whose load and store buffers hold the
given addresses, with the given value of `lastStoreAddrCommitCycle`. -/
def cacheLoop0 (loadAddrs storeAddrs : Nat → Nat) (lastStoreAddrCommitCycle : Nat) :
    CacheLoop Unit :=
  { core :=
      { CacheModel.new () 1000 loadAddrs storeAddrs 0 0 with
          lastStoreAddrCommitCycle := lastStoreAddrCommitCycle }
    loadIdx := 0, storeIdx := 0, prevDecCycle := 0 }

/-- The loop state at the start of the uop loop of `IssueModel::bbl` on a
freshly constructed core on `issueEnv0` whose load and store buffers hold the
given addresses, with the given value in the uninitialised
`lastStoreAddrCommitCycle`. -/
def issueLoop0 (loadAddrs storeAddrs : Nat → Nat) (lastStoreAddrCommitCycle : Nat) :
    IssueLoop Unit Unit Unit :=
  { core :=
      IssueModel.new 4 2 1000 () () () () () loadAddrs storeAddrs 0 0 0
        lastStoreAddrCommitCycle (fun _ => { addr := 0, storeCycle := 0 })
    loadIdx := 0, storeIdx := 0, prevDecCycle := 0 }

/-- A filter cache that answers every request 100 cycles after the request
cycle and whose state is the list of the requests made, as pairs of address
and request cycle, oldest first. -/
def cacheLog : FilterCache (List (Nat × Nat)) :=
  { load := fun k a c => (c + 100, k ++ [(a, c)])
    store := fun k a c => (c + 100, k ++ [(a, c)])
    contextSwitch := fun _ => [] }

/-- The predictor that `BranchPredictorTage(4, 10)` constructs. -/
def tage0 : BranchPredictorTage :=
  { historyBuffer := 0, providerIndex := -1, altProviderIndex := -1, useAltOnNa := 0,
    providerPredIndex := 99999, providerPred := false, altProviderPred := false,
    table_num := 4, index_size := 10, idx_mask := 1023,
    basePredictor := fun _ => 3,
    tage := fun _ _ => { counter := 0, tag := 0, useful := false } }

/-- The state in which `GetPrediction(2)` leaves the predictor `tage0` after
the single call `predict(2, true, 0)`: the provider is table 4 (cell 1021,
counter 0, useful bit 0) and the alt provider the base predictor (counter 4). -/
def tageLookup1 : BranchPredictorTage := ((tage0.predictAll [(2, true, 0)]).GetPrediction 2).2

/-- The state in which `GetPrediction(2)` leaves the predictor `tage0` after
the calls `predict(2, true, 0)` and `predict(2, false, 0)`: provider and alt
provider are the base predictor, which predicts taken. -/
def tageLookup2 : BranchPredictorTage :=
  ((tage0.predictAll [(2, true, 0), (2, false, 0)]).GetPrediction 2).2

/-- The state on which `AllocateNewEntries(2)` runs in the third call
`predict(2, false, 0)` on `tage0`: the lookup state `tageLookup2` (prediction
taken, provider 0) after `UpdateProviderCounter(false)`. -/
def tageMispredict : BranchPredictorTage := tageLookup2.UpdateProviderCounter false

/-- A state with provider 0 in which every cell of table 1 has its useful bit
set and no other cell has: the lookup state of `pc = 1024` on `tage0` with the
useful bits of table 1 written. -/
def tageUseful1 : BranchPredictorTage :=
  { (tage0.GetPrediction 1024).2 with
    tage := fun t _ => { counter := 0, tag := 0, useful := decide (t = 1) } }

/-- A `FetchModel` on `cacheLog` with the clocks of the constructor
(`curCycle = 0`, `decodeCycle = 4`), the predictor `tage0`, the given block
waiting in `prevBbl` and the branch `branch(1024, true, 1280, 1028)` pending,
which `tage0` predicts not taken. -/
def fetchModelLog (prevBbl : Option BblInfo) : FetchModel (List (Nat × Nat)) :=
  { l1i := []
    fetch_bytes_per_cycle := 16
    phaseEndCycle := 1000
    curCycle := 0
    regScoreboard := fun _ => 0
    prevBbl := prevBbl
    profFetchStalls := 0
    branchPred := tage0
    branchPc := 1024
    branchTaken := true
    branchTakenNpc := 1280
    branchNotTakenNpc := 1028
    decodeCycle := 4
    instrs := 0
    mispredBranches := 0
    cRec := [] }

namespace BranchPredictorTage

theorem GetTageTagLoop_fuel (s : BranchPredictorTage) (fuel extra sm lg subHistory : Nat)
    (hpar : (sm + lg) % 2 = 1) (hlg : lg < 2 ^ 32) (hf : lg + 1 ≤ sm + 2 * fuel) :
    GetTageTagLoop s (fuel + extra) sm lg subHistory =
      GetTageTagLoop s fuel sm lg subHistory := by
  induction fuel generalizing sm lg subHistory with
  | zero =>
    have hn : ¬ sm ≤ lg := by omega
    cases extra with
    | zero => rfl
    | succ k => simp only [Nat.zero_add, GetTageTagLoop, hn, if_false]
  | succ n ih =>
    rw [Nat.add_right_comm]
    simp only [GetTageTagLoop]
    split_ifs with hle
    · have h1 : w32 (sm + 1) = sm + 1 := by unfold w32; omega
      have h2 : sub32 lg 1 = lg - 1 := by unfold sub32; omega
      rw [h1, h2]
      exact ih _ _ _ (by omega) (by omega) (by omega)
    · rfl

theorem GetTageIndexLoop_fuel (s : BranchPredictorTage) (fuel extra sm lg : Nat)
    (subHistory : mybitset) (hpar : (sm + lg) % 2 = 1) (hlg : lg < 2 ^ 32)
    (hf : lg + 1 ≤ sm + 2 * fuel) :
    GetTageIndexLoop s (fuel + extra) sm lg subHistory =
      GetTageIndexLoop s fuel sm lg subHistory := by
  induction fuel generalizing sm lg subHistory with
  | zero =>
    have hn : ¬ sm ≤ lg := by omega
    cases extra with
    | zero => rfl
    | succ k => simp only [Nat.zero_add, GetTageIndexLoop, hn, if_false]
  | succ n ih =>
    rw [Nat.add_right_comm]
    simp only [GetTageIndexLoop]
    split_ifs with hle
    · have h1 : w32 (sm + 1) = sm + 1 := by unfold w32; omega
      have h2 : sub32 lg 1 = lg - 1 := by unfold sub32; omega
      rw [h1, h2]
      exact ih _ _ _ (by omega) (by omega) (by omega)
    · rfl

theorem hist_lengths_fold_bounds (t : Nat) (h1 : 1 ≤ t) (h8 : t ≤ 8) :
    (0 + sub32 (hist_lengths t) 1) % 2 = 1 ∧ sub32 (hist_lengths t) 1 < 2 ^ 32 ∧
    sub32 (hist_lengths t) 1 + 1 ≤ 0 + 2 * hist_lengths t := by
  interval_cases t <;> decide

/-- For the tables 1 to 8 the fold loops of `GetTageTag` and `GetTageIndex`
leave through their condition: more rounds than `hist_lengths[tableNum]`
change nothing. -/
theorem fold_loops_fuel (s : BranchPredictorTage) (t extra : Nat) (h1 : 1 ≤ t) (h8 : t ≤ 8) :
    GetTageTagLoop s (hist_lengths t + extra) 0 (sub32 (hist_lengths t) 1) 0 =
      GetTageTagLoop s (hist_lengths t) 0 (sub32 (hist_lengths t) 1) 0 ∧
    GetTageIndexLoop s (hist_lengths t + extra) 0 (sub32 (hist_lengths t) 1)
        (mybitset.new s.index_size) =
      GetTageIndexLoop s (hist_lengths t) 0 (sub32 (hist_lengths t) 1)
        (mybitset.new s.index_size) := by
  obtain ⟨hp, hl, hf⟩ := hist_lengths_fold_bounds t h1 h8
  exact ⟨GetTageTagLoop_fuel s _ extra 0 _ 0 hp hl hf,
    GetTageIndexLoop_fuel s _ extra 0 _ _ hp hl hf⟩

end BranchPredictorTage

/-- With a positive line size and no wrap-around of `fetchAddr`, the fetch
loop of `CacheModel::bbl` leaves through its condition: more rounds than
`endAddr - fetchAddr` change nothing. -/
theorem CacheModel.cache_fetchLoop_fuel {κ : Type} (lineSize endAddr fuel extra fetchAddr : Nat)
    (r : CacheModel κ × Nat) (hs : 0 < lineSize) (hw : endAddr + lineSize ≤ 2 ^ 64)
    (hf : endAddr ≤ fetchAddr + fuel) :
    CacheModel.fetchLoop lineSize endAddr (fuel + extra) fetchAddr r =
      CacheModel.fetchLoop lineSize endAddr fuel fetchAddr r := by
  induction fuel generalizing fetchAddr r with
  | zero =>
    have hn : ¬ fetchAddr < endAddr := by omega
    obtain ⟨s, c⟩ := r
    cases extra with
    | zero => rfl
    | succ k => simp only [Nat.zero_add, CacheModel.fetchLoop, hn, if_false]
  | succ n ih =>
    obtain ⟨s, c⟩ := r
    rw [Nat.add_right_comm]
    simp only [CacheModel.fetchLoop]
    split_ifs with hlt
    · have h1 : w64 (fetchAddr + lineSize) = fetchAddr + lineSize := by unfold w64; omega
      rw [h1]
      exact ih _ _ (by omega)
    · rfl

/-- With a positive stride and no wrap-around of `fetchAddr`, the fetch loop
of `FetchModel::bbl` leaves through its condition: more rounds than
`endAddr - fetchAddr` change nothing. -/
theorem FetchModel.fetch_fetchLoop_fuel {κ : Type} (fc : FilterCache κ)
    (stride endAddr fuel extra fetchAddr : Nat) (r : FetchModel κ × Nat) (hs : 0 < stride)
    (hw : endAddr + stride ≤ 2 ^ 64) (hf : endAddr ≤ fetchAddr + fuel) :
    FetchModel.fetchLoop fc stride endAddr (fuel + extra) fetchAddr r =
      FetchModel.fetchLoop fc stride endAddr fuel fetchAddr r := by
  induction fuel generalizing fetchAddr r with
  | zero =>
    have hn : ¬ fetchAddr < endAddr := by omega
    obtain ⟨s, c⟩ := r
    cases extra with
    | zero => rfl
    | succ k => simp only [Nat.zero_add, FetchModel.fetchLoop, hn, if_false]
  | succ n ih =>
    obtain ⟨s, c⟩ := r
    rw [Nat.add_right_comm]
    simp only [FetchModel.fetchLoop]
    split_ifs with hlt
    · have h1 : w64 (fetchAddr + stride) = fetchAddr + stride := by unfold w64; omega
      rw [h1]
      exact ih _ _ (by omega)
    · rfl

/-- For `lineBits < 32` the 32-bit value of `1 << lineBits` is
`2 ^ lineBits`. -/
theorem CacheModel.w32_lineSize (lineBits : Nat) (h : lineBits < 32) :
    w32 (1 <<< lineBits) = 2 ^ lineBits := by
  have h1 : 2 ^ lineBits < 2 ^ 32 := Nat.pow_lt_pow_right (by decide) h
  rw [Nat.one_shiftLeft]
  unfold w32
  exact Nat.mod_eq_of_lt h1

/-! ## TAGE predictor -/

namespace BranchPredictorTage

theorem ext_fields {s r : BranchPredictorTage} (hp : s.persistent = r.persistent)
    (h1 : s.providerIndex = r.providerIndex) (h2 : s.altProviderIndex = r.altProviderIndex)
    (h3 : s.providerPredIndex = r.providerPredIndex) (h4 : s.providerPred = r.providerPred)
    (h5 : s.altProviderPred = r.altProviderPred) : s = r := by
  cases s; cases r
  simp only [persistent, Prod.mk.injEq] at hp
  simp only [mk.injEq]
  simp_all

theorem GetTageIndexLoop_congr {s r : BranchPredictorTage}
    (h1 : s.index_size = r.index_size) (h2 : s.historyBuffer = r.historyBuffer)
    (fuel sm lg : Nat) (b : mybitset) :
    GetTageIndexLoop s fuel sm lg b = GetTageIndexLoop r fuel sm lg b := by
  induction fuel generalizing sm lg b with
  | zero => rfl
  | succ n ih => simp only [GetTageIndexLoop, h1, h2, ih]

theorem GetTageTagLoop_congr {s r : BranchPredictorTage}
    (h2 : s.historyBuffer = r.historyBuffer) (fuel sm lg b : Nat) :
    GetTageTagLoop s fuel sm lg b = GetTageTagLoop r fuel sm lg b := by
  induction fuel generalizing sm lg b with
  | zero => rfl
  | succ n ih => simp only [GetTageTagLoop, h2, ih]

theorem GetTageIndex_congr {s r : BranchPredictorTage} (h : s.persistent = r.persistent)
    (PC t : Nat) : s.GetTageIndex PC t = r.GetTageIndex PC t := by
  simp only [persistent, Prod.mk.injEq] at h
  obtain ⟨-, -, -, hh, -, hi, hm⟩ := h
  simp only [GetTageIndex, GetTageIndexLoop_congr hi hh, hi, hm]

theorem GetTageTag_congr {s r : BranchPredictorTage} (h : s.persistent = r.persistent)
    (PC t : Nat) : s.GetTageTag PC t = r.GetTageTag PC t := by
  simp only [persistent, Prod.mk.injEq] at h
  obtain ⟨-, -, -, hh, -, -, -⟩ := h
  simp only [GetTageTag, GetTageTagLoop_congr hh]

theorem GetTagePredictionsLoop_persistent (PC t : Nat) (s : BranchPredictorTage) (u : Bool) :
    (GetTagePredictionsLoop PC t (s, u)).1.persistent = s.persistent := by
  induction t generalizing s u with
  | zero => rfl
  | succ t ih =>
    simp only [GetTagePredictionsLoop]
    split_ifs <;> first | rfl | (rw [ih]; try rfl)

theorem GetTagePredictionsBase_persistent (PC : Nat) (s : BranchPredictorTage) :
    (GetTagePredictionsBase PC s).persistent = s.persistent := by
  simp only [GetTagePredictionsBase]
  split_ifs <;> rfl

theorem GetTagePredictions_persistent (s : BranchPredictorTage) (PC : Nat) (u : Bool) :
    (s.GetTagePredictions PC u).1.persistent = s.persistent := by
  simp only [GetTagePredictions, GetTagePredictionsBase_persistent,
    GetTagePredictionsLoop_persistent]
  rfl

theorem GetPrediction_persistent (s : BranchPredictorTage) (PC : Nat) :
    (s.GetPrediction PC).2.persistent = s.persistent := by
  simp only [GetPrediction]
  split_ifs <;> exact GetTagePredictions_persistent s PC false


theorem LookupAgree.tage_eq {s r : BranchPredictorTage} (h : LookupAgree s r) :
    r.tage = s.tage := by
  have hp := h.1
  simp only [persistent, Prod.mk.injEq] at hp
  exact hp.2.1.symm

theorem GetTagePredictionsLoop_agree (PC t : Nat) (s r : BranchPredictorTage) (u : Bool)
    (h : LookupAgree s r) :
    LookupAgree (GetTagePredictionsLoop PC t (s, u)).1 (GetTagePredictionsLoop PC t (r, u)).1 ∧
    (GetTagePredictionsLoop PC t (s, u)).2 = (GetTagePredictionsLoop PC t (r, u)).2 := by
  induction t generalizing s r u with
  | zero => exact ⟨h, rfl⟩
  | succ t ih =>
    have ht := h.tage_eq
    obtain ⟨hp, h1, h2, h3, h4, h5⟩ := h
    simp only [GetTagePredictionsLoop, ← GetTageIndex_congr hp, ← GetTageTag_congr hp, ht,
      ← h1, ← h2]
    have hp2 := hp
    simp only [persistent, Prod.mk.injEq] at hp2
    split_ifs with hb hm hq
    · exact ⟨⟨hp, h1, h2, h3, h4, h5⟩, rfl⟩
    · apply ih
      simp_all [LookupAgree, persistent]
    · apply ih
      simp_all [LookupAgree, persistent]
    · exact ih _ _ _ ⟨hp, h1, h2, h3, h4, h5⟩

theorem GetTagePredictionsBase_agree (PC : Nat) (s r : BranchPredictorTage)
    (h : LookupAgree s r) : GetTagePredictionsBase PC s = GetTagePredictionsBase PC r := by
  obtain ⟨hp, h1, h2, h3, h4, h5⟩ := h
  have hb : r.basePredictor = s.basePredictor := by
    simp only [persistent, Prod.mk.injEq] at hp
    exact hp.1.symm
  simp only [GetTagePredictionsBase, ← h1, ← h2, hb]
  by_cases hq : s.providerIndex = -1 <;> by_cases ha : s.altProviderIndex = -1 <;>
    simp only [hq, ha, true_or, or_true, or_self, if_true, if_false] <;>
    apply ext_fields <;> simp_all [persistent]

theorem GetTagePredictions_congr {s r : BranchPredictorTage} (h : s.persistent = r.persistent)
    (PC : Nat) (u : Bool) : s.GetTagePredictions PC u = r.GetTagePredictions PC u := by
  have ht : s.table_num = r.table_num := by
    simp only [persistent, Prod.mk.injEq] at h
    exact h.2.2.2.2.1
  have ha : LookupAgree
      { s with providerIndex := -1, altProviderIndex := -1, providerPredIndex := 999999 }
      { r with providerIndex := -1, altProviderIndex := -1, providerPredIndex := 999999 } := by
    refine ⟨?_, rfl, rfl, rfl, fun hn => absurd rfl hn, fun hn => absurd rfl hn⟩
    simpa [persistent] using h
  have key : ∀ n m : Nat, n = m →
      (GetTagePredictionsBase PC (GetTagePredictionsLoop PC n
          ({ s with providerIndex := -1, altProviderIndex := -1, providerPredIndex := 999999 },
            u)).1,
        (GetTagePredictionsLoop PC n
          ({ s with providerIndex := -1, altProviderIndex := -1, providerPredIndex := 999999 },
            u)).2) =
      (GetTagePredictionsBase PC (GetTagePredictionsLoop PC m
          ({ r with providerIndex := -1, altProviderIndex := -1, providerPredIndex := 999999 },
            u)).1,
        (GetTagePredictionsLoop PC m
          ({ r with providerIndex := -1, altProviderIndex := -1, providerPredIndex := 999999 },
            u)).2) := by
    intro n m hnm
    subst hnm
    have hl := GetTagePredictionsLoop_agree PC n _ _ u ha
    rw [GetTagePredictionsBase_agree PC _ _ hl.1, hl.2]
  exact key _ _ ht

theorem LookupInv.mono {s : BranchPredictorTage} {t : Nat} (h : LookupInv s (t + 1)) :
    LookupInv s t := by
  rcases h with h | ⟨h1, h2, h3⟩ | h
  · exact Or.inl h
  · exact Or.inr (Or.inl ⟨by omega, h2, h3⟩)
  · exact Or.inr (Or.inr h)

theorem GetTagePredictionsLoop_inv (PC t : Nat) (s : BranchPredictorTage) (u : Bool)
    (ht : t ≤ s.table_num) (h : LookupInv s t) :
    LookupInv (GetTagePredictionsLoop PC t (s, u)).1 0 := by
  induction t generalizing s u with
  | zero => exact h
  | succ t ih =>
    simp only [GetTagePredictionsLoop]
    split_ifs with hb hm hq
    · rcases h with h | ⟨h1, h2, h3⟩ | h
      · exact Or.inl h
      · exact Or.inr (Or.inl ⟨by omega, h2, h3⟩)
      · exact Or.inr (Or.inr h)
    · apply ih
      · exact Nat.le_of_succ_le ht
      · rcases h with h | ⟨h1, h2, h3⟩ | ⟨h1, h2, h3⟩
        · refine Or.inr (Or.inl ⟨?_, ?_, h.2⟩)
          · show (t : Int) < ((t + 1 : Nat) : Int)
            omega
          · show ((t + 1 : Nat) : Int) ≤ (s.table_num : Int)
            omega
        · omega
        · omega
    · apply ih
      · exact Nat.le_of_succ_le ht
      · rcases h with h | ⟨h1, h2, h3⟩ | ⟨h1, h2, h3⟩
        · exact absurd h.1 hq
        · refine Or.inr (Or.inr ⟨?_, ?_, h2⟩)
          · show (0 : Int) < ((t + 1 : Nat) : Int)
            omega
          · show ((t + 1 : Nat) : Int) < s.providerIndex
            omega
        · exact absurd ⟨by omega, by omega⟩ hb
    · exact ih _ _ (Nat.le_of_succ_le ht) h.mono

/-- C1. `predict` returns `true` exactly when `taken` equals the value returned
by `GetPrediction` on the same state, and the state it leaves is the one
obtained by `GetPrediction` followed by `UpdatePredictor` with that
prediction. -/
theorem predict_eq_GetPrediction_then_UpdatePredictor (s : BranchPredictorTage)
    (pc : Nat) (taken : Bool) (target : Nat) :
    ((s.predict pc taken target).1 = true ↔ taken = (s.GetPrediction pc).1) ∧
    (s.predict pc taken target).2 =
      (s.GetPrediction pc).2.UpdatePredictor pc taken (s.GetPrediction pc).1 target := by
  constructor
  · simp [predict]
  · rfl

/-- C4. A second `GetPrediction(pc)` directly after a first one returns the
same direction and leaves the whole state, scratch fields included, as the
first call left it. -/
theorem GetPrediction_twice (s : BranchPredictorTage) (pc : Nat) :
    (s.GetPrediction pc).2.GetPrediction pc = s.GetPrediction pc := by
  have hs : (s.GetPrediction pc).2 = (s.GetTagePredictions pc false).1 := by
    simp only [GetPrediction]
    split_ifs <;> rfl
  have hc := GetTagePredictions_congr (GetPrediction_persistent s pc) pc false
  rw [GetPrediction, hc]
  rfl

/-- C5. After a lookup the alt provider is never above the provider, both lie
in `[0, table_num]`, and when both are tagged tables the provider is strictly
above the alt provider. -/
theorem GetTagePredictions_provider_order (s : BranchPredictorTage) (pc : Nat) (u : Bool) :
    0 ≤ (s.GetTagePredictions pc u).1.altProviderIndex ∧
    (s.GetTagePredictions pc u).1.altProviderIndex ≤
      (s.GetTagePredictions pc u).1.providerIndex ∧
    (s.GetTagePredictions pc u).1.providerIndex ≤ (s.GetTagePredictions pc u).1.table_num ∧
    (1 ≤ (s.GetTagePredictions pc u).1.providerIndex →
      1 ≤ (s.GetTagePredictions pc u).1.altProviderIndex →
      (s.GetTagePredictions pc u).1.altProviderIndex <
        (s.GetTagePredictions pc u).1.providerIndex) := by
  have hinv := GetTagePredictionsLoop_inv pc s.table_num
    { s with providerIndex := -1, altProviderIndex := -1, providerPredIndex := 999999 } u
    (le_refl _) (Or.inl ⟨rfl, rfl⟩)
  simp only [GetTagePredictions]
  generalize GetTagePredictionsLoop pc _ _ = r at hinv ⊢
  simp only [GetTagePredictionsBase]
  rcases hinv with ⟨h1, h2⟩ | ⟨h1, h2, h3⟩ | ⟨h1, h2, h3⟩
  · simp [h1, h2]
  · have hn : r.1.providerIndex ≠ -1 := by omega
    simp only [hn, h3, or_true, if_true, if_false]
    refine ⟨le_refl _, by omega, h2, fun _ hc => absurd hc (by decide)⟩
  · have hn : r.1.providerIndex ≠ -1 := by omega
    have hm : r.1.altProviderIndex ≠ -1 := by omega
    simp only [hn, hm, or_self, if_false]
    exact ⟨by omega, by omega, h3, fun _ _ => h2⟩

theorem stepCounter_le (d : Bool) (c : Nat) (h : c ≤ T0_COUNTER_MAX) :
    stepCounter d c ≤ T0_COUNTER_MAX := by
  unfold stepCounter
  split_ifs <;> omega

theorem CountersInRange_of_persistent {s r : BranchPredictorTage}
    (h : r.persistent = s.persistent) (hs : CountersInRange s) : CountersInRange r := by
  simp only [persistent, Prod.mk.injEq] at h
  obtain ⟨hb, ht, hu, -⟩ := h
  simpa only [CountersInRange, hb, ht, hu] using hs

theorem UpdateProviderCounter_range (s : BranchPredictorTage) (d : Bool)
    (h : CountersInRange s) : CountersInRange (s.UpdateProviderCounter d) := by
  obtain ⟨hb, ht, hu⟩ := h
  unfold UpdateProviderCounter
  split_ifs
  · refine ⟨fun i => ?_, ht, hu⟩
    by_cases hi : i = s.providerPredIndex
    · subst hi
      simpa using stepCounter_le d _ (hb _)
    · simpa [Function.update_noteq hi] using hb i
  · refine ⟨hb, fun t i => ?_, hu⟩
    by_cases h1 : t = s.providerIndex.toNat
    · subst h1
      by_cases hi : i = s.providerPredIndex
      · subst hi
        simpa using stepCounter_le d _ (ht _ _)
      · simpa [Function.update_noteq hi] using ht _ i
    · simpa [Function.update_noteq h1] using ht t i

theorem AllocateNewEntriesLoop_range (PC n table cnt : Nat) (s : BranchPredictorTage)
    (h : CountersInRange s) : CountersInRange (AllocateNewEntriesLoop PC n table cnt s) := by
  induction n generalizing table cnt s with
  | zero => exact h
  | succ n ih =>
    obtain ⟨hb, ht, hu⟩ := h
    simp only [AllocateNewEntriesLoop]
    split_ifs
    · exact ⟨hb, ht, hu⟩
    · apply ih
      refine ⟨hb, fun t i => ?_, hu⟩
      by_cases h1 : t = table
      · subst h1
        by_cases hi : i = w32 (s.GetTageIndex PC t)
        · subst hi
          simp [TI_COUNTER_MAX]
        · simpa [Function.update_noteq hi] using ht _ i
      · simpa [Function.update_noteq h1] using ht t i
    · apply ih
      refine ⟨hb, fun t i => ?_, hu⟩
      by_cases h1 : t = table
      · subst h1
        by_cases hi : i = w32 (s.GetTageIndex PC t)
        · subst hi
          simpa using ht _ _
        · simpa [Function.update_noteq hi] using ht _ i
      · simpa [Function.update_noteq h1] using ht t i

theorem SetU_range (s : BranchPredictorTage) (v : Bool) (h : CountersInRange s) :
    CountersInRange (s.SetU v) := by
  obtain ⟨hb, ht, hu⟩ := h
  unfold SetU
  split_ifs
  · refine ⟨hb, fun t i => ?_, hu⟩
    by_cases h1 : t = s.providerIndex.toNat
    · subst h1
      by_cases hi : i = s.providerPredIndex
      · subst hi
        simpa using ht _ _
      · simpa [Function.update_noteq hi] using ht _ i
    · simpa [Function.update_noteq h1] using ht t i
  · exact ⟨hb, ht, hu⟩

theorem useAltOnNa_range (s : BranchPredictorTage) (v : Nat) (hv : v ≤ USE_ALT_COUNTER_MAX)
    (h : CountersInRange s) : CountersInRange { s with useAltOnNa := v } :=
  ⟨h.1, h.2.1, hv⟩

theorem UpdateHistory_range (s : BranchPredictorTage) (d : Bool) (h : CountersInRange s) :
    CountersInRange (s.UpdateHistory d) :=
  ⟨h.1, h.2.1, h.2.2⟩

theorem UpdatePredictor_range (s : BranchPredictorTage) (PC : Nat) (d p : Bool) (tg : Nat)
    (h : CountersInRange s) : CountersInRange (s.UpdatePredictor PC d p tg) := by
  have h1 := UpdateProviderCounter_range s d h
  have h2 : CountersInRange
      (if d ≠ p then (s.UpdateProviderCounter d).AllocateNewEntries PC
        else s.UpdateProviderCounter d) := by
    by_cases hdp : d = p
    · simpa [hdp] using h1
    · simpa [hdp] using AllocateNewEntriesLoop_range _ _ _ _ _ h1
  simp only [UpdatePredictor]
  generalize (if d ≠ p then (s.UpdateProviderCounter d).AllocateNewEntries PC
        else s.UpdateProviderCounter d) = s2 at h2 ⊢
  apply UpdateHistory_range
  have hF := SetU_range s2 false h2
  have hT := SetU_range s2 true h2
  by_cases ha : s2.altProviderPred = s2.providerPred
  · simpa [ha] using h2
  · simp only [ne_eq, ha, not_false_eq_true, if_true]
    by_cases hr : s2.altProviderPred = d
    · simp only [hr, if_true]
      by_cases hu : (s2.SetU false).useAltOnNa < USE_ALT_COUNTER_MAX
      · simp only [hu, if_true]
        exact useAltOnNa_range _ _ hu hF
      · simpa only [hu, if_false] using hF
    · simp only [hr, if_false]
      by_cases hu : (s2.SetU true).useAltOnNa > 0
      · simp only [hu, if_true]
        exact useAltOnNa_range _ _ (le_trans (Nat.sub_le _ _) hT.2.2) hT
      · simpa only [hu, if_false] using hT

theorem predict_range (s : BranchPredictorTage) (c : PredictCall) (h : CountersInRange s) :
    CountersInRange (s.predict c.1 c.2.1 c.2.2).2 :=
  UpdatePredictor_range _ c.1 c.2.1 _ c.2.2
    (CountersInRange_of_persistent (GetPrediction_persistent s c.1) h)

theorem predictAll_range (calls : List PredictCall) (s : BranchPredictorTage)
    (h : CountersInRange s) : CountersInRange (s.predictAll calls) := by
  induction calls generalizing s with
  | nil => exact h
  | cons c cs ih => exact ih _ (predict_range s c h)

/-- C2. A predictor constructed with `table_num <= 8` exists, and after any
sequence of `predict` calls on it every base-predictor counter, every
tagged-table counter and `useAltOnNa` lie in `[0, 7]`. -/
theorem counters_in_range_after_predicts (table_num index_size : Nat)
    (h8 : table_num ≤ 8) (calls : List PredictCall) :
    ∃ s0, BranchPredictorTage.new table_num index_size = some s0 ∧
      (∀ i, 0 ≤ (s0.predictAll calls).basePredictor i ∧
        (s0.predictAll calls).basePredictor i ≤ 7) ∧
      (∀ t i, 0 ≤ ((s0.predictAll calls).tage t i).counter ∧
        ((s0.predictAll calls).tage t i).counter ≤ 7) ∧
      0 ≤ (s0.predictAll calls).useAltOnNa ∧ (s0.predictAll calls).useAltOnNa ≤ 7 := by
  have hw : w8 table_num ≤ 8 := le_trans (Nat.mod_le _ _) h8
  refine ⟨_, if_pos hw, ?_⟩
  have h0 := predictAll_range calls _
    (show CountersInRange
      { historyBuffer := 0, providerIndex := -1, altProviderIndex := -1, useAltOnNa := 0,
        providerPredIndex := 99999, providerPred := false, altProviderPred := false,
        table_num := w8 table_num, index_size := w8 index_size,
        idx_mask := sub64 (w64 (1 <<< w8 index_size)) 1,
        basePredictor := fun _ => T0_COUNTER_MAX / 2,
        tage := fun _ _ => { counter := 0, tag := 0, useful := false } } from
      ⟨fun _ => by simp [T0_COUNTER_MAX], fun _ _ => Nat.zero_le _, Nat.zero_le _⟩)
  exact ⟨fun i => ⟨Nat.zero_le _, h0.1 i⟩, fun t i => ⟨Nat.zero_le _, h0.2.1 t i⟩,
    Nat.zero_le _, h0.2.2⟩

/-- Witness for C2: a predictor with 4 tables of `2 ^ 10` entries, after
three `predict` calls. -/
theorem counters_in_range_after_predicts_witness :
    (4 : Nat) ≤ 8 ∧
    ∃ s0, BranchPredictorTage.new 4 10 = some s0 ∧
      (∀ i, 0 ≤ (s0.predictAll [(1024, true, 0), (1024, false, 0), (77, true, 0)]).basePredictor i ∧
        (s0.predictAll [(1024, true, 0), (1024, false, 0), (77, true, 0)]).basePredictor i ≤ 7) ∧
      (∀ t i,
        0 ≤ ((s0.predictAll [(1024, true, 0), (1024, false, 0), (77, true, 0)]).tage t i).counter ∧
        ((s0.predictAll [(1024, true, 0), (1024, false, 0), (77, true, 0)]).tage t i).counter ≤ 7) ∧
      0 ≤ (s0.predictAll [(1024, true, 0), (1024, false, 0), (77, true, 0)]).useAltOnNa ∧
      (s0.predictAll [(1024, true, 0), (1024, false, 0), (77, true, 0)]).useAltOnNa ≤ 7 :=
  ⟨by decide, counters_in_range_after_predicts 4 10 (by decide) _⟩


theorem bitGet_bitAssign (b i : Nat) (v : Bool) (j : Nat) :
    bitGet (bitAssign b i v) j = if j = i then v else bitGet b j := by
  unfold bitAssign bitGet
  by_cases hb : b.testBit i = v
  · simp only [hb, if_true]
    split_ifs with hj
    · rw [hj, hb]
    · rfl
  · simp only [hb, if_false, Nat.testBit_xor, Nat.testBit_two_pow]
    split_ifs with hj
    · subst hj
      cases hbi : b.testBit j <;> cases v <;> simp_all
    · have : ¬ i = j := fun h => hj h.symm
      simp [this]

theorem bitGet_bitShl1 (n b j : Nat) :
    bitGet (bitShl1 n b) j = (decide (j < n) && decide (j ≠ 0) && bitGet b (j - 1)) := by
  unfold bitShl1 bitGet
  rw [Nat.testBit_mod_two_pow]
  cases j with
  | zero => simp [Nat.testBit_zero]
  | succ k =>
    rw [Nat.testBit_succ]
    simp

theorem bitAssign_lt (n b i : Nat) (v : Bool) (hb : b < 2 ^ n) (hi : i < n) :
    bitAssign b i v < 2 ^ n := by
  unfold bitAssign
  split_ifs
  · exact hb
  · exact Nat.xor_lt_two_pow hb (Nat.pow_lt_pow_right (by decide) hi)

theorem AllocateNewEntriesLoop_history (PC n table cnt : Nat) (s : BranchPredictorTage) :
    (AllocateNewEntriesLoop PC n table cnt s).historyBuffer = s.historyBuffer := by
  induction n generalizing table cnt s with
  | zero => rfl
  | succ n ih =>
    simp only [AllocateNewEntriesLoop]
    split_ifs
    · rfl
    · rw [ih]
    · rw [ih]

theorem SetU_history (s : BranchPredictorTage) (v : Bool) :
    (s.SetU v).historyBuffer = s.historyBuffer := by
  unfold SetU
  split_ifs <;> rfl

theorem UpdateProviderCounter_history (s : BranchPredictorTage) (d : Bool) :
    (s.UpdateProviderCounter d).historyBuffer = s.historyBuffer := by
  unfold UpdateProviderCounter
  split_ifs <;> rfl

theorem UpdatePredictor_history (s : BranchPredictorTage) (PC : Nat) (d p : Bool) (tg : Nat) :
    (s.UpdatePredictor PC d p tg).historyBuffer =
      bitAssign (bitShl1 HIST_BUFFER_SIZE s.historyBuffer) 0 d := by
  have h2 : (if d ≠ p then (s.UpdateProviderCounter d).AllocateNewEntries PC
        else s.UpdateProviderCounter d).historyBuffer = s.historyBuffer := by
    by_cases hdp : d = p
    · simp [hdp, UpdateProviderCounter_history]
    · simp [hdp, AllocateNewEntries, AllocateNewEntriesLoop_history,
        UpdateProviderCounter_history]
  simp only [UpdatePredictor]
  generalize (if d ≠ p then (s.UpdateProviderCounter d).AllocateNewEntries PC
        else s.UpdateProviderCounter d) = s2 at h2 ⊢
  simp only [UpdateHistory]
  rw [← h2]
  congr 2
  split_ifs <;> simp only [SetU_history]

theorem predict_history (s : BranchPredictorTage) (pc : Nat) (taken : Bool) (target : Nat) :
    (s.predict pc taken target).2.historyBuffer =
      bitAssign (bitShl1 HIST_BUFFER_SIZE s.historyBuffer) 0 taken := by
  have hp := GetPrediction_persistent s pc
  simp only [persistent, Prod.mk.injEq] at hp
  simp only [predict, UpdatePredictor_history, hp.2.2.2.1]

theorem predictAll_snoc (s : BranchPredictorTage) (calls : List PredictCall)
    (c : PredictCall) :
    s.predictAll (calls ++ [c]) = ((s.predictAll calls).predict c.1 c.2.1 c.2.2).2 := by
  simp [predictAll, List.foldl_append]

theorem predictAll_history_bits (s : BranchPredictorTage) (h0 : s.historyBuffer = 0)
    (calls : List PredictCall) :
    (s.predictAll calls).historyBuffer < 2 ^ 64 ∧
    ∀ i, i < 64 → bitGet (s.predictAll calls).historyBuffer i =
      ((calls.map fun c => c.2.1).reverse).getD i false := by
  induction calls using List.reverseRecOn with
  | nil =>
    refine ⟨?_, fun i _ => ?_⟩
    · simp [predictAll, h0]
    · simp [predictAll, h0, bitGet]
  | append_singleton cs c ih =>
    rw [predictAll_snoc, predict_history]
    refine ⟨?_, fun i hi => ?_⟩
    · apply bitAssign_lt 64 _ 0 _ _ (by decide)
      exact Nat.mod_lt _ (by decide)
    · rw [bitGet_bitAssign, bitGet_bitShl1]
      simp only [List.map_append, List.map_cons, List.map_nil, List.reverse_append,
        List.reverse_cons, List.reverse_nil, List.nil_append, List.singleton_append]
      cases i with
      | zero => simp
      | succ k =>
        have hk : k < 64 := by omega
        simp [HIST_BUFFER_SIZE, hi, ih.2 k hk]

theorem getD_reverse_eq (l : List Bool) (i : Nat) (hi : i < l.length) :
    l.reverse.getD i false = l.getD (l.length - 1 - i) false := by
  simp only [List.getD_eq_getElem?_getD]
  rw [List.getElem?_reverse hi]

theorem getD_take_eq (l : List Bool) (n i : Nat) (hi : i < n) :
    (l.take n).getD i false = l.getD i false := by
  simp only [List.getD_eq_getElem?_getD]
  rw [List.getElem?_take_of_lt hi]

theorem bitGet_eq_false_of_lt {b n i : Nat} (hb : b < 2 ^ n) (hi : n ≤ i) :
    bitGet b i = false :=
  Nat.testBit_lt_two_pow (lt_of_lt_of_le hb (Nat.pow_le_pow_right (by decide) hi))

/-- C3. After the updates of `N` `predict` calls with resolved directions
`d_1 .. d_N` on a fresh predictor, bit `i` of `historyBuffer` is `d_(N-i)` for
`i < min N 64` (the most recent outcome at bit 0), the bits `N ≤ i < 64` are
0, there is no bit above 63, and the buffer is determined by the last 64
directions alone. -/
theorem historyBuffer_after_updates (table_num index_size : Nat) (h8 : table_num ≤ 8)
    (calls : List PredictCall) :
    ∃ s0, BranchPredictorTage.new table_num index_size = some s0 ∧
      (∀ i, i < min calls.length 64 →
        bitGet (s0.predictAll calls).historyBuffer i =
          (calls.map fun c => c.2.1).getD (calls.length - 1 - i) false) ∧
      (∀ i, calls.length ≤ i → i < 64 →
        bitGet (s0.predictAll calls).historyBuffer i = false) ∧
      (∀ i, 64 ≤ i → bitGet (s0.predictAll calls).historyBuffer i = false) ∧
      (∀ calls2 : List PredictCall,
        ((calls2.map fun c => c.2.1).reverse).take 64 =
          ((calls.map fun c => c.2.1).reverse).take 64 →
        (s0.predictAll calls2).historyBuffer = (s0.predictAll calls).historyBuffer) := by
  have hw : w8 table_num ≤ 8 := le_trans (Nat.mod_le _ _) h8
  obtain ⟨s0, hs0, h0⟩ : ∃ s0, BranchPredictorTage.new table_num index_size = some s0 ∧
      s0.historyBuffer = 0 := ⟨_, if_pos hw, rfl⟩
  refine ⟨s0, hs0, ?_⟩
  have hb := predictAll_history_bits s0 h0
  refine ⟨fun i hi => ?_, fun i hN hi => ?_, fun i hi => ?_, fun calls2 ht => ?_⟩
  · have hi64 : i < 64 := lt_of_lt_of_le hi (min_le_right _ _)
    have hiN : i < (calls.map fun c => c.2.1).length := by
      rw [List.length_map]
      exact lt_of_lt_of_le hi (min_le_left _ _)
    rw [(hb calls).2 i hi64, getD_reverse_eq _ i hiN, List.length_map]
  · rw [(hb calls).2 i hi]
    apply List.getD_eq_default
    simpa using hN
  · exact bitGet_eq_false_of_lt (hb calls).1 hi
  · apply Nat.eq_of_testBit_eq
    intro i
    by_cases hi : i < 64
    · have h1 := (hb calls).2 i hi
      have h2 := (hb calls2).2 i hi
      rw [← getD_take_eq _ 64 i hi] at h1 h2
      rw [ht] at h2
      exact h2.trans h1.symm
    · have hi2 : 64 ≤ i := Nat.le_of_not_lt hi
      exact (bitGet_eq_false_of_lt (hb calls2).1 hi2).trans
        (bitGet_eq_false_of_lt (hb calls).1 hi2).symm

/-- Witness for C3: a predictor with 4 tables, three `predict` calls with
directions taken, not taken, taken. -/
theorem historyBuffer_after_updates_witness :
    (4 : Nat) ≤ 8 ∧
    ∃ s0, BranchPredictorTage.new 4 10 = some s0 ∧
      (∀ i, i < min [((1024 : Nat), true, (0 : Nat)), (1024, false, 0), (77, true, 0)].length 64 →
        bitGet (s0.predictAll [(1024, true, 0), (1024, false, 0), (77, true, 0)]).historyBuffer i =
          ([((1024 : Nat), true, (0 : Nat)), (1024, false, 0), (77, true, 0)].map
            fun c => c.2.1).getD
            ([((1024 : Nat), true, (0 : Nat)), (1024, false, 0), (77, true, 0)].length - 1 - i)
            false) ∧
      (∀ i, [((1024 : Nat), true, (0 : Nat)), (1024, false, 0), (77, true, 0)].length ≤ i →
        i < 64 →
        bitGet (s0.predictAll [(1024, true, 0), (1024, false, 0), (77, true, 0)]).historyBuffer i =
          false) ∧
      (∀ i, 64 ≤ i →
        bitGet (s0.predictAll [(1024, true, 0), (1024, false, 0), (77, true, 0)]).historyBuffer i =
          false) ∧
      (∀ calls2 : List PredictCall,
        ((calls2.map fun c => c.2.1).reverse).take 64 =
          (([((1024 : Nat), true, (0 : Nat)), (1024, false, 0), (77, true, 0)].map
            fun c => c.2.1).reverse).take 64 →
        (s0.predictAll calls2).historyBuffer =
          (s0.predictAll [(1024, true, 0), (1024, false, 0), (77, true, 0)]).historyBuffer) :=
  ⟨by decide, historyBuffer_after_updates 4 10 (by decide) _⟩
end BranchPredictorTage

/-! ## Timing cores -/

/-- C7 (as amended). A `bbl` call made while `prevBbl` is null: in
`CacheModel` it records the incoming block as `prevBbl`, sets
`loads = stores = 0` and changes nothing else; in `IssueModel` it records the
incoming block as `prevBbl` and changes nothing else, `loads` and `stores`
included. -/
theorem bbl_first_call {κ W R Q : Type} (fc : FilterCache κ) (env : IssueEnv W R Q)
    (lineBits total_pcount bblAddr : Nat) (bblInfo : BblInfo)
    (s : CacheModel κ) (t : IssueModel W R Q)
    (hs : s.prevBbl = none) (ht : t.prevBbl = none) :
    CacheModel.bbl fc lineBits total_pcount s bblAddr bblInfo =
      some { s with prevBbl := some bblInfo, loads := 0, stores := 0 } ∧
    IssueModel.bbl env total_pcount t bblAddr bblInfo =
      some { t with prevBbl := some bblInfo } := by
  constructor
  · simp only [CacheModel.bbl, hs]
  · simp only [IssueModel.bbl, ht]

/-- Witness for C7: freshly constructed cores whose uninitialised `loads` and
`stores` hold 7 and 9. -/
theorem bbl_first_call_witness :
    (cacheModel0 7 9).prevBbl = none ∧ (issueModel0 7 9).prevBbl = none ∧
    CacheModel.bbl cache100 6 0 (cacheModel0 7 9) 4096 (blockOf []) =
      some { cacheModel0 7 9 with prevBbl := some (blockOf []), loads := 0, stores := 0 } ∧
    IssueModel.bbl issueEnv0 0 (issueModel0 7 9) 4096 (blockOf []) =
      some { issueModel0 7 9 with prevBbl := some (blockOf []) } :=
  ⟨rfl, rfl, bbl_first_call cache100 issueEnv0 6 0 4096 (blockOf []) _ _ rfl rfl⟩

/-- Counterexample to C7 as stated: on a freshly constructed `IssueModel`
whose uninitialised `loads` and `stores` hold 7 and 9, the first `bbl` call
returns with `loads = 7` and `stores = 9`, not 0. -/
theorem IssueModel_first_bbl_keeps_loads :
    (issueModel0 7 9).prevBbl = none ∧
    (IssueModel.bbl issueEnv0 0 (issueModel0 7 9) 4096 (blockOf [])).map
      (fun t => (t.loads, t.stores)) = some (7, 9) :=
  ⟨rfl, rfl⟩

theorem MAX_ge_left (a b : Nat) : a ≤ MAX a b := by
  unfold MAX
  split_ifs <;> omega

theorem MAX_ge_right (a b : Nat) : b ≤ MAX a b := by
  unfold MAX
  split_ifs <;> omega

theorem MAX_eq_max (a b : Nat) : MAX a b = max a b := by
  unfold MAX
  split_ifs <;> omega

namespace CacheModel

variable {κ : Type}

theorem cache_uopLsu_curCycle (fc : FilterCache κ) (s : CacheModel κ) (li si d : Nat) (uop : DynUop) :
    (uopLsu fc s li si d uop).1.curCycle = s.curCycle := by
  unfold uopLsu
  cases uop.type <;> (dsimp only; try split_ifs) <;> rfl

theorem cache_uopLsu_decodeCycle (fc : FilterCache κ) (s : CacheModel κ) (li si d : Nat)
    (uop : DynUop) : (uopLsu fc s li si d uop).1.decodeCycle = s.decodeCycle := by
  unfold uopLsu
  cases uop.type <;> (dsimp only; try split_ifs) <;> rfl

theorem cache_simUop_curCycle (fc : FilterCache κ) (st : CacheLoop κ) (uop : DynUop) :
    st.core.curCycle ≤ (simUop fc st uop).core.curCycle := by
  simp only [simUop, cache_uopLsu_curCycle, uopIssue]
  exact le_trans (MAX_ge_left _ _) (MAX_ge_left _ _)

theorem cache_foldl_simUop_curCycle (fc : FilterCache κ) (uops : List DynUop) (st : CacheLoop κ) :
    st.core.curCycle ≤ (uops.foldl (simUop fc) st).core.curCycle := by
  induction uops generalizing st with
  | nil => exact le_refl _
  | cons u us ih => exact le_trans (cache_simUop_curCycle fc st u) (ih _)

theorem cache_simUops_curCycle (fc : FilterCache κ) (s : CacheModel κ) (b : BblInfo)
    (uops : List DynUop) : s.curCycle ≤ (simUops fc s b uops).core.curCycle :=
  cache_foldl_simUop_curCycle fc uops
    { core := { s with prevBbl := some b }, loadIdx := 0, storeIdx := 0, prevDecCycle := 0 }

theorem cache_fetchLoop_curCycle (lineSize endAddr fuel fetchAddr : Nat) (r : CacheModel κ × Nat) :
    (fetchLoop lineSize endAddr fuel fetchAddr r).1.curCycle = r.1.curCycle := by
  induction fuel generalizing fetchAddr r with
  | zero => rfl
  | succ n ih =>
    obtain ⟨s, c⟩ := r
    simp only [fetchLoop]
    split_ifs
    · rw [ih]
    · rfl

theorem cache_fetchLoop_decodeCycle (lineSize endAddr fuel fetchAddr : Nat) (r : CacheModel κ × Nat) :
    (fetchLoop lineSize endAddr fuel fetchAddr r).1.decodeCycle = r.1.decodeCycle := by
  induction fuel generalizing fetchAddr r with
  | zero => rfl
  | succ n ih =>
    obtain ⟨s, c⟩ := r
    simp only [fetchLoop]
    split_ifs
    · rw [ih]
    · rfl

theorem cache_frontend_curCycle (lineBits : Nat) (s : CacheModel κ) (a : Nat) (b : BblInfo) :
    (frontend lineBits s a b).curCycle = s.curCycle := by
  simp only [frontend]
  split_ifs <;> simp only [cache_fetchLoop_curCycle]

theorem cache_step_curCycle (fc : FilterCache κ) (lineBits : Nat) (s s1 : CacheModel κ)
    (e : CoreEvent) (h : step fc lineBits s e = some s1) : s.curCycle ≤ s1.curCycle := by
  cases e with
  | load addr => simp only [step, Option.some.injEq] at h; subst h; exact le_refl _
  | store addr => simp only [step, Option.some.injEq] at h; subst h; exact le_refl _
  | predLoad addr pred =>
    simp only [step, Option.some.injEq] at h; subst h
    unfold PredLoadFunc; split_ifs <;> exact le_refl _
  | predStore addr pred =>
    simp only [step, Option.some.injEq] at h; subst h
    unfold PredStoreFunc; split_ifs <;> exact le_refl _
  | branch pc taken a b => simp only [step, Option.some.injEq] at h; subst h; exact le_refl _
  | bbl a b tp =>
    simp only [step, bbl] at h
    cases hp : s.prevBbl with
    | none =>
      simp only [hp, Option.some.injEq] at h; subst h; exact le_refl _
    | some prev =>
      simp only [hp, simulate] at h
      split_ifs at h
      simp only [Option.some.injEq] at h
      subst h
      rw [cache_frontend_curCycle]
      exact cache_simUops_curCycle fc s b _
  | contextSwitch gid =>
    simp only [step, Option.some.injEq] at h; subst h
    unfold contextSwitch; split_ifs <;> exact le_refl _
  | advance t =>
    simp only [step, advance] at h
    split_ifs at h with ht
    simp only [Option.some.injEq] at h
    subst h
    exact Nat.le_of_lt ht

end CacheModel

namespace FetchModel

variable {κ : Type}

theorem fetch_simUop_curCycle (st : FetchLoop κ) (uop : DynUop) :
    st.core.curCycle ≤ (simUop st uop).core.curCycle := by
  simp only [simUop]
  exact MAX_ge_left _ _

theorem fetch_simUops_curCycle (s : FetchModel κ) (b : BblInfo) (uops : List DynUop) :
    s.curCycle ≤ (simUops s b uops).core.curCycle := by
  have key : ∀ (us : List DynUop) (st : FetchLoop κ),
      st.core.curCycle ≤ (us.foldl simUop st).core.curCycle := by
    intro us
    induction us with
    | nil => exact fun st => le_refl _
    | cons u us ih => exact fun st => le_trans (fetch_simUop_curCycle st u) (ih _)
  exact key uops
    { core := { s with prevBbl := some b }, prevDecCycle := 0, lastCommitCycle := 0 }

theorem fetch_wrongPathLoop_clocks (fc : FilterCache κ) (lineSize wpa lcc n i : Nat)
    (r : FetchModel κ × Nat) :
    (wrongPathLoop fc lineSize wpa lcc n i r).1.curCycle = r.1.curCycle ∧
    (wrongPathLoop fc lineSize wpa lcc n i r).1.decodeCycle = r.1.decodeCycle := by
  induction n generalizing i r with
  | zero => exact ⟨rfl, rfl⟩
  | succ n ih =>
    obtain ⟨s, c⟩ := r
    simp only [wrongPathLoop]
    split_ifs
    · exact ⟨rfl, rfl⟩
    · exact ih _ _

theorem fetch_fetchLoop_clocks (fc : FilterCache κ) (stride endAddr fuel fetchAddr : Nat)
    (r : FetchModel κ × Nat) :
    (fetchLoop fc stride endAddr fuel fetchAddr r).1.curCycle = r.1.curCycle ∧
    (fetchLoop fc stride endAddr fuel fetchAddr r).1.decodeCycle = r.1.decodeCycle := by
  induction fuel generalizing fetchAddr r with
  | zero => exact ⟨rfl, rfl⟩
  | succ n ih =>
    obtain ⟨s, c⟩ := r
    simp only [fetchLoop]
    split_ifs
    · exact ih _ _
    · exact ⟨rfl, rfl⟩

theorem fetch_frontendBranch_clocks (fc : FilterCache κ) (lineSize lcc : Nat) (s : FetchModel κ)
    (fetchCycle : Nat) :
    (frontendBranch fc lineSize lcc s fetchCycle).1.curCycle = s.curCycle ∧
    (frontendBranch fc lineSize lcc s fetchCycle).1.decodeCycle = s.decodeCycle := by
  simp only [frontendBranch]
  split_ifs <;> first | exact ⟨rfl, rfl⟩ | exact fetch_wrongPathLoop_clocks fc _ _ _ _ _ _

theorem fetch_frontend_curCycle (fc : FilterCache κ) (lineBits lcc : Nat) (s : FetchModel κ)
    (a : Nat) (b : BblInfo) : (frontend fc lineBits lcc s a b).curCycle = s.curCycle := by
  simp only [frontend]
  split_ifs <;>
    simp only [(fetch_fetchLoop_clocks fc _ _ _ _ _).1, (fetch_frontendBranch_clocks fc _ _ _ _).1]

theorem fetch_step_curCycle (fc : FilterCache κ) (lineBits : Nat) (s s1 : FetchModel κ)
    (e : CoreEvent) (h : step fc lineBits s e = some s1) : s.curCycle ≤ s1.curCycle := by
  cases e with
  | load addr => simp only [step, Option.some.injEq] at h; subst h; exact le_refl _
  | store addr => simp only [step, Option.some.injEq] at h; subst h; exact le_refl _
  | predLoad addr pred => simp only [step, Option.some.injEq] at h; subst h; exact le_refl _
  | predStore addr pred => simp only [step, Option.some.injEq] at h; subst h; exact le_refl _
  | branch pc taken a b => simp only [step, Option.some.injEq] at h; subst h; exact le_refl _
  | bbl a b tp =>
    simp only [step, bbl] at h
    cases hp : s.prevBbl with
    | none =>
      simp only [hp, Option.some.injEq] at h; subst h; exact le_refl _
    | some prev =>
      simp only [hp, simulate] at h
      split_ifs at h
      simp only [Option.some.injEq] at h
      subst h
      rw [fetch_frontend_curCycle]
      exact fetch_simUops_curCycle s b _
  | contextSwitch gid =>
    simp only [step, Option.some.injEq] at h; subst h
    unfold contextSwitch; split_ifs <;> exact le_refl _
  | advance t =>
    simp only [step, advance] at h
    split_ifs at h with ht
    simp only [Option.some.injEq] at h
    subst h
    exact Nat.le_of_lt ht

end FetchModel

/-- C8. For `CacheModel` and `FetchModel`, every callback that returns (load,
store, predicated load and store, branch, bbl, contextSwitch, and advance,
whose assertion demands `targetCycle > curCycle`) leaves `curCycle` at least
as large as it found it; this holds with the 64-bit arithmetic of the code,
wrap-around included. -/
theorem curCycle_monotone {κ : Type} (fc : FilterCache κ) (lineBits : Nat) (e : CoreEvent)
    (s : CacheModel κ) (t : FetchModel κ) :
    (∀ s1, CacheModel.step fc lineBits s e = some s1 → s.curCycle ≤ s1.curCycle) ∧
    (∀ t1, FetchModel.step fc lineBits t e = some t1 → t.curCycle ≤ t1.curCycle) :=
  ⟨fun s1 h => CacheModel.cache_step_curCycle fc lineBits s s1 e h,
    fun t1 h => FetchModel.fetch_step_curCycle fc lineBits t t1 e h⟩

/-- Witness for C8: the `bbl` call that simulates a block of one uop of
latency 100, on a `CacheModel` and on a `FetchModel` with clocks
`curCycle = 0` and `decodeCycle = 4`; `curCycle` becomes 10 and 4. -/
theorem curCycle_monotone_witness :
    (∃ s1, CacheModel.step cache100 6
        { cacheModel0 0 0 with prevBbl := some (blockOf [generalUop 100 1 1]) }
        (.bbl 4096 (blockOf []) 1) = some s1 ∧
      ({ cacheModel0 0 0 with prevBbl := some (blockOf [generalUop 100 1 1]) } :
        CacheModel Unit).curCycle ≤ s1.curCycle ∧ s1.curCycle = 10) ∧
    (∃ t1, FetchModel.step cache100 6 (fetchModel0 0 4 (some (blockOf [generalUop 100 1 1])))
        (.bbl 4096 (blockOf []) 1) = some t1 ∧
      (fetchModel0 0 4 (some (blockOf [generalUop 100 1 1]))).curCycle ≤ t1.curCycle ∧
      t1.curCycle = 4) :=
  ⟨⟨_, rfl, (curCycle_monotone cache100 6 (.bbl 4096 (blockOf []) 1) _
      (fetchModel0 0 4 none)).1 _ rfl, rfl⟩,
    ⟨_, rfl, (curCycle_monotone cache100 6 (.bbl 4096 (blockOf []) 1)
      (cacheModel0 0 0) _).2 _ rfl, rfl⟩⟩

theorem w64_add_w64 (a b : Nat) : w64 (w64 a + b) = w64 (a + b) := by
  unfold w64
  omega

theorem w64_of_lt {a : Nat} (h : a < 2 ^ 64) : w64 a = a := by
  unfold w64
  omega

theorem sub64_of_lt {t c : Nat} (h : c < t) (hd : t - c < 2 ^ 64) : sub64 t c = t - c := by
  unfold sub64
  omega

theorem advance_decodeCycle (d c t : Nat) (h : c < t) (hd : d + (t - c) < 2 ^ 64) :
    d ≤ w64 (d + sub64 t c) := by
  rw [sub64_of_lt h (by omega), w64_of_lt hd]
  omega

theorem frontend_decodeCycle_step (d m : Nat) (hd : d + 1 < 2 ^ 64) :
    d ≤ (if m > w64 (d + 1) then m else w64 (d + 1)) := by
  rw [w64_of_lt hd]
  split_ifs <;> omega

namespace CacheModel

variable {κ : Type}

theorem cache_simUop_decodeCycle (fc : FilterCache κ) (st : CacheLoop κ) (uop : DynUop) :
    (simUop fc st uop).core.decodeCycle =
      w64 (st.core.decodeCycle + sub32 uop.decCycle st.prevDecCycle) ∧
    (simUop fc st uop).prevDecCycle = w32 uop.decCycle := by
  simp only [simUop, cache_uopLsu_decodeCycle, uopIssue, and_self]

theorem cache_foldl_simUop_decodeCycle (fc : FilterCache κ) (uops : List DynUop) (st : CacheLoop κ)
    (hw : st.core.decodeCycle + decodeSum uops st.prevDecCycle < 2 ^ 64) :
    (uops.foldl (simUop fc) st).core.decodeCycle =
      st.core.decodeCycle + decodeSum uops st.prevDecCycle := by
  induction uops generalizing st with
  | nil => simp [decodeSum]
  | cons u us ih =>
    simp only [decodeSum] at hw
    have h1 : (simUop fc st u).core.decodeCycle =
        st.core.decodeCycle + sub32 u.decCycle st.prevDecCycle := by
      rw [(cache_simUop_decodeCycle fc st u).1, w64_of_lt (by omega)]
    have h2 := (cache_simUop_decodeCycle fc st u).2
    rw [List.foldl_cons, ih _ (by rw [h1, h2]; omega), h1, h2]
    simp only [decodeSum]
    omega

theorem cache_frontend_decodeCycle_ge (lineBits : Nat) (s : CacheModel κ) (a : Nat) (b : BblInfo)
    (h : s.decodeCycle + 1 < 2 ^ 64) :
    s.decodeCycle + 1 ≤ (frontend lineBits s a b).decodeCycle := by
  simp only [frontend]
  split_ifs with hm
  · simp only [cache_fetchLoop_decodeCycle] at hm ⊢
    rw [w64_of_lt h] at hm
    omega
  · simp only [cache_fetchLoop_decodeCycle]
    rw [w64_of_lt h]

theorem cache_step_decodeCycle (fc : FilterCache κ) (lineBits : Nat) (s s1 : CacheModel κ)
    (e : CoreEvent) (h : step fc lineBits s e = some s1)
    (hw : DecodeNoWrap s.decodeCycle s.curCycle s.prevBbl e) :
    s.decodeCycle ≤ s1.decodeCycle := by
  cases e with
  | load addr => simp only [step, Option.some.injEq] at h; subst h; exact le_refl _
  | store addr => simp only [step, Option.some.injEq] at h; subst h; exact le_refl _
  | predLoad addr pred =>
    simp only [step, Option.some.injEq] at h; subst h
    unfold PredLoadFunc; split_ifs <;> exact le_refl _
  | predStore addr pred =>
    simp only [step, Option.some.injEq] at h; subst h
    unfold PredStoreFunc; split_ifs <;> exact le_refl _
  | branch pc taken a b => simp only [step, Option.some.injEq] at h; subst h; exact le_refl _
  | bbl a b tp =>
    simp only [step, bbl] at h
    cases hp : s.prevBbl with
    | none =>
      simp only [hp, Option.some.injEq] at h; subst h; exact le_refl _
    | some prev =>
      simp only [hp, simulate] at h
      simp only [DecodeNoWrap, hp] at hw
      split_ifs at h
      simp only [Option.some.injEq] at h
      subst h
      have hl : (simUops fc s b prev.oooBbl.uop).core.decodeCycle =
          s.decodeCycle + decodeSum prev.oooBbl.uop 0 :=
        cache_foldl_simUop_decodeCycle fc _
          { core := { s with prevBbl := some b }, loadIdx := 0, storeIdx := 0,
            prevDecCycle := 0 } (by simp only []; omega)
      refine le_trans ?_ (cache_frontend_decodeCycle_ge lineBits _ a b ?_)
      · simp only [hl]
        omega
      · simp only [hl]
        omega
  | contextSwitch gid =>
    simp only [step, Option.some.injEq] at h; subst h
    unfold contextSwitch; split_ifs <;> exact le_refl _
  | advance t =>
    simp only [step, advance] at h
    simp only [DecodeNoWrap] at hw
    split_ifs at h with ht
    simp only [Option.some.injEq] at h
    subst h
    exact advance_decodeCycle _ _ _ ht hw

theorem cache_run_decodeCycle (fc : FilterCache κ) (lineBits : Nat) (es : List CoreEvent)
    (s0 s : CacheModel κ) (n : Nat) (h0 : n ≤ s0.decodeCycle)
    (h : run fc lineBits s0 es = some s) (hw : DecodeNoWrapRun fc lineBits s0 es) :
    n ≤ s.decodeCycle := by
  induction es generalizing s0 with
  | nil =>
    simp only [run, Option.some.injEq] at h
    subst h
    exact h0
  | cons e es ih =>
    simp only [run] at h
    cases hs : step fc lineBits s0 e with
    | none => simp [hs] at h
    | some s1 =>
      simp only [hs, Option.some_bind] at h
      exact ih s1 (le_trans h0 (cache_step_decodeCycle fc lineBits s0 s1 e hs hw.1)) h (hw.2 s1 hs)

end CacheModel

namespace FetchModel

variable {κ : Type}

theorem fetch_simUop_decodeCycle (st : FetchLoop κ) (uop : DynUop) :
    (simUop st uop).core.decodeCycle =
      w64 (st.core.decodeCycle + sub32 uop.decCycle st.prevDecCycle) ∧
    (simUop st uop).prevDecCycle = w32 uop.decCycle := by
  simp only [simUop, and_self]

theorem fetch_foldl_simUop_decodeCycle (uops : List DynUop) (st : FetchLoop κ)
    (hw : st.core.decodeCycle + decodeSum uops st.prevDecCycle < 2 ^ 64) :
    (uops.foldl simUop st).core.decodeCycle =
      st.core.decodeCycle + decodeSum uops st.prevDecCycle := by
  induction uops generalizing st with
  | nil => simp [decodeSum]
  | cons u us ih =>
    simp only [decodeSum] at hw
    have h1 : (simUop st u).core.decodeCycle =
        st.core.decodeCycle + sub32 u.decCycle st.prevDecCycle := by
      rw [(fetch_simUop_decodeCycle st u).1, w64_of_lt (by omega)]
    have h2 := (fetch_simUop_decodeCycle st u).2
    rw [List.foldl_cons, ih _ (by rw [h1, h2]; omega), h1, h2]
    simp only [decodeSum]
    omega

theorem fetch_frontend_decodeCycle_ge (fc : FilterCache κ) (lineBits lcc : Nat) (s : FetchModel κ)
    (a : Nat) (b : BblInfo) (h : s.decodeCycle + 1 < 2 ^ 64) :
    s.decodeCycle + 1 ≤ (frontend fc lineBits lcc s a b).decodeCycle := by
  simp only [frontend]
  split_ifs with hm
  · simp only [(fetch_fetchLoop_clocks fc _ _ _ _ _).2, (fetch_frontendBranch_clocks fc _ _ _ _).2] at hm ⊢
    rw [w64_of_lt h] at hm
    omega
  · simp only [(fetch_fetchLoop_clocks fc _ _ _ _ _).2, (fetch_frontendBranch_clocks fc _ _ _ _).2]
    rw [w64_of_lt h]

theorem fetch_step_decodeCycle (fc : FilterCache κ) (lineBits : Nat) (s s1 : FetchModel κ)
    (e : CoreEvent) (h : step fc lineBits s e = some s1)
    (hw : DecodeNoWrap s.decodeCycle s.curCycle s.prevBbl e) :
    s.decodeCycle ≤ s1.decodeCycle := by
  cases e with
  | load addr => simp only [step, Option.some.injEq] at h; subst h; exact le_refl _
  | store addr => simp only [step, Option.some.injEq] at h; subst h; exact le_refl _
  | predLoad addr pred => simp only [step, Option.some.injEq] at h; subst h; exact le_refl _
  | predStore addr pred => simp only [step, Option.some.injEq] at h; subst h; exact le_refl _
  | branch pc taken a b => simp only [step, Option.some.injEq] at h; subst h; exact le_refl _
  | bbl a b tp =>
    simp only [step, bbl] at h
    cases hp : s.prevBbl with
    | none =>
      simp only [hp, Option.some.injEq] at h; subst h; exact le_refl _
    | some prev =>
      simp only [hp, simulate] at h
      simp only [DecodeNoWrap, hp] at hw
      split_ifs at h
      simp only [Option.some.injEq] at h
      subst h
      have hl : (simUops s b prev.oooBbl.uop).core.decodeCycle =
          s.decodeCycle + decodeSum prev.oooBbl.uop 0 :=
        fetch_foldl_simUop_decodeCycle _
          { core := { s with prevBbl := some b }, prevDecCycle := 0, lastCommitCycle := 0 }
          (by simp only []; omega)
      refine le_trans ?_ (fetch_frontend_decodeCycle_ge fc lineBits _ _ a b ?_)
      · simp only [hl]
        omega
      · simp only [hl]
        omega
  | contextSwitch gid =>
    simp only [step, Option.some.injEq] at h; subst h
    unfold contextSwitch; split_ifs <;> exact le_refl _
  | advance t =>
    simp only [step, advance] at h
    simp only [DecodeNoWrap] at hw
    split_ifs at h with ht
    simp only [Option.some.injEq] at h
    subst h
    exact advance_decodeCycle _ _ _ ht hw

theorem fetch_run_decodeCycle (fc : FilterCache κ) (lineBits : Nat) (es : List CoreEvent)
    (s0 s : FetchModel κ) (n : Nat) (h0 : n ≤ s0.decodeCycle)
    (h : run fc lineBits s0 es = some s) (hw : DecodeNoWrapRun fc lineBits s0 es) :
    n ≤ s.decodeCycle := by
  induction es generalizing s0 with
  | nil =>
    simp only [run, Option.some.injEq] at h
    subst h
    exact h0
  | cons e es ih =>
    simp only [run] at h
    cases hs : step fc lineBits s0 e with
    | none => simp [hs] at h
    | some s1 =>
      simp only [hs, Option.some_bind] at h
      exact ih s1 (le_trans h0 (fetch_step_decodeCycle fc lineBits s0 s1 e hs hw.1)) h (hw.2 s1 hs)

theorem fetch_new_decodeCycle (l1i : κ) (fb tn ti pl : Nat) (bt : Bool) (a b : Nat)
    (t0 : FetchModel κ) (h : FetchModel.new l1i fb tn ti pl bt a b = some t0) :
    t0.decodeCycle = DECODE_STAGE := by
  simp only [FetchModel.new, Option.map_eq_some'] at h
  obtain ⟨p, -, hp⟩ := h
  rw [← hp]

end FetchModel

/-- C9. For `CacheModel` and `FetchModel`: a callback that returns and whose
additions to `decodeCycle` do not wrap around 64 bits leaves the stored
`decodeCycle` at least as large as it found it; and after any run of such
callbacks from the constructed state (`decodeCycle = DECODE_STAGE = 4`),
`decodeCycle ≥ FETCH_STAGE = 1`. -/
theorem decodeCycle_monotone {κ : Type} (fc : FilterCache κ) (lineBits : Nat) :
    (∀ (s s1 : CacheModel κ) (e : CoreEvent), CacheModel.step fc lineBits s e = some s1 →
      DecodeNoWrap s.decodeCycle s.curCycle s.prevBbl e → s.decodeCycle ≤ s1.decodeCycle) ∧
    (∀ (l1d : κ) (phaseLength : Nat) (loadAddrs storeAddrs : Nat → Nat) (loads stores : Nat)
      (es : List CoreEvent) (s : CacheModel κ),
      CacheModel.run fc lineBits
        (CacheModel.new l1d phaseLength loadAddrs storeAddrs loads stores) es = some s →
      CacheModel.DecodeNoWrapRun fc lineBits
        (CacheModel.new l1d phaseLength loadAddrs storeAddrs loads stores) es →
      FETCH_STAGE ≤ s.decodeCycle) ∧
    (∀ (t t1 : FetchModel κ) (e : CoreEvent), FetchModel.step fc lineBits t e = some t1 →
      DecodeNoWrap t.decodeCycle t.curCycle t.prevBbl e → t.decodeCycle ≤ t1.decodeCycle) ∧
    (∀ (l1i : κ) (fetch_bytes_per_cycle tage_num_tables tage_index_size phaseLength : Nat)
      (branchTaken : Bool) (branchTakenNpc branchNotTakenNpc : Nat) (t0 t : FetchModel κ)
      (es : List CoreEvent),
      FetchModel.new l1i fetch_bytes_per_cycle tage_num_tables tage_index_size phaseLength
        branchTaken branchTakenNpc branchNotTakenNpc = some t0 →
      FetchModel.run fc lineBits t0 es = some t →
      FetchModel.DecodeNoWrapRun fc lineBits t0 es →
      FETCH_STAGE ≤ t.decodeCycle) := by
  refine ⟨fun s s1 e h hw => CacheModel.cache_step_decodeCycle fc lineBits s s1 e h hw, ?_,
    fun t t1 e h hw => FetchModel.fetch_step_decodeCycle fc lineBits t t1 e h hw, ?_⟩
  · intro l1d pl la sa lo st es s h hw
    exact CacheModel.cache_run_decodeCycle fc lineBits es _ s FETCH_STAGE
      (show FETCH_STAGE ≤ DECODE_STAGE by decide) h hw
  · intro l1i fb tn ti pl bt a b t0 t es h0 h hw
    refine FetchModel.fetch_run_decodeCycle fc lineBits es t0 t FETCH_STAGE ?_ h hw
    rw [FetchModel.fetch_new_decodeCycle l1i fb tn ti pl bt a b t0 h0]
    decide

/-- Witness for C9: on a freshly constructed `CacheModel`, the first `bbl`
call and the `bbl` call that simulates a block of one uop; and on a
`FetchModel` with `decodeCycle = 4` the `bbl` call that simulates the same
block. -/
theorem decodeCycle_monotone_witness :
    (∃ s1, CacheModel.step cache100 6
        { cacheModel0 0 0 with prevBbl := some (blockOf [generalUop 100 1 1]) }
        (.bbl 4096 (blockOf []) 1) = some s1 ∧
      ({ cacheModel0 0 0 with prevBbl := some (blockOf [generalUop 100 1 1]) } :
        CacheModel Unit).decodeCycle ≤ s1.decodeCycle ∧ s1.decodeCycle = 7) ∧
    (∃ s2, CacheModel.run cache100 6 (cacheModel0 0 0)
        [.bbl 4092 (blockOf [generalUop 100 1 1]) 0, .bbl 4096 (blockOf []) 1] = some s2 ∧
      FETCH_STAGE ≤ s2.decodeCycle ∧ s2.decodeCycle = 7) ∧
    (∃ t1, FetchModel.step cache100 6 (fetchModel0 0 4 (some (blockOf [generalUop 100 1 1])))
        (.bbl 4096 (blockOf []) 1) = some t1 ∧
      (fetchModel0 0 4 (some (blockOf [generalUop 100 1 1]))).decodeCycle ≤ t1.decodeCycle ∧
      t1.decodeCycle = 104) :=
  ⟨⟨_, rfl, (decodeCycle_monotone cache100 6).1 _ _ (.bbl 4096 (blockOf []) 1) rfl
      (by decide), rfl⟩,
    ⟨_, rfl, (decodeCycle_monotone cache100 6).2.1 () 1000 (fun _ => 0) (fun _ => 0) 0 0
      [.bbl 4092 (blockOf [generalUop 100 1 1]) 0, .bbl 4096 (blockOf []) 1] _ rfl
      ⟨trivial, fun s1 h => by
        cases h
        exact ⟨by decide, fun _ _ => trivial⟩⟩, rfl⟩,
    ⟨_, rfl, (decodeCycle_monotone cache100 6).2.2.1 _ _ (.bbl 4096 (blockOf []) 1) rfl
      (by decide), rfl⟩⟩

theorem simulatedInstrs_last (bs : List BblInfo) (p : Option BblInfo) (last : BblInfo)
    (h : bs.getLast? = some last) :
    simulatedInstrs p bs + w32 last.instrs =
      (match p with | none => 0 | some q => w32 q.instrs) +
        (bs.map fun b => w32 b.instrs).sum := by
  induction bs generalizing p with
  | nil => simp at h
  | cons b bs ih =>
    cases bs with
    | nil =>
      simp only [List.getLast?_singleton, Option.some.injEq] at h
      subst h
      cases p <;> simp [simulatedInstrs]
    | cons c cs =>
      have h2 : (c :: cs).getLast? = some last := by
        rw [← h, List.getLast?_cons_cons]
      have := ih (some b) h2
      cases p with
      | none =>
        simp only [simulatedInstrs, List.map_cons, List.sum_cons] at this ⊢
        omega
      | some q =>
        simp only [simulatedInstrs, List.map_cons, List.sum_cons] at this ⊢
        omega

theorem getLast?_cons_or (b : BblInfo) (bs : List BblInfo) (p : Option BblInfo) :
    ((b :: bs).getLast?).or p = (bs.getLast?).or (some b) := by
  cases bs with
  | nil => simp
  | cons c cs =>
    rw [List.getLast?_cons_cons]
    cases h : (c :: cs).getLast? with
    | none => simp at h
    | some x => simp

theorem simulatedInstrs_none_cons (b : BblInfo) (bs : List BblInfo) :
    simulatedInstrs none (b :: bs) = simulatedInstrs (some b) bs := rfl

theorem simulatedInstrs_some_cons (p b : BblInfo) (bs : List BblInfo) :
    simulatedInstrs (some p) (b :: bs) = w32 p.instrs + simulatedInstrs (some b) bs := rfl

namespace CacheModel

variable {κ : Type}

theorem cache_uopLsu_frame (fc : FilterCache κ) (s : CacheModel κ) (li si d : Nat) (uop : DynUop) :
    (uopLsu fc s li si d uop).1.prevBbl = s.prevBbl ∧
    (uopLsu fc s li si d uop).1.instrs = s.instrs := by
  unfold uopLsu
  cases uop.type <;> (dsimp only; try split_ifs) <;> exact ⟨rfl, rfl⟩

theorem cache_simUop_frame (fc : FilterCache κ) (st : CacheLoop κ) (uop : DynUop) :
    (simUop fc st uop).core.prevBbl = st.core.prevBbl ∧
    (simUop fc st uop).core.instrs = st.core.instrs := by
  simp only [simUop, (cache_uopLsu_frame fc _ _ _ _ _).1, (cache_uopLsu_frame fc _ _ _ _ _).2, uopIssue,
    and_self]

theorem cache_foldl_simUop_frame (fc : FilterCache κ) (uops : List DynUop) (st : CacheLoop κ) :
    (uops.foldl (simUop fc) st).core.prevBbl = st.core.prevBbl ∧
    (uops.foldl (simUop fc) st).core.instrs = st.core.instrs := by
  induction uops generalizing st with
  | nil => exact ⟨rfl, rfl⟩
  | cons u us ih =>
    rw [List.foldl_cons, (ih _).1, (ih _).2]
    exact cache_simUop_frame fc st u

theorem cache_fetchLoop_frame (lineSize endAddr fuel fetchAddr : Nat) (r : CacheModel κ × Nat) :
    (fetchLoop lineSize endAddr fuel fetchAddr r).1.prevBbl = r.1.prevBbl ∧
    (fetchLoop lineSize endAddr fuel fetchAddr r).1.instrs = r.1.instrs := by
  induction fuel generalizing fetchAddr r with
  | zero => exact ⟨rfl, rfl⟩
  | succ n ih =>
    obtain ⟨s, c⟩ := r
    simp only [fetchLoop]
    split_ifs
    · exact ih _ _
    · exact ⟨rfl, rfl⟩

theorem cache_frontend_frame (lineBits : Nat) (s : CacheModel κ) (a : Nat) (b : BblInfo) :
    (frontend lineBits s a b).prevBbl = s.prevBbl ∧
    (frontend lineBits s a b).instrs = s.instrs := by
  simp only [frontend]
  split_ifs <;>
    simp only [(cache_fetchLoop_frame _ _ _ _ _).1, (cache_fetchLoop_frame _ _ _ _ _).2, and_self]

theorem cache_simulate_frame (fc : FilterCache κ) (lineBits tp : Nat) (s s2 : CacheModel κ)
    (prev : BblInfo) (a : Nat) (b : BblInfo)
    (h : simulate fc lineBits tp s prev a b = some s2) :
    s2.prevBbl = some b ∧ s2.instrs = w64 (s.instrs + w32 prev.instrs) := by
  simp only [simulate] at h
  split_ifs at h
  simp only [Option.some.injEq] at h
  subst h
  simp only [(cache_frontend_frame _ _ _ _).1, (cache_frontend_frame _ _ _ _).2, simUops,
    (cache_foldl_simUop_frame fc _ _).1, (cache_foldl_simUop_frame fc _ _).2, and_self]

theorem cache_step_frame (fc : FilterCache κ) (lineBits : Nat) (s s1 : CacheModel κ) (e : CoreEvent)
    (h : step fc lineBits s e = some s1) (hc : e.isContextSwitch = false)
    (hb : CoreEvent.bbls [e] = []) : s1.prevBbl = s.prevBbl ∧ s1.instrs = s.instrs := by
  cases e with
  | load addr => simp only [step, Option.some.injEq] at h; subst h; exact ⟨rfl, rfl⟩
  | store addr => simp only [step, Option.some.injEq] at h; subst h; exact ⟨rfl, rfl⟩
  | predLoad addr pred =>
    simp only [step, Option.some.injEq] at h; subst h
    unfold PredLoadFunc; split_ifs <;> exact ⟨rfl, rfl⟩
  | predStore addr pred =>
    simp only [step, Option.some.injEq] at h; subst h
    unfold PredStoreFunc; split_ifs <;> exact ⟨rfl, rfl⟩
  | branch pc taken a b => simp only [step, Option.some.injEq] at h; subst h; exact ⟨rfl, rfl⟩
  | bbl a b tp => simp [CoreEvent.bbls] at hb
  | contextSwitch gid => simp [CoreEvent.isContextSwitch] at hc
  | advance t =>
    simp only [step, advance] at h
    split_ifs at h with ht
    simp only [Option.some.injEq] at h
    subst h
    exact ⟨rfl, rfl⟩

theorem cache_run_frame (fc : FilterCache κ) (lineBits : Nat) (es : List CoreEvent)
    (s s1 : CacheModel κ) (hc : ∀ e ∈ es, e.isContextSwitch = false)
    (h : run fc lineBits s es = some s1) :
    s1.prevBbl = ((CoreEvent.bbls es).getLast?).or s.prevBbl ∧
    w64 s1.instrs = w64 (s.instrs + simulatedInstrs s.prevBbl (CoreEvent.bbls es)) := by
  induction es generalizing s with
  | nil =>
    simp only [run, Option.some.injEq] at h
    subst h
    exact ⟨by simp [CoreEvent.bbls], by simp [CoreEvent.bbls, simulatedInstrs]⟩
  | cons e es ih =>
    simp only [run] at h
    cases hs : step fc lineBits s e with
    | none => simp [hs] at h
    | some s2 =>
      simp only [hs, Option.some_bind] at h
      have hc2 : ∀ x ∈ es, x.isContextSwitch = false :=
        fun x hx => hc x (List.mem_cons_of_mem _ hx)
      have hce := hc e (List.mem_cons_self _ _)
      obtain ⟨i1, i2⟩ := ih s2 hc2 h
      by_cases hb : ∃ a b tp, e = CoreEvent.bbl a b tp
      · obtain ⟨a, b, tp, rfl⟩ := hb
        simp only [step, bbl] at hs
        cases hp : s.prevBbl with
        | none =>
          simp only [hp, Option.some.injEq] at hs
          subst hs
          simp only [CoreEvent.bbls, getLast?_cons_or, simulatedInstrs_none_cons]
          exact ⟨i1, i2⟩
        | some prev =>
          simp only [hp] at hs
          have hf := cache_simulate_frame fc lineBits tp s s2 prev a b hs
          simp only [CoreEvent.bbls, getLast?_cons_or, simulatedInstrs_some_cons]
          rw [hf.1] at i1 i2
          refine ⟨i1, ?_⟩
          rw [i2, hf.2]
          simp only [w64]
          omega
      · have hbl : CoreEvent.bbls [e] = [] := by
          cases e <;> first | rfl | exact absurd ⟨_, _, _, rfl⟩ hb
        have hbl2 : CoreEvent.bbls (e :: es) = CoreEvent.bbls es := by
          cases e <;> first | rfl | exact absurd ⟨_, _, _, rfl⟩ hb
        obtain ⟨f1, f2⟩ := cache_step_frame fc lineBits s s2 e hs hce hbl
        rw [hbl2, ← f1, ← f2]
        exact ⟨i1, i2⟩

end CacheModel

namespace CacheModel

variable {κ : Type}

theorem cache_uopLsu_withPrevBbl (fc : FilterCache κ) (p : Option BblInfo) (s : CacheModel κ)
    (li si d : Nat) (uop : DynUop) :
    uopLsu fc (s.withPrevBbl p) li si d uop =
      ((uopLsu fc s li si d uop).1.withPrevBbl p, (uopLsu fc s li si d uop).2) := by
  unfold uopLsu
  cases uop.type <;> (dsimp only [withPrevBbl]; try split_ifs) <;> rfl

theorem cache_simUop_withPrevBbl (fc : FilterCache κ) (p : Option BblInfo) (st : CacheLoop κ)
    (uop : DynUop) :
    simUop fc (st.withPrevBbl p) uop = (simUop fc st uop).withPrevBbl p := by
  have h1 : (st.withPrevBbl p).core.uopIssue (st.withPrevBbl p).prevDecCycle uop =
      ((st.core.uopIssue st.prevDecCycle uop).1.withPrevBbl p,
        (st.core.uopIssue st.prevDecCycle uop).2) := rfl
  simp only [simUop, h1, cache_uopLsu_withPrevBbl]
  rfl

theorem cache_foldl_simUop_withPrevBbl (fc : FilterCache κ) (p : Option BblInfo)
    (uops : List DynUop) (st : CacheLoop κ) :
    uops.foldl (simUop fc) (st.withPrevBbl p) = (uops.foldl (simUop fc) st).withPrevBbl p := by
  induction uops generalizing st with
  | nil => rfl
  | cons u us ih => rw [List.foldl_cons, cache_simUop_withPrevBbl, ih, List.foldl_cons]

theorem cache_fetchLoop_withPrevBbl (p : Option BblInfo) (lineSize endAddr fuel fetchAddr : Nat)
    (s : CacheModel κ) (c : Nat) :
    fetchLoop lineSize endAddr fuel fetchAddr (s.withPrevBbl p, c) =
      ((fetchLoop lineSize endAddr fuel fetchAddr (s, c)).1.withPrevBbl p,
        (fetchLoop lineSize endAddr fuel fetchAddr (s, c)).2) := by
  induction fuel generalizing fetchAddr s c with
  | zero => rfl
  | succ n ih =>
    simp only [fetchLoop]
    split_ifs
    · exact ih (w64 (fetchAddr + lineSize))
        { s with cRec := s.cRec ++ [(s.curCycle, s.curCycle, w64 (s.curCycle + L1I_LAT))] }
        (w64 (c + L1I_LAT))
    · rfl

theorem cache_withPrevBbl_decodeCycle (p : Option BblInfo) (s : CacheModel κ) :
    (s.withPrevBbl p).decodeCycle = s.decodeCycle := rfl

theorem cache_frontend_withPrevBbl (p : Option BblInfo) (lineBits : Nat) (s : CacheModel κ) (a : Nat)
    (b : BblInfo) :
    frontend lineBits (s.withPrevBbl p) a b = (frontend lineBits s a b).withPrevBbl p := by
  simp only [frontend, cache_withPrevBbl_decodeCycle, cache_fetchLoop_withPrevBbl]
  split_ifs <;> rfl

theorem cache_frontend_bytes (lineBits : Nat) (s : CacheModel κ) (a : Nat) (b b2 : BblInfo)
    (h : b2.bytes = b.bytes) : frontend lineBits s a b2 = frontend lineBits s a b := by
  simp only [frontend, h]

theorem cache_withPrevBbl_withPrevBbl (p q : Option BblInfo) (s : CacheModel κ) :
    (s.withPrevBbl p).withPrevBbl q = s.withPrevBbl q := rfl

theorem cache_simulate_eq (fc : FilterCache κ) (lineBits tp : Nat) (s : CacheModel κ)
    (prev : BblInfo) (a : Nat) (b : BblInfo) :
    simulate fc lineBits tp s prev a b =
      if w64 ((prev.oooBbl.uop.foldl (simUop fc)
            { core := s, loadIdx := 0, storeIdx := 0, prevDecCycle := 0 }).core.instrs +
            w32 prev.instrs) = tp ∧
          (prev.oooBbl.uop.foldl (simUop fc)
            { core := s, loadIdx := 0, storeIdx := 0, prevDecCycle := 0 }).loadIdx =
          (prev.oooBbl.uop.foldl (simUop fc)
            { core := s, loadIdx := 0, storeIdx := 0, prevDecCycle := 0 }).core.loads ∧
          (prev.oooBbl.uop.foldl (simUop fc)
            { core := s, loadIdx := 0, storeIdx := 0, prevDecCycle := 0 }).storeIdx =
          (prev.oooBbl.uop.foldl (simUop fc)
            { core := s, loadIdx := 0, storeIdx := 0, prevDecCycle := 0 }).core.stores then
        some ((frontend lineBits
          { (prev.oooBbl.uop.foldl (simUop fc)
              { core := s, loadIdx := 0, storeIdx := 0, prevDecCycle := 0 }).core with
            instrs := w64 ((prev.oooBbl.uop.foldl (simUop fc)
              { core := s, loadIdx := 0, storeIdx := 0, prevDecCycle := 0 }).core.instrs +
              w32 prev.instrs)
            loads := 0
            stores := 0 } a b).withPrevBbl (some b))
      else none := by
  have key : simUops fc s b prev.oooBbl.uop =
      (prev.oooBbl.uop.foldl (simUop fc)
        { core := s, loadIdx := 0, storeIdx := 0, prevDecCycle := 0 }).withPrevBbl (some b) :=
    cache_foldl_simUop_withPrevBbl fc (some b) _
      { core := s, loadIdx := 0, storeIdx := 0, prevDecCycle := 0 }
  simp only [simulate, key]
  generalize prev.oooBbl.uop.foldl (simUop fc)
    { core := s, loadIdx := 0, storeIdx := 0, prevDecCycle := 0 } = st
  rw [← cache_frontend_withPrevBbl]
  rfl

theorem cache_simulate_withPrevBbl (fc : FilterCache κ) (lineBits tp : Nat) (s : CacheModel κ)
    (prev : BblInfo) (a : Nat) (b b2 : BblInfo) (h : b2.bytes = b.bytes)
    (q : Option BblInfo) :
    (simulate fc lineBits tp s prev a b2).map (withPrevBbl q) =
      (simulate fc lineBits tp s prev a b).map (withPrevBbl q) := by
  rw [cache_simulate_eq, cache_simulate_eq]
  split_ifs
  · simp only [Option.map_some', cache_withPrevBbl_withPrevBbl, cache_frontend_bytes lineBits _ a b b2 h]
  · rfl

end CacheModel

namespace FetchModel

variable {κ : Type}

theorem fetch_simUop_frame (st : FetchLoop κ) (uop : DynUop) :
    (simUop st uop).core.prevBbl = st.core.prevBbl ∧
    (simUop st uop).core.instrs = st.core.instrs := ⟨rfl, rfl⟩

theorem fetch_foldl_simUop_frame (uops : List DynUop) (st : FetchLoop κ) :
    (uops.foldl simUop st).core.prevBbl = st.core.prevBbl ∧
    (uops.foldl simUop st).core.instrs = st.core.instrs := by
  induction uops generalizing st with
  | nil => exact ⟨rfl, rfl⟩
  | cons u us ih =>
    rw [List.foldl_cons, (ih _).1, (ih _).2]
    exact fetch_simUop_frame st u

theorem fetch_wrongPathLoop_frame (fc : FilterCache κ) (lineSize wpa lcc n i : Nat)
    (r : FetchModel κ × Nat) :
    (wrongPathLoop fc lineSize wpa lcc n i r).1.prevBbl = r.1.prevBbl ∧
    (wrongPathLoop fc lineSize wpa lcc n i r).1.instrs = r.1.instrs := by
  induction n generalizing i r with
  | zero => exact ⟨rfl, rfl⟩
  | succ n ih =>
    obtain ⟨s, c⟩ := r
    simp only [wrongPathLoop]
    split_ifs
    · exact ⟨rfl, rfl⟩
    · exact ih _ _

theorem fetch_fetchLoop_frame (fc : FilterCache κ) (stride endAddr fuel fetchAddr : Nat)
    (r : FetchModel κ × Nat) :
    (fetchLoop fc stride endAddr fuel fetchAddr r).1.prevBbl = r.1.prevBbl ∧
    (fetchLoop fc stride endAddr fuel fetchAddr r).1.instrs = r.1.instrs := by
  induction fuel generalizing fetchAddr r with
  | zero => exact ⟨rfl, rfl⟩
  | succ n ih =>
    obtain ⟨s, c⟩ := r
    simp only [fetchLoop]
    split_ifs
    · exact ih _ _
    · exact ⟨rfl, rfl⟩

theorem fetch_frontendBranch_frame (fc : FilterCache κ) (lineSize lcc : Nat) (s : FetchModel κ)
    (fetchCycle : Nat) :
    (frontendBranch fc lineSize lcc s fetchCycle).1.prevBbl = s.prevBbl ∧
    (frontendBranch fc lineSize lcc s fetchCycle).1.instrs = s.instrs := by
  simp only [frontendBranch]
  split_ifs <;> first | exact ⟨rfl, rfl⟩ | exact fetch_wrongPathLoop_frame fc _ _ _ _ _ _

theorem fetch_frontend_frame (fc : FilterCache κ) (lineBits lcc : Nat) (s : FetchModel κ) (a : Nat)
    (b : BblInfo) :
    (frontend fc lineBits lcc s a b).prevBbl = s.prevBbl ∧
    (frontend fc lineBits lcc s a b).instrs = s.instrs := by
  simp only [frontend]
  split_ifs <;>
    simp only [(fetch_fetchLoop_frame fc _ _ _ _ _).1, (fetch_fetchLoop_frame fc _ _ _ _ _).2,
      (fetch_frontendBranch_frame fc _ _ _ _).1, (fetch_frontendBranch_frame fc _ _ _ _).2, and_self]

theorem fetch_simulate_frame (fc : FilterCache κ) (lineBits tp : Nat) (s s2 : FetchModel κ)
    (prev : BblInfo) (a : Nat) (b : BblInfo)
    (h : simulate fc lineBits tp s prev a b = some s2) :
    s2.prevBbl = some b ∧ s2.instrs = w64 (s.instrs + w32 prev.instrs) := by
  simp only [simulate] at h
  split_ifs at h
  simp only [Option.some.injEq] at h
  subst h
  simp only [(fetch_frontend_frame fc _ _ _ _ _).1, (fetch_frontend_frame fc _ _ _ _ _).2, simUops,
    (fetch_foldl_simUop_frame _ _).1, (fetch_foldl_simUop_frame _ _).2, and_self]

theorem fetch_step_frame (fc : FilterCache κ) (lineBits : Nat) (s s1 : FetchModel κ) (e : CoreEvent)
    (h : step fc lineBits s e = some s1) (hc : e.isContextSwitch = false)
    (hb : CoreEvent.bbls [e] = []) : s1.prevBbl = s.prevBbl ∧ s1.instrs = s.instrs := by
  cases e with
  | load addr => simp only [step, Option.some.injEq] at h; subst h; exact ⟨rfl, rfl⟩
  | store addr => simp only [step, Option.some.injEq] at h; subst h; exact ⟨rfl, rfl⟩
  | predLoad addr pred => simp only [step, Option.some.injEq] at h; subst h; exact ⟨rfl, rfl⟩
  | predStore addr pred => simp only [step, Option.some.injEq] at h; subst h; exact ⟨rfl, rfl⟩
  | branch pc taken a b => simp only [step, Option.some.injEq] at h; subst h; exact ⟨rfl, rfl⟩
  | bbl a b tp => simp [CoreEvent.bbls] at hb
  | contextSwitch gid => simp [CoreEvent.isContextSwitch] at hc
  | advance t =>
    simp only [step, advance] at h
    split_ifs at h with ht
    simp only [Option.some.injEq] at h
    subst h
    exact ⟨rfl, rfl⟩

theorem fetch_run_frame (fc : FilterCache κ) (lineBits : Nat) (es : List CoreEvent)
    (s s1 : FetchModel κ) (hc : ∀ e ∈ es, e.isContextSwitch = false)
    (h : run fc lineBits s es = some s1) :
    s1.prevBbl = ((CoreEvent.bbls es).getLast?).or s.prevBbl ∧
    w64 s1.instrs = w64 (s.instrs + simulatedInstrs s.prevBbl (CoreEvent.bbls es)) := by
  induction es generalizing s with
  | nil =>
    simp only [run, Option.some.injEq] at h
    subst h
    exact ⟨by simp [CoreEvent.bbls], by simp [CoreEvent.bbls, simulatedInstrs]⟩
  | cons e es ih =>
    simp only [run] at h
    cases hs : step fc lineBits s e with
    | none => simp [hs] at h
    | some s2 =>
      simp only [hs, Option.some_bind] at h
      have hc2 : ∀ x ∈ es, x.isContextSwitch = false :=
        fun x hx => hc x (List.mem_cons_of_mem _ hx)
      have hce := hc e (List.mem_cons_self _ _)
      obtain ⟨i1, i2⟩ := ih s2 hc2 h
      by_cases hb : ∃ a b tp, e = CoreEvent.bbl a b tp
      · obtain ⟨a, b, tp, rfl⟩ := hb
        simp only [step, bbl] at hs
        cases hp : s.prevBbl with
        | none =>
          simp only [hp, Option.some.injEq] at hs
          subst hs
          simp only [CoreEvent.bbls, getLast?_cons_or, simulatedInstrs_none_cons]
          exact ⟨i1, i2⟩
        | some prev =>
          simp only [hp] at hs
          have hf := fetch_simulate_frame fc lineBits tp s s2 prev a b hs
          simp only [CoreEvent.bbls, getLast?_cons_or, simulatedInstrs_some_cons]
          rw [hf.1] at i1 i2
          refine ⟨i1, ?_⟩
          rw [i2, hf.2]
          simp only [w64]
          omega
      · have hbl : CoreEvent.bbls [e] = [] := by
          cases e <;> first | rfl | exact absurd ⟨_, _, _, rfl⟩ hb
        have hbl2 : CoreEvent.bbls (e :: es) = CoreEvent.bbls es := by
          cases e <;> first | rfl | exact absurd ⟨_, _, _, rfl⟩ hb
        obtain ⟨f1, f2⟩ := fetch_step_frame fc lineBits s s2 e hs hce hbl
        rw [hbl2, ← f1, ← f2]
        exact ⟨i1, i2⟩

theorem fetch_simUop_withPrevBbl (p : Option BblInfo) (st : FetchLoop κ) (uop : DynUop) :
    simUop (st.withPrevBbl p) uop = (simUop st uop).withPrevBbl p := rfl

theorem fetch_foldl_simUop_withPrevBbl (p : Option BblInfo) (uops : List DynUop)
    (st : FetchLoop κ) :
    uops.foldl simUop (st.withPrevBbl p) = (uops.foldl simUop st).withPrevBbl p := by
  induction uops generalizing st with
  | nil => rfl
  | cons u us ih => rw [List.foldl_cons, fetch_simUop_withPrevBbl, ih, List.foldl_cons]

theorem fetch_wrongPathLoop_withPrevBbl (fc : FilterCache κ) (p : Option BblInfo)
    (lineSize wpa lcc n i : Nat) (s : FetchModel κ) (c : Nat) :
    wrongPathLoop fc lineSize wpa lcc n i (s.withPrevBbl p, c) =
      ((wrongPathLoop fc lineSize wpa lcc n i (s, c)).1.withPrevBbl p,
        (wrongPathLoop fc lineSize wpa lcc n i (s, c)).2) := by
  induction n generalizing i s c with
  | zero => rfl
  | succ n ih =>
    simp only [wrongPathLoop]
    have h1 : (s.withPrevBbl p).curCycle = s.curCycle := rfl
    have h2 : (s.withPrevBbl p).l1i = s.l1i := rfl
    have h3 : (s.withPrevBbl p).fetch_bytes_per_cycle = s.fetch_bytes_per_cycle := rfl
    simp only [h1, h2, h3]
    split_ifs
    · rfl
    · exact ih (w32 (i + 1))
        { s with
            l1i := (fc.load s.l1i (w64 (wpa + w32 (lineSize * i))) s.curCycle).2
            cRec := s.cRec ++ [(s.curCycle, s.curCycle,
              w64 (s.curCycle +
                sub64 (fc.load s.l1i (w64 (wpa + w32 (lineSize * i))) s.curCycle).1
                  s.curCycle))] } _

theorem fetch_fetchLoop_withPrevBbl (fc : FilterCache κ) (p : Option BblInfo)
    (stride endAddr fuel fetchAddr : Nat) (s : FetchModel κ) (c : Nat) :
    fetchLoop fc stride endAddr fuel fetchAddr (s.withPrevBbl p, c) =
      ((fetchLoop fc stride endAddr fuel fetchAddr (s, c)).1.withPrevBbl p,
        (fetchLoop fc stride endAddr fuel fetchAddr (s, c)).2) := by
  induction fuel generalizing fetchAddr s c with
  | zero => rfl
  | succ n ih =>
    simp only [fetchLoop]
    split_ifs
    · exact ih (w64 (fetchAddr + stride))
        { s with
            l1i := (fc.load s.l1i fetchAddr s.curCycle).2
            cRec := s.cRec ++ [(s.curCycle, s.curCycle,
              w64 (s.curCycle + sub64 (fc.load s.l1i fetchAddr s.curCycle).1 s.curCycle))] } _
    · rfl

theorem fetch_frontendBranch_withPrevBbl (fc : FilterCache κ) (p : Option BblInfo)
    (lineSize lcc : Nat) (s : FetchModel κ) (c : Nat) :
    frontendBranch fc lineSize lcc (s.withPrevBbl p) c =
      ((frontendBranch fc lineSize lcc s c).1.withPrevBbl p,
        (frontendBranch fc lineSize lcc s c).2) := by
  have h1 : (s.withPrevBbl p).branchPc = s.branchPc := rfl
  have h2 : (s.withPrevBbl p).branchTaken = s.branchTaken := rfl
  have h3 : (s.withPrevBbl p).branchPred = s.branchPred := rfl
  have h4 : (s.withPrevBbl p).branchTakenNpc = s.branchTakenNpc := rfl
  have h5 : (s.withPrevBbl p).branchNotTakenNpc = s.branchNotTakenNpc := rfl
  simp only [frontendBranch, h1, h2, h3, h4, h5]
  generalize s.branchPred.predict s.branchPc s.branchTaken
    (if s.branchTaken = true then s.branchTakenNpc else s.branchNotTakenNpc) = pr
  by_cases hb : s.branchPc = 0
  · simp only [hb, ne_eq, not_true_eq_false, if_false]
    rfl
  · simp only [hb, ne_eq, not_false_eq_true, if_true]
    by_cases hp : pr.1 = false
    · simp only [hp, if_true]
      exact congrArg (fun r : FetchModel κ × Nat => (({ r.1 with branchPc := 0 } : FetchModel κ), lcc))
        (fetch_wrongPathLoop_withPrevBbl fc p lineSize
          (if s.branchTaken = true then s.branchNotTakenNpc else s.branchTakenNpc) lcc
          (5 * 64 / lineSize) 0
          { s with branchPred := pr.2, mispredBranches := w64 (s.mispredBranches + 1) } c)
    · simp only [hp, if_false]
      rfl

theorem fetch_withPrevBbl_decodeCycle (p : Option BblInfo) (s : FetchModel κ) :
    (s.withPrevBbl p).decodeCycle = s.decodeCycle := rfl

theorem fetch_withPrevBbl_withPrevBbl (p q : Option BblInfo) (s : FetchModel κ) :
    (s.withPrevBbl p).withPrevBbl q = s.withPrevBbl q := rfl

theorem fetch_frontend_withPrevBbl (fc : FilterCache κ) (p : Option BblInfo) (lineBits lcc : Nat)
    (s : FetchModel κ) (a : Nat) (b : BblInfo) :
    frontend fc lineBits lcc (s.withPrevBbl p) a b =
      (frontend fc lineBits lcc s a b).withPrevBbl p := by
  have hf : ∀ r : FetchModel κ × Nat,
      (r.1.withPrevBbl p).fetch_bytes_per_cycle = r.1.fetch_bytes_per_cycle := fun _ => rfl
  simp only [frontend, fetch_withPrevBbl_decodeCycle, fetch_frontendBranch_withPrevBbl, hf,
    fetch_fetchLoop_withPrevBbl]
  split_ifs <;> rfl

theorem fetch_frontend_bytes (fc : FilterCache κ) (lineBits lcc : Nat) (s : FetchModel κ) (a : Nat)
    (b b2 : BblInfo) (h : b2.bytes = b.bytes) :
    frontend fc lineBits lcc s a b2 = frontend fc lineBits lcc s a b := by
  simp only [frontend, h]

theorem fetch_simulate_eq (fc : FilterCache κ) (lineBits tp : Nat) (s : FetchModel κ)
    (prev : BblInfo) (a : Nat) (b : BblInfo) :
    simulate fc lineBits tp s prev a b =
      if w64 ((prev.oooBbl.uop.foldl simUop
            { core := s, prevDecCycle := 0, lastCommitCycle := 0 }).core.instrs +
            w32 prev.instrs) = tp then
        some ((frontend fc lineBits
          (prev.oooBbl.uop.foldl simUop
            { core := s, prevDecCycle := 0, lastCommitCycle := 0 }).lastCommitCycle
          { (prev.oooBbl.uop.foldl simUop
              { core := s, prevDecCycle := 0, lastCommitCycle := 0 }).core with
            instrs := w64 ((prev.oooBbl.uop.foldl simUop
              { core := s, prevDecCycle := 0, lastCommitCycle := 0 }).core.instrs +
              w32 prev.instrs) } a b).withPrevBbl (some b))
      else none := by
  have key : simUops s b prev.oooBbl.uop =
      (prev.oooBbl.uop.foldl simUop
        { core := s, prevDecCycle := 0, lastCommitCycle := 0 }).withPrevBbl (some b) :=
    fetch_foldl_simUop_withPrevBbl (some b) _ { core := s, prevDecCycle := 0, lastCommitCycle := 0 }
  simp only [simulate, key]
  generalize prev.oooBbl.uop.foldl simUop
    { core := s, prevDecCycle := 0, lastCommitCycle := 0 } = st
  rw [← fetch_frontend_withPrevBbl]
  rfl

theorem fetch_simulate_withPrevBbl (fc : FilterCache κ) (lineBits tp : Nat) (s : FetchModel κ)
    (prev : BblInfo) (a : Nat) (b b2 : BblInfo) (h : b2.bytes = b.bytes)
    (q : Option BblInfo) :
    (simulate fc lineBits tp s prev a b2).map (withPrevBbl q) =
      (simulate fc lineBits tp s prev a b).map (withPrevBbl q) := by
  rw [fetch_simulate_eq, fetch_simulate_eq]
  split_ifs
  · simp only [Option.map_some', fetch_withPrevBbl_withPrevBbl, fetch_frontend_bytes fc lineBits _ _ a b b2 h]
  · rfl

end FetchModel

theorem sum_w32_instrs (bs : List BblInfo) (h : ∀ b ∈ bs, b.instrs < 2 ^ 32) :
    (bs.map fun b => w32 b.instrs).sum = (bs.map fun b => b.instrs).sum := by
  induction bs with
  | nil => rfl
  | cons b bs ih =>
    have hb : w32 b.instrs = b.instrs := Nat.mod_eq_of_lt (h b (List.mem_cons_self _ _))
    simp only [List.map_cons, List.sum_cons, hb,
      ih fun x hx => h x (List.mem_cons_of_mem _ hx)]

theorem instrs_after_call (i0 i1 i2 p : Nat) (bs : List BblInfo) (last : BblInfo)
    (hl : bs.getLast? = some last)
    (h1 : w64 i1 = w64 (i0 + simulatedInstrs none bs))
    (h2 : i2 = w64 (i1 + p)) (hp : p = w32 last.instrs) :
    i2 = w64 (i0 + (bs.map fun b => w32 b.instrs).sum) := by
  have hs := simulatedInstrs_last bs none last hl
  simp only [Nat.zero_add] at hs
  rw [h2, ← hs, hp]
  simp only [w64] at h1 ⊢
  omega

/-- C6. One-block lag of `bbl` in `CacheModel` and in `FetchModel`. Let a
trace without `contextSwitch` start in a state with `prevBbl` null and
contain the `bbl` events of the blocks `B_0 .. B_(k-1)` (`k ≥ 1`, `P` the last
of them), and let the next `bbl` call, of block `B`, return. Then the state
it returns is the frontend step for `B` applied to the uop loop folded over
the uops of `P`, in order, on the state before the call; it is the same,
`prevBbl` apart, for every block with the byte length of `B`, so no uop of `B`
is simulated; `prevBbl` is `B`; and `instrs` is the initial `instrs` plus the
sum of the 32-bit `instrs` fields of `B_0 .. B_(k-1)`, in 64 bits: the plain
sum of the fields when it starts at 0, the fields fit 32 bits and the sum
fits 64 bits. -/
theorem bbl_simulates_previous_block {κ : Type} (fc : FilterCache κ) (lineBits : Nat) :
    (∀ (s0 s1 s2 : CacheModel κ) (es : List CoreEvent) (P B : BblInfo) (a tp : Nat),
      s0.prevBbl = none →
      (∀ e ∈ es, e.isContextSwitch = false) →
      (CoreEvent.bbls es).getLast? = some P →
      CacheModel.run fc lineBits s0 es = some s1 →
      CacheModel.bbl fc lineBits tp s1 a B = some s2 →
      s2 = (CacheModel.frontend lineBits
          { (P.oooBbl.uop.foldl (CacheModel.simUop fc)
              { core := s1, loadIdx := 0, storeIdx := 0, prevDecCycle := 0 }).core with
            instrs := w64 (s1.instrs + w32 P.instrs)
            loads := 0
            stores := 0 } a B).withPrevBbl (some B) ∧
      (∀ B2 : BblInfo, B2.bytes = B.bytes →
        (CacheModel.bbl fc lineBits tp s1 a B2).map (CacheModel.withPrevBbl none) =
          some (s2.withPrevBbl none)) ∧
      s2.prevBbl = some B ∧
      s2.instrs = w64 (s0.instrs + ((CoreEvent.bbls es).map fun b => w32 b.instrs).sum) ∧
      (s0.instrs = 0 → (∀ b ∈ CoreEvent.bbls es, b.instrs < 2 ^ 32) →
        ((CoreEvent.bbls es).map fun b => b.instrs).sum < 2 ^ 64 →
        s2.instrs = ((CoreEvent.bbls es).map fun b => b.instrs).sum)) ∧
    (∀ (t0 t1 t2 : FetchModel κ) (es : List CoreEvent) (P B : BblInfo) (a tp : Nat),
      t0.prevBbl = none →
      (∀ e ∈ es, e.isContextSwitch = false) →
      (CoreEvent.bbls es).getLast? = some P →
      FetchModel.run fc lineBits t0 es = some t1 →
      FetchModel.bbl fc lineBits tp t1 a B = some t2 →
      t2 = (FetchModel.frontend fc lineBits
          (P.oooBbl.uop.foldl FetchModel.simUop
            { core := t1, prevDecCycle := 0, lastCommitCycle := 0 }).lastCommitCycle
          { (P.oooBbl.uop.foldl FetchModel.simUop
              { core := t1, prevDecCycle := 0, lastCommitCycle := 0 }).core with
            instrs := w64 (t1.instrs + w32 P.instrs) } a B).withPrevBbl (some B) ∧
      (∀ B2 : BblInfo, B2.bytes = B.bytes →
        (FetchModel.bbl fc lineBits tp t1 a B2).map (FetchModel.withPrevBbl none) =
          some (t2.withPrevBbl none)) ∧
      t2.prevBbl = some B ∧
      t2.instrs = w64 (t0.instrs + ((CoreEvent.bbls es).map fun b => w32 b.instrs).sum) ∧
      (t0.instrs = 0 → (∀ b ∈ CoreEvent.bbls es, b.instrs < 2 ^ 32) →
        ((CoreEvent.bbls es).map fun b => b.instrs).sum < 2 ^ 64 →
        t2.instrs = ((CoreEvent.bbls es).map fun b => b.instrs).sum)) := by
  constructor
  · intro s0 s1 s2 es P B a tp h0 hc hl hrun hbbl
    obtain ⟨f1, f2⟩ := CacheModel.cache_run_frame fc lineBits es s0 s1 hc hrun
    rw [hl, h0] at f1
    rw [h0] at f2
    have hp : s1.prevBbl = some P := f1
    have hsim : ∀ X : BblInfo, CacheModel.bbl fc lineBits tp s1 a X =
        CacheModel.simulate fc lineBits tp s1 P a X := by
      intro X
      simp only [CacheModel.bbl, hp]
    have hfr := CacheModel.cache_simulate_frame fc lineBits tp s1 s2 P a B (by rw [← hsim]; exact hbbl)
    have hi := instrs_after_call s0.instrs s1.instrs s2.instrs _ _ P hl f2 hfr.2 rfl
    refine ⟨?_, ?_, hfr.1, hi, ?_⟩
    · have h2 := hbbl
      rw [hsim, CacheModel.cache_simulate_eq] at h2
      split_ifs at h2
      simp only [Option.some.injEq] at h2
      rw [← h2, (CacheModel.cache_foldl_simUop_frame fc _ _).2]
    · intro B2 hB2
      rw [hsim, CacheModel.cache_simulate_withPrevBbl fc lineBits tp s1 P a B B2 hB2, ← hsim, hbbl]
      rfl
    · intro hz hf hs
      rw [hi, hz, sum_w32_instrs _ hf, Nat.zero_add]
      exact w64_of_lt hs
  · intro t0 t1 t2 es P B a tp h0 hc hl hrun hbbl
    obtain ⟨f1, f2⟩ := FetchModel.fetch_run_frame fc lineBits es t0 t1 hc hrun
    rw [hl, h0] at f1
    rw [h0] at f2
    have hp : t1.prevBbl = some P := f1
    have hsim : ∀ X : BblInfo, FetchModel.bbl fc lineBits tp t1 a X =
        FetchModel.simulate fc lineBits tp t1 P a X := by
      intro X
      simp only [FetchModel.bbl, hp]
    have hfr := FetchModel.fetch_simulate_frame fc lineBits tp t1 t2 P a B (by rw [← hsim]; exact hbbl)
    have hi := instrs_after_call t0.instrs t1.instrs t2.instrs _ _ P hl f2 hfr.2 rfl
    refine ⟨?_, ?_, hfr.1, hi, ?_⟩
    · have h2 := hbbl
      rw [hsim, FetchModel.fetch_simulate_eq] at h2
      split_ifs at h2
      simp only [Option.some.injEq] at h2
      rw [← h2, (FetchModel.fetch_foldl_simUop_frame _ _).2]
    · intro B2 hB2
      rw [hsim, FetchModel.fetch_simulate_withPrevBbl fc lineBits tp t1 P a B B2 hB2, ← hsim, hbbl]
      rfl
    · intro hz hf hs
      rw [hi, hz, sum_w32_instrs _ hf, Nat.zero_add]
      exact w64_of_lt hs

/-- Witness for C6: on a freshly constructed `CacheModel` and on a
`FetchModel` with null `prevBbl`, a first `bbl` call with a block of one uop,
then the `bbl` call of an empty block, which simulates that uop. -/
theorem bbl_simulates_previous_block_witness :
    (∃ s1 s2 : CacheModel Unit,
      CacheModel.run cache100 6 (cacheModel0 0 0)
        [.bbl 4092 (blockOf [generalUop 100 1 1]) 0] = some s1 ∧
      CacheModel.bbl cache100 6 1 s1 4096 (blockOf []) = some s2 ∧
      s2.prevBbl = some (blockOf []) ∧ s2.instrs = 1 ∧ s2.regScoreboard 1 = 110) ∧
    (∃ t1 t2 : FetchModel Unit,
      FetchModel.run cache100 6 (fetchModel0 0 4 none)
        [.bbl 4092 (blockOf [generalUop 100 1 1]) 0] = some t1 ∧
      FetchModel.bbl cache100 6 1 t1 4096 (blockOf []) = some t2 ∧
      t2.prevBbl = some (blockOf []) ∧ t2.instrs = 1 ∧ t2.regScoreboard 1 = 110) :=
  ⟨⟨_, _, rfl, rfl,
      ((bbl_simulates_previous_block cache100 6).1 (cacheModel0 0 0) _ _
        [.bbl 4092 (blockOf [generalUop 100 1 1]) 0] (blockOf [generalUop 100 1 1])
        (blockOf []) 4096 1 rfl (by simp [CoreEvent.isContextSwitch]) rfl rfl rfl).2.2.1,
      rfl, rfl⟩,
    ⟨_, _, rfl, rfl,
      ((bbl_simulates_previous_block cache100 6).2 (fetchModel0 0 4 none) _ _
        [.bbl 4092 (blockOf [generalUop 100 1 1]) 0] (blockOf [generalUop 100 1 1])
        (blockOf []) 4096 1 rfl (by simp [CoreEvent.isContextSwitch]) rfl rfl rfl).2.2.1,
      rfl, rfl⟩⟩

theorem MAX_self (a : Nat) : MAX a a = a := by
  unfold MAX
  split_ifs <;> rfl

namespace CacheModel

variable {κ : Type}

theorem cache_uopLsu_regScoreboard (fc : FilterCache κ) (s : CacheModel κ) (li si d : Nat)
    (uop : DynUop) : (uopLsu fc s li si d uop).1.regScoreboard = s.regScoreboard := by
  unfold uopLsu
  cases uop.type <;> (dsimp only; try split_ifs) <;> rfl

theorem cache_simUop_regScoreboard (fc : FilterCache κ) (st : CacheLoop κ) (uop : DynUop) :
    (simUop fc st uop).core.regScoreboard =
      Function.update
        (Function.update
          (Function.update st.core.regScoreboard 0 (st.core.uopCurCycle st.prevDecCycle uop))
          uop.rd.1 (uopCommitCycle fc st uop))
        uop.rd.2 (uopCommitCycle fc st uop) := by
  simp only [simUop, cache_uopLsu_regScoreboard, uopCommitCycle]
  rfl

theorem cache_uopDispatchCycle_ge (st : CacheLoop κ) (uop : DynUop)
    (hc : st.core.uopCurCycle st.prevDecCycle uop + (DISPATCH_STAGE - ISSUE_STAGE) < 2 ^ 64) :
    st.core.uopCurCycle st.prevDecCycle uop + (DISPATCH_STAGE - ISSUE_STAGE) ≤
      uopDispatchCycle st uop := by
  simp only [uopCurCycle] at hc ⊢
  simp only [uopDispatchCycle, uopIssue, MAX_self]
  refine le_trans ?_ (MAX_ge_right _ _)
  rw [w64_of_lt hc]

theorem cache_uopCommitCycle_ge (fc : FilterCache κ) (st : CacheLoop κ) (uop : DynUop)
    (hc : st.core.uopCurCycle st.prevDecCycle uop + (DISPATCH_STAGE - ISSUE_STAGE) < 2 ^ 64)
    (hlat : uopDispatchCycle st uop + uop.lat < 2 ^ 64)
    (hfc : ∀ k a,
      uopMemDispatchCycle st uop ≤ (fc.load k a (uopMemDispatchCycle st uop)).1 ∧
      (fc.load k a (uopMemDispatchCycle st uop)).1 + L1D_LAT < 2 ^ 64 ∧
      uopMemDispatchCycle st uop ≤ (fc.store k a (uopMemDispatchCycle st uop)).1 ∧
      (fc.store k a (uopMemDispatchCycle st uop)).1 + L1D_LAT < 2 ^ 64) :
    st.core.uopCurCycle st.prevDecCycle uop + (DISPATCH_STAGE - ISSUE_STAGE) ≤
      uopCommitCycle fc st uop := by
  have hd := cache_uopDispatchCycle_ge st uop hc
  have hm : uopDispatchCycle st uop ≤ uopMemDispatchCycle st uop := MAX_ge_right _ _
  simp only [uopDispatchCycle] at hd hlat hm
  simp only [uopMemDispatchCycle] at hfc hm
  simp only [uopCommitCycle, uopLsu]
  cases uop.type with
  | UOP_GENERAL =>
    dsimp only
    rw [w64_of_lt hlat]
    omega
  | UOP_LOAD =>
    dsimp only
    split_ifs
    · obtain ⟨h1, h2, -, -⟩ := hfc (st.core.uopIssue st.prevDecCycle uop).1.l1d
        ((st.core.uopIssue st.prevDecCycle uop).1.loadAddrs st.loadIdx)
      dsimp only
      rw [w64_of_lt h2]
      omega
    · dsimp only
      omega
  | UOP_STORE =>
    dsimp only
    obtain ⟨-, -, h1, h2⟩ := hfc (st.core.uopIssue st.prevDecCycle uop).1.l1d
      ((st.core.uopIssue st.prevDecCycle uop).1.storeAddrs st.storeIdx)
    rw [w64_of_lt h2]
    omega
  | UOP_STORE_ADDR =>
    dsimp only
    rw [w64_of_lt hlat]
    omega
  | UOP_FENCE =>
    dsimp only
    rw [w64_of_lt hlat]
    omega

end CacheModel

namespace FetchModel

variable {κ : Type}

theorem fetch_simUop_regScoreboard (st : FetchLoop κ) (uop : DynUop) :
    (simUop st uop).core.regScoreboard =
      Function.update
        (Function.update
          (Function.update st.core.regScoreboard 0 (st.core.uopCurCycle st.prevDecCycle uop))
          uop.rd.1 (st.core.uopCommitCycle st.prevDecCycle uop))
        uop.rd.2 (st.core.uopCommitCycle st.prevDecCycle uop) := rfl

theorem fetch_uopCommitCycle_ge (s : FetchModel κ) (p : Nat) (uop : DynUop)
    (hc : s.uopCurCycle p uop + (DISPATCH_STAGE - ISSUE_STAGE) < 2 ^ 64)
    (hlat : s.uopDispatchCycle p uop + uop.lat < 2 ^ 64) :
    s.uopCurCycle p uop + (DISPATCH_STAGE - ISSUE_STAGE) ≤ s.uopCommitCycle p uop := by
  have hd : s.uopCurCycle p uop + (DISPATCH_STAGE - ISSUE_STAGE) ≤ s.uopDispatchCycle p uop := by
    simp only [uopDispatchCycle, MAX_self]
    refine le_trans ?_ (MAX_ge_right _ _)
    rw [w64_of_lt hc]
  simp only [uopCommitCycle]
  rw [w64_of_lt hlat]
  omega

end FetchModel

/-- C10 (as amended). In `CacheModel` and `FetchModel` a round of the uop loop
of `bbl` writes `regScoreboard[0] = curCycle` (the value after the decode
step) and then `regScoreboard[rd[0]] = regScoreboard[rd[1]] = commitCycle`,
and no other cell; that `curCycle` is at least `curCycle` before the round;
and when `curCycle + 6` and `dispatchCycle + lat` do not wrap around 64 bits
and the filter cache answers a request at the request cycle or later with
room for `L1D_LAT`, `commitCycle ≥ curCycle + 6`. Nothing relates the value
written to the value it replaces. -/
theorem regScoreboard_writes {κ : Type} (fc : FilterCache κ) (uop : DynUop) :
    (∀ st : CacheLoop κ,
      (CacheModel.simUop fc st uop).core.regScoreboard =
        Function.update
          (Function.update
            (Function.update st.core.regScoreboard 0
              (st.core.uopCurCycle st.prevDecCycle uop))
            uop.rd.1 (CacheModel.uopCommitCycle fc st uop))
          uop.rd.2 (CacheModel.uopCommitCycle fc st uop) ∧
      st.core.curCycle ≤ st.core.uopCurCycle st.prevDecCycle uop ∧
      (st.core.uopCurCycle st.prevDecCycle uop + (DISPATCH_STAGE - ISSUE_STAGE) < 2 ^ 64 →
        CacheModel.uopDispatchCycle st uop + uop.lat < 2 ^ 64 →
        (∀ k a,
          CacheModel.uopMemDispatchCycle st uop ≤
            (fc.load k a (CacheModel.uopMemDispatchCycle st uop)).1 ∧
          (fc.load k a (CacheModel.uopMemDispatchCycle st uop)).1 + L1D_LAT < 2 ^ 64 ∧
          CacheModel.uopMemDispatchCycle st uop ≤
            (fc.store k a (CacheModel.uopMemDispatchCycle st uop)).1 ∧
          (fc.store k a (CacheModel.uopMemDispatchCycle st uop)).1 + L1D_LAT < 2 ^ 64) →
        st.core.uopCurCycle st.prevDecCycle uop + (DISPATCH_STAGE - ISSUE_STAGE) ≤
          CacheModel.uopCommitCycle fc st uop)) ∧
    (∀ st : FetchLoop κ,
      (FetchModel.simUop st uop).core.regScoreboard =
        Function.update
          (Function.update
            (Function.update st.core.regScoreboard 0
              (st.core.uopCurCycle st.prevDecCycle uop))
            uop.rd.1 (st.core.uopCommitCycle st.prevDecCycle uop))
          uop.rd.2 (st.core.uopCommitCycle st.prevDecCycle uop) ∧
      st.core.curCycle ≤ st.core.uopCurCycle st.prevDecCycle uop ∧
      (st.core.uopCurCycle st.prevDecCycle uop + (DISPATCH_STAGE - ISSUE_STAGE) < 2 ^ 64 →
        st.core.uopDispatchCycle st.prevDecCycle uop + uop.lat < 2 ^ 64 →
        st.core.uopCurCycle st.prevDecCycle uop + (DISPATCH_STAGE - ISSUE_STAGE) ≤
          st.core.uopCommitCycle st.prevDecCycle uop)) :=
  ⟨fun st => ⟨CacheModel.cache_simUop_regScoreboard fc st uop, MAX_ge_left _ _,
      CacheModel.cache_uopCommitCycle_ge fc st uop⟩,
    fun st => ⟨FetchModel.fetch_simUop_regScoreboard st uop, MAX_ge_left _ _,
      FetchModel.fetch_uopCommitCycle_ge st.core st.prevDecCycle uop⟩⟩

/-- Witness for C10 (as amended): the round of a uop of latency 100 that
writes register 1, on freshly constructed cores (`curCycle` becomes 4,
`commitCycle` 110). -/
theorem regScoreboard_writes_witness :
    ((cacheModel0 0 0).uopCurCycle 0 (generalUop 100 1 1) + (DISPATCH_STAGE - ISSUE_STAGE) ≤
        CacheModel.uopCommitCycle cache100
          { core := cacheModel0 0 0, loadIdx := 0, storeIdx := 0, prevDecCycle := 0 }
          (generalUop 100 1 1) ∧
      CacheModel.uopCommitCycle cache100
          { core := cacheModel0 0 0, loadIdx := 0, storeIdx := 0, prevDecCycle := 0 }
          (generalUop 100 1 1) = 110) ∧
    ((fetchModel0 0 4 none).uopCurCycle 0 (generalUop 100 1 1) +
        (DISPATCH_STAGE - ISSUE_STAGE) ≤
        (fetchModel0 0 4 none).uopCommitCycle 0 (generalUop 100 1 1) ∧
      (fetchModel0 0 4 none).uopCommitCycle 0 (generalUop 100 1 1) = 110) :=
  ⟨⟨((regScoreboard_writes cache100 (generalUop 100 1 1)).1
        { core := cacheModel0 0 0, loadIdx := 0, storeIdx := 0, prevDecCycle := 0 }).2.2
        (by decide) (by decide)
        (fun _ _ => ⟨Nat.le_add_right _ _, (show (10 : Nat) + 100 + 4 < 2 ^ 64 by decide),
          Nat.le_add_right _ _, (show (10 : Nat) + 100 + 4 < 2 ^ 64 by decide)⟩),
      rfl⟩,
    ⟨((regScoreboard_writes cache100 (generalUop 100 1 1)).2
        { core := fetchModel0 0 4 none, prevDecCycle := 0, lastCommitCycle := 0 }).2.2
        (by decide) (by decide),
      rfl⟩⟩

/-- Counterexample to C10 as stated. On a freshly constructed `CacheModel`,
after a block whose uop of latency 100 writes registers 0 and 1 has been
simulated, both cells hold 110; the next block has a uop of latency 0 that
writes the same registers: in its round the sentinel write stores 10 over the
110 of `regScoreboard[0]`, the destination writes store 16, and after the
call both cells hold 16. -/
theorem regScoreboard_can_decrease :
    ∃ s1 s2 : CacheModel Unit,
      CacheModel.run cache100 6 (cacheModel0 0 0)
        [.bbl 4092 (blockOf [generalUop 100 0 1]) 0,
          .bbl 4096 (blockOf [generalUop 0 0 1]) 1] = some s1 ∧
      CacheModel.step cache100 6 s1 (.bbl 4100 (blockOf []) 2) = some s2 ∧
      s1.regScoreboard 0 = 110 ∧ s1.regScoreboard 1 = 110 ∧
      s1.uopCurCycle 0 (generalUop 0 0 1) = 10 ∧
      CacheModel.uopCommitCycle cache100
        { core := s1, loadIdx := 0, storeIdx := 0, prevDecCycle := 0 } (generalUop 0 0 1) = 16 ∧
      s2.regScoreboard 0 = 16 ∧ s2.regScoreboard 1 = 16 ∧
      s2.regScoreboard 0 < s1.regScoreboard 0 ∧ s2.regScoreboard 1 < s1.regScoreboard 1 :=
  ⟨_, _, rfl, rfl, rfl, rfl, rfl, rfl, rfl, rfl, by decide, by decide⟩

/-! ## Memory operations, fences, mispredictions and context switches -/

namespace CacheModel

variable {κ : Type}

theorem cache_uopIssue_lsu (s : CacheModel κ) (p : Nat) (uop : DynUop) :
    (s.uopIssue p uop).1.lastStoreAddrCommitCycle = s.lastStoreAddrCommitCycle ∧
    (s.uopIssue p uop).1.lastStoreCommitCycle = s.lastStoreCommitCycle ∧
    (s.uopIssue p uop).1.loadAddrs = s.loadAddrs ∧
    (s.uopIssue p uop).1.storeAddrs = s.storeAddrs ∧
    (s.uopIssue p uop).1.l1d = s.l1d ∧
    (s.uopIssue p uop).1.cRec = s.cRec ∧
    (s.uopIssue p uop).1.loads = s.loads ∧
    (s.uopIssue p uop).1.stores = s.stores :=
  ⟨rfl, rfl, rfl, rfl, rfl, rfl, rfl, rfl⟩

theorem cache_uopMemDispatchCycle_ge (st : CacheLoop κ) (uop : DynUop) :
    w64 (st.core.lastStoreAddrCommitCycle + 1) ≤ uopMemDispatchCycle st uop ∧
    uopDispatchCycle st uop ≤ uopMemDispatchCycle st uop :=
  ⟨MAX_ge_left _ _, MAX_ge_right _ _⟩

theorem cache_uopCommitCycle_load (fc : FilterCache κ) (st : CacheLoop κ) (uop : DynUop)
    (h : uop.type = .UOP_LOAD) :
    uopCommitCycle fc st uop =
      if st.core.loadAddrs st.loadIdx ≠ predFalseAddr then
        w64 ((fc.load st.core.l1d (st.core.loadAddrs st.loadIdx)
          (uopMemDispatchCycle st uop)).1 + L1D_LAT)
      else uopMemDispatchCycle st uop := by
  have e1 : (st.core.uopIssue st.prevDecCycle uop).1.loadAddrs st.loadIdx =
      st.core.loadAddrs st.loadIdx := rfl
  simp only [uopCommitCycle, uopLsu, h, e1]
  split_ifs <;> rfl

theorem cache_uopCommitCycle_store (fc : FilterCache κ) (st : CacheLoop κ) (uop : DynUop)
    (h : uop.type = .UOP_STORE) :
    uopCommitCycle fc st uop =
      w64 ((fc.store st.core.l1d (st.core.storeAddrs st.storeIdx)
        (uopMemDispatchCycle st uop)).1 + L1D_LAT) := by
  simp only [uopCommitCycle, uopLsu, h]
  rfl

end CacheModel

namespace IssueModel

variable {W R Q : Type}

theorem issue_advancePosTimes_lsuInputs (env : IssueEnv W R Q) (n : Nat) (s : IssueModel W R Q) :
    (advancePosTimes env n s).lsuInputs = s.lsuInputs := by
  induction n generalizing s with
  | zero => rfl
  | succ n ih =>
    rw [advancePosTimes, ih]
    rfl

theorem issue_uopDecode_lsuInputs (env : IssueEnv W R Q) (s : IssueModel W R Q) (p : Nat)
    (uop : DynUop) : (uopDecode env s p uop).lsuInputs = s.lsuInputs := by
  unfold uopDecode
  dsimp only
  split_ifs
  · exact (issue_advancePosTimes_lsuInputs env _ _).trans rfl
  · rfl

theorem issue_uopIssueWidth_lsuInputs (env : IssueEnv W R Q) (s : IssueModel W R Q) :
    (uopIssueWidth env s).lsuInputs = s.lsuInputs := by
  unfold uopIssueWidth
  dsimp only
  split_ifs <;> rfl

theorem issue_uopRFReads_lsuInputs (env : IssueEnv W R Q) (s : IssueModel W R Q) (uop : DynUop) :
    (uopRFReads env s uop).1.lsuInputs = s.lsuInputs := by
  unfold uopRFReads
  dsimp only
  split_ifs <;> rfl

theorem issue_uopSchedule_lsuInputs (env : IssueEnv W R Q) (s : IssueModel W R Q) (c0 c1 : Nat)
    (uop : DynUop) : (uopSchedule env s c0 c1 uop).1.lsuInputs = s.lsuInputs := by
  unfold uopSchedule
  dsimp only
  split_ifs <;> rfl

theorem issue_uopPreLsu_lsuInputs (env : IssueEnv W R Q) (st : IssueLoop W R Q) (uop : DynUop) :
    (uopPreLsu env st uop).1.lsuInputs = st.core.lsuInputs := by
  unfold uopPreLsu
  dsimp only
  rw [issue_uopSchedule_lsuInputs, issue_uopRFReads_lsuInputs, issue_uopIssueWidth_lsuInputs,
    issue_uopDecode_lsuInputs]

theorem issue_uopPreLsu_fields (env : IssueEnv W R Q) (st : IssueLoop W R Q) (uop : DynUop) :
    (uopPreLsu env st uop).1.loadAddrs = st.core.loadAddrs ∧
    (uopPreLsu env st uop).1.storeAddrs = st.core.storeAddrs ∧
    (uopPreLsu env st uop).1.lastStoreCommitCycle = st.core.lastStoreCommitCycle ∧
    (uopPreLsu env st uop).1.lastStoreAddrCommitCycle = st.core.lastStoreAddrCommitCycle ∧
    (uopPreLsu env st uop).1.fwdArray = st.core.fwdArray ∧
    (uopPreLsu env st uop).1.loadQueue = st.core.loadQueue ∧
    (uopPreLsu env st uop).1.storeQueue = st.core.storeQueue := by
  have h := issue_uopPreLsu_lsuInputs env st uop
  simp only [lsuInputs, Prod.mk.injEq] at h
  exact h

theorem issue_uopCommitCycle_store (env : IssueEnv W R Q) (st : IssueLoop W R Q) (uop : DynUop)
    (h : uop.type = .UOP_STORE) :
    uopCommitCycle env st uop = w64 (uopStoreDispatchCycle env st uop + L1D_LAT) := by
  simp only [uopCommitCycle, uopLsu, h]
  rfl

theorem fwdIdx_w32 (addr : Nat) :
    w32 ((addr >>> 2) &&& (FWD_ENTRIES - 1)) = (addr >>> 2) &&& (FWD_ENTRIES - 1) := by
  have h : (addr >>> 2) &&& (FWD_ENTRIES - 1) ≤ FWD_ENTRIES - 1 := Nat.and_le_right
  have h31 : FWD_ENTRIES - 1 = 31 := rfl
  rw [h31] at h ⊢
  unfold w32
  omega

theorem issue_uopCommitCycle_load (env : IssueEnv W R Q) (st : IssueLoop W R Q) (uop : DynUop)
    (h : uop.type = .UOP_LOAD) :
    uopCommitCycle env st uop =
      if (st.core.fwdArray ((st.core.loadAddrs st.loadIdx >>> 2) &&& (FWD_ENTRIES - 1))).addr =
          st.core.loadAddrs st.loadIdx then
        MAX (w64 (uopLoadDispatchCycle env st uop + L1D_LAT))
          (st.core.fwdArray
            ((st.core.loadAddrs st.loadIdx >>> 2) &&& (FWD_ENTRIES - 1))).storeCycle
      else w64 (uopLoadDispatchCycle env st uop + L1D_LAT) := by
  obtain ⟨h1, -, -, -, h5, -, -⟩ := issue_uopPreLsu_fields env st uop
  simp only [uopCommitCycle, uopLsu, h, fwdIdx_w32, h1, h5]
  rfl

end IssueModel

/-- C11. In `CacheModel` and in `IssueModel`, in the round of the uop loop of
a uop of type `UOP_LOAD` or `UOP_STORE`, the `dispatchCycle` after
`dispatchCycle = MAX(lastStoreAddrCommitCycle+1, dispatchCycle)` is at least
`lastStoreAddrCommitCycle + 1`, computed in 64 bits as the code does, with the
value that `lastStoreAddrCommitCycle` has when the round starts; it is at
least the plain `lastStoreAddrCommitCycle + 1` when that does not wrap
around. It is the cycle of the request: in `CacheModel` the request cycle
passed to `l1d->load` or `l1d->store`, whose answer plus `L1D_LAT` is
`commitCycle` (for a predicated-false load `commitCycle` is the dispatch cycle
itself); in `IssueModel` the cycle to which `L1D_LAT` is added, which is
`commitCycle` for a store and a lower bound of `commitCycle` for a load. -/
theorem mem_dispatch_after_store_addr {κ W R Q : Type} (fc : FilterCache κ)
    (env : IssueEnv W R Q) (st : CacheLoop κ) (it : IssueLoop W R Q) (uop : DynUop) :
    (uop.type = .UOP_LOAD →
      (w64 (st.core.lastStoreAddrCommitCycle + 1) ≤ CacheModel.uopMemDispatchCycle st uop ∧
        (st.core.lastStoreAddrCommitCycle + 1 < 2 ^ 64 →
          st.core.lastStoreAddrCommitCycle + 1 ≤ CacheModel.uopMemDispatchCycle st uop) ∧
        CacheModel.uopCommitCycle fc st uop =
          if st.core.loadAddrs st.loadIdx ≠ predFalseAddr then
            w64 ((fc.load st.core.l1d (st.core.loadAddrs st.loadIdx)
              (CacheModel.uopMemDispatchCycle st uop)).1 + L1D_LAT)
          else CacheModel.uopMemDispatchCycle st uop) ∧
      (w64 (it.core.lastStoreAddrCommitCycle + 1) ≤ IssueModel.uopLoadDispatchCycle env it uop ∧
        (it.core.lastStoreAddrCommitCycle + 1 < 2 ^ 64 →
          it.core.lastStoreAddrCommitCycle + 1 ≤ IssueModel.uopLoadDispatchCycle env it uop) ∧
        w64 (IssueModel.uopLoadDispatchCycle env it uop + L1D_LAT) ≤
          IssueModel.uopCommitCycle env it uop)) ∧
    (uop.type = .UOP_STORE →
      (w64 (st.core.lastStoreAddrCommitCycle + 1) ≤ CacheModel.uopMemDispatchCycle st uop ∧
        (st.core.lastStoreAddrCommitCycle + 1 < 2 ^ 64 →
          st.core.lastStoreAddrCommitCycle + 1 ≤ CacheModel.uopMemDispatchCycle st uop) ∧
        CacheModel.uopCommitCycle fc st uop =
          w64 ((fc.store st.core.l1d (st.core.storeAddrs st.storeIdx)
            (CacheModel.uopMemDispatchCycle st uop)).1 + L1D_LAT)) ∧
      (w64 (it.core.lastStoreAddrCommitCycle + 1) ≤
          IssueModel.uopStoreDispatchCycle env it uop ∧
        (it.core.lastStoreAddrCommitCycle + 1 < 2 ^ 64 →
          it.core.lastStoreAddrCommitCycle + 1 ≤ IssueModel.uopStoreDispatchCycle env it uop) ∧
        IssueModel.uopCommitCycle env it uop =
          w64 (IssueModel.uopStoreDispatchCycle env it uop + L1D_LAT))) := by
  have hc := (CacheModel.cache_uopMemDispatchCycle_ge st uop).1
  have hc2 : st.core.lastStoreAddrCommitCycle + 1 < 2 ^ 64 →
      st.core.lastStoreAddrCommitCycle + 1 ≤ CacheModel.uopMemDispatchCycle st uop := by
    intro hw
    rw [w64_of_lt hw] at hc
    exact hc
  have hf := (IssueModel.issue_uopPreLsu_fields env it uop).2.2.2.1
  have hl : w64 (it.core.lastStoreAddrCommitCycle + 1) ≤
      IssueModel.uopLoadDispatchCycle env it uop := by
    rw [← hf]
    exact MAX_ge_left _ _
  have hs : w64 (it.core.lastStoreAddrCommitCycle + 1) ≤
      IssueModel.uopStoreDispatchCycle env it uop := by
    rw [← hf]
    exact MAX_ge_left _ _
  refine ⟨fun h => ⟨⟨hc, hc2, CacheModel.cache_uopCommitCycle_load fc st uop h⟩, hl, ?_, ?_⟩,
    fun h => ⟨⟨hc, hc2, CacheModel.cache_uopCommitCycle_store fc st uop h⟩, hs, ?_,
      IssueModel.issue_uopCommitCycle_store env it uop h⟩⟩
  · intro hw
    rw [w64_of_lt hw] at hl
    exact hl
  · rw [IssueModel.issue_uopCommitCycle_load env it uop h]
    split_ifs
    · exact MAX_ge_left _ _
    · exact Nat.le_refl _
  · intro hw
    rw [w64_of_lt hw] at hs
    exact hs

/-- Witness for C11: a load and a store as first uop of a block, on cores
with `lastStoreAddrCommitCycle = 50`: the requests are dispatched in cycle 51,
where the dispatch cycle before the `switch` is 10. -/
theorem mem_dispatch_after_store_addr_witness :
    ((uopOf .UOP_LOAD 0 1 1).type = .UOP_LOAD ∧ (uopOf .UOP_STORE 0 1 1).type = .UOP_STORE) ∧
    (50 + 1 ≤ CacheModel.uopMemDispatchCycle (cacheLoop0 (fun _ => 4096) (fun _ => 64) 50)
        (uopOf .UOP_LOAD 0 1 1) ∧
      CacheModel.uopMemDispatchCycle (cacheLoop0 (fun _ => 4096) (fun _ => 64) 50)
        (uopOf .UOP_LOAD 0 1 1) = 51 ∧
      CacheModel.uopCommitCycle cache100 (cacheLoop0 (fun _ => 4096) (fun _ => 64) 50)
        (uopOf .UOP_LOAD 0 1 1) = 155) ∧
    (50 + 1 ≤ IssueModel.uopStoreDispatchCycle issueEnv0
        (issueLoop0 (fun _ => 4096) (fun _ => 64) 50) (uopOf .UOP_STORE 0 1 1) ∧
      IssueModel.uopStoreDispatchCycle issueEnv0
        (issueLoop0 (fun _ => 4096) (fun _ => 64) 50) (uopOf .UOP_STORE 0 1 1) = 51 ∧
      IssueModel.uopCommitCycle issueEnv0
        (issueLoop0 (fun _ => 4096) (fun _ => 64) 50) (uopOf .UOP_STORE 0 1 1) = 55) :=
  ⟨⟨rfl, rfl⟩,
    ⟨((mem_dispatch_after_store_addr cache100 issueEnv0
        (cacheLoop0 (fun _ => 4096) (fun _ => 64) 50)
        (issueLoop0 (fun _ => 4096) (fun _ => 64) 50) (uopOf .UOP_LOAD 0 1 1)).1 rfl).1.2.1
        (by decide), by decide, by decide⟩,
    ⟨((mem_dispatch_after_store_addr cache100 issueEnv0
        (cacheLoop0 (fun _ => 4096) (fun _ => 64) 50)
        (issueLoop0 (fun _ => 4096) (fun _ => 64) 50) (uopOf .UOP_STORE 0 1 1)).2 rfl).2.2.1
        (by decide), by decide, by decide⟩⟩

namespace CacheModel

variable {κ : Type}

theorem cache_uopLsu_idx (fc : FilterCache κ) (s : CacheModel κ) (li si d : Nat) (uop : DynUop) :
    (uopLsu fc s li si d uop).2.1 = (if uop.type = .UOP_LOAD then w32 (li + 1) else li) ∧
    (uopLsu fc s li si d uop).2.2.1 = (if uop.type = .UOP_STORE then w32 (si + 1) else si) ∧
    (uopLsu fc s li si d uop).1.loads = s.loads ∧
    (uopLsu fc s li si d uop).1.stores = s.stores := by
  unfold uopLsu
  cases uop.type <;> dsimp only
  case UOP_LOAD =>
    by_cases hp : s.loadAddrs li ≠ predFalseAddr
    · rw [if_pos hp]
      exact ⟨rfl, rfl, rfl, rfl⟩
    · rw [if_neg hp]
      exact ⟨rfl, rfl, rfl, rfl⟩
  all_goals exact ⟨rfl, rfl, rfl, rfl⟩

theorem cache_simUop_idx (fc : FilterCache κ) (st : CacheLoop κ) (uop : DynUop) :
    (simUop fc st uop).loadIdx =
      (if uop.type = .UOP_LOAD then w32 (st.loadIdx + 1) else st.loadIdx) ∧
    (simUop fc st uop).storeIdx =
      (if uop.type = .UOP_STORE then w32 (st.storeIdx + 1) else st.storeIdx) ∧
    (simUop fc st uop).core.loads = st.core.loads ∧
    (simUop fc st uop).core.stores = st.core.stores := by
  obtain ⟨h1, h2, h3, h4⟩ :=
    cache_uopLsu_idx fc (st.core.uopIssue st.prevDecCycle uop).1 st.loadIdx st.storeIdx
      (st.core.uopIssue st.prevDecCycle uop).2 uop
  exact ⟨h1, h2, h3, h4⟩

theorem cache_foldl_simUop_idx (fc : FilterCache κ) (uops : List DynUop) (st : CacheLoop κ)
    (hl : st.loadIdx < 2 ^ 32) (hs : st.storeIdx < 2 ^ 32) :
    (uops.foldl (simUop fc) st).loadIdx =
      w32 (st.loadIdx + uops.countP fun u => u.type = .UOP_LOAD) ∧
    (uops.foldl (simUop fc) st).storeIdx =
      w32 (st.storeIdx + uops.countP fun u => u.type = .UOP_STORE) ∧
    (uops.foldl (simUop fc) st).core.loads = st.core.loads ∧
    (uops.foldl (simUop fc) st).core.stores = st.core.stores := by
  induction uops generalizing st with
  | nil =>
    simp only [List.foldl_nil, List.countP_nil, Nat.add_zero, w32, Nat.mod_eq_of_lt hl,
      Nat.mod_eq_of_lt hs, and_self]
  | cons u us ih =>
    obtain ⟨h1, h2, h3, h4⟩ := cache_simUop_idx fc st u
    have hl1 : (simUop fc st u).loadIdx < 2 ^ 32 := by
      rw [h1]
      split_ifs
      · exact Nat.mod_lt _ (by decide)
      · exact hl
    have hs1 : (simUop fc st u).storeIdx < 2 ^ 32 := by
      rw [h2]
      split_ifs
      · exact Nat.mod_lt _ (by decide)
      · exact hs
    obtain ⟨i1, i2, i3, i4⟩ := ih (simUop fc st u) hl1 hs1
    rw [List.foldl_cons, i1, i2, i3, i4, h1, h2, h3, h4, List.countP_cons, List.countP_cons]
    refine ⟨?_, ?_, rfl, rfl⟩
    · by_cases ht : u.type = .UOP_LOAD
      · simp only [ht, if_true, decide_True, w32]
        omega
      · simp only [ht, if_false, decide_False, Bool.false_eq_true, Nat.add_zero]
    · by_cases ht : u.type = .UOP_STORE
      · simp only [ht, if_true, decide_True, w32]
        omega
      · simp only [ht, if_false, decide_False, Bool.false_eq_true, Nat.add_zero]

theorem cache_fetchLoop_loads (lineSize endAddr fuel fetchAddr : Nat) (r : CacheModel κ × Nat) :
    (fetchLoop lineSize endAddr fuel fetchAddr r).1.loads = r.1.loads ∧
    (fetchLoop lineSize endAddr fuel fetchAddr r).1.stores = r.1.stores ∧
    (fetchLoop lineSize endAddr fuel fetchAddr r).1.regScoreboard = r.1.regScoreboard ∧
    (fetchLoop lineSize endAddr fuel fetchAddr r).1.l1d = r.1.l1d := by
  induction fuel generalizing fetchAddr r with
  | zero => exact ⟨rfl, rfl, rfl, rfl⟩
  | succ n ih =>
    obtain ⟨s, c⟩ := r
    simp only [fetchLoop]
    split_ifs
    · exact ih _ _
    · exact ⟨rfl, rfl, rfl, rfl⟩

theorem cache_frontend_loads (lineBits : Nat) (s : CacheModel κ) (a : Nat) (b : BblInfo) :
    (frontend lineBits s a b).loads = s.loads ∧
    (frontend lineBits s a b).stores = s.stores ∧
    (frontend lineBits s a b).regScoreboard = s.regScoreboard ∧
    (frontend lineBits s a b).l1d = s.l1d := by
  simp only [frontend]
  split_ifs <;>
    simp only [(cache_fetchLoop_loads _ _ _ _ _).1, (cache_fetchLoop_loads _ _ _ _ _).2.1,
      (cache_fetchLoop_loads _ _ _ _ _).2.2.1, (cache_fetchLoop_loads _ _ _ _ _).2.2.2, and_self]

end CacheModel

/-- C12. Let `CacheModel::bbl` be called with a block `prev` waiting in
`prevBbl`, of fewer than `2^32` uops (`uops` is a 32-bit count), and with
`instrs`, after the addition of the 32-bit instruction count of `prev`, equal
to `total_pcount`. Then the call fails an assertion exactly when the number of
`UOP_LOAD` uops of `prev` differs from `loads` or the number of `UOP_STORE`
uops of `prev` differs from `stores`; and when it returns, `loads` and
`stores` are 0. -/
theorem bbl_mem_op_assertions {κ : Type} (fc : FilterCache κ) (lineBits total_pcount : Nat)
    (s : CacheModel κ) (prev : BblInfo) (bblAddr : Nat) (bblInfo : BblInfo)
    (hprev : s.prevBbl = some prev) (huops : prev.oooBbl.uop.length < 2 ^ 32)
    (hinstrs : w64 (s.instrs + w32 prev.instrs) = total_pcount) :
    (CacheModel.bbl fc lineBits total_pcount s bblAddr bblInfo = none ↔
      (prev.oooBbl.uop.countP fun u => u.type = .UOP_LOAD) ≠ s.loads ∨
      (prev.oooBbl.uop.countP fun u => u.type = .UOP_STORE) ≠ s.stores) ∧
    (∀ s1, CacheModel.bbl fc lineBits total_pcount s bblAddr bblInfo = some s1 →
      s1.loads = 0 ∧ s1.stores = 0) := by
  obtain ⟨i1, i2, i3, i4⟩ := CacheModel.cache_foldl_simUop_idx fc prev.oooBbl.uop
    { core := { s with prevBbl := some bblInfo }, loadIdx := 0, storeIdx := 0, prevDecCycle := 0 }
    (show (0 : Nat) < 2 ^ 32 by decide) (show (0 : Nat) < 2 ^ 32 by decide)
  have i5 := (CacheModel.cache_foldl_simUop_frame fc prev.oooBbl.uop
    { core := { s with prevBbl := some bblInfo }, loadIdx := 0, storeIdx := 0,
      prevDecCycle := 0 }).2
  have hcl : (prev.oooBbl.uop.countP fun u => u.type = .UOP_LOAD) < 2 ^ 32 :=
    lt_of_le_of_lt (List.countP_le_length _) huops
  have hcs : (prev.oooBbl.uop.countP fun u => u.type = .UOP_STORE) < 2 ^ 32 :=
    lt_of_le_of_lt (List.countP_le_length _) huops
  simp only [Nat.zero_add, w32, Nat.mod_eq_of_lt hcl, Nat.mod_eq_of_lt hcs] at i1 i2
  simp only [CacheModel.bbl, hprev, CacheModel.simulate, CacheModel.simUops, i1, i2, i3, i4, i5,
    hinstrs, true_and]
  constructor
  · split_ifs with h
    · simp only [reduceCtorEq, false_iff, not_or, not_not]
      exact h
    · simp only [true_iff]
      by_contra hn
      rw [not_or, not_not, not_not] at hn
      exact h hn
  · intro s1 h1
    split_ifs at h1
    simp only [Option.some.injEq] at h1
    subst h1
    exact ⟨(CacheModel.cache_frontend_loads _ _ _ _).1, (CacheModel.cache_frontend_loads _ _ _ _).2.1⟩

/-- Witness for C12: a block of two loads and one store waits in `prevBbl`.
With `loads = 2` and `stores = 1` the call returns, with `loads = 1` it
fails. -/
theorem bbl_mem_op_assertions_witness :
    ({ cacheModel0 2 1 with
        prevBbl := some (blockOf [uopOf .UOP_LOAD 0 1 1, uopOf .UOP_STORE 0 2 2,
          uopOf .UOP_LOAD 0 3 3]) } : CacheModel Unit).prevBbl =
      some (blockOf [uopOf .UOP_LOAD 0 1 1, uopOf .UOP_STORE 0 2 2, uopOf .UOP_LOAD 0 3 3]) ∧
    (blockOf [uopOf .UOP_LOAD 0 1 1, uopOf .UOP_STORE 0 2 2,
      uopOf .UOP_LOAD 0 3 3]).oooBbl.uop.length < 2 ^ 32 ∧
    (∃ s1, CacheModel.bbl cache100 6 1
        { cacheModel0 2 1 with
          prevBbl := some (blockOf [uopOf .UOP_LOAD 0 1 1, uopOf .UOP_STORE 0 2 2,
            uopOf .UOP_LOAD 0 3 3]) } 4096 (blockOf []) = some s1 ∧
      s1.loads = 0 ∧ s1.stores = 0) ∧
    CacheModel.bbl cache100 6 1
      { cacheModel0 1 1 with
        prevBbl := some (blockOf [uopOf .UOP_LOAD 0 1 1, uopOf .UOP_STORE 0 2 2,
          uopOf .UOP_LOAD 0 3 3]) } 4096 (blockOf []) = none :=
  ⟨rfl, by decide,
    ⟨_, rfl, (bbl_mem_op_assertions cache100 6 1
      { cacheModel0 2 1 with
        prevBbl := some (blockOf [uopOf .UOP_LOAD 0 1 1, uopOf .UOP_STORE 0 2 2,
          uopOf .UOP_LOAD 0 3 3]) }
      (blockOf [uopOf .UOP_LOAD 0 1 1, uopOf .UOP_STORE 0 2 2, uopOf .UOP_LOAD 0 3 3]) 4096
      (blockOf []) rfl (by decide) (by decide)).2 _ rfl⟩,
    (bbl_mem_op_assertions cache100 6 1
      { cacheModel0 1 1 with
        prevBbl := some (blockOf [uopOf .UOP_LOAD 0 1 1, uopOf .UOP_STORE 0 2 2,
          uopOf .UOP_LOAD 0 3 3]) }
      (blockOf [uopOf .UOP_LOAD 0 1 1, uopOf .UOP_STORE 0 2 2, uopOf .UOP_LOAD 0 3 3]) 4096
      (blockOf []) rfl (by decide) (by decide)).1.2 (Or.inl (by decide))⟩

namespace CacheModel

variable {κ : Type}

theorem cache_simUop_store (fc : FilterCache κ) (st : CacheLoop κ) (uop : DynUop)
    (h : uop.type = .UOP_STORE) :
    (simUop fc st uop).core.l1d =
      (fc.store st.core.l1d (st.core.storeAddrs st.storeIdx) (uopMemDispatchCycle st uop)).2 ∧
    (simUop fc st uop).core.cRec =
      st.core.cRec ++ [((simUop fc st uop).core.curCycle, uopMemDispatchCycle st uop,
        uopCommitCycle fc st uop)] ∧
    (simUop fc st uop).core.lastStoreCommitCycle =
      MAX st.core.lastStoreCommitCycle (uopCommitCycle fc st uop) ∧
    (simUop fc st uop).core.lastStoreAddrCommitCycle = st.core.lastStoreAddrCommitCycle := by
  simp only [simUop, uopCommitCycle, uopLsu, h]
  exact ⟨rfl, rfl, rfl, rfl⟩

theorem cache_simUop_load (fc : FilterCache κ) (st : CacheLoop κ) (uop : DynUop)
    (h : uop.type = .UOP_LOAD) :
    (st.core.loadAddrs st.loadIdx = predFalseAddr →
      (simUop fc st uop).core.l1d = st.core.l1d ∧
      (simUop fc st uop).core.cRec = st.core.cRec) ∧
    (st.core.loadAddrs st.loadIdx ≠ predFalseAddr →
      (simUop fc st uop).core.l1d =
        (fc.load st.core.l1d (st.core.loadAddrs st.loadIdx) (uopMemDispatchCycle st uop)).2 ∧
      (simUop fc st uop).core.cRec =
        st.core.cRec ++ [((simUop fc st uop).core.curCycle, uopMemDispatchCycle st uop,
          uopCommitCycle fc st uop)]) ∧
    (simUop fc st uop).core.lastStoreCommitCycle = st.core.lastStoreCommitCycle ∧
    (simUop fc st uop).core.lastStoreAddrCommitCycle = st.core.lastStoreAddrCommitCycle := by
  have e1 : (st.core.uopIssue st.prevDecCycle uop).1.loadAddrs st.loadIdx =
      st.core.loadAddrs st.loadIdx := rfl
  simp only [simUop, uopCommitCycle, uopLsu, h, e1]
  by_cases hp : st.core.loadAddrs st.loadIdx = predFalseAddr
  · simp only [hp, ne_eq, not_true_eq_false, if_false, false_implies, true_implies, true_and]
    exact ⟨⟨rfl, rfl⟩, rfl, rfl⟩
  · simp only [hp, ne_eq, not_false_eq_true, if_true, false_implies, true_implies, true_and]
    exact ⟨⟨rfl, rfl⟩, rfl, rfl⟩

end CacheModel

/-- C13 (the code against its comment). `PredStoreFunc` with `pred` false buffers the
address `-1` like `PredLoadFunc` does, but the uop loop of `CacheModel::bbl`
tests for `-1` in `UOP_LOAD` only. For a `UOP_LOAD` whose buffered address is
`-1` the filter cache is not called, nothing is recorded in `cRec` and
`commitCycle` is the dispatch cycle. For a `UOP_STORE` whose buffered address
is `-1`, `l1d->store(-1, dispatchCycle)` is called, its answer plus `L1D_LAT`
is `commitCycle`, and one entry is recorded in `cRec`. -/
theorem pred_false_store_accesses_l1d {κ : Type} (fc : FilterCache κ) (s : CacheModel κ)
    (addr : Nat) (st : CacheLoop κ) (uop : DynUop) :
    ((s.PredLoadFunc addr false).loadAddrs s.loads = predFalseAddr ∧
      (s.PredStoreFunc addr false).storeAddrs s.stores = predFalseAddr) ∧
    (uop.type = .UOP_LOAD → st.core.loadAddrs st.loadIdx = predFalseAddr →
      (CacheModel.simUop fc st uop).core.l1d = st.core.l1d ∧
      (CacheModel.simUop fc st uop).core.cRec = st.core.cRec ∧
      CacheModel.uopCommitCycle fc st uop = CacheModel.uopMemDispatchCycle st uop) ∧
    (uop.type = .UOP_STORE → st.core.storeAddrs st.storeIdx = predFalseAddr →
      (CacheModel.simUop fc st uop).core.l1d =
        (fc.store st.core.l1d predFalseAddr (CacheModel.uopMemDispatchCycle st uop)).2 ∧
      (CacheModel.simUop fc st uop).core.cRec =
        st.core.cRec ++ [((CacheModel.simUop fc st uop).core.curCycle,
          CacheModel.uopMemDispatchCycle st uop, CacheModel.uopCommitCycle fc st uop)] ∧
      CacheModel.uopCommitCycle fc st uop =
        w64 ((fc.store st.core.l1d predFalseAddr (CacheModel.uopMemDispatchCycle st uop)).1 +
          L1D_LAT)) := by
  refine ⟨⟨?_, ?_⟩, ?_, ?_⟩
  · simp [CacheModel.PredLoadFunc, CacheModel.predFalseLoad]
  · simp [CacheModel.PredStoreFunc, CacheModel.predFalseStore]
  · intro h hp
    refine ⟨((CacheModel.cache_simUop_load fc st uop h).1 hp).1,
      ((CacheModel.cache_simUop_load fc st uop h).1 hp).2, ?_⟩
    rw [CacheModel.cache_uopCommitCycle_load fc st uop h, hp]
    simp
  · intro h hp
    have h1 := CacheModel.cache_simUop_store fc st uop h
    have h2 := CacheModel.cache_uopCommitCycle_store fc st uop h
    rw [hp] at h1 h2
    exact ⟨h1.1, h1.2.1, h2⟩

/-- Witness for C13: on a freshly constructed `CacheModel` on `cacheLog`, a
first `bbl` of a block that is one `UOP_STORE`, then `PredStoreFunc` with
`pred` false, then the `bbl` call that simulates the store. The store is
dispatched in cycle 10; the filter cache receives the request `(2^64 - 1, 10)`,
`cRec` records `(10, 10, 114)` before the fetch of the next block, and
`commitCycle = 114` is written to register 1. -/
theorem pred_false_store_accesses_l1d_witness :
    (uopOf .UOP_STORE 0 1 1).type = .UOP_STORE ∧
    (∃ s1, CacheModel.run cacheLog 6 (CacheModel.new [] 1000 (fun _ => 0) (fun _ => 0) 0 0)
        [.bbl 4092 (blockOf [uopOf .UOP_STORE 0 1 1]) 0, .predStore 64 false,
          .bbl 4096 (blockOf []) 1] = some s1 ∧
      s1.l1d = [(2 ^ 64 - 1, 10)] ∧ s1.cRec = [(10, 10, 114), (10, 10, 13)] ∧
      s1.regScoreboard 1 = 114) ∧
    CacheModel.uopMemDispatchCycle
      (({ core := CacheModel.new [] 1000 (fun _ => 0) (fun _ => predFalseAddr) 0 1,
          loadIdx := 0, storeIdx := 0, prevDecCycle := 0 } : CacheLoop (List (Nat × Nat))))
      (uopOf .UOP_STORE 0 1 1) = 10 ∧
    CacheModel.uopCommitCycle cacheLog
      (({ core := CacheModel.new [] 1000 (fun _ => 0) (fun _ => predFalseAddr) 0 1,
          loadIdx := 0, storeIdx := 0, prevDecCycle := 0 } : CacheLoop (List (Nat × Nat))))
      (uopOf .UOP_STORE 0 1 1) = 114 :=
  ⟨rfl, ⟨_, rfl, by decide, by decide, by decide⟩, by decide,
    ((pred_false_store_accesses_l1d cacheLog
      (CacheModel.new [] 1000 (fun _ => 0) (fun _ => 0) 0 0) 64
      { core := CacheModel.new [] 1000 (fun _ => 0) (fun _ => predFalseAddr) 0 1,
        loadIdx := 0, storeIdx := 0, prevDecCycle := 0 }
      (uopOf .UOP_STORE 0 1 1)).2.2 rfl rfl).2.2.trans (by decide)⟩

namespace CacheModel

variable {κ : Type}

theorem cache_S1_round (fc : FilterCache κ) (st : CacheLoop κ) (uop : DynUop)
    (hfc : ∀ k a c, (fc.load k a c).1 = c + 100)
    (htype : uop.type = .UOP_LOAD) (hrs : uop.rs = (0, 0)) (hrd : uop.rd = (0, 0))
    (hdec : uop.decCycle = 0)
    (h0 : st.prevDecCycle = 0) (h1 : st.loadIdx = 0)
    (h2 : st.core.curCycle = 0) (h3 : st.core.decodeCycle = DECODE_STAGE)
    (h5 : st.core.lastStoreAddrCommitCycle = 0) (h6 : st.core.loadAddrs 0 = 0x1000) :
    uopMemDispatchCycle st uop = 10 ∧ uopCommitCycle fc st uop = 114 ∧
    (simUop fc st uop).core.regScoreboard 0 = 114 ∧ (simUop fc st uop).core.curCycle = 10 := by
  have hd : uopMemDispatchCycle st uop = 10 := by
    simp only [uopMemDispatchCycle, uopIssue, h0, h2, h3, h5, hdec]
    rw [hrs]
    simp only [Function.update_same]
    decide
  have hc : uopCommitCycle fc st uop = 114 := by
    rw [cache_uopCommitCycle_load fc st uop htype, h1, h6, hd, hfc,
      if_pos (show (4096 : Nat) ≠ predFalseAddr by decide)]
    decide
  have hcur : (simUop fc st uop).core.curCycle = 10 := by
    simp only [simUop, cache_uopLsu_curCycle, uopIssue, h0, h2, h3, hdec]
    rw [hrs]
    simp only [Function.update_same]
    decide
  refine ⟨hd, hc, ?_, hcur⟩
  rw [cache_simUop_regScoreboard, hrd, Function.update_same, hc]

end CacheModel

/-- C14 (as amended). Scenario S1 for `CacheModel`: on a freshly
constructed core whose filter cache answers every load 100 cycles after the
request cycle, a first `bbl` of a block that is one `UOP_LOAD` uop
(`rs = [0,0]`, `rd = [0,0]`, `decCycle = 0`), then the load callback with
address `0x1000`, then the `bbl` call that simulates the block (with
`total_pcount` the instruction count of the block), for `lineBits < 32` and a
next block whose fetch addresses do not wrap around 64 bits
(`bblAddr + bytes + lineSize <= 2^64`). Under these conditions the fetch loop
of that call leaves through its condition within `endAddr - bblAddr` rounds
(more rounds change nothing), and the call returns; the
load is dispatched in cycle `DECODE_STAGE + (DISPATCH_STAGE - ISSUE_STAGE) =
10`, its `commitCycle` is `10 + 100 + L1D_LAT = 114`, which is the value left
in `regScoreboard[0]`, and `curCycle` is 10 on return. -/
theorem S1_single_load {κ : Type} (fc : FilterCache κ) (l1d : κ)
    (phaseLength lineBits loads stores : Nat) (loadAddrs storeAddrs : Nat → Nat)
    (uop : DynUop) (prev next : BblInfo) (a0 a1 tp0 : Nat)
    (hfc : ∀ k a c, (fc.load k a c).1 = c + 100)
    (huops : prev.oooBbl.uop = [uop]) (htype : uop.type = .UOP_LOAD)
    (hrs : uop.rs = (0, 0)) (hrd : uop.rd = (0, 0)) (hdec : uop.decCycle = 0)
    (hl : lineBits < 32) (hw : a1 + next.bytes + 2 ^ lineBits ≤ 2 ^ 64) :
    (∀ (extra : Nat) (r : CacheModel κ × Nat),
      CacheModel.fetchLoop (w32 (1 <<< lineBits)) (w64 (a1 + next.bytes))
          (w64 (a1 + next.bytes) - a1 + extra) a1 r =
        CacheModel.fetchLoop (w32 (1 <<< lineBits)) (w64 (a1 + next.bytes))
          (w64 (a1 + next.bytes) - a1) a1 r) ∧
    ∃ s0 s1,
      CacheModel.run fc lineBits
        (CacheModel.new l1d phaseLength loadAddrs storeAddrs loads stores)
        [.bbl a0 prev tp0, .load 0x1000] = some s0 ∧
      CacheModel.bbl fc lineBits (w32 prev.instrs) s0 a1 next = some s1 ∧
      CacheModel.uopMemDispatchCycle
        { core := { s0 with prevBbl := some next }, loadIdx := 0, storeIdx := 0,
          prevDecCycle := 0 } uop = 10 ∧
      CacheModel.uopCommitCycle fc
        { core := { s0 with prevBbl := some next }, loadIdx := 0, storeIdx := 0,
          prevDecCycle := 0 } uop = 114 ∧
      s1.regScoreboard 0 = 114 ∧ s1.curCycle = 10 := by
  have hfuel : ∀ (extra : Nat) (r : CacheModel κ × Nat),
      CacheModel.fetchLoop (w32 (1 <<< lineBits)) (w64 (a1 + next.bytes))
          (w64 (a1 + next.bytes) - a1 + extra) a1 r =
        CacheModel.fetchLoop (w32 (1 <<< lineBits)) (w64 (a1 + next.bytes))
          (w64 (a1 + next.bytes) - a1) a1 r := by
    intro extra r
    have hpos : 0 < 2 ^ lineBits := Nat.two_pow_pos _
    have e1 : w32 (1 <<< lineBits) = 2 ^ lineBits := CacheModel.w32_lineSize lineBits hl
    have e2 : w64 (a1 + next.bytes) = a1 + next.bytes := w64_of_lt (by omega)
    rw [e1, e2]
    exact CacheModel.cache_fetchLoop_fuel _ _ _ extra a1 r hpos (by omega) (by omega)
  refine ⟨hfuel, ?_⟩
  obtain ⟨s0, hs0⟩ : ∃ s0 : CacheModel κ, s0 =
      ({ CacheModel.new l1d phaseLength loadAddrs storeAddrs loads stores with
        prevBbl := some prev, loads := 0, stores := 0 } : CacheModel κ).load 0x1000 := ⟨_, rfl⟩
  have hp : s0.prevBbl = some prev := by rw [hs0]; rfl
  have hl : s0.loads = 1 := by rw [hs0]; rfl
  have hst : s0.stores = 0 := by rw [hs0]; rfl
  have hi : s0.instrs = 0 := by rw [hs0]; rfl
  have hla : s0.loadAddrs 0 = 0x1000 := by
    rw [hs0]
    simp only [CacheModel.load, Function.update_same]
  obtain ⟨st, hst0⟩ : ∃ st : CacheLoop κ, st =
      { core := { s0 with prevBbl := some next }, loadIdx := 0, storeIdx := 0,
        prevDecCycle := 0 } := ⟨_, rfl⟩
  obtain ⟨r1, r2, r3, r4⟩ := CacheModel.cache_S1_round fc st uop hfc htype hrs hrd hdec
    (by rw [hst0]) (by rw [hst0]) (by rw [hst0, hs0]; rfl) (by rw [hst0, hs0]; rfl)
    (by rw [hst0, hs0]; rfl) (by rw [hst0]; exact hla)
  obtain ⟨i1, i2, i3, i4⟩ := CacheModel.cache_simUop_idx fc st uop
  have i5 := (CacheModel.cache_simUop_frame fc st uop).2
  simp only [htype, if_true, reduceCtorEq, if_false] at i1 i2
  have j1 : (CacheModel.simUop fc st uop).loadIdx = (CacheModel.simUop fc st uop).core.loads := by
    rw [i1, i3, hst0]
    exact hl.symm
  have j2 : (CacheModel.simUop fc st uop).storeIdx =
      (CacheModel.simUop fc st uop).core.stores := by
    rw [i2, i4, hst0]
    exact hst.symm
  have j3 : w64 ((CacheModel.simUop fc st uop).core.instrs + w32 prev.instrs) =
      w32 prev.instrs := by
    rw [i5, hst0]
    show w64 (s0.instrs + w32 prev.instrs) = w32 prev.instrs
    rw [hi]
    unfold w64 w32
    omega
  have hb : CacheModel.bbl fc lineBits (w32 prev.instrs) s0 a1 next =
      some (CacheModel.frontend lineBits
        { (CacheModel.simUop fc st uop).core with
          instrs := w64 ((CacheModel.simUop fc st uop).core.instrs + w32 prev.instrs)
          loads := 0
          stores := 0 } a1 next) := by
    simp only [CacheModel.bbl, hp, CacheModel.simulate, CacheModel.simUops, huops,
      List.foldl_cons, List.foldl_nil, ← hst0]
    rw [if_pos ⟨j3, j1, j2⟩]
  rw [hst0] at r1 r2
  refine ⟨s0, _, by rw [hs0]; rfl, hb, r1, r2, ?_, ?_⟩
  · rw [(CacheModel.cache_frontend_loads _ _ _ _).2.2.1]
    exact r3
  · rw [CacheModel.cache_frontend_curCycle]
    exact r4

/-- Witness for C14: scenario S1 on `cache100`, with `lineBits = 6` and the
next block of 4 bytes at 4096. -/
theorem S1_single_load_witness :
    (∀ k a c, (cache100.load k a c).1 = c + 100) ∧
    (blockOf [uopOf .UOP_LOAD 0 0 0]).oooBbl.uop = [uopOf .UOP_LOAD 0 0 0] ∧
    ((6 : Nat) < 32 ∧ 4096 + (blockOf []).bytes + 2 ^ 6 ≤ 2 ^ 64) ∧
    ∃ s0 s1,
      CacheModel.run cache100 6 (cacheModel0 0 0)
        [.bbl 4092 (blockOf [uopOf .UOP_LOAD 0 0 0]) 0, .load 0x1000] = some s0 ∧
      CacheModel.bbl cache100 6 (w32 (blockOf [uopOf .UOP_LOAD 0 0 0]).instrs) s0 4096
        (blockOf []) = some s1 ∧
      CacheModel.uopMemDispatchCycle
        { core := { s0 with prevBbl := some (blockOf []) }, loadIdx := 0, storeIdx := 0,
          prevDecCycle := 0 } (uopOf .UOP_LOAD 0 0 0) = 10 ∧
      CacheModel.uopCommitCycle cache100
        { core := { s0 with prevBbl := some (blockOf []) }, loadIdx := 0, storeIdx := 0,
          prevDecCycle := 0 } (uopOf .UOP_LOAD 0 0 0) = 114 ∧
      s1.regScoreboard 0 = 114 ∧ s1.curCycle = 10 :=
  ⟨fun _ _ _ => rfl, rfl, ⟨by decide, by decide⟩,
    (S1_single_load cache100 () 1000 6 0 0 (fun _ => 0) (fun _ => 0) (uopOf .UOP_LOAD 0 0 0)
      (blockOf [uopOf .UOP_LOAD 0 0 0]) (blockOf []) 4092 4096 0 (fun _ _ _ => rfl) rfl rfl rfl
      rfl rfl (by decide) (by decide)).2⟩

/-- Counterexample to C14 as stated: in scenario S1 on `cache100` the value
of `commitCycle`, left in `regScoreboard[0]`, is 114, not
`100 + L1D_LAT = 104`, and `curCycle` is 10 when the triggering `bbl` call
returns, which is less than 104. -/
theorem S1_commit_is_not_104 :
    (CacheModel.run cache100 6 (cacheModel0 0 0)
      [.bbl 4092 (blockOf [uopOf .UOP_LOAD 0 0 0]) 0, .load 0x1000,
        .bbl 4096 (blockOf []) 1]).map (fun s => (s.regScoreboard 0, s.curCycle)) =
      some (114, 10) ∧
    CacheModel.uopCommitCycle cache100 (cacheLoop0 (fun _ => 0x1000) (fun _ => 0) 0)
      (uopOf .UOP_LOAD 0 0 0) = 114 ∧
    (114 : Nat) ≠ 100 + L1D_LAT ∧ ¬ (10 : Nat) ≥ 104 := by
  decide

namespace CacheModel

variable {κ : Type}

theorem cache_uopLsu_lastStore (fc : FilterCache κ) (s : CacheModel κ) (li si d : Nat)
    (uop : DynUop) :
    s.lastStoreCommitCycle ≤ (uopLsu fc s li si d uop).1.lastStoreCommitCycle ∧
    s.lastStoreAddrCommitCycle ≤ (uopLsu fc s li si d uop).1.lastStoreAddrCommitCycle := by
  unfold uopLsu
  cases uop.type <;> dsimp only
  case UOP_LOAD => split_ifs <;> exact ⟨Nat.le_refl _, Nat.le_refl _⟩
  case UOP_GENERAL => exact ⟨Nat.le_refl _, Nat.le_refl _⟩
  case UOP_STORE => exact ⟨MAX_ge_left _ _, Nat.le_refl _⟩
  case UOP_STORE_ADDR => exact ⟨Nat.le_refl _, MAX_ge_left _ _⟩
  case UOP_FENCE =>
    exact ⟨Nat.le_refl _, le_trans (MAX_ge_left _ _) (MAX_ge_right _ _)⟩

theorem cache_simUop_lastStore (fc : FilterCache κ) (st : CacheLoop κ) (uop : DynUop) :
    st.core.lastStoreCommitCycle ≤ (simUop fc st uop).core.lastStoreCommitCycle ∧
    st.core.lastStoreAddrCommitCycle ≤ (simUop fc st uop).core.lastStoreAddrCommitCycle :=
  cache_uopLsu_lastStore fc (st.core.uopIssue st.prevDecCycle uop).1 st.loadIdx st.storeIdx
    (st.core.uopIssue st.prevDecCycle uop).2 uop

theorem cache_foldl_simUop_lastStore (fc : FilterCache κ) (uops : List DynUop)
    (st : CacheLoop κ) :
    st.core.lastStoreCommitCycle ≤ (uops.foldl (simUop fc) st).core.lastStoreCommitCycle ∧
    st.core.lastStoreAddrCommitCycle ≤
      (uops.foldl (simUop fc) st).core.lastStoreAddrCommitCycle := by
  induction uops generalizing st with
  | nil => exact ⟨Nat.le_refl _, Nat.le_refl _⟩
  | cons u us ih =>
    rw [List.foldl_cons]
    exact ⟨le_trans (cache_simUop_lastStore fc st u).1 (ih _).1,
      le_trans (cache_simUop_lastStore fc st u).2 (ih _).2⟩

theorem cache_simUop_fence (fc : FilterCache κ) (st : CacheLoop κ) (uop : DynUop)
    (h : uop.type = .UOP_FENCE) :
    uopCommitCycle fc st uop = w64 (uopDispatchCycle st uop + uop.lat) ∧
    (simUop fc st uop).core.lastStoreAddrCommitCycle =
      MAX (uopCommitCycle fc st uop)
        (MAX st.core.lastStoreAddrCommitCycle st.core.lastStoreCommitCycle) := by
  simp only [simUop, uopCommitCycle, uopLsu, h]
  exact ⟨rfl, rfl⟩

end CacheModel

/-- C15. In the uop loop of `CacheModel::bbl`, let a `UOP_STORE` uop `sU` be
followed, after the uops `mid`, by a `UOP_FENCE` uop `fU`, and that, after the
uops `post`, by a `UOP_LOAD` or `UOP_STORE` uop `mU`; `a`, `b` and `e` are the
loop states when the rounds of `sU`, `fU` and `mU` start and `c` the one right
after the round of `fU`, so that the loop over
`pre ++ sU :: mid ++ fU :: post ++ mU :: rest` passes through them. Then
`lastStoreAddrCommitCycle` right after the fence is the maximum of the
fence's `commitCycle` and the two store trackers before it, hence at least the
`commitCycle` of the store and at least that of the fence; the request of
`mU` goes to the filter cache with the dispatch cycle
`MAX(lastStoreAddrCommitCycle+1, dispatchCycle)`; and when
`lastStoreAddrCommitCycle + 1` does not wrap around 64 bits at `mU`, that
dispatch cycle is greater than the value of `lastStoreAddrCommitCycle` right
after the fence. -/
theorem fence_serialises {κ : Type} (fc : FilterCache κ) (st a b c e : CacheLoop κ)
    (pre mid post rest : List DynUop) (sU fU mU : DynUop)
    (ha : a = pre.foldl (CacheModel.simUop fc) st)
    (hb : b = mid.foldl (CacheModel.simUop fc) (CacheModel.simUop fc a sU))
    (hc : c = CacheModel.simUop fc b fU)
    (he : e = post.foldl (CacheModel.simUop fc) c)
    (hS : sU.type = .UOP_STORE) (hF : fU.type = .UOP_FENCE)
    (hM : mU.type = .UOP_LOAD ∨ mU.type = .UOP_STORE) :
    (pre ++ sU :: (mid ++ fU :: (post ++ mU :: rest))).foldl (CacheModel.simUop fc) st =
      rest.foldl (CacheModel.simUop fc) (CacheModel.simUop fc e mU) ∧
    c.core.lastStoreAddrCommitCycle =
      MAX (CacheModel.uopCommitCycle fc b fU)
        (MAX b.core.lastStoreAddrCommitCycle b.core.lastStoreCommitCycle) ∧
    CacheModel.uopCommitCycle fc a sU ≤ c.core.lastStoreAddrCommitCycle ∧
    CacheModel.uopCommitCycle fc b fU ≤ c.core.lastStoreAddrCommitCycle ∧
    ((mU.type = .UOP_LOAD ∧
        CacheModel.uopCommitCycle fc e mU =
          if e.core.loadAddrs e.loadIdx ≠ predFalseAddr then
            w64 ((fc.load e.core.l1d (e.core.loadAddrs e.loadIdx)
              (CacheModel.uopMemDispatchCycle e mU)).1 + L1D_LAT)
          else CacheModel.uopMemDispatchCycle e mU) ∨
      (mU.type = .UOP_STORE ∧
        CacheModel.uopCommitCycle fc e mU =
          w64 ((fc.store e.core.l1d (e.core.storeAddrs e.storeIdx)
            (CacheModel.uopMemDispatchCycle e mU)).1 + L1D_LAT))) ∧
    (e.core.lastStoreAddrCommitCycle + 1 < 2 ^ 64 →
      c.core.lastStoreAddrCommitCycle < CacheModel.uopMemDispatchCycle e mU) := by
  have h1 := (CacheModel.cache_simUop_store fc a sU hS).2.2.1
  have h2 := (CacheModel.cache_foldl_simUop_lastStore fc mid (CacheModel.simUop fc a sU)).1
  have h3 := (CacheModel.cache_simUop_fence fc b fU hF).2
  have h4 := (CacheModel.cache_foldl_simUop_lastStore fc post c).2
  have h5 := (CacheModel.cache_uopMemDispatchCycle_ge e mU).1
  rw [← hb] at h2
  rw [← hc] at h3
  rw [← he] at h4
  refine ⟨?_, h3, ?_, ?_, ?_, ?_⟩
  · simp only [List.foldl_append, List.foldl_cons, ← ha, ← hb, ← hc, ← he]
  · rw [h3]
    refine le_trans ?_ (le_trans (MAX_ge_right _ _) (MAX_ge_right _ _))
    refine le_trans ?_ h2
    rw [h1]
    exact MAX_ge_right _ _
  · rw [h3]
    exact MAX_ge_left _ _
  · rcases hM with h | h
    · exact Or.inl ⟨h, CacheModel.cache_uopCommitCycle_load fc e mU h⟩
    · exact Or.inr ⟨h, CacheModel.cache_uopCommitCycle_store fc e mU h⟩
  · intro hw
    rw [w64_of_lt hw] at h5
    omega

/-- Witness for C15: the uops `[STORE 0x40, FENCE lat=1, LOAD 0x80]` on a
freshly constructed core on `cache100`. The store commits in cycle 114, the
fence in cycle 17; `lastStoreAddrCommitCycle` is 114 after the fence and the
load is dispatched in cycle 115. -/
theorem fence_serialises_witness :
    ((uopOf .UOP_STORE 0 1 1).type = .UOP_STORE ∧ (uopOf .UOP_FENCE 0 2 2).type = .UOP_FENCE ∧
      ((uopOf .UOP_LOAD 0 3 3).type = .UOP_LOAD ∨ (uopOf .UOP_LOAD 0 3 3).type = .UOP_STORE)) ∧
    CacheModel.uopCommitCycle cache100 (cacheLoop0 (fun _ => 0x80) (fun _ => 0x40) 0)
      (uopOf .UOP_STORE 0 1 1) = 114 ∧
    CacheModel.uopCommitCycle cache100
      (CacheModel.simUop cache100 (cacheLoop0 (fun _ => 0x80) (fun _ => 0x40) 0)
        (uopOf .UOP_STORE 0 1 1)) (uopOf .UOP_FENCE 0 2 2) = 17 ∧
    (CacheModel.simUop cache100
      (CacheModel.simUop cache100 (cacheLoop0 (fun _ => 0x80) (fun _ => 0x40) 0)
        (uopOf .UOP_STORE 0 1 1))
      (uopOf .UOP_FENCE 0 2 2)).core.lastStoreAddrCommitCycle = 114 ∧
    CacheModel.uopMemDispatchCycle
      (CacheModel.simUop cache100
        (CacheModel.simUop cache100 (cacheLoop0 (fun _ => 0x80) (fun _ => 0x40) 0)
          (uopOf .UOP_STORE 0 1 1))
        (uopOf .UOP_FENCE 0 2 2)) (uopOf .UOP_LOAD 0 3 3) = 115 ∧
    (CacheModel.simUop cache100
      (CacheModel.simUop cache100 (cacheLoop0 (fun _ => 0x80) (fun _ => 0x40) 0)
        (uopOf .UOP_STORE 0 1 1))
      (uopOf .UOP_FENCE 0 2 2)).core.lastStoreAddrCommitCycle <
    CacheModel.uopMemDispatchCycle
      (CacheModel.simUop cache100
        (CacheModel.simUop cache100 (cacheLoop0 (fun _ => 0x80) (fun _ => 0x40) 0)
          (uopOf .UOP_STORE 0 1 1))
        (uopOf .UOP_FENCE 0 2 2)) (uopOf .UOP_LOAD 0 3 3) :=
  ⟨⟨rfl, rfl, Or.inl rfl⟩, by decide, by decide, by decide, by decide,
    (fence_serialises cache100 (cacheLoop0 (fun _ => 0x80) (fun _ => 0x40) 0) _ _ _ _
      [] [] [] [] (uopOf .UOP_STORE 0 1 1) (uopOf .UOP_FENCE 0 2 2) (uopOf .UOP_LOAD 0 3 3)
      rfl rfl rfl rfl rfl rfl (Or.inl rfl)).2.2.2.2.2 (by decide)⟩

namespace FetchModel

variable {κ : Type}

theorem fetch_foldl_simUop_branchView (uops : List DynUop) (st : FetchLoop κ) :
    (uops.foldl simUop st).core.branchView = st.core.branchView := by
  induction uops generalizing st with
  | nil => rfl
  | cons u us ih =>
    rw [List.foldl_cons, ih]
    rfl

theorem fetch_wrongPathLoop_branchView (fc : FilterCache κ) (lineSize wpa lcc n i : Nat)
    (r : FetchModel κ × Nat) :
    (wrongPathLoop fc lineSize wpa lcc n i r).1.branchView = r.1.branchView := by
  induction n generalizing i r with
  | zero => rfl
  | succ n ih =>
    obtain ⟨s, c⟩ := r
    simp only [wrongPathLoop]
    split_ifs
    · rfl
    · rw [ih]
      rfl

theorem fetch_fetchLoop_branchView (fc : FilterCache κ) (stride endAddr fuel fetchAddr : Nat)
    (r : FetchModel κ × Nat) :
    (fetchLoop fc stride endAddr fuel fetchAddr r).1.branchView = r.1.branchView := by
  induction fuel generalizing fetchAddr r with
  | zero => rfl
  | succ n ih =>
    obtain ⟨s, c⟩ := r
    simp only [fetchLoop]
    split_ifs
    · rw [ih]
      rfl
    · rfl

theorem fetch_fetchLoop_fetchCycle (fc : FilterCache κ) (stride endAddr fuel fetchAddr : Nat)
    (s : FetchModel κ) (c : Nat)
    (hw : c + fetchLatSum fc stride endAddr fuel fetchAddr s < 2 ^ 64) :
    (fetchLoop fc stride endAddr fuel fetchAddr (s, c)).2 =
      c + fetchLatSum fc stride endAddr fuel fetchAddr s := by
  induction fuel generalizing fetchAddr s c with
  | zero => rfl
  | succ n ih =>
    simp only [fetchLoop, fetchLatSum] at hw ⊢
    split_ifs at hw ⊢ with hlt
    · have e1 : w64 (c + sub64 (fc.load s.l1i fetchAddr s.curCycle).1 s.curCycle) =
          c + sub64 (fc.load s.l1i fetchAddr s.curCycle).1 s.curCycle :=
        w64_of_lt (by omega)
      rw [e1, ih _ _ _ (by omega)]
      omega
    · rfl

theorem fetch_fetchLoop_fetchCycle_pair (fc : FilterCache κ) (stride endAddr fuel fetchAddr : Nat)
    (r : FetchModel κ × Nat)
    (hw : r.2 + fetchLatSum fc stride endAddr fuel fetchAddr r.1 < 2 ^ 64) :
    (fetchLoop fc stride endAddr fuel fetchAddr r).2 =
      r.2 + fetchLatSum fc stride endAddr fuel fetchAddr r.1 :=
  fetch_fetchLoop_fetchCycle fc stride endAddr fuel fetchAddr r.1 r.2 hw

theorem fetch_frontendBranch_mispred (fc : FilterCache κ) (lineSize lcc : Nat)
    (s : FetchModel κ) (fetchCycle : Nat) :
    (s.branchPc ≠ 0 →
      (s.branchPred.predict s.branchPc s.branchTaken
        (if s.branchTaken then s.branchTakenNpc else s.branchNotTakenNpc)).1 = false →
      (frontendBranch fc lineSize lcc s fetchCycle).1.mispredBranches =
        w64 (s.mispredBranches + 1) ∧
      (frontendBranch fc lineSize lcc s fetchCycle).2 = lcc) ∧
    (s.branchPc = 0 ∨
      (s.branchPred.predict s.branchPc s.branchTaken
        (if s.branchTaken then s.branchTakenNpc else s.branchNotTakenNpc)).1 = true →
      (frontendBranch fc lineSize lcc s fetchCycle).1.mispredBranches = s.mispredBranches) ∧
    (frontendBranch fc lineSize lcc s fetchCycle).1.branchPc = 0 := by
  unfold frontendBranch
  dsimp only
  by_cases hpc : s.branchPc = 0
  · simp only [hpc, ne_eq, not_true_eq_false, if_false, false_implies, true_or, true_implies,
      and_self]
  · rw [if_pos hpc]
    by_cases hp : (s.branchPred.predict s.branchPc s.branchTaken
        (if s.branchTaken then s.branchTakenNpc else s.branchNotTakenNpc)).1 = false
    · rw [if_pos hp]
      refine ⟨fun _ _ => ⟨?_, rfl⟩, fun h => ?_, rfl⟩
      · have := fetch_wrongPathLoop_branchView fc lineSize
          (if s.branchTaken then s.branchNotTakenNpc else s.branchTakenNpc) lcc
          (5 * 64 / lineSize) 0
          ({ s with
              branchPred := (s.branchPred.predict s.branchPc s.branchTaken
                (if s.branchTaken then s.branchTakenNpc else s.branchNotTakenNpc)).2
              mispredBranches := w64 (s.mispredBranches + 1) }, fetchCycle)
        simp only [branchView, Prod.mk.injEq] at this
        exact this.2.2.2.2.2.1
      · rcases h with h | h
        · exact absurd h hpc
        · rw [hp] at h
          exact absurd h (by decide)
    · rw [if_neg hp]
      exact ⟨fun _ h => absurd h hp, fun _ => rfl, rfl⟩

theorem fetch_frontend_mispred (fc : FilterCache κ) (lineBits lcc : Nat) (s : FetchModel κ)
    (a : Nat) (b : BblInfo) :
    (frontend fc lineBits lcc s a b).mispredBranches =
      (frontendBranch fc (w32 (1 <<< lineBits)) lcc s
        (sub64 s.decodeCycle (DECODE_STAGE - FETCH_STAGE))).1.mispredBranches ∧
    (frontend fc lineBits lcc s a b).branchPc =
      (frontendBranch fc (w32 (1 <<< lineBits)) lcc s
        (sub64 s.decodeCycle (DECODE_STAGE - FETCH_STAGE))).1.branchPc ∧
    w64 ((fetchLoop fc
        (min (w32 (1 <<< lineBits))
          (frontendBranch fc (w32 (1 <<< lineBits)) lcc s
            (sub64 s.decodeCycle (DECODE_STAGE - FETCH_STAGE))).1.fetch_bytes_per_cycle)
        (w64 (a + b.bytes)) (w64 (a + b.bytes) - a) a
        (frontendBranch fc (w32 (1 <<< lineBits)) lcc s
          (sub64 s.decodeCycle (DECODE_STAGE - FETCH_STAGE)))).2 +
        (DECODE_STAGE - FETCH_STAGE)) ≤ (frontend fc lineBits lcc s a b).decodeCycle := by
  have hv := fetch_fetchLoop_branchView fc
    (min (w32 (1 <<< lineBits))
      (frontendBranch fc (w32 (1 <<< lineBits)) lcc s
        (sub64 s.decodeCycle (DECODE_STAGE - FETCH_STAGE))).1.fetch_bytes_per_cycle)
    (w64 (a + b.bytes)) (w64 (a + b.bytes) - a) a
    (frontendBranch fc (w32 (1 <<< lineBits)) lcc s
      (sub64 s.decodeCycle (DECODE_STAGE - FETCH_STAGE)))
  simp only [branchView, Prod.mk.injEq] at hv
  simp only [frontend]
  split_ifs with hm
  · exact ⟨hv.2.2.2.2.2.1, hv.1, Nat.le_refl _⟩
  · exact ⟨hv.2.2.2.2.2.1, hv.1, Nat.le_of_not_lt hm⟩

end FetchModel

/-- C16. Let `FetchModel::bbl` be called with a block `prev` waiting in
`prevBbl` and with `instrs`, after the addition of the 32-bit instruction
count of `prev`, equal to `total_pcount`, for `lineBits < 32`, a positive
`fetch_bytes_per_cycle` and a new block whose fetch addresses do not wrap
around 64 bits (`bblAddr + bytes + lineSize <= 2^64`). Under these conditions
the stride `min(lineSize, fetch_bytes_per_cycle)` is positive, the fetch loop
of the call leaves through its condition within `endAddr - bblAddr` rounds
(more rounds change nothing), and the call returns. On return:
if `branchPc` was not 0 and `predict(branchPc, branchTaken, branchTarget)`
returned false, `mispredBranches` is one more than before (in 64 bits), and,
provided every `l1i->load(a, c)` returns a value `>= c`,
`decodeCycle ≥ lastCommitCycle + (DECODE_STAGE - FETCH_STAGE)`, where
`lastCommitCycle` is the `commitCycle` of the last uop of `prev`, when the
sum of `lastCommitCycle`, the fetch latencies `l1i->load(a, c) - c` of the new
block and `DECODE_STAGE - FETCH_STAGE` does not wrap around 64 bits; if
`branchPc` was 0 or `predict` returned true, `mispredBranches` is unchanged;
and `branchPc` is 0 in every case. -/
theorem mispredict_penalty {κ : Type} (fc : FilterCache κ) (lineBits total_pcount : Nat)
    (s : FetchModel κ) (prev : BblInfo) (bblAddr : Nat) (bblInfo : BblInfo)
    (hprev : s.prevBbl = some prev)
    (hinstrs : w64 (s.instrs + w32 prev.instrs) = total_pcount)
    (hl : lineBits < 32) (hf : 0 < s.fetch_bytes_per_cycle)
    (hw : bblAddr + bblInfo.bytes + 2 ^ lineBits ≤ 2 ^ 64) :
    (0 < min (w32 (1 <<< lineBits)) s.fetch_bytes_per_cycle ∧
      ∀ (extra : Nat) (r : FetchModel κ × Nat),
        FetchModel.fetchLoop fc (min (w32 (1 <<< lineBits)) s.fetch_bytes_per_cycle)
            (w64 (bblAddr + bblInfo.bytes)) (w64 (bblAddr + bblInfo.bytes) - bblAddr + extra)
            bblAddr r =
          FetchModel.fetchLoop fc (min (w32 (1 <<< lineBits)) s.fetch_bytes_per_cycle)
            (w64 (bblAddr + bblInfo.bytes)) (w64 (bblAddr + bblInfo.bytes) - bblAddr)
            bblAddr r) ∧
    ∃ s1, FetchModel.bbl fc lineBits total_pcount s bblAddr bblInfo = some s1 ∧
      (s.branchPc ≠ 0 →
        (s.branchPred.predict s.branchPc s.branchTaken
          (if s.branchTaken then s.branchTakenNpc else s.branchNotTakenNpc)).1 = false →
        s1.mispredBranches = w64 (s.mispredBranches + 1) ∧
        (s.mispredBranches + 1 < 2 ^ 64 → s1.mispredBranches = s.mispredBranches + 1) ∧
        ((∀ k a c, c ≤ (fc.load k a c).1) →
          FetchModel.bblLastCommitCycle s prev bblInfo +
            FetchModel.bblFetchLat fc lineBits s prev bblAddr bblInfo +
            (DECODE_STAGE - FETCH_STAGE) < 2 ^ 64 →
          FetchModel.bblLastCommitCycle s prev bblInfo + (DECODE_STAGE - FETCH_STAGE) ≤
            s1.decodeCycle)) ∧
      (s.branchPc = 0 ∨
        (s.branchPred.predict s.branchPc s.branchTaken
          (if s.branchTaken then s.branchTakenNpc else s.branchNotTakenNpc)).1 = true →
        s1.mispredBranches = s.mispredBranches) ∧
      s1.branchPc = 0 := by
  have hls : w32 (1 <<< lineBits) = 2 ^ lineBits := CacheModel.w32_lineSize lineBits hl
  have hpos : 0 < 2 ^ lineBits := Nat.two_pow_pos _
  have hstride : 0 < min (w32 (1 <<< lineBits)) s.fetch_bytes_per_cycle := by
    rw [hls]
    exact lt_min hpos hf
  have hfuel : ∀ (extra : Nat) (r : FetchModel κ × Nat),
      FetchModel.fetchLoop fc (min (w32 (1 <<< lineBits)) s.fetch_bytes_per_cycle)
          (w64 (bblAddr + bblInfo.bytes)) (w64 (bblAddr + bblInfo.bytes) - bblAddr + extra)
          bblAddr r =
        FetchModel.fetchLoop fc (min (w32 (1 <<< lineBits)) s.fetch_bytes_per_cycle)
          (w64 (bblAddr + bblInfo.bytes)) (w64 (bblAddr + bblInfo.bytes) - bblAddr)
          bblAddr r := by
    intro extra r
    have e2 : w64 (bblAddr + bblInfo.bytes) = bblAddr + bblInfo.bytes := w64_of_lt (by omega)
    have hle : min (w32 (1 <<< lineBits)) s.fetch_bytes_per_cycle ≤ 2 ^ lineBits := by
      rw [hls]
      exact min_le_left _ _
    rw [e2]
    exact FetchModel.fetch_fetchLoop_fuel fc _ _ _ extra bblAddr r hstride (by omega) (by omega)
  refine ⟨⟨hstride, hfuel⟩, ?_⟩
  obtain ⟨st, hst⟩ : ∃ st, st = FetchModel.simUops s bblInfo prev.oooBbl.uop := ⟨_, rfl⟩
  obtain ⟨t, ht⟩ : ∃ t : FetchModel κ, t =
      { st.core with instrs := w64 (st.core.instrs + w32 prev.instrs) } := ⟨_, rfl⟩
  have hv : t.branchView = s.branchView := by
    rw [ht, hst]
    exact FetchModel.fetch_foldl_simUop_branchView prev.oooBbl.uop _
  have hi : st.core.instrs = s.instrs := by
    rw [hst]
    exact (FetchModel.fetch_foldl_simUop_frame prev.oooBbl.uop _).2
  simp only [FetchModel.branchView, Prod.mk.injEq] at hv
  obtain ⟨v1, v2, v3, v4, v5, v6, -⟩ := hv
  have hb : FetchModel.bbl fc lineBits total_pcount s bblAddr bblInfo =
      some (FetchModel.frontend fc lineBits st.lastCommitCycle t bblAddr bblInfo) := by
    rw [ht]
    simp only [FetchModel.bbl, hprev, FetchModel.simulate, ← hst]
    rw [if_pos (by rw [hi]; exact hinstrs)]
  obtain ⟨m1, m2, m3⟩ := FetchModel.fetch_frontendBranch_mispred fc (w32 (1 <<< lineBits))
    st.lastCommitCycle t (sub64 t.decodeCycle (DECODE_STAGE - FETCH_STAGE))
  obtain ⟨f1, f2, f3⟩ := FetchModel.fetch_frontend_mispred fc lineBits st.lastCommitCycle t
    bblAddr bblInfo
  rw [v1, v2, v3, v4, v5, v6] at m1 m2
  refine ⟨_, hb, fun hpc hp => ⟨?_, ?_, ?_⟩, fun h => ?_, ?_⟩
  · rw [f1]
    exact (m1 hpc hp).1
  · intro hw
    rw [f1, (m1 hpc hp).1, w64_of_lt hw]
  · intro _ hw
    have hw2 : st.lastCommitCycle +
        FetchModel.fetchLatSum fc
          (min (w32 (1 <<< lineBits))
            (FetchModel.frontendBranch fc (w32 (1 <<< lineBits)) st.lastCommitCycle t
              (sub64 t.decodeCycle (DECODE_STAGE - FETCH_STAGE))).1.fetch_bytes_per_cycle)
          (w64 (bblAddr + bblInfo.bytes)) (w64 (bblAddr + bblInfo.bytes) - bblAddr) bblAddr
          (FetchModel.frontendBranch fc (w32 (1 <<< lineBits)) st.lastCommitCycle t
            (sub64 t.decodeCycle (DECODE_STAGE - FETCH_STAGE))).1 +
        (DECODE_STAGE - FETCH_STAGE) < 2 ^ 64 := by
      rw [hst, ht, hst]
      exact hw
    rw [FetchModel.fetch_fetchLoop_fetchCycle_pair fc _ _ _ _ _
      (by rw [(m1 hpc hp).2]; omega), (m1 hpc hp).2, w64_of_lt hw2] at f3
    have hl : FetchModel.bblLastCommitCycle s prev bblInfo = st.lastCommitCycle := by
      rw [hst]
      rfl
    rw [hl]
    omega
  · rw [f1]
    exact m2 h
  · rw [f2]
    exact m3

/-- Witness for C16: scenario S3. A block of one uop of latency 100 waits in
`prevBbl` of a `FetchModel` on `cache100` with a fresh predictor, and the
branch at `0x400` was taken, which the predictor does not predict.
`lastCommitCycle` is 110, the fetch of the new block takes 100 cycles, and the
call returns with `mispredBranches = 1`, `decodeCycle = 213 ≥ 110 + 3` and
`branchPc = 0`. With the branch not taken the prediction is right and
`mispredBranches` stays 0. -/
theorem mispredict_penalty_witness :
    ((6 : Nat) < 32 ∧
      0 < ((fetchModel0 0 4 (some (blockOf [generalUop 100 1 1]))).branch 1024 true 1280
        1028).fetch_bytes_per_cycle ∧
      4096 + (blockOf []).bytes + 2 ^ 6 ≤ 2 ^ 64 ∧
      ∀ k a c, c ≤ (cache100.load k a c).1) ∧
    (((fetchModel0 0 4 (some (blockOf [generalUop 100 1 1]))).branch 1024 true 1280
        1028).branchPc ≠ 0 ∧
      FetchModel.bblLastCommitCycle
        ((fetchModel0 0 4 (some (blockOf [generalUop 100 1 1]))).branch 1024 true 1280 1028)
        (blockOf [generalUop 100 1 1]) (blockOf []) = 110) ∧
    (∃ s1, FetchModel.bbl cache100 6 1
        ((fetchModel0 0 4 (some (blockOf [generalUop 100 1 1]))).branch 1024 true 1280 1028)
        4096 (blockOf []) = some s1 ∧
      s1.mispredBranches = 1 ∧ 110 + (DECODE_STAGE - FETCH_STAGE) ≤ s1.decodeCycle ∧
      s1.decodeCycle = 213 ∧ s1.branchPc = 0) ∧
    (∃ s1, FetchModel.bbl cache100 6 1
        ((fetchModel0 0 4 (some (blockOf [generalUop 100 1 1]))).branch 1024 false 1280 1028)
        4096 (blockOf []) = some s1 ∧
      s1.mispredBranches = 0 ∧ s1.branchPc = 0) := by
  have hge : ∀ (k : Unit) (a c : Nat), c ≤ (cache100.load k a c).1 :=
    fun _ _ c => Nat.le_add_right c 100
  refine ⟨⟨by decide, by decide, by decide, hge⟩, ⟨by decide, by decide⟩, ?_, ?_⟩
  · obtain ⟨-, s1, h1, h2, -, h4⟩ := mispredict_penalty cache100 6 1
      ((fetchModel0 0 4 (some (blockOf [generalUop 100 1 1]))).branch 1024 true 1280 1028)
      (blockOf [generalUop 100 1 1]) 4096 (blockOf []) rfl (by decide) (by decide) (by decide)
      (by decide)
    have hp : (((fetchModel0 0 4 (some (blockOf [generalUop 100 1 1]))).branch 1024 true 1280
        1028).branchPred.predict 1024 true 1280).1 = false := by
      set_option maxRecDepth 100000 in decide
    have hw : FetchModel.bblLastCommitCycle
          ((fetchModel0 0 4 (some (blockOf [generalUop 100 1 1]))).branch 1024 true 1280 1028)
          (blockOf [generalUop 100 1 1]) (blockOf []) +
        FetchModel.bblFetchLat cache100 6
          ((fetchModel0 0 4 (some (blockOf [generalUop 100 1 1]))).branch 1024 true 1280 1028)
          (blockOf [generalUop 100 1 1]) 4096 (blockOf []) +
        (DECODE_STAGE - FETCH_STAGE) < 2 ^ 64 := by
      set_option maxRecDepth 100000 in decide
    have hd : (FetchModel.bbl cache100 6 1
        ((fetchModel0 0 4 (some (blockOf [generalUop 100 1 1]))).branch 1024 true 1280 1028)
        4096 (blockOf [])).map (fun s => s.decodeCycle) = some 213 := by
      set_option maxRecDepth 100000 in decide
    rw [h1] at hd
    exact ⟨s1, h1, (h2 (by decide) hp).2.1 (by decide), (h2 (by decide) hp).2.2 hge hw,
      Option.some.inj hd, h4⟩
  · obtain ⟨-, s1, h1, -, h3, h4⟩ := mispredict_penalty cache100 6 1
      ((fetchModel0 0 4 (some (blockOf [generalUop 100 1 1]))).branch 1024 false 1280 1028)
      (blockOf [generalUop 100 1 1]) 4096 (blockOf []) rfl (by decide) (by decide) (by decide)
      (by decide)
    have hp : (((fetchModel0 0 4 (some (blockOf [generalUop 100 1 1]))).branch 1024 false 1280
        1028).branchPred.predict 1024 false 1028).1 = true := by
      set_option maxRecDepth 100000 in decide
    exact ⟨s1, h1, h3 (Or.inr hp), h4⟩

namespace IssueModel

variable {W R Q : Type}

theorem issue_uopLsu_fwd (env : IssueEnv W R Q) (s : IssueModel W R Q) (li si d : Nat)
    (uop : DynUop) :
    (uopLsu env s li si d uop).1.loadAddrs = s.loadAddrs ∧
    (uopLsu env s li si d uop).1.storeAddrs = s.storeAddrs ∧
    (uopLsu env s li si d uop).2.1 = (if uop.type = .UOP_LOAD then w32 (li + 1) else li) ∧
    (uopLsu env s li si d uop).2.2.1 = (if uop.type = .UOP_STORE then w32 (si + 1) else si) ∧
    (uopLsu env s li si d uop).1.fwdArray =
      (if uop.type = .UOP_STORE then
        Function.update s.fwdArray ((s.storeAddrs si >>> 2) &&& (FWD_ENTRIES - 1))
          { addr := s.storeAddrs si, storeCycle := (uopLsu env s li si d uop).2.2.2 }
      else s.fwdArray) := by
  unfold uopLsu
  cases uop.type <;> exact ⟨rfl, rfl, rfl, rfl, rfl⟩

theorem issue_simUop_fwd (env : IssueEnv W R Q) (st : IssueLoop W R Q) (uop : DynUop) :
    (simUop env st uop).core.loadAddrs = st.core.loadAddrs ∧
    (simUop env st uop).core.storeAddrs = st.core.storeAddrs ∧
    (simUop env st uop).loadIdx =
      (if uop.type = .UOP_LOAD then w32 (st.loadIdx + 1) else st.loadIdx) ∧
    (simUop env st uop).storeIdx =
      (if uop.type = .UOP_STORE then w32 (st.storeIdx + 1) else st.storeIdx) ∧
    (simUop env st uop).core.fwdArray =
      (if uop.type = .UOP_STORE then
        Function.update st.core.fwdArray
          ((st.core.storeAddrs st.storeIdx >>> 2) &&& (FWD_ENTRIES - 1))
          { addr := st.core.storeAddrs st.storeIdx, storeCycle := uopCommitCycle env st uop }
      else st.core.fwdArray) := by
  obtain ⟨h1, h2, h3, h4, h5⟩ := issue_uopLsu_fwd env (uopPreLsu env st uop).1 st.loadIdx
    st.storeIdx (uopPreLsu env st uop).2 uop
  obtain ⟨f1, f2, -, -, f5, -, -⟩ := issue_uopPreLsu_fields env st uop
  rw [f1] at h1
  rw [f2] at h2
  rw [f2, f5] at h5
  exact ⟨h1, h2, h3, h4, h5⟩

theorem issue_foldl_simUop_fwd (env : IssueEnv W R Q) (slot : Nat) (uops : List DynUop)
    (st : IssueLoop W R Q) (h : NoStoreToSlot st.core.storeAddrs slot uops st.storeIdx) :
    (uops.foldl (simUop env) st).core.fwdArray slot = st.core.fwdArray slot ∧
    (uops.foldl (simUop env) st).core.loadAddrs = st.core.loadAddrs := by
  induction uops generalizing st with
  | nil => exact ⟨rfl, rfl⟩
  | cons u us ih =>
    obtain ⟨h1, h2, -, h4, h5⟩ := issue_simUop_fwd env st u
    rw [List.foldl_cons]
    rw [NoStoreToSlot] at h
    by_cases ht : u.type = .UOP_STORE
    · rw [if_pos ht] at h h4 h5
      have hn : NoStoreToSlot (simUop env st u).core.storeAddrs slot us
          (simUop env st u).storeIdx := by
        rw [h2, h4]
        exact h.2
      rw [(ih _ hn).1, (ih _ hn).2, h1, h5, Function.update_noteq (Ne.symm h.1)]
      exact ⟨rfl, rfl⟩
    · rw [if_neg ht] at h h4 h5
      have hn : NoStoreToSlot (simUop env st u).core.storeAddrs slot us
          (simUop env st u).storeIdx := by
        rw [h2, h4]
        exact h
      rw [(ih _ hn).1, (ih _ hn).2, h1, h5]
      exact ⟨rfl, rfl⟩

end IssueModel

/-- C17. In `IssueModel`, for a `UOP_LOAD` uop with buffered address `a` and
final dispatch cycle `d` (after the waits for the load queue and for the store
addresses): `commitCycle` is `MAX(d + L1D_LAT, fwdArray[(a>>2) & 31].storeCycle)`
when `fwdArray[(a>>2) & 31].addr == a` and `d + L1D_LAT` otherwise, with
`d + L1D_LAT` computed in 64 bits; so `commitCycle ≥ d + L1D_LAT`, also for
the plain sum when it fits 64 bits. And when a `UOP_STORE` uop `sU` with
buffered address `a` comes before the load, with uops `mid` between them of
which no `UOP_STORE` has a buffered address of the slot `(a>>2) & 31`, then at
the load `fwdArray[(a>>2) & 31]` holds `a` and the request-satisfied cycle of
the store, `dispatchCycle + L1D_LAT` of the store, and the load's
`commitCycle` is the maximum of `d + L1D_LAT` and that cycle. -/
theorem load_store_forwarding {W R Q : Type} (env : IssueEnv W R Q) :
    (∀ (it : IssueLoop W R Q) (uop : DynUop), uop.type = .UOP_LOAD →
      IssueModel.uopCommitCycle env it uop =
        (if (it.core.fwdArray
            ((it.core.loadAddrs it.loadIdx >>> 2) &&& (FWD_ENTRIES - 1))).addr =
            it.core.loadAddrs it.loadIdx then
          MAX (w64 (IssueModel.uopLoadDispatchCycle env it uop + L1D_LAT))
            (it.core.fwdArray
              ((it.core.loadAddrs it.loadIdx >>> 2) &&& (FWD_ENTRIES - 1))).storeCycle
        else w64 (IssueModel.uopLoadDispatchCycle env it uop + L1D_LAT)) ∧
      w64 (IssueModel.uopLoadDispatchCycle env it uop + L1D_LAT) ≤
        IssueModel.uopCommitCycle env it uop ∧
      (IssueModel.uopLoadDispatchCycle env it uop + L1D_LAT < 2 ^ 64 →
        IssueModel.uopLoadDispatchCycle env it uop + L1D_LAT ≤
          IssueModel.uopCommitCycle env it uop ∧
        IssueModel.uopCommitCycle env it uop =
          (if (it.core.fwdArray
              ((it.core.loadAddrs it.loadIdx >>> 2) &&& (FWD_ENTRIES - 1))).addr =
              it.core.loadAddrs it.loadIdx then
            max (IssueModel.uopLoadDispatchCycle env it uop + L1D_LAT)
              (it.core.fwdArray
                ((it.core.loadAddrs it.loadIdx >>> 2) &&& (FWD_ENTRIES - 1))).storeCycle
          else IssueModel.uopLoadDispatchCycle env it uop + L1D_LAT))) ∧
    (∀ (st it : IssueLoop W R Q) (mid : List DynUop) (sU lU : DynUop) (a : Nat),
      sU.type = .UOP_STORE → lU.type = .UOP_LOAD →
      st.core.storeAddrs st.storeIdx = a →
      it = mid.foldl (IssueModel.simUop env) (IssueModel.simUop env st sU) →
      IssueModel.NoStoreToSlot st.core.storeAddrs ((a >>> 2) &&& (FWD_ENTRIES - 1)) mid
        (w32 (st.storeIdx + 1)) →
      it.core.loadAddrs it.loadIdx = a →
      IssueModel.uopCommitCycle env st sU =
        w64 (IssueModel.uopStoreDispatchCycle env st sU + L1D_LAT) ∧
      (it.core.fwdArray ((a >>> 2) &&& (FWD_ENTRIES - 1))).addr = a ∧
      (it.core.fwdArray ((a >>> 2) &&& (FWD_ENTRIES - 1))).storeCycle =
        IssueModel.uopCommitCycle env st sU ∧
      IssueModel.uopCommitCycle env it lU =
        MAX (w64 (IssueModel.uopLoadDispatchCycle env it lU + L1D_LAT))
          (IssueModel.uopCommitCycle env st sU)) := by
  constructor
  · intro it uop h
    have hc := IssueModel.issue_uopCommitCycle_load env it uop h
    have hge : w64 (IssueModel.uopLoadDispatchCycle env it uop + L1D_LAT) ≤
        IssueModel.uopCommitCycle env it uop := by
      rw [hc]
      split_ifs
      · exact MAX_ge_left _ _
      · exact Nat.le_refl _
    refine ⟨hc, hge, fun hw => ?_⟩
    rw [w64_of_lt hw] at hge hc
    refine ⟨hge, ?_⟩
    rw [hc, MAX_eq_max]
  · intro st it mid sU lU a hS hL ha hit hno hla
    obtain ⟨-, h2, -, h4, h5⟩ := IssueModel.issue_simUop_fwd env st sU
    rw [if_pos hS] at h4 h5
    have hn : IssueModel.NoStoreToSlot (IssueModel.simUop env st sU).core.storeAddrs
        ((a >>> 2) &&& (FWD_ENTRIES - 1)) mid (IssueModel.simUop env st sU).storeIdx := by
      rw [h2, h4]
      exact hno
    have hf := (IssueModel.issue_foldl_simUop_fwd env _ mid _ hn).1
    rw [← hit, h5, ha, Function.update_same] at hf
    have hc := IssueModel.issue_uopCommitCycle_load env it lU hL
    rw [hla, hf] at hc
    simp only [if_true] at hc
    exact ⟨IssueModel.issue_uopCommitCycle_store env st sU hS, by rw [hf], by rw [hf], hc⟩

/-- Witness for C17: scenario S4, `STORE(addr=0x200, decCycle=0)` followed by
`LOAD(addr=0x200, decCycle=2)` on a freshly constructed core on `issueEnv0`.
The store is dispatched in cycle 10 and satisfied in cycle 14; the load is
dispatched in cycle 12, finds `0x200` in slot 0 of `fwdArray` and commits in
cycle `max(12 + 4, 14) = 16`. -/
theorem load_store_forwarding_witness :
    ((uopOf .UOP_STORE 0 1 1).type = .UOP_STORE ∧ (uopOf .UOP_LOAD 2 2 2).type = .UOP_LOAD ∧
      IssueModel.NoStoreToSlot (issueLoop0 (fun _ => 0x200) (fun _ => 0x200) 0).core.storeAddrs
        ((0x200 >>> 2) &&& (FWD_ENTRIES - 1)) [] (w32 (0 + 1))) ∧
    (IssueModel.uopCommitCycle issueEnv0 (issueLoop0 (fun _ => 0x200) (fun _ => 0x200) 0)
        (uopOf .UOP_STORE 0 1 1) = 14 ∧
      IssueModel.uopLoadDispatchCycle issueEnv0
        (IssueModel.simUop issueEnv0 (issueLoop0 (fun _ => 0x200) (fun _ => 0x200) 0)
          (uopOf .UOP_STORE 0 1 1)) (uopOf .UOP_LOAD 2 2 2) = 12) ∧
    ((IssueModel.simUop issueEnv0 (issueLoop0 (fun _ => 0x200) (fun _ => 0x200) 0)
        (uopOf .UOP_STORE 0 1 1)).core.fwdArray ((0x200 >>> 2) &&& (FWD_ENTRIES - 1))).addr =
      0x200 ∧
    IssueModel.uopCommitCycle issueEnv0
      (IssueModel.simUop issueEnv0 (issueLoop0 (fun _ => 0x200) (fun _ => 0x200) 0)
        (uopOf .UOP_STORE 0 1 1)) (uopOf .UOP_LOAD 2 2 2) = 16 ∧
    12 + L1D_LAT ≤ IssueModel.uopCommitCycle issueEnv0
      (IssueModel.simUop issueEnv0 (issueLoop0 (fun _ => 0x200) (fun _ => 0x200) 0)
        (uopOf .UOP_STORE 0 1 1)) (uopOf .UOP_LOAD 2 2 2) :=
  ⟨⟨rfl, rfl, trivial⟩, ⟨by decide, by decide⟩,
    ((load_store_forwarding issueEnv0).2 (issueLoop0 (fun _ => 0x200) (fun _ => 0x200) 0) _ []
      (uopOf .UOP_STORE 0 1 1) (uopOf .UOP_LOAD 2 2 2) 0x200 rfl rfl rfl rfl trivial rfl).2.1,
    ((load_store_forwarding issueEnv0).2 (issueLoop0 (fun _ => 0x200) (fun _ => 0x200) 0) _ []
      (uopOf .UOP_STORE 0 1 1) (uopOf .UOP_LOAD 2 2 2) 0x200 rfl rfl rfl rfl trivial
      rfl).2.2.2.trans (by decide),
    (((load_store_forwarding issueEnv0).1
      (IssueModel.simUop issueEnv0 (issueLoop0 (fun _ => 0x200) (fun _ => 0x200) 0)
        (uopOf .UOP_STORE 0 1 1)) (uopOf .UOP_LOAD 2 2 2) rfl).2.2 (by decide)).1⟩

/-- C18. For `CacheModel` and `FetchModel`, `advance(targetCycle)` with
`targetCycle > curCycle` (a 64-bit value) returns the object with `curCycle`
set to `targetCycle` and `targetCycle - curCycle` added to `decodeCycle` in 64
bits, every other member as it was; the difference `decodeCycle - curCycle`
in 64 bits is the same before and after, and so is the plain difference when
the addition to `decodeCycle` does not wrap around. -/
theorem advance_sets_clocks {κ : Type} (s : CacheModel κ) (t : FetchModel κ) (targetCycle : Nat)
    (h64 : targetCycle < 2 ^ 64) (hs : targetCycle > s.curCycle) (ht : targetCycle > t.curCycle) :
    (s.advance targetCycle =
        some { s with
          decodeCycle := w64 (s.decodeCycle + (targetCycle - s.curCycle))
          curCycle := targetCycle } ∧
      sub64 (w64 (s.decodeCycle + (targetCycle - s.curCycle))) targetCycle =
        sub64 s.decodeCycle s.curCycle ∧
      (s.decodeCycle + (targetCycle - s.curCycle) < 2 ^ 64 →
        ((w64 (s.decodeCycle + (targetCycle - s.curCycle)) : Nat) : Int) - targetCycle =
          (s.decodeCycle : Int) - s.curCycle)) ∧
    (t.advance targetCycle =
        some { t with
          decodeCycle := w64 (t.decodeCycle + (targetCycle - t.curCycle))
          curCycle := targetCycle } ∧
      sub64 (w64 (t.decodeCycle + (targetCycle - t.curCycle))) targetCycle =
        sub64 t.decodeCycle t.curCycle ∧
      (t.decodeCycle + (targetCycle - t.curCycle) < 2 ^ 64 →
        ((w64 (t.decodeCycle + (targetCycle - t.curCycle)) : Nat) : Int) - targetCycle =
          (t.decodeCycle : Int) - t.curCycle)) := by
  have key : ∀ d c : Nat, c < targetCycle →
      sub64 targetCycle c = targetCycle - c ∧
      sub64 (w64 (d + (targetCycle - c))) targetCycle = sub64 d c ∧
      (d + (targetCycle - c) < 2 ^ 64 →
        ((w64 (d + (targetCycle - c)) : Nat) : Int) - targetCycle = (d : Int) - c) := by
    intro d c hc
    refine ⟨sub64_of_lt hc (by omega), ?_, ?_⟩
    · unfold sub64 w64
      omega
    · intro hw
      rw [w64_of_lt hw]
      omega
  refine ⟨⟨?_, (key _ _ hs).2⟩, ⟨?_, (key _ _ ht).2⟩⟩
  · rw [CacheModel.advance, if_pos hs, (key s.decodeCycle _ hs).1]
  · rw [FetchModel.advance, if_pos ht, (key t.decodeCycle _ ht).1]

/-- Witness for C18: `advance(50)` on a freshly constructed `CacheModel` and
on a `FetchModel` with `curCycle = 10` and `decodeCycle = 14`. -/
theorem advance_sets_clocks_witness :
    (50 < 2 ^ 64 ∧ 50 > (cacheModel0 0 0).curCycle ∧ 50 > (fetchModel0 10 14 none).curCycle) ∧
    (∃ s1, (cacheModel0 0 0).advance 50 = some s1 ∧ s1.curCycle = 50 ∧ s1.decodeCycle = 54) ∧
    (∃ t1, (fetchModel0 10 14 none).advance 50 = some t1 ∧ t1.curCycle = 50 ∧
      t1.decodeCycle = 54) :=
  ⟨⟨by decide, by decide, by decide⟩,
    ⟨_, (advance_sets_clocks (cacheModel0 0 0) (fetchModel0 10 14 none) 50 (by decide)
      (by decide) (by decide)).1.1, rfl, rfl⟩,
    ⟨_, (advance_sets_clocks (cacheModel0 0 0) (fetchModel0 10 14 none) 50 (by decide)
      (by decide) (by decide)).2.1, rfl, rfl⟩⟩

/-- C19 (as amended). For `CacheModel`, `contextSwitch(-1)` sets
`prevBbl` to null and calls `contextSwitch` of the filter cache, and changes
no other member: `loads` and `stores` keep their values. The next `bbl` call
finds `prevBbl` null and is the one that sets `loads = stores = 0`.
`contextSwitch(gid)` with `gid ≠ -1` changes nothing. -/
theorem contextSwitch_cancels_deferred_bbl {κ : Type} (fc : FilterCache κ) (s : CacheModel κ)
    (gid : Int) (lineBits total_pcount bblAddr : Nat) (bblInfo : BblInfo) (hgid : gid ≠ -1) :
    CacheModel.contextSwitch fc s (-1) =
      { s with prevBbl := none, l1d := fc.contextSwitch s.l1d } ∧
    CacheModel.bbl fc lineBits total_pcount (CacheModel.contextSwitch fc s (-1)) bblAddr bblInfo =
      some { s with
        prevBbl := some bblInfo, l1d := fc.contextSwitch s.l1d, loads := 0, stores := 0 } ∧
    CacheModel.contextSwitch fc s gid = s := by
  refine ⟨rfl, rfl, ?_⟩
  rw [CacheModel.contextSwitch, if_neg hgid]

/-- Witness for C19: `contextSwitch(3)` and `contextSwitch(-1)` on a core that
holds a deferred block and two buffered loads and one buffered store. -/
theorem contextSwitch_cancels_deferred_bbl_witness :
    (3 : Int) ≠ -1 ∧
    CacheModel.contextSwitch cache100
      { cacheModel0 2 1 with prevBbl := some (blockOf []) } 3 =
      { cacheModel0 2 1 with prevBbl := some (blockOf []) } ∧
    (CacheModel.contextSwitch cache100
      { cacheModel0 2 1 with prevBbl := some (blockOf []) } (-1)).prevBbl = none :=
  ⟨by decide,
    (contextSwitch_cancels_deferred_bbl cache100
      { cacheModel0 2 1 with prevBbl := some (blockOf []) } 3 6 0 4096 (blockOf [])
      (by decide)).2.2,
    congrArg CacheModel.prevBbl (contextSwitch_cancels_deferred_bbl cache100
      { cacheModel0 2 1 with prevBbl := some (blockOf []) } 3 6 0 4096 (blockOf [])
      (by decide)).1⟩

/-- Counterexample to C19 as stated: on a freshly constructed `CacheModel`,
after a first `bbl`, two loads, one store and `contextSwitch(-1)`, `prevBbl`
is null but `loads = 2` and `stores = 1`, not 0. -/
theorem contextSwitch_keeps_loads_and_stores :
    (CacheModel.run cache100 6 (cacheModel0 0 0)
      [.bbl 4096 (blockOf []) 0, .load 16, .load 32, .store 48, .contextSwitch (-1)]).map
      (fun s => (s.prevBbl, s.loads, s.stores)) = some (none, 2, 1) := by
  decide

/-! ## `BasicBlockMap.h` -/

theorem xor_lt_two_pow_64 {a b : Nat} (ha : a < 2 ^ 64) (hb : b < 2 ^ 64) :
    a ^^^ b < 2 ^ 64 := Nat.xor_lt_two_pow ha hb

/-- C20. For every `BasicBlockKey` `k`: `k.hash()` is `addr` XOR
`(instrs * 2^32) mod 2^64`; `operator==` holds exactly when both members are
equal, that is when the keys are the same; keys that compare equal have equal
hashes, also through `BasicBlockHash`; and for a key whose `addr` fits 64
bits (every key that the constructor builds) `BasicBlockHash` returns
`k.hash()` itself, a 64-bit value. -/
theorem BasicBlockKey_hash (k p1 p2 : BasicBlockKey) (a i : Nat) :
    k.hash = k.addr ^^^ ((k.instrs * 2 ^ 32) % 2 ^ 64) ∧
    (BasicBlockKey.eq p1 p2 = true ↔ p1.addr = p2.addr ∧ p1.instrs = p2.instrs) ∧
    (BasicBlockKey.eq p1 p2 = true ↔ p1 = p2) ∧
    (BasicBlockKey.eq p1 p2 = true → p1.hash = p2.hash ∧ BasicBlockHash p1 = BasicBlockHash p2) ∧
    (k.addr < 2 ^ 64 → BasicBlockHash k = k.hash ∧ k.hash < 2 ^ 64) ∧
    BasicBlockHash (BasicBlockKey.new a i) = (BasicBlockKey.new a i).hash := by
  have hcomp : BasicBlockKey.eq p1 p2 = true ↔ p1.addr = p2.addr ∧ p1.instrs = p2.instrs := by
    simp [BasicBlockKey.eq]
  have hsame : BasicBlockKey.eq p1 p2 = true ↔ p1 = p2 := by
    rw [hcomp]
    cases p1
    cases p2
    simp
  have hlt : ∀ q : BasicBlockKey, q.addr < 2 ^ 64 → q.hash < 2 ^ 64 := fun q hq =>
    xor_lt_two_pow_64 hq (Nat.mod_lt _ (by decide))
  refine ⟨?_, hcomp, hsame, ?_, ?_, ?_⟩
  · simp only [BasicBlockKey.hash, w64, Nat.shiftLeft_eq]
  · intro h
    rw [hsame.1 h]
    exact ⟨rfl, rfl⟩
  · intro h
    exact ⟨w64_of_lt (hlt k h), hlt k h⟩
  · exact w64_of_lt (hlt _ (Nat.mod_lt _ (by decide)))

/-- Witness for C20: the keys `(0x401000, 3)` twice, with hash
`0x300401000`. -/
theorem BasicBlockKey_hash_witness :
    BasicBlockKey.eq (BasicBlockKey.new 0x401000 3) (BasicBlockKey.new 0x401000 3) = true ∧
    (BasicBlockKey.new 0x401000 3).addr < 2 ^ 64 ∧
    (BasicBlockKey.new 0x401000 3).hash = 0x300401000 ∧
    BasicBlockHash (BasicBlockKey.new 0x401000 3) = 0x300401000 :=
  ⟨by decide, by decide, by decide,
    ((BasicBlockKey_hash (BasicBlockKey.new 0x401000 3) (BasicBlockKey.new 0x401000 3)
      (BasicBlockKey.new 0x401000 3) 0 0).2.2.2.2.1 (by decide)).1.trans (by decide)⟩

/-! ## TAGE predictor: lookup and update in detail -/

namespace BranchPredictorTage

theorem tagHit_congr {s r : BranchPredictorTage} (h : s.persistent = r.persistent)
    (PC t : Nat) : s.tagHit PC t ↔ r.tagHit PC t := by
  have ht : s.tage = r.tage := by
    simp only [persistent, Prod.mk.injEq] at h
    exact h.2.1
  simp only [tagHit, GetTageIndex_congr h, GetTageTag_congr h, ht]

theorem topHit_congr {s r : BranchPredictorTage} (h : s.persistent = r.persistent)
    (PC t : Nat) : s.topHit PC t = r.topHit PC t := by
  induction t with
  | zero => rfl
  | succ t ih => simp only [topHit, tagHit_congr h, ih]

theorem topHit_le (s : BranchPredictorTage) (PC t : Nat) : s.topHit PC t ≤ t := by
  induction t with
  | zero => exact le_refl _
  | succ t ih =>
    simp only [topHit]
    split_ifs
    · exact le_refl _
    · omega

theorem topHit_hit (s : BranchPredictorTage) (PC t : Nat) (h : s.topHit PC t ≠ 0) :
    s.tagHit PC (s.topHit PC t) := by
  induction t with
  | zero => exact absurd rfl h
  | succ t ih =>
    simp only [topHit] at h ⊢
    split_ifs with hh
    · exact hh
    · rw [if_neg hh] at h
      exact ih h

theorem topHit_above (s : BranchPredictorTage) (PC t k : Nat) (h1 : s.topHit PC t < k)
    (h2 : k ≤ t) : ¬ s.tagHit PC k := by
  induction t with
  | zero => omega
  | succ t ih =>
    simp only [topHit] at h1
    split_ifs at h1 with hh
    · omega
    · rcases Nat.eq_or_lt_of_le h2 with e | e
      · rw [e]; exact hh
      · exact ih h1 (by omega)

/-- Characterisation of `topHit`: `p` is the value iff `p` is the largest
table of `[1, t]` passing the test, or `p = 0` and no table of `[1, t]` passes
it. -/
theorem topHit_eq_iff (s : BranchPredictorTage) (PC t p : Nat) :
    s.topHit PC t = p ↔
      (p ≤ t ∧ (p ≠ 0 → s.tagHit PC p) ∧ ∀ k, p < k → k ≤ t → ¬ s.tagHit PC k) := by
  constructor
  · rintro rfl
    exact ⟨topHit_le s PC t, topHit_hit s PC t, fun k => topHit_above s PC t k⟩
  · rintro ⟨h1, h2, h3⟩
    rcases Nat.lt_trichotomy (s.topHit PC t) p with h | h | h
    · exact absurd (h2 (by omega)) (topHit_above s PC t p h h1)
    · exact h
    · exact absurd (topHit_hit s PC t (by omega)) (h3 _ h (topHit_le s PC t))

theorem GetTagePredictionsLoop_done (PC t : Nat) (s : BranchPredictorTage) (u : Bool)
    (h1 : s.providerIndex ≠ -1) (h2 : s.altProviderIndex ≠ -1) :
    GetTagePredictionsLoop PC t (s, u) = (s, u) := by
  cases t with
  | zero => rfl
  | succ t => rw [GetTagePredictionsLoop, if_pos ⟨h1, h2⟩]

theorem GetTagePredictionsLoop_alt (PC t : Nat) (s : BranchPredictorTage) (u : Bool)
    (h1 : s.providerIndex ≠ -1) (h2 : s.altProviderIndex = -1) :
    GetTagePredictionsLoop PC t (s, u) =
      (if s.topHit PC t = 0 then s
        else
          { s with
            altProviderIndex := (s.topHit PC t : Nat)
            altProviderPred :=
              decide ((s.tage (s.topHit PC t)
                (w32 (s.GetTageIndex PC (s.topHit PC t)))).counter ≥ TI_COUNTER_MAX / 2) },
        u) := by
  induction t with
  | zero => rfl
  | succ t ih =>
    have hc : ¬ (s.providerIndex ≠ -1 ∧ s.altProviderIndex ≠ -1) := fun h => h.2 h2
    rw [GetTagePredictionsLoop, if_neg hc]
    by_cases hh : s.tagHit PC (t + 1)
    · have hh2 : (s.tage (t + 1) (w32 (s.GetTageIndex PC (t + 1)))).tag =
          w32 (s.GetTageTag PC (t + 1)) := hh
      simp only []
      rw [if_pos hh2, if_neg h1, GetTagePredictionsLoop_done]
      · simp only [topHit, if_pos hh]
        rw [if_neg (Nat.succ_ne_zero t)]
      · exact h1
      · show ((t + 1 : Nat) : Int) ≠ -1
        omega
    · have hh2 : ¬ (s.tage (t + 1) (w32 (s.GetTageIndex PC (t + 1)))).tag =
          w32 (s.GetTageTag PC (t + 1)) := hh
      simp only []
      rw [if_neg hh2, ih]
      simp only [topHit, if_neg hh]

theorem GetTagePredictionsLoop_prov (PC t : Nat) (s : BranchPredictorTage) (u : Bool)
    (h1 : s.providerIndex = -1) (h2 : s.altProviderIndex = -1) :
    GetTagePredictionsLoop PC t (s, u) =
      if s.topHit PC t = 0 then (s, u)
      else
        GetTagePredictionsLoop PC (s.topHit PC t - 1)
          ({ s with
              providerIndex := (s.topHit PC t : Nat)
              providerPredIndex := w32 (s.GetTageIndex PC (s.topHit PC t))
              providerPred :=
                decide ((s.tage (s.topHit PC t)
                  (w32 (s.GetTageIndex PC (s.topHit PC t)))).counter > TI_COUNTER_MAX / 2) },
            (s.tage (s.topHit PC t) (w32 (s.GetTageIndex PC (s.topHit PC t)))).useful == false) := by
  induction t with
  | zero => rfl
  | succ t ih =>
    have hc : ¬ (s.providerIndex ≠ -1 ∧ s.altProviderIndex ≠ -1) := fun h => h.2 h2
    rw [GetTagePredictionsLoop, if_neg hc]
    by_cases hh : s.tagHit PC (t + 1)
    · have hh2 : (s.tage (t + 1) (w32 (s.GetTageIndex PC (t + 1)))).tag =
          w32 (s.GetTageTag PC (t + 1)) := hh
      simp only []
      rw [if_pos hh2, if_pos h1]
      simp only [topHit, if_pos hh]
      rw [if_neg (Nat.succ_ne_zero t)]
      rfl
    · have hh2 : ¬ (s.tage (t + 1) (w32 (s.GetTageIndex PC (t + 1)))).tag =
          w32 (s.GetTageTag PC (t + 1)) := hh
      simp only []
      rw [if_neg hh2, ih]
      simp only [topHit, if_neg hh]

/-- Closed form of the lookup: the provider is the largest table passing the
tag test, the alt provider the largest one below it, each `0` (the base
predictor) when there is no such table. -/
theorem GetTagePredictions_eq (s : BranchPredictorTage) (PC : Nat) (u : Bool) :
    s.GetTagePredictions PC u =
      ({ s with
          providerIndex := (s.topHit PC s.table_num : Nat)
          altProviderIndex := (s.topHit PC (s.topHit PC s.table_num - 1) : Nat)
          providerPredIndex :=
            if s.topHit PC s.table_num = 0 then w32 (PC % BASE_PREDICTOR_SIZE)
            else w32 (s.GetTageIndex PC (s.topHit PC s.table_num))
          providerPred :=
            if s.topHit PC s.table_num = 0 then
              decide (s.basePredictor (w32 (PC % BASE_PREDICTOR_SIZE)) > T0_COUNTER_MAX / 2)
            else
              decide ((s.tage (s.topHit PC s.table_num)
                (w32 (s.GetTageIndex PC (s.topHit PC s.table_num)))).counter >
                  TI_COUNTER_MAX / 2)
          altProviderPred :=
            if s.topHit PC (s.topHit PC s.table_num - 1) = 0 then
              decide (s.basePredictor (w32 (PC % BASE_PREDICTOR_SIZE)) > T0_COUNTER_MAX / 2)
            else
              decide ((s.tage (s.topHit PC (s.topHit PC s.table_num - 1))
                (w32 (s.GetTageIndex PC (s.topHit PC (s.topHit PC s.table_num - 1))))).counter ≥
                  TI_COUNTER_MAX / 2) },
        if s.topHit PC s.table_num = 0 then u
        else
          (s.tage (s.topHit PC s.table_num)
            (w32 (s.GetTageIndex PC (s.topHit PC s.table_num)))).useful == false) := by
  obtain ⟨s0, hs0⟩ : ∃ s0, s0 =
      { s with providerIndex := -1, altProviderIndex := -1, providerPredIndex := 999999 } :=
    ⟨_, rfl⟩
  have hp0 : s0.persistent = s.persistent := by rw [hs0]; rfl
  have e1 : s0.providerIndex = -1 := by rw [hs0]
  have e2 : s0.altProviderIndex = -1 := by rw [hs0]
  have hG : s.GetTagePredictions PC u =
      (GetTagePredictionsBase PC (GetTagePredictionsLoop PC s.table_num (s0, u)).1,
        (GetTagePredictionsLoop PC s.table_num (s0, u)).2) := by rw [hs0]; rfl
  rw [hG, GetTagePredictionsLoop_prov PC _ s0 u e1 e2, topHit_congr hp0]
  have hi : ∀ t, s0.GetTageIndex PC t = s.GetTageIndex PC t := GetTageIndex_congr hp0 PC
  have ht : s0.tage = s.tage := by rw [hs0]
  have hb : s0.basePredictor = s.basePredictor := by rw [hs0]
  by_cases hp : s.topHit PC s.table_num = 0
  · rw [if_pos hp]
    simp only [hp, Nat.zero_sub, topHit, if_true, GetTagePredictionsBase, e1, e2, true_or,
      hb]
    rw [hs0]
    rfl
  · rw [if_neg hp]
    obtain ⟨s1, hs1⟩ : ∃ s1, s1 =
        { s0 with
          providerIndex := (s.topHit PC s.table_num : Nat)
          providerPredIndex := w32 (s0.GetTageIndex PC (s.topHit PC s.table_num))
          providerPred :=
            decide ((s0.tage (s.topHit PC s.table_num)
              (w32 (s0.GetTageIndex PC (s.topHit PC s.table_num)))).counter >
                TI_COUNTER_MAX / 2) } := ⟨_, rfl⟩
    rw [← hs1]
    have hp1 : s1.persistent = s.persistent := by rw [hs1, hs0]; rfl
    have f1 : s1.providerIndex ≠ -1 := by
      rw [hs1]
      show ((s.topHit PC s.table_num : Nat) : Int) ≠ -1
      omega
    have f2 : s1.altProviderIndex = -1 := by rw [hs1, hs0]
    rw [GetTagePredictionsLoop_alt PC _ s1 _ f1 f2, topHit_congr hp1]
    have hi1 : ∀ t, s1.GetTageIndex PC t = s.GetTageIndex PC t := GetTageIndex_congr hp1 PC
    have ht1 : s1.tage = s.tage := by rw [hs1, hs0]
    have hb1 : s1.basePredictor = s.basePredictor := by rw [hs1, hs0]
    by_cases ha : s.topHit PC (s.topHit PC s.table_num - 1) = 0
    · rw [if_pos ha]
      simp only [hp, ha, if_true, if_false, GetTagePredictionsBase, f1, f2, or_true, hb1, ht]
      subst hs1
      subst hs0
      simp only [hi, Nat.cast_zero]
    · rw [if_neg ha]
      have g2 : ¬ (((s.topHit PC (s.topHit PC s.table_num - 1) : Nat) : Int) = -1) := by
        omega
      simp only [hp, ha, if_false, GetTagePredictionsBase, f1, g2, or_self, hi1, ht1, ht]
      subst hs1
      subst hs0
      simp only [hi]

theorem GetTageTagLoop_lt (s : BranchPredictorTage) (fuel sm lg b : Nat)
    (hb : b < 2 ^ TAGE_TAG_SIZE) : GetTageTagLoop s fuel sm lg b < 2 ^ TAGE_TAG_SIZE := by
  induction fuel generalizing sm lg b with
  | zero => exact hb
  | succ n ih =>
    simp only [GetTageTagLoop]
    split_ifs
    · apply ih
      apply bitAssign_lt _ _ _ _ _ (by decide)
      apply bitAssign_lt _ _ _ _ _ (by decide)
      unfold bitShl1
      exact Nat.mod_lt _ (by decide)
    · exact hb

theorem GetTageTag_lt (s : BranchPredictorTage) (PC t : Nat) (ht : t ≠ 0) :
    s.GetTageTag PC t < 2 ^ 14 := by
  rw [GetTageTag, if_neg ht]
  apply Nat.xor_lt_two_pow
  · exact GetTageTagLoop_lt s _ _ _ _ (by decide)
  · have h1 : PC &&& tag_mask ≤ tag_mask := Nat.and_le_right
    have h2 : tag_mask < 2 ^ 14 := by decide
    omega

theorem w32_GetTageTag (s : BranchPredictorTage) (PC t : Nat) (ht : t ≠ 0) :
    w32 (s.GetTageTag PC t) = s.GetTageTag PC t := by
  have h := GetTageTag_lt s PC t ht
  unfold w32
  omega

theorem GetTageIndexLoop_len (s : BranchPredictorTage) (fuel sm lg : Nat) (b : mybitset) :
    (GetTageIndexLoop s fuel sm lg b).len = b.len := by
  induction fuel generalizing sm lg b with
  | zero => rfl
  | succ n ih =>
    simp only [GetTageIndexLoop]
    split_ifs
    · rw [ih]; rfl
    · rfl

theorem max_mask_lt (len : Nat) (h : len ≤ 32) : mybitset.max_mask len < 2 ^ 32 := by
  interval_cases len <;> decide

theorem GetTageIndex_lt (s : BranchPredictorTage) (PC t : Nat) (ht : t ≠ 0)
    (hi : s.index_size ≤ 32) (hm : s.idx_mask < 2 ^ 32) : s.GetTageIndex PC t < 2 ^ 32 := by
  rw [GetTageIndex, if_neg ht]
  apply Nat.xor_lt_two_pow
  · have h1 := max_mask_lt s.index_size hi
    have h2 : (GetTageIndexLoop s (hist_lengths t) 0 (sub32 (hist_lengths t) 1)
        (mybitset.new s.index_size)).to_ulong ≤ mybitset.max_mask s.index_size := by
      unfold mybitset.to_ulong
      rw [GetTageIndexLoop_len]
      exact Nat.and_le_right
    omega
  · have h1 : PC &&& s.idx_mask ≤ s.idx_mask := Nat.and_le_right
    omega

theorem w32_GetTageIndex (s : BranchPredictorTage) (PC t : Nat) (ht : t ≠ 0)
    (hi : s.index_size ≤ 32) (hm : s.idx_mask < 2 ^ 32) :
    w32 (s.GetTageIndex PC t) = s.GetTageIndex PC t := by
  have h := GetTageIndex_lt s PC t ht hi hm
  unfold w32
  omega

theorem w32_base_index (PC : Nat) : w32 (PC % BASE_PREDICTOR_SIZE) = PC % 128 := by
  unfold w32 BASE_PREDICTOR_SIZE
  omega

end BranchPredictorTage

/-- C21. After `GetTagePredictions(PC, ..)` there are tables `a ≤ p ≤
table_num` with `providerIndex = p` and `altProviderIndex = a` such that: `p`,
when not 0, passes the tag test `tage[p][GetTageIndex(PC, p)].tag ==
GetTageTag(PC, p)` and no table above `p` up to `table_num` passes it (so `p`
is the largest passing table, and `p = 0` exactly when none passes); `a`, when
not 0, is below `p` and passes the test, and no table strictly between `a` and
`p` passes it (so `a` is the second largest passing table, and `a = 0` when
there is none). A provider `0` has `providerPredIndex = PC mod 128` and the
prediction `basePredictor[PC mod 128] > 3`; an alt provider `0` has the
prediction `basePredictor[PC mod 128] > 3`; a tagged provider has
`providerPredIndex = GetTageIndex(PC, p)`. The test is made on the `uint32_t`
copies of index and tag: the tag always fits, and the index fits when
`index_size ≤ 32` and `idx_mask < 2^32`. -/
theorem GetTagePredictions_provider_and_alt (s : BranchPredictorTage) (PC : Nat) (u : Bool) :
    (∃ p a : Nat,
      (s.GetTagePredictions PC u).1.providerIndex = p ∧
      (s.GetTagePredictions PC u).1.altProviderIndex = a ∧
      a ≤ p ∧ p ≤ s.table_num ∧ (p ≠ 0 → a < p) ∧
      (p ≠ 0 → (s.tage p (w32 (s.GetTageIndex PC p))).tag = w32 (s.GetTageTag PC p)) ∧
      (∀ t, p < t → t ≤ s.table_num →
        ¬ (s.tage t (w32 (s.GetTageIndex PC t))).tag = w32 (s.GetTageTag PC t)) ∧
      (a ≠ 0 → (s.tage a (w32 (s.GetTageIndex PC a))).tag = w32 (s.GetTageTag PC a)) ∧
      (∀ t, a < t → t < p →
        ¬ (s.tage t (w32 (s.GetTageIndex PC t))).tag = w32 (s.GetTageTag PC t)) ∧
      (p = 0 →
        (s.GetTagePredictions PC u).1.providerPredIndex = PC % 128 ∧
        (s.GetTagePredictions PC u).1.providerPred =
          decide (s.basePredictor (PC % 128) > 3)) ∧
      (a = 0 →
        (s.GetTagePredictions PC u).1.altProviderPred =
          decide (s.basePredictor (PC % 128) > 3)) ∧
      (p ≠ 0 →
        (s.GetTagePredictions PC u).1.providerPredIndex = w32 (s.GetTageIndex PC p))) ∧
    (∀ t, t ≠ 0 → w32 (s.GetTageTag PC t) = s.GetTageTag PC t) ∧
    (s.index_size ≤ 32 → s.idx_mask < 2 ^ 32 →
      ∀ t, t ≠ 0 → w32 (s.GetTageIndex PC t) = s.GetTageIndex PC t) := by
  refine ⟨⟨s.topHit PC s.table_num, s.topHit PC (s.topHit PC s.table_num - 1), ?_⟩,
    fun t ht => BranchPredictorTage.w32_GetTageTag s PC t ht,
    fun hi hm t ht => BranchPredictorTage.w32_GetTageIndex s PC t ht hi hm⟩
  rw [BranchPredictorTage.GetTagePredictions_eq]
  have h1 := BranchPredictorTage.topHit_le s PC s.table_num
  have h2 := BranchPredictorTage.topHit_le s PC (s.topHit PC s.table_num - 1)
  refine ⟨rfl, rfl, by omega, h1, fun _ => by omega,
    BranchPredictorTage.topHit_hit s PC _,
    fun t => BranchPredictorTage.topHit_above s PC _ t,
    BranchPredictorTage.topHit_hit s PC _,
    fun t ha hp => BranchPredictorTage.topHit_above s PC _ t ha (by omega), ?_, ?_, ?_⟩
  · intro hp
    simp only [hp, if_true, BranchPredictorTage.w32_base_index]
    exact ⟨trivial, rfl⟩
  · intro ha
    simp only [ha, if_true, BranchPredictorTage.w32_base_index]
    rfl
  · intro hp
    simp only [hp, if_false]

/-- Witness for C21: on the predictor that `BranchPredictorTage(4, 10)`
constructs, after `predict(2, true, 0)`, the lookup of `pc = 2` has the tagged
provider 4 (cell 1021) and the base predictor as alt provider; before that
call the lookup of `pc = 1024` has provider and alt provider 0 with
`providerPredIndex = 1024 mod 128 = 0`. -/
theorem GetTagePredictions_provider_and_alt_witness :
    ((tage0.predictAll [(2, true, 0)]).GetTagePredictions 2 false).1.providerIndex = 4 ∧
    ((tage0.predictAll [(2, true, 0)]).GetTagePredictions 2 false).1.altProviderIndex = 0 ∧
    ((tage0.predictAll [(2, true, 0)]).GetTagePredictions 2 false).1.providerPredIndex = 1021 ∧
    (tage0.GetTagePredictions 1024 false).1.providerIndex = 0 ∧
    (tage0.GetTagePredictions 1024 false).1.altProviderIndex = 0 ∧
    (tage0.GetTagePredictions 1024 false).1.providerPredIndex = 0 ∧
    (tage0.GetTagePredictions 0 false).1.providerIndex = 4 ∧
    (tage0.GetTagePredictions 0 false).1.altProviderIndex = 3 ∧
    ∃ p a : Nat,
      (tage0.GetTagePredictions 0 false).1.providerIndex = p ∧
      (tage0.GetTagePredictions 0 false).1.altProviderIndex = a ∧ a ≤ p ∧ p ≤ 4 := by
  refine ⟨by set_option maxRecDepth 100000 in decide,
    by set_option maxRecDepth 100000 in decide,
    by set_option maxRecDepth 100000 in decide,
    by set_option maxRecDepth 100000 in decide,
    by set_option maxRecDepth 100000 in decide,
    by set_option maxRecDepth 100000 in decide,
    by set_option maxRecDepth 100000 in decide,
    by set_option maxRecDepth 100000 in decide, ?_⟩
  obtain ⟨⟨p, a, h1, h2, h3, h4, -⟩, -⟩ :=
    GetTagePredictions_provider_and_alt tage0 0 false
  exact ⟨p, a, h1, h2, h3, h4⟩

/-- C22. `GetPrediction(PC)` leaves the state of the lookup
`GetTagePredictions(PC, ..)` and returns `altProviderPred` when the provider
is a tagged table (`providerIndex > 0`) whose entry
`tage[providerIndex][providerPredIndex]` has useful bit 0 and
`useAltOnNa > 3`; in every other case it returns `providerPred`, in particular
when the provider is the base predictor. The lookup leaves the tables and
`useAltOnNa` as they were. -/
theorem GetPrediction_selects (s : BranchPredictorTage) (PC : Nat) :
    (s.GetPrediction PC).2 = (s.GetTagePredictions PC false).1 ∧
    (s.GetPrediction PC).1 =
      (if 0 < (s.GetTagePredictions PC false).1.providerIndex ∧
          (s.tage (s.GetTagePredictions PC false).1.providerIndex.toNat
            (s.GetTagePredictions PC false).1.providerPredIndex).useful = false ∧
          s.useAltOnNa > 3
        then (s.GetTagePredictions PC false).1.altProviderPred
        else (s.GetTagePredictions PC false).1.providerPred) ∧
    ((s.GetTagePredictions PC false).1.providerIndex = 0 →
      (s.GetPrediction PC).1 = (s.GetTagePredictions PC false).1.providerPred) ∧
    0 ≤ (s.GetTagePredictions PC false).1.providerIndex ∧
    (s.GetTagePredictions PC false).1.tage = s.tage ∧
    (s.GetTagePredictions PC false).1.useAltOnNa = s.useAltOnNa ∧
    USE_ALT_COUNTER_MAX / 2 = 3 := by
  have hG : s.GetPrediction PC =
      (if (s.GetTagePredictions PC false).2 = true ∧
          (s.GetTagePredictions PC false).1.useAltOnNa > USE_ALT_COUNTER_MAX / 2
        then ((s.GetTagePredictions PC false).1.altProviderPred,
          (s.GetTagePredictions PC false).1)
        else ((s.GetTagePredictions PC false).1.providerPred,
          (s.GetTagePredictions PC false).1)) := rfl
  have h3 : USE_ALT_COUNTER_MAX / 2 = 3 := rfl
  rw [hG, h3, BranchPredictorTage.GetTagePredictions_eq]
  dsimp only
  by_cases hp : s.topHit PC s.table_num = 0
  · simp only [hp, if_true, Nat.cast_zero, lt_irrefl, false_and, Bool.false_eq_true, if_false,
      le_refl, true_and, implies_true, and_self]
  · have hp2 : 0 < ((s.topHit PC s.table_num : Nat) : Int) := by omega
    have hp3 : ¬ ((s.topHit PC s.table_num : Nat) : Int) = 0 := by omega
    have hp4 : (0 : Int) ≤ ((s.topHit PC s.table_num : Nat) : Int) := by omega
    simp only [hp, if_false, hp2, hp3, hp4, true_and, Int.toNat_ofNat, beq_iff_eq,
      false_implies, and_true]
    split_ifs <;> exact ⟨rfl, rfl⟩

/-- Witness for C22: on the predictor built by `BranchPredictorTage(4, 10)`
with `useAltOnNa` raised to 4, after `predict(2, true, 0)` the lookup of
`pc = 2` finds the tagged provider 4 with useful bit 0, `providerPred` false and
`altProviderPred` true, and `GetPrediction(2)` returns true; with `useAltOnNa`
left at 0 it returns `providerPred`, false. -/
theorem GetPrediction_selects_witness :
    (({ tage0 with useAltOnNa := 4 }.predictAll [(2, true, 0)]).GetTagePredictions 2
      false).1.providerPred = false ∧
    (({ tage0 with useAltOnNa := 4 }.predictAll [(2, true, 0)]).GetPrediction 2).1 = true ∧
    ((tage0.predictAll [(2, true, 0)]).GetPrediction 2).1 = false ∧
    (({ tage0 with useAltOnNa := 4 }.predictAll [(2, true, 0)]).GetPrediction 2).2 =
      (({ tage0 with useAltOnNa := 4 }.predictAll [(2, true, 0)]).GetTagePredictions 2
        false).1 :=
  ⟨by set_option maxRecDepth 100000 in decide,
    by set_option maxRecDepth 100000 in decide,
    by set_option maxRecDepth 100000 in decide,
    by
      set_option maxRecDepth 100000 in
      exact (GetPrediction_selects
        ({ tage0 with useAltOnNa := 4 }.predictAll [(2, true, 0)]) 2).1⟩

/-- Counterexample to C23 as stated: on the predictor that
`BranchPredictorTage(4, 10)` constructs, the lookup of `pc = 1024` finds no
tagged hit, so the alt provider is the base predictor; its counter
`basePredictor[1024 mod 128]` is 3, which is `>= 3`, and yet
`altProviderPred` is false. -/
theorem base_alt_uses_strict_threshold :
    BranchPredictorTage.new 4 10 = some tage0 ∧
    (tage0.GetTagePredictions 1024 false).1.altProviderIndex = 0 ∧
    tage0.basePredictor (1024 % 128) = 3 ∧
    tage0.basePredictor (1024 % 128) ≥ 3 ∧
    (tage0.GetTagePredictions 1024 false).1.altProviderPred = false :=
  ⟨rfl, by set_option maxRecDepth 100000 in decide, rfl, by decide,
    by set_option maxRecDepth 100000 in decide⟩

/-- C23 (as amended). After a lookup, `providerPred` is true iff the provider's
counter is `> 3`, whichever component supplies the provider
(`basePredictor[providerPredIndex]` for provider 0,
`tage[providerIndex][providerPredIndex].counter` for a tagged provider).
`altProviderPred` is true iff the alt provider's counter
`tage[a][GetTageIndex(PC, a)].counter` is `>= 3` when the alt provider `a` is
a tagged table, and iff `basePredictor[PC mod 128] > 3` when the alt provider
is the base predictor. -/
theorem lookup_thresholds (s : BranchPredictorTage) (PC : Nat) (u : Bool) :
    ((s.GetTagePredictions PC u).1.providerPred = true ↔
      (if (s.GetTagePredictions PC u).1.providerIndex = 0 then
          s.basePredictor (s.GetTagePredictions PC u).1.providerPredIndex
        else
          (s.tage (s.GetTagePredictions PC u).1.providerIndex.toNat
            (s.GetTagePredictions PC u).1.providerPredIndex).counter) > 3) ∧
    ((s.GetTagePredictions PC u).1.altProviderIndex = 0 →
      ((s.GetTagePredictions PC u).1.altProviderPred = true ↔
        s.basePredictor (PC % 128) > 3)) ∧
    ((s.GetTagePredictions PC u).1.altProviderIndex ≠ 0 →
      ((s.GetTagePredictions PC u).1.altProviderPred = true ↔
        (s.tage (s.GetTagePredictions PC u).1.altProviderIndex.toNat
          (w32 (s.GetTageIndex PC
            (s.GetTagePredictions PC u).1.altProviderIndex.toNat))).counter ≥ 3)) := by
  rw [BranchPredictorTage.GetTagePredictions_eq]
  dsimp only
  have e3 : T0_COUNTER_MAX / 2 = 3 := rfl
  have e4 : TI_COUNTER_MAX / 2 = 3 := rfl
  rw [e3, e4]
  refine ⟨?_, ?_, ?_⟩
  · by_cases hp : s.topHit PC s.table_num = 0
    · simp only [hp, if_true, Nat.cast_zero, decide_eq_true_eq]
    · have hp3 : ¬ ((s.topHit PC s.table_num : Nat) : Int) = 0 := by omega
      simp only [hp, hp3, if_false, Int.toNat_ofNat, decide_eq_true_eq]
  · intro ha
    have ha2 : s.topHit PC (s.topHit PC s.table_num - 1) = 0 := by omega
    simp only [ha2, if_true, decide_eq_true_eq, BranchPredictorTage.w32_base_index]
  · intro ha
    have ha2 : ¬ s.topHit PC (s.topHit PC s.table_num - 1) = 0 := by omega
    simp only [ha2, if_false, decide_eq_true_eq, Int.toNat_ofNat]

/-- Witness for C23 (as amended): the lookup of the counterexample has a base alt
provider whose counter 3 is not `> 3`, so `altProviderPred` is false; on the
freshly constructed predictor the lookup of `pc = 0` has the tagged alt
provider 3 with counter 0, not `>= 3`, so `altProviderPred` is false. -/
theorem lookup_thresholds_witness :
    ((tage0.GetTagePredictions 1024 false).1.altProviderPred = true ↔
      tage0.basePredictor (1024 % 128) > 3) ∧
    (tage0.GetTagePredictions 0 false).1.altProviderIndex = 3 ∧
    ((tage0.GetTagePredictions 0 false).1.altProviderPred = true ↔
      (tage0.tage (tage0.GetTagePredictions 0 false).1.altProviderIndex.toNat
        (w32 (tage0.GetTageIndex 0
          (tage0.GetTagePredictions 0 false).1.altProviderIndex.toNat))).counter ≥ 3) :=
  ⟨(lookup_thresholds tage0 1024 false).2.1 (by set_option maxRecDepth 100000 in decide),
    by set_option maxRecDepth 100000 in decide,
    (lookup_thresholds tage0 0 false).2.2 (by set_option maxRecDepth 100000 in decide)⟩

namespace BranchPredictorTage

theorem stepCounter_eq (d : Bool) (c : Nat) (h : c ≤ T0_COUNTER_MAX) :
    stepCounter d c = (if d = true then min (c + 1) 7 else c - 1) ∧
    ((stepCounter d c : Nat) : Int) = (if d = true then min ((c : Int) + 1) 7 else
      max ((c : Int) - 1) 0) := by
  have h7 : c ≤ 7 := h
  have e7 : T0_COUNTER_MAX = 7 := rfl
  unfold stepCounter
  rw [e7]
  cases d <;> simp only [Bool.false_eq_true, true_and, false_and, if_false, if_true,
    reduceCtorEq] <;> split_ifs <;> omega

theorem GetTagePredictionsBase_providerIndex (PC : Nat) (s : BranchPredictorTage)
    (h : s.providerIndex = -1 ∨ 0 ≤ s.providerIndex) :
    0 ≤ (GetTagePredictionsBase PC s).providerIndex := by
  simp only [GetTagePredictionsBase]
  split_ifs <;> simp_all

theorem GetTagePredictions_providerIndex_nonneg (s : BranchPredictorTage) (PC : Nat) (u : Bool) :
    0 ≤ (s.GetTagePredictions PC u).1.providerIndex := by
  have hinv := GetTagePredictionsLoop_inv PC s.table_num
    { s with providerIndex := -1, altProviderIndex := -1, providerPredIndex := 999999 } u
    (le_refl _) (Or.inl ⟨rfl, rfl⟩)
  simp only [GetTagePredictions]
  apply GetTagePredictionsBase_providerIndex
  rcases hinv with h | h | h
  · exact Or.inl h.1
  · exact Or.inr (by omega)
  · exact Or.inr (by omega)

end BranchPredictorTage

/-- C24. After a lookup `providerIndex ≥ 0`. On a state with
`providerIndex ≥ 0` whose counters are at most 7,
`UpdateProviderCounter(resolveDir)` returns the state with just the provider's
counter `c` replaced (`basePredictor[providerPredIndex]` when
`providerIndex == 0`, `tage[providerIndex][providerPredIndex].counter`
otherwise): by `min(c + 1, 7)` when `resolveDir` is true and by
`max(c - 1, 0)` when it is false. Every other cell and member, tags, useful
bits, history and `useAltOnNa` included, is as before. -/
theorem UpdateProviderCounter_saturates (s : BranchPredictorTage) (resolveDir : Bool)
    (hp : 0 ≤ s.providerIndex) (hc : s.CountersInRange) :
    (∀ (s0 : BranchPredictorTage) (pc : Nat) (u : Bool),
      0 ≤ (s0.GetTagePredictions pc u).1.providerIndex) ∧
    (s.providerIndex = 0 →
      ∃ c1 : Nat,
        ((c1 : Nat) : Int) =
          (if resolveDir = true then min ((s.basePredictor s.providerPredIndex : Int) + 1) 7
            else max ((s.basePredictor s.providerPredIndex : Int) - 1) 0) ∧
        s.UpdateProviderCounter resolveDir =
          { s with
            basePredictor := Function.update s.basePredictor s.providerPredIndex c1 }) ∧
    (s.providerIndex ≠ 0 →
      ∃ (p c1 : Nat), (p : Int) = s.providerIndex ∧
        ((c1 : Nat) : Int) =
          (if resolveDir = true then
            min (((s.tage p s.providerPredIndex).counter : Int) + 1) 7
            else max (((s.tage p s.providerPredIndex).counter : Int) - 1) 0) ∧
        s.UpdateProviderCounter resolveDir =
          { s with
            tage := Function.update s.tage p
              (Function.update (s.tage p) s.providerPredIndex
                { s.tage p s.providerPredIndex with counter := c1 }) }) := by
  refine ⟨fun s0 pc u => BranchPredictorTage.GetTagePredictions_providerIndex_nonneg s0 pc u,
    fun h0 => ⟨_, (BranchPredictorTage.stepCounter_eq resolveDir _ (hc.1 _)).2, ?_⟩,
    fun h0 => ⟨s.providerIndex.toNat, _, Int.toNat_of_nonneg hp,
      (BranchPredictorTage.stepCounter_eq resolveDir _ (hc.2.1 _ _)).2, ?_⟩⟩
  · rw [BranchPredictorTage.UpdateProviderCounter, if_pos h0]
  · rw [BranchPredictorTage.UpdateProviderCounter, if_neg h0]

theorem tage0_CountersInRange : tage0.CountersInRange :=
  ⟨fun _ => show (3 : Nat) ≤ 7 by decide, fun _ _ => show (0 : Nat) ≤ 7 by decide,
    show (0 : Nat) ≤ 7 by decide⟩

/-- Witness for C24: on the predictor that `BranchPredictorTage(4, 10)`
constructs, after the lookup of `pc = 1024` the provider is the base
predictor with index 0 and counter 3, and `UpdateProviderCounter(true)` makes
the counter 4; after the lookup of `pc = 0` the provider is table 4 with index
1023 and counter 0, and `UpdateProviderCounter(true)` makes the counter 1,
`UpdateProviderCounter(false)` leaves it 0. -/
theorem UpdateProviderCounter_saturates_witness :
    BranchPredictorTage.new 4 10 = some tage0 ∧
    (0 ≤ (tage0.GetTagePredictions 1024 false).1.providerIndex ∧
      (tage0.GetTagePredictions 1024 false).1.CountersInRange) ∧
    (((tage0.GetTagePredictions 1024 false).1.UpdateProviderCounter true).basePredictor 0 = 4 ∧
      (((tage0.GetTagePredictions 0 false).1.UpdateProviderCounter true).tage 4 1023).counter =
        1 ∧
      (((tage0.GetTagePredictions 0 false).1.UpdateProviderCounter false).tage 4 1023).counter =
        0) ∧
    ∃ c1 : Nat, (c1 : Int) = 4 ∧
      (tage0.GetTagePredictions 1024 false).1.UpdateProviderCounter true =
        { (tage0.GetTagePredictions 1024 false).1 with
          basePredictor := Function.update (tage0.GetTagePredictions 1024 false).1.basePredictor
            (tage0.GetTagePredictions 1024 false).1.providerPredIndex c1 } := by
  have hr : (tage0.GetTagePredictions 1024 false).1.CountersInRange :=
    BranchPredictorTage.CountersInRange_of_persistent
      (BranchPredictorTage.GetTagePredictions_persistent tage0 1024 false) tage0_CountersInRange
  have hp : 0 ≤ (tage0.GetTagePredictions 1024 false).1.providerIndex := by
    set_option maxRecDepth 100000 in decide
  have h0 : (tage0.GetTagePredictions 1024 false).1.providerIndex = 0 := by
    set_option maxRecDepth 100000 in decide
  obtain ⟨c1, h1, h2⟩ := (UpdateProviderCounter_saturates
    (tage0.GetTagePredictions 1024 false).1 true hp hr).2.1 h0
  refine ⟨rfl, ⟨hp, hr⟩, ⟨?_, ?_, ?_⟩, c1, ?_, h2⟩
  · set_option maxRecDepth 100000 in decide
  · set_option maxRecDepth 100000 in decide
  · set_option maxRecDepth 100000 in decide
  · rw [h1]
    have hb : (tage0.GetTagePredictions 1024 false).1.basePredictor
        (tage0.GetTagePredictions 1024 false).1.providerPredIndex = 3 := by
      set_option maxRecDepth 100000 in decide
    rw [hb]
    decide

namespace BranchPredictorTage

theorem UpdatePredictor_eq (s : BranchPredictorTage) (PC : Nat) (d p : Bool) (bt : Nat) :
    s.UpdatePredictor PC d p bt =
      (UpdateUseful
        (if d ≠ p then (s.UpdateProviderCounter d).AllocateNewEntries PC
          else s.UpdateProviderCounter d) d).UpdateHistory d := rfl

theorem SetU_fields (s : BranchPredictorTage) (v : Bool) :
    s.SetU v =
      { s with
        tage :=
          if 0 < s.providerIndex then
            Function.update s.tage s.providerIndex.toNat
              (Function.update (s.tage s.providerIndex.toNat) s.providerPredIndex
                { s.tage s.providerIndex.toNat s.providerPredIndex with useful := v })
          else s.tage } := by
  unfold SetU
  split_ifs <;> rfl

end BranchPredictorTage

namespace BranchPredictorTage

theorem GetTageIndex_congr_tage {s r : BranchPredictorTage}
    (h1 : s.index_size = r.index_size) (h2 : s.historyBuffer = r.historyBuffer)
    (h3 : s.idx_mask = r.idx_mask) (PC t : Nat) : s.GetTageIndex PC t = r.GetTageIndex PC t := by
  simp only [GetTageIndex, GetTageIndexLoop_congr h1 h2, h1, h3]

theorem GetTageTag_congr_tage {s r : BranchPredictorTage}
    (h2 : s.historyBuffer = r.historyBuffer) (PC t : Nat) :
    s.GetTageTag PC t = r.GetTageTag PC t := by
  simp only [GetTageTag, GetTageTagLoop_congr h2]

theorem AllocateNewEntriesLoop_stop (PC n table cnt : Nat) (s : BranchPredictorTage)
    (h : cnt ≥ MAX_ALLOCATIONS) : AllocateNewEntriesLoop PC n table cnt s = s := by
  cases n with
  | zero => rfl
  | succ n => rw [AllocateNewEntriesLoop, if_pos h]

theorem AllocateNewEntriesLoop_frame (PC n table cnt : Nat) (s : BranchPredictorTage) :
    AllocateNewEntriesLoop PC n table cnt s =
      { s with tage := (AllocateNewEntriesLoop PC n table cnt s).tage } := by
  induction n generalizing table cnt s with
  | zero => rfl
  | succ n ih =>
    simp only [AllocateNewEntriesLoop]
    split_ifs
    · rfl
    · rw [ih]
    · rw [ih]

/-- Closed form of the allocation walk that starts at `table` and may visit
`n` tables: a cell `(t, i)` is reached when `t` is one of these tables, `i` is
its index for `PC` and every table of the walk before `t` has useful bit 1 at
its own cell. A reached cell with useful bit 0 receives the new entry, a
reached cell with useful bit 1 only loses the bit, and no other cell
changes. -/
theorem AllocateNewEntriesLoop_tage (PC n table : Nat) (s : BranchPredictorTage) (t i : Nat) :
    ((table ≤ t ∧ t < table + n ∧ i = w32 (s.GetTageIndex PC t) ∧
        ∀ k, table ≤ k → k < t → (s.tage k (w32 (s.GetTageIndex PC k))).useful = true) →
      ((s.tage t i).useful = false →
        (AllocateNewEntriesLoop PC n table 0 s).tage t i =
          { counter := TI_COUNTER_MAX / 2, useful := false, tag := w32 (s.GetTageTag PC t) }) ∧
      ((s.tage t i).useful = true →
        (AllocateNewEntriesLoop PC n table 0 s).tage t i =
          { s.tage t i with useful := false })) ∧
    (¬ (table ≤ t ∧ t < table + n ∧ i = w32 (s.GetTageIndex PC t) ∧
        ∀ k, table ≤ k → k < t → (s.tage k (w32 (s.GetTageIndex PC k))).useful = true) →
      (AllocateNewEntriesLoop PC n table 0 s).tage t i = s.tage t i) := by
  induction n generalizing table s with
  | zero =>
    refine ⟨fun h => ?_, fun _ => rfl⟩
    omega
  | succ n ih =>
    have h0 : ¬ (0 ≥ MAX_ALLOCATIONS) := by decide
    rw [AllocateNewEntriesLoop, if_neg h0]
    simp only []
    by_cases hu : (s.tage table (w32 (s.GetTageIndex PC table))).useful = false
    · rw [if_pos hu, AllocateNewEntriesLoop_stop PC n _ _ _ (by decide)]
      refine ⟨fun hv => ?_, fun hv => ?_⟩
      · obtain ⟨hv1, hv2, hv3, hv4⟩ := hv
        rcases Nat.eq_or_lt_of_le hv1 with e | e
        · subst e
          subst hv3
          refine ⟨fun _ => ?_, fun h => ?_⟩
          · simp only [Function.update_same]
          · rw [hu] at h
            exact absurd h (by decide)
        · have := hv4 table (le_refl _) e
          rw [hu] at this
          exact absurd this (by decide)
      · show Function.update s.tage table _ t i = s.tage t i
        by_cases e : t = table
        · subst e
          simp only [Function.update_same]
          by_cases e2 : i = w32 (s.GetTageIndex PC t)
          · exact absurd ⟨le_refl _, by omega, e2, fun k h1 h2 => by omega⟩ hv
          · rw [Function.update_noteq e2]
        · rw [Function.update_noteq e]
    · have hu1 : (s.tage table (w32 (s.GetTageIndex PC table))).useful = true := by
        cases h : (s.tage table (w32 (s.GetTageIndex PC table))).useful
        · exact absurd h hu
        · rfl
      rw [if_neg hu]
      obtain ⟨s1, hs1⟩ : ∃ s1, s1 =
          { s with
            tage := Function.update s.tage table
              (Function.update (s.tage table) (w32 (s.GetTageIndex PC table))
                { s.tage table (w32 (s.GetTageIndex PC table)) with useful := false }) } :=
        ⟨_, rfl⟩
      rw [← hs1]
      have hi : ∀ k, s1.GetTageIndex PC k = s.GetTageIndex PC k := fun k => by
        rw [hs1]; apply GetTageIndex_congr_tage <;> rfl
      have hg : ∀ k, s1.GetTageTag PC k = s.GetTageTag PC k := fun k => by
        rw [hs1]; apply GetTageTag_congr_tage; rfl
      have ht1 : ∀ k j, k ≠ table → s1.tage k j = s.tage k j := fun k j hk => by
        rw [hs1]
        show Function.update s.tage table _ k j = s.tage k j
        rw [Function.update_noteq hk]
      have ht2 : ∀ j, j ≠ w32 (s.GetTageIndex PC table) → s1.tage table j = s.tage table j :=
        fun j hj => by
          rw [hs1]
          show Function.update s.tage table _ table j = s.tage table j
          rw [Function.update_same, Function.update_noteq hj]
      have ht3 : s1.tage table (w32 (s.GetTageIndex PC table)) =
          { s.tage table (w32 (s.GetTageIndex PC table)) with useful := false } := by
        rw [hs1]
        show Function.update s.tage table _ table _ = _
        rw [Function.update_same, Function.update_same]
      have ih1 := ih (table + 1) s1
      simp only [hi, hg] at ih1
      refine ⟨fun hv => ?_, fun hv => ?_⟩
      · obtain ⟨hv1, hv2, hv3, hv4⟩ := hv
        rcases Nat.eq_or_lt_of_le hv1 with e | e
        · subst e
          subst hv3
          refine ⟨fun h => ?_, fun _ => ?_⟩
          · rw [hu1] at h
            exact absurd h (by decide)
          · rw [ih1.2 (fun h => by omega), ht3]
        · have hne : t ≠ table := by omega
          have hv' : table + 1 ≤ t ∧ t < table + 1 + n ∧ i = w32 (s.GetTageIndex PC t) ∧
              ∀ k, table + 1 ≤ k → k < t →
                (s1.tage k (w32 (s.GetTageIndex PC k))).useful = true :=
            ⟨e, by omega, hv3, fun k h1 h2 => by
              rw [ht1 k _ (by omega)]
              exact hv4 k (by omega) h2⟩
          have := ih1.1 hv'
          rw [ht1 t i hne] at this
          exact this
      · have hne : ¬ (t = table ∧ i = w32 (s.GetTageIndex PC table)) := fun h =>
          hv ⟨by omega, by omega, by rw [h.2, h.1], fun k h1 h2 => by omega⟩
        have hsame : s1.tage t i = s.tage t i := by
          by_cases e : t = table
          · subst e
            exact ht2 i (fun h => hne ⟨rfl, h⟩)
          · exact ht1 t i e
        rw [ih1.2 (fun hv' => ?_), hsame]
        obtain ⟨hv1, hv2, hv3, hv4⟩ := hv'
        refine hv ⟨by omega, by omega, hv3, fun k h1 h2 => ?_⟩
        rcases Nat.eq_or_lt_of_le h1 with e | e
        · rw [← e]; exact hu1
        · rw [← ht1 k _ (by omega)]
          exact hv4 k e h2

end BranchPredictorTage

namespace BranchPredictorTage

theorem AllocateNewEntries_eq (s : BranchPredictorTage) (PC p : Nat)
    (hp : (p : Int) = s.providerIndex) (h : p < 255) :
    s.AllocateNewEntries PC =
      AllocateNewEntriesLoop PC (s.table_num + 1 - (p + 1)) (p + 1) 0 s := by
  have e : ((s.providerIndex + 1) % 256).toNat = p + 1 := by
    rw [← hp]
    omega
  unfold AllocateNewEntries
  simp only [e]

/-- The cells of the allocation walk after provider `p`, in the terms of
`AllocateNewEntries`: see `AllocateNewEntriesLoop_tage`. -/
theorem AllocateNewEntries_tage (s : BranchPredictorTage) (PC p : Nat)
    (hp : (p : Int) = s.providerIndex) (hp2 : p ≤ s.table_num) (h : s.table_num < 255)
    (t i : Nat) :
    ((p < t ∧ t ≤ s.table_num ∧ i = w32 (s.GetTageIndex PC t) ∧
        ∀ k, p < k → k < t → (s.tage k (w32 (s.GetTageIndex PC k))).useful = true) →
      ((s.tage t i).useful = false →
        (s.AllocateNewEntries PC).tage t i =
          { counter := TI_COUNTER_MAX / 2, useful := false, tag := w32 (s.GetTageTag PC t) }) ∧
      ((s.tage t i).useful = true →
        (s.AllocateNewEntries PC).tage t i = { s.tage t i with useful := false })) ∧
    (¬ (p < t ∧ t ≤ s.table_num ∧ i = w32 (s.GetTageIndex PC t) ∧
        ∀ k, p < k → k < t → (s.tage k (w32 (s.GetTageIndex PC k))).useful = true) →
      (s.AllocateNewEntries PC).tage t i = s.tage t i) := by
  rw [AllocateNewEntries_eq s PC p hp (by omega)]
  have key := AllocateNewEntriesLoop_tage PC (s.table_num + 1 - (p + 1)) (p + 1) s t i
  refine ⟨fun hv => key.1 ⟨by omega, by omega, hv.2.2.1, fun k h1 h2 => hv.2.2.2 k (by omega) h2⟩,
    fun hv => key.2 (fun hv' => hv ⟨by omega, by omega, hv'.2.2.1,
      fun k h1 h2 => hv'.2.2.2 k (by omega) h2⟩)⟩

theorem UpdateProviderCounter_tag (s : BranchPredictorTage) (d : Bool) (t i : Nat) :
    ((s.UpdateProviderCounter d).tage t i).tag = (s.tage t i).tag := by
  unfold UpdateProviderCounter
  split_ifs
  · rfl
  · show (Function.update s.tage _ _ t i).tag = _
    by_cases e : t = s.providerIndex.toNat
    · subst e
      rw [Function.update_same]
      by_cases e2 : i = s.providerPredIndex
      · subst e2
        rw [Function.update_same]
      · rw [Function.update_noteq e2]
    · rw [Function.update_noteq e]

theorem UpdateUseful_tag (s : BranchPredictorTage) (d : Bool) (t i : Nat) :
    ((s.UpdateUseful d).tage t i).tag = (s.tage t i).tag := by
  have key : ∀ v, ((s.SetU v).tage t i).tag = (s.tage t i).tag := fun v => by
    unfold SetU
    split_ifs
    · show (Function.update s.tage _ _ t i).tag = _
      by_cases e : t = s.providerIndex.toNat
      · subst e
        rw [Function.update_same]
        by_cases e2 : i = s.providerPredIndex
        · subst e2
          rw [Function.update_same]
        · rw [Function.update_noteq e2]
      · rw [Function.update_noteq e]
    · rfl
  unfold UpdateUseful
  simp only []
  split_ifs <;> first | exact key _ | rfl

end BranchPredictorTage

/-- C25. Let `AllocateNewEntries(PC)` run on a state with provider `p`,
`0 ≤ p ≤ table_num < 255` (after a lookup on a constructed predictor,
`p ≤ table_num ≤ 8`). It changes no member but `tage`. If table `t` with
`p < t ≤ table_num` has useful bit 0 at index `GetTageIndex(PC, t)` and is the
smallest such table, its entry becomes `{tag = GetTageTag(PC, t), counter = 3,
useful = 0}`. A cell whose tag or counter differs afterwards is that cell, so
at most one cell has its tag or counter modified; no cell of a table `t ≤ p`
is modified at all. In `UpdatePredictor` the allocation runs after
`UpdateProviderCounter` exactly when `resolveDir != predDir`; when
`resolveDir == predDir` it is skipped and every tag is as it was. -/
theorem AllocateNewEntries_allocates_one (s : BranchPredictorTage) (PC : Nat)
    (hp : 0 ≤ s.providerIndex) (hp2 : s.providerIndex ≤ s.table_num)
    (ht : s.table_num < 255) :
    ∃ p : Nat, (p : Int) = s.providerIndex ∧
      s.AllocateNewEntries PC = { s with tage := (s.AllocateNewEntries PC).tage } ∧
      (∀ t, p < t → t ≤ s.table_num →
        (s.tage t (w32 (s.GetTageIndex PC t))).useful = false →
        (∀ k, p < k → k < t → (s.tage k (w32 (s.GetTageIndex PC k))).useful = true) →
        (s.AllocateNewEntries PC).tage t (w32 (s.GetTageIndex PC t)) =
          { tag := s.GetTageTag PC t, counter := 3, useful := false }) ∧
      (∀ t i,
        (((s.AllocateNewEntries PC).tage t i).tag ≠ (s.tage t i).tag ∨
          ((s.AllocateNewEntries PC).tage t i).counter ≠ (s.tage t i).counter) →
        p < t ∧ t ≤ s.table_num ∧ i = w32 (s.GetTageIndex PC t) ∧
        (s.tage t i).useful = false ∧
        ∀ k, p < k → k < t → (s.tage k (w32 (s.GetTageIndex PC k))).useful = true) ∧
      (∀ t i t2 i2,
        (((s.AllocateNewEntries PC).tage t i).tag ≠ (s.tage t i).tag ∨
          ((s.AllocateNewEntries PC).tage t i).counter ≠ (s.tage t i).counter) →
        (((s.AllocateNewEntries PC).tage t2 i2).tag ≠ (s.tage t2 i2).tag ∨
          ((s.AllocateNewEntries PC).tage t2 i2).counter ≠ (s.tage t2 i2).counter) →
        t = t2 ∧ i = i2) ∧
      (∀ t i, t ≤ p → (s.AllocateNewEntries PC).tage t i = s.tage t i) ∧
      (∀ (s0 : BranchPredictorTage) (pc : Nat) (resolveDir predDir : Bool) (bt : Nat),
        resolveDir ≠ predDir →
        s0.UpdatePredictor pc resolveDir predDir bt =
          (BranchPredictorTage.UpdateUseful
            ((s0.UpdateProviderCounter resolveDir).AllocateNewEntries pc)
            resolveDir).UpdateHistory resolveDir) ∧
      (∀ (s0 : BranchPredictorTage) (pc : Nat) (resolveDir predDir : Bool) (bt : Nat),
        resolveDir = predDir →
        s0.UpdatePredictor pc resolveDir predDir bt =
          (BranchPredictorTage.UpdateUseful (s0.UpdateProviderCounter resolveDir)
            resolveDir).UpdateHistory resolveDir ∧
        ∀ t i, ((s0.UpdatePredictor pc resolveDir predDir bt).tage t i).tag =
          (s0.tage t i).tag) := by
  obtain ⟨p, hpe⟩ : ∃ p : Nat, (p : Int) = s.providerIndex := ⟨s.providerIndex.toNat, by omega⟩
  have hple : p ≤ s.table_num := by omega
  have key := BranchPredictorTage.AllocateNewEntries_tage s PC p hpe hple ht
  have hchg : ∀ t i,
      (((s.AllocateNewEntries PC).tage t i).tag ≠ (s.tage t i).tag ∨
        ((s.AllocateNewEntries PC).tage t i).counter ≠ (s.tage t i).counter) →
      p < t ∧ t ≤ s.table_num ∧ i = w32 (s.GetTageIndex PC t) ∧
      (s.tage t i).useful = false ∧
      ∀ k, p < k → k < t → (s.tage k (w32 (s.GetTageIndex PC k))).useful = true := by
    intro t i hne
    by_cases hv : p < t ∧ t ≤ s.table_num ∧ i = w32 (s.GetTageIndex PC t) ∧
        ∀ k, p < k → k < t → (s.tage k (w32 (s.GetTageIndex PC k))).useful = true
    · refine ⟨hv.1, hv.2.1, hv.2.2.1, ?_, hv.2.2.2⟩
      cases hu : (s.tage t i).useful
      · rfl
      · rw [((key t i).1 hv).2 hu] at hne
        rcases hne with h | h <;> exact absurd rfl h
    · rw [(key t i).2 hv] at hne
      rcases hne with h | h <;> exact absurd rfl h
  refine ⟨p, hpe, ?_, ?_, hchg, ?_, ?_, ?_, ?_⟩
  · rw [BranchPredictorTage.AllocateNewEntries_eq s PC p hpe (by omega)]
    exact BranchPredictorTage.AllocateNewEntriesLoop_frame PC _ _ _ s
  · intro t h1 h2 hu hk
    rw [((key t _).1 ⟨h1, h2, rfl, hk⟩).1 hu,
      BranchPredictorTage.w32_GetTageTag s PC t (by omega)]
    rfl
  · intro t i t2 i2 h1 h2
    obtain ⟨a1, a2, a3, a4, a5⟩ := hchg t i h1
    obtain ⟨b1, b2, b3, b4, b5⟩ := hchg t2 i2 h2
    have e : t = t2 := by
      rcases Nat.lt_trichotomy t t2 with h | h | h
      · have := b5 t a1 h
        rw [← a3, a4] at this
        exact absurd this (by decide)
      · exact h
      · have := a5 t2 b1 h
        rw [← b3, b4] at this
        exact absurd this (by decide)
    subst e
    exact ⟨rfl, by rw [a3, b3]⟩
  · intro t i h
    exact (key t i).2 (fun hv => by omega)
  · intro s0 pc resolveDir predDir bt hne
    rw [BranchPredictorTage.UpdatePredictor_eq, if_pos hne]
  · intro s0 pc resolveDir predDir bt he
    have hnn : ¬ resolveDir ≠ predDir := fun h => h he
    rw [BranchPredictorTage.UpdatePredictor_eq, if_neg hnn]
    refine ⟨rfl, fun t i => ?_⟩
    show ((BranchPredictorTage.UpdateUseful (s0.UpdateProviderCounter resolveDir)
      resolveDir).tage t i).tag = _
    rw [BranchPredictorTage.UpdateUseful_tag, BranchPredictorTage.UpdateProviderCounter_tag]

/-- Witness for C25: in the third call `predict(2, false, 0)` on the predictor
of `BranchPredictorTage(4, 10)` (after `predict(2, true, 0)` and
`predict(2, false, 0)`) the prediction is taken and the provider is the base
predictor, so `AllocateNewEntries(2)` runs with `p = 0`: table 1 has useful
bit 0 at its cell 493, which becomes `{tag = 6, counter = 3, useful = 0}`. -/
theorem AllocateNewEntries_allocates_one_witness :
    (0 ≤ tageMispredict.providerIndex ∧
      tageMispredict.providerIndex ≤ tageMispredict.table_num ∧
      tageMispredict.table_num < 255) ∧
    w32 (tageMispredict.GetTageIndex 2 1) = 493 ∧ tageMispredict.GetTageTag 2 1 = 6 ∧
    (tageMispredict.tage 1 493).tag = 2 ∧
    ((tageMispredict.AllocateNewEntries 2).tage 1 493).tag = 6 ∧
    ((tageMispredict.AllocateNewEntries 2).tage 1 493).counter = 3 ∧
    ((tageMispredict.AllocateNewEntries 2).tage 1 493).useful = false ∧
    ∃ p : Nat, (p : Int) = tageMispredict.providerIndex ∧
      (∀ t, p < t → t ≤ tageMispredict.table_num →
        (tageMispredict.tage t (w32 (tageMispredict.GetTageIndex 2 t))).useful = false →
        (∀ k, p < k → k < t →
          (tageMispredict.tage k (w32 (tageMispredict.GetTageIndex 2 k))).useful = true) →
        (tageMispredict.AllocateNewEntries 2).tage t (w32 (tageMispredict.GetTageIndex 2 t)) =
          { tag := tageMispredict.GetTageTag 2 t, counter := 3, useful := false }) := by
  have h1 : 0 ≤ tageMispredict.providerIndex := by set_option maxRecDepth 100000 in decide
  have h2 : tageMispredict.providerIndex ≤ tageMispredict.table_num := by
    set_option maxRecDepth 100000 in decide
  have h3 : tageMispredict.table_num < 255 := by set_option maxRecDepth 100000 in decide
  refine ⟨⟨h1, h2, h3⟩, by set_option maxRecDepth 100000 in decide,
    by set_option maxRecDepth 100000 in decide,
    by set_option maxRecDepth 100000 in decide,
    by set_option maxRecDepth 100000 in decide,
    by set_option maxRecDepth 100000 in decide,
    by set_option maxRecDepth 100000 in decide, ?_⟩
  obtain ⟨p, hp, -, ha, -⟩ := AllocateNewEntries_allocates_one tageMispredict 2 h1 h2 h3
  exact ⟨p, hp, ha⟩

/-- Counterexample to C26 as stated: on the predictor that
`BranchPredictorTage(4, 10)` constructs, after `predict(2, true, 0)` and
`predict(2, false, 0)`, the third call `predict(2, false, 0)` is a
misprediction (the prediction is taken) with provider `p = 0`. Table 4, with
`0 < 4 <= table_num`, has useful bit 1 at its cell `GetTageIndex(2, 4) = 1021`
before `AllocateNewEntries(2)`, and the bit is still 1 after it, and after the
whole call: the walk allocates in table 1 and stops there. -/
theorem aging_stops_at_first_allocation :
    BranchPredictorTage.new 4 10 = some tage0 ∧
    ((tage0.predictAll [(2, true, 0), (2, false, 0)]).GetPrediction 2).1 = true ∧
    tageMispredict =
      (((tage0.predictAll [(2, true, 0), (2, false, 0)]).GetPrediction 2).2).UpdateProviderCounter
        false ∧
    tageMispredict.providerIndex = 0 ∧ tageMispredict.table_num = 4 ∧
    w32 (tageMispredict.GetTageIndex 2 4) = 1021 ∧
    tageMispredict.GetTageIndex 2 4 = 1021 ∧
    (tageMispredict.tage 4 1021).useful = true ∧
    ((tageMispredict.AllocateNewEntries 2).tage 4 1021).useful = true ∧
    (((tage0.predictAll [(2, true, 0), (2, false, 0)]).predict 2 false 0).2.tage 4 1021).useful =
      true :=
  ⟨rfl, by set_option maxRecDepth 100000 in decide, rfl,
    by set_option maxRecDepth 100000 in decide,
    by set_option maxRecDepth 100000 in decide,
    by set_option maxRecDepth 100000 in decide,
    by set_option maxRecDepth 100000 in decide,
    by set_option maxRecDepth 100000 in decide,
    by set_option maxRecDepth 100000 in decide,
    by set_option maxRecDepth 100000 in decide⟩

/-- C26 (as amended). Let `AllocateNewEntries(PC)` run on a state with provider
`p`, `0 ≤ p ≤ table_num < 255`. For every table `t` with `p < t ≤ table_num`
whose cell at `GetTageIndex(PC, t)` has useful bit 1 before the update, and
such that every table `k` with `p < k < t` also has useful bit 1 at its cell
`GetTageIndex(PC, k)`, that cell's useful bit is 0 afterwards, with its tag
and counter unchanged. A table above some table `k > p` whose cell has useful
bit 0 is not reached: all its cells are as before. -/
theorem AllocateNewEntries_ages_until_allocation (s : BranchPredictorTage) (PC : Nat)
    (hp : 0 ≤ s.providerIndex) (hp2 : s.providerIndex ≤ s.table_num)
    (ht : s.table_num < 255) :
    ∃ p : Nat, (p : Int) = s.providerIndex ∧
      (∀ t, p < t → t ≤ s.table_num →
        (s.tage t (w32 (s.GetTageIndex PC t))).useful = true →
        (∀ k, p < k → k < t → (s.tage k (w32 (s.GetTageIndex PC k))).useful = true) →
        ((s.AllocateNewEntries PC).tage t (w32 (s.GetTageIndex PC t))).useful = false ∧
        ((s.AllocateNewEntries PC).tage t (w32 (s.GetTageIndex PC t))).tag =
          (s.tage t (w32 (s.GetTageIndex PC t))).tag ∧
        ((s.AllocateNewEntries PC).tage t (w32 (s.GetTageIndex PC t))).counter =
          (s.tage t (w32 (s.GetTageIndex PC t))).counter) ∧
      (∀ t k, p < k → k < t →
        (s.tage k (w32 (s.GetTageIndex PC k))).useful = false →
        ∀ i, (s.AllocateNewEntries PC).tage t i = s.tage t i) := by
  obtain ⟨p, hpe⟩ : ∃ p : Nat, (p : Int) = s.providerIndex := ⟨s.providerIndex.toNat, by omega⟩
  have hple : p ≤ s.table_num := by omega
  have key := BranchPredictorTage.AllocateNewEntries_tage s PC p hpe hple ht
  refine ⟨p, hpe, fun t h1 h2 hu hk => ?_, fun t k h1 h2 hu i => ?_⟩
  · rw [((key t _).1 ⟨h1, h2, rfl, hk⟩).2 hu]
    exact ⟨rfl, rfl, rfl⟩
  · refine (key t i).2 (fun hv => ?_)
    have := hv.2.2.2 k h1 h2
    rw [hu] at this
    exact absurd this (by decide)

/-- Witness for C26 (as amended): in the state `tageUseful1` (provider 0, useful
bit 1 in table 1 only) `AllocateNewEntries(1024)` clears the useful bit of
`tage[1][495]`, the cell of table 1, and keeps its tag and counter. -/
theorem AllocateNewEntries_ages_until_allocation_witness :
    (0 ≤ tageUseful1.providerIndex ∧ tageUseful1.providerIndex ≤ tageUseful1.table_num ∧
      tageUseful1.table_num < 255) ∧
    w32 (tageUseful1.GetTageIndex 1024 1) = 495 ∧
    (tageUseful1.tage 1 495).useful = true ∧
    ((tageUseful1.AllocateNewEntries 1024).tage 1 495).useful = false ∧
    ((tageUseful1.AllocateNewEntries 1024).tage 2 1023).tag = 1024 ∧
    ∃ p : Nat, (p : Int) = tageUseful1.providerIndex ∧
      (∀ t, p < t → t ≤ tageUseful1.table_num →
        (tageUseful1.tage t (w32 (tageUseful1.GetTageIndex 1024 t))).useful = true →
        (∀ k, p < k → k < t →
          (tageUseful1.tage k (w32 (tageUseful1.GetTageIndex 1024 k))).useful = true) →
        ((tageUseful1.AllocateNewEntries 1024).tage t
          (w32 (tageUseful1.GetTageIndex 1024 t))).useful = false ∧
        ((tageUseful1.AllocateNewEntries 1024).tage t
          (w32 (tageUseful1.GetTageIndex 1024 t))).tag =
          (tageUseful1.tage t (w32 (tageUseful1.GetTageIndex 1024 t))).tag ∧
        ((tageUseful1.AllocateNewEntries 1024).tage t
          (w32 (tageUseful1.GetTageIndex 1024 t))).counter =
          (tageUseful1.tage t (w32 (tageUseful1.GetTageIndex 1024 t))).counter) := by
  have h1 : 0 ≤ tageUseful1.providerIndex := by set_option maxRecDepth 100000 in decide
  have h2 : tageUseful1.providerIndex ≤ tageUseful1.table_num := by
    set_option maxRecDepth 100000 in decide
  have h3 : tageUseful1.table_num < 255 := by set_option maxRecDepth 100000 in decide
  refine ⟨⟨h1, h2, h3⟩, by set_option maxRecDepth 100000 in decide,
    by set_option maxRecDepth 100000 in decide,
    by set_option maxRecDepth 100000 in decide,
    by set_option maxRecDepth 100000 in decide, ?_⟩
  obtain ⟨p, hp, ha, -⟩ := AllocateNewEntries_ages_until_allocation tageUseful1 1024 h1 h2 h3
  exact ⟨p, hp, ha⟩

/-- C27. `UpdatePredictor` is `UpdateProviderCounter`, then
`AllocateNewEntries` on a misprediction, then the step
`if (altProviderPred != providerPred) { ... }`, then `UpdateHistory`. On the
state `s` that this step finds: if `altProviderPred != providerPred`, the
useful bit of the provider's entry is set to `providerPred == resolveDir` when
the provider is a tagged table (`providerIndex > 0`) and no table cell changes
otherwise, and `useAltOnNa`, when it is at most 7, becomes
`min(useAltOnNa + 1, 7)` if `altProviderPred == resolveDir` and
`max(useAltOnNa - 1, 0)` if not; no other member changes. If
`altProviderPred == providerPred` the step changes nothing. -/
theorem UpdateUseful_effect (s : BranchPredictorTage) (resolveDir : Bool) :
    (∀ (s0 : BranchPredictorTage) (PC : Nat) (predDir : Bool) (bt : Nat),
      s0.UpdatePredictor PC resolveDir predDir bt =
        (BranchPredictorTage.UpdateUseful
          (if resolveDir ≠ predDir then
            (s0.UpdateProviderCounter resolveDir).AllocateNewEntries PC
            else s0.UpdateProviderCounter resolveDir) resolveDir).UpdateHistory resolveDir) ∧
    (s.altProviderPred ≠ s.providerPred →
      ∃ u1 : Nat,
        (s.useAltOnNa ≤ 7 →
          (u1 : Int) =
            (if s.altProviderPred = resolveDir then min ((s.useAltOnNa : Int) + 1) 7
              else max ((s.useAltOnNa : Int) - 1) 0)) ∧
        s.UpdateUseful resolveDir =
          { s with
            useAltOnNa := u1
            tage :=
              if 0 < s.providerIndex then
                Function.update s.tage s.providerIndex.toNat
                  (Function.update (s.tage s.providerIndex.toNat) s.providerPredIndex
                    { s.tage s.providerIndex.toNat s.providerPredIndex with
                      useful := (s.providerPred == resolveDir) })
              else s.tage }) ∧
    (s.altProviderPred = s.providerPred → s.UpdateUseful resolveDir = s) := by
  refine ⟨fun s0 PC predDir bt => rfl, fun hne => ?_, fun he => ?_⟩
  · by_cases hr : s.altProviderPred = resolveDir
    · have hv : (s.providerPred == resolveDir) = false := by
        cases hp : s.providerPred <;> cases hd : resolveDir <;> simp_all
      by_cases hu : s.useAltOnNa < USE_ALT_COUNTER_MAX
      · refine ⟨s.useAltOnNa + 1, fun _ => ?_, ?_⟩
        · have h7 : s.useAltOnNa < 7 := hu
          rw [if_pos hr]
          omega
        · rw [hv, BranchPredictorTage.UpdateUseful, if_pos hne, if_pos hr]
          simp only [BranchPredictorTage.SetU_fields]
          rw [if_pos hu]
      · refine ⟨s.useAltOnNa, fun h7 => ?_, ?_⟩
        · have h8 : ¬s.useAltOnNa < 7 := hu
          rw [if_pos hr]
          omega
        · rw [hv, BranchPredictorTage.UpdateUseful, if_pos hne, if_pos hr]
          simp only [BranchPredictorTage.SetU_fields]
          rw [if_neg hu]
    · have hv : (s.providerPred == resolveDir) = true := by
        cases hp : s.providerPred <;> cases hd : resolveDir <;> cases ha : s.altProviderPred <;>
          simp_all
      by_cases hu : s.useAltOnNa > 0
      · refine ⟨s.useAltOnNa - 1, fun _ => ?_, ?_⟩
        · rw [if_neg hr]
          omega
        · rw [hv, BranchPredictorTage.UpdateUseful, if_pos hne, if_neg hr]
          simp only [BranchPredictorTage.SetU_fields]
          rw [if_pos hu]
      · refine ⟨s.useAltOnNa, fun _ => ?_, ?_⟩
        · rw [if_neg hr]
          omega
        · rw [hv, BranchPredictorTage.UpdateUseful, if_pos hne, if_neg hr]
          simp only [BranchPredictorTage.SetU_fields]
          rw [if_neg hu]
  · rw [BranchPredictorTage.UpdateUseful, if_neg (fun h => h he)]

/-- Witness for C27: in the state left by `GetPrediction(2)` after
`predict(2, true, 0)` on the predictor of `BranchPredictorTage(4, 10)`, the
provider is table 4 with `providerPred` false and `altProviderPred` true. With
`resolveDir` false the step sets the useful bit of `tage[4][1021]` to 1 and
leaves `useAltOnNa` at `max(0 - 1, 0) = 0`. -/
theorem UpdateUseful_effect_witness :
    tageLookup1.altProviderPred = true ∧ tageLookup1.providerPred = false ∧
    tageLookup1.providerIndex = 4 ∧ tageLookup1.providerPredIndex = 1021 ∧
    tageLookup1.useAltOnNa = 0 ∧
    (tageLookup1.tage 4 1021).useful = false ∧
    ((tageLookup1.UpdateUseful false).tage 4 1021).useful = true ∧
    (tageLookup1.UpdateUseful false).useAltOnNa = 0 ∧
    (∃ u1 : Nat,
      (tageLookup1.useAltOnNa ≤ 7 →
        (u1 : Int) =
          (if tageLookup1.altProviderPred = false then
            min ((tageLookup1.useAltOnNa : Int) + 1) 7
            else max ((tageLookup1.useAltOnNa : Int) - 1) 0)) ∧
      tageLookup1.UpdateUseful false =
        { tageLookup1 with
          useAltOnNa := u1
          tage :=
            if 0 < tageLookup1.providerIndex then
              Function.update tageLookup1.tage tageLookup1.providerIndex.toNat
                (Function.update (tageLookup1.tage tageLookup1.providerIndex.toNat)
                  tageLookup1.providerPredIndex
                  { tageLookup1.tage tageLookup1.providerIndex.toNat
                      tageLookup1.providerPredIndex with
                    useful := (tageLookup1.providerPred == false) })
            else tageLookup1.tage }) :=
  ⟨by set_option maxRecDepth 100000 in decide,
    by set_option maxRecDepth 100000 in decide,
    by set_option maxRecDepth 100000 in decide,
    by set_option maxRecDepth 100000 in decide,
    by set_option maxRecDepth 100000 in decide,
    by set_option maxRecDepth 100000 in decide,
    by set_option maxRecDepth 100000 in decide,
    by set_option maxRecDepth 100000 in decide,
    (UpdateUseful_effect tageLookup1 false).2.1 (by set_option maxRecDepth 100000 in decide)⟩

theorem bitAssign_eq_specPutBit (b i : Nat) (v : Bool) : bitAssign b i v = specPutBit b i v := by
  apply Nat.eq_of_testBit_eq
  intro j
  have h := BranchPredictorTage.bitGet_bitAssign b i v j
  unfold bitGet at h
  rw [h]
  unfold specPutBit
  cases v
  · simp only [Bool.false_eq_true, if_false, Nat.testBit_xor, Nat.testBit_and,
      Nat.testBit_two_pow]
    by_cases e : j = i
    · subst e
      simp
    · have e2 : ¬ i = j := fun h => e h.symm
      simp [e, e2]
  · simp only [if_true, Nat.testBit_or, Nat.testBit_two_pow]
    by_cases e : j = i
    · subst e
      simp
    · have e2 : ¬ i = j := fun h => e h.symm
      simp [e, e2]

theorem tag_round_eq_specFold14Round (h r sm lg : Nat) :
    bitAssign
        (bitAssign (bitShl1 TAGE_TAG_SIZE r) 0
          (xor (bitGet r (TAGE_TAG_SIZE - 1)) (bitGet h sm)))
        (TAGE_TAG_SIZE / 2) (xor (bitGet r (TAGE_TAG_SIZE / 2 - 1)) (bitGet h lg)) =
      specFold14Round h r sm lg := by
  have e1 : bitShl1 TAGE_TAG_SIZE r = (r <<< 1) % 2 ^ 14 := by
    unfold bitShl1 TAGE_TAG_SIZE
    rw [Nat.shiftLeft_eq, pow_one, Nat.mul_comm]
  have e2 : TAGE_TAG_SIZE - 1 = 13 := rfl
  have e3 : TAGE_TAG_SIZE / 2 = 7 := rfl
  rw [bitAssign_eq_specPutBit, bitAssign_eq_specPutBit, e1, e3, e2]
  rfl

theorem GetTageTagLoop_eq_specFold14Loop (s : BranchPredictorTage) (fuel sm lg r : Nat)
    (hpar : (sm + lg) % 2 = 1) (hlg : lg < 2 ^ 32) :
    BranchPredictorTage.GetTageTagLoop s fuel sm lg r =
      specFold14Loop s.historyBuffer fuel sm (lg : Int) r := by
  induction fuel generalizing sm lg r with
  | zero => rfl
  | succ n ih =>
    rw [BranchPredictorTage.GetTageTagLoop, specFold14Loop]
    by_cases hle : sm ≤ lg
    · have hle2 : (sm : Int) ≤ (lg : Int) := by omega
      rw [if_pos hle, if_pos hle2]
      have e1 : w32 (sm + 1) = sm + 1 := by unfold w32; omega
      have e2 : sub32 lg 1 = lg - 1 := by unfold sub32; omega
      have e3 : ((lg : Int) - 1) = ((lg - 1 : Nat) : Int) := by omega
      simp only []
      rw [e1, e2, e3, ih (sm + 1) (lg - 1) _ (by omega) (by omega),
        tag_round_eq_specFold14Round, Int.toNat_ofNat]
    · have hle2 : ¬ (sm : Int) ≤ (lg : Int) := by omega
      rw [if_neg hle, if_neg hle2]

theorem specFold14Loop_fuel (h fuel extra sm : Nat) (lg : Int) (r : Nat)
    (hf : lg + 1 ≤ sm + 2 * fuel) :
    specFold14Loop h (fuel + extra) sm lg r = specFold14Loop h fuel sm lg r := by
  induction fuel generalizing sm lg r with
  | zero =>
    have hn : ¬ (sm : Int) ≤ lg := by omega
    cases extra with
    | zero => rfl
    | succ k => simp only [Nat.zero_add, specFold14Loop, hn, if_false]
  | succ n ih =>
    rw [Nat.add_right_comm]
    simp only [specFold14Loop]
    split_ifs with hle
    · exact ih _ _ _ (by push_cast; omega)
    · rfl

/-- C28. For every predictor state (every history `h = historyBuffer`), every
`PC` and every table `t` in `[1, 8]`, `GetTageTag(PC, t)` is
`fold14(h, 8 t) XOR (PC AND 0x3FFF)`, with `fold14` the fold in the words of
the specification (`specFold14`), and it is below `2^14`;
`GetTageTag(PC, 0)` is 999999. More rounds than `8 t` would not change
`fold14`: its loop ends by `sm > lg`. -/
theorem GetTageTag_is_fold14 (s : BranchPredictorTage) (PC t : Nat) (h1 : 1 ≤ t)
    (h8 : t ≤ 8) :
    s.GetTageTag PC t = specFold14 s.historyBuffer (8 * t) ^^^ (PC &&& 0x3FFF) ∧
    s.GetTageTag PC t < 2 ^ 14 ∧
    s.GetTageTag PC 0 = 999999 ∧
    ∀ extra, specFold14Loop s.historyBuffer (8 * t + extra) 0 ((8 * t : Nat) - 1 : Int) 0 =
      specFold14 s.historyBuffer (8 * t) := by
  have hl : hist_lengths t = 8 * t := by interval_cases t <;> rfl
  have hs : sub32 (8 * t) 1 = 8 * t - 1 := by unfold sub32; omega
  have hm : tag_mask = 0x3FFF := by decide
  refine ⟨?_, BranchPredictorTage.GetTageTag_lt s PC t (by omega), rfl, fun extra => ?_⟩
  · rw [BranchPredictorTage.GetTageTag, if_neg (by omega)]
    simp only []
    rw [hl, hs, hm, GetTageTagLoop_eq_specFold14Loop s _ _ _ _ (by omega) (by omega)]
    have e : (((8 * t - 1 : Nat)) : Int) = ((8 * t : Nat) : Int) - 1 := by omega
    rw [e]
    rfl
  · exact specFold14Loop_fuel _ _ extra 0 _ 0 (by omega)

/-- Witness for C28: with the history `0b1` left by `predict(2, true, 0)` on
the predictor of `BranchPredictorTage(4, 10)` and `t = 4`, the fold of 32
history bits is 2 and `GetTageTag(2, 4) = 2 XOR 2 = 0`. -/
theorem GetTageTag_is_fold14_witness :
    (tage0.predictAll [(2, true, 0)]).historyBuffer = 1 ∧
    specFold14 1 (8 * 4) = 2 ∧
    (tage0.predictAll [(2, true, 0)]).GetTageTag 2 4 = 0 ∧
    (tage0.predictAll [(2, true, 0)]).GetTageTag 2 4 =
      specFold14 (tage0.predictAll [(2, true, 0)]).historyBuffer (8 * 4) ^^^ (2 &&& 0x3FFF) :=
  ⟨by set_option maxRecDepth 100000 in decide,
    by set_option maxRecDepth 100000 in decide,
    by set_option maxRecDepth 100000 in decide,
    (GetTageTag_is_fold14 (tage0.predictAll [(2, true, 0)]) 2 4 (by decide) (by decide)).1⟩

/-! ## `mybitset.h`, second part -/

theorem bit_mask_eq {pos : Nat} (h : pos < 64) : mybitset.bit_mask pos = 2 ^ pos := by
  unfold mybitset.bit_mask w64
  rw [Nat.one_shiftLeft]
  exact Nat.mod_eq_of_lt (Nat.pow_lt_pow_right (by decide) h)

theorem compl_bit_mask_eq {pos : Nat} (h : pos < 64) :
    2 ^ 64 - 1 - 2 ^ pos = (2 ^ 64 - 1) ^^^ 2 ^ pos := by
  interval_cases pos <;> rfl

theorem mybitset_set_data (b : mybitset) (pos : Nat) (val : Bool) (h : pos < 64) (j : Nat) :
    (b.set pos val).data.testBit j =
      (decide (j = pos) || (decide (j < 64) && b.data.testBit j)) := by
  simp only [mybitset.set, bit_mask_eq h, compl_bit_mask_eq h, Nat.testBit_or, Nat.testBit_and,
    Nat.testBit_xor, Nat.testBit_two_pow_sub_one, Nat.testBit_two_pow]
  by_cases hj : j = pos
  · subst hj
    simp
  · have hj2 : ¬pos = j := fun e => hj e.symm
    simp [hj, hj2, Bool.and_comm]

/-- C29. For every `mybitset` `b`, position `pos < 64` and value `val`:
after `b.set(pos, val)`, `b.get(pos)` is true, whatever `val` is (`set` with
`val` true and with `val` false give the same object), every other bit of the
64 data bits is as before, and `len` is unchanged. -/
theorem mybitset_set_ignores_val (b : mybitset) (pos : Nat) (val : Bool) (hpos : pos < 64) :
    (b.set pos val).get pos = true ∧
    b.set pos true = b.set pos false ∧
    (∀ j, j < 64 → j ≠ pos → (b.set pos val).data.testBit j = b.data.testBit j) ∧
    (b.data < 2 ^ 64 → ∀ j, j ≠ pos → (b.set pos val).data.testBit j = b.data.testBit j) ∧
    (b.set pos val).len = b.len := by
  refine ⟨?_, rfl, ?_, ?_, rfl⟩
  · have h1 := mybitset_set_data b pos val hpos pos
    simp only [decide_True, Bool.true_or] at h1
    simp only [mybitset.get, bit_mask_eq hpos, bne_iff_ne, ne_eq]
    intro h0
    have h2 : ((b.set pos val).data &&& 2 ^ pos).testBit pos = true := by
      rw [Nat.testBit_and, h1, Nat.testBit_two_pow]
      simp
    rw [h0, Nat.zero_testBit] at h2
    exact absurd h2 (by decide)
  · intro j hj hne
    rw [mybitset_set_data b pos val hpos j]
    simp [hj, hne]
  · intro hd j hne
    rw [mybitset_set_data b pos val hpos j]
    by_cases hj : j < 64
    · simp [hj, hne]
    · have hf : b.data.testBit j = false :=
        Nat.testBit_eq_false_of_lt
          (lt_of_lt_of_le hd (Nat.pow_le_pow_right (by decide) (Nat.le_of_not_lt hj)))
      simp [hj, hne, hf]

/-- Witness for C29: `set(3, false)` on a `mybitset` of length 10 with data
`0b0101` gives data `0b1101`, and `get(3)` is true. -/
theorem mybitset_set_ignores_val_witness :
    (3 : Nat) < 64 ∧
    (({ len := 10, data := 5 } : mybitset).set 3 false).get 3 = true ∧
    (({ len := 10, data := 5 } : mybitset).set 3 false).data = 13 :=
  ⟨by decide, (mybitset_set_ignores_val { len := 10, data := 5 } 3 false (by decide)).1,
    by decide⟩

/-- C30. In `CacheModel` and `FetchModel` the local `dispatchCycle` of a round
of the uop loop, before any adjustment in the `switch`, is
`MAX(MAX(c0, c1), curCycle + 6)` with `c0` and `c1` read from the scoreboard
after `regScoreboard[0] = curCycle`, where `curCycle` is the value after the
decode step of the uop and `curCycle + 6` is a 64-bit sum. For a uop with
`rs = [0, 0]` it is `curCycle + 6` whenever that sum does not wrap around,
whatever the scoreboard held, cell 0 included. In `CacheModel` the round
leaves `curCycle = MAX(curCycle, dispatchCycle)`; in `FetchModel`
`commitCycle` is `dispatchCycle + lat`. -/
theorem register_zero_sentinel {κ : Type} (fc : FilterCache κ) (st : CacheLoop κ)
    (s : FetchModel κ) (prevDecCycle : Nat) (uop : DynUop) :
    (CacheModel.uopDispatchCycle st uop =
        max (max
            (Function.update st.core.regScoreboard 0 (st.core.uopCurCycle st.prevDecCycle uop)
              uop.rs.1)
            (Function.update st.core.regScoreboard 0 (st.core.uopCurCycle st.prevDecCycle uop)
              uop.rs.2))
          (w64 (st.core.uopCurCycle st.prevDecCycle uop + (DISPATCH_STAGE - ISSUE_STAGE))) ∧
      (CacheModel.simUop fc st uop).core.curCycle =
        max (st.core.uopCurCycle st.prevDecCycle uop) (CacheModel.uopDispatchCycle st uop) ∧
      (uop.rs = (0, 0) → st.core.uopCurCycle st.prevDecCycle uop + 6 < 2 ^ 64 →
        CacheModel.uopDispatchCycle st uop = st.core.uopCurCycle st.prevDecCycle uop + 6)) ∧
    (s.uopDispatchCycle prevDecCycle uop =
        max (max
            (Function.update s.regScoreboard 0 (s.uopCurCycle prevDecCycle uop) uop.rs.1)
            (Function.update s.regScoreboard 0 (s.uopCurCycle prevDecCycle uop) uop.rs.2))
          (w64 (s.uopCurCycle prevDecCycle uop + (DISPATCH_STAGE - ISSUE_STAGE))) ∧
      s.uopCommitCycle prevDecCycle uop = w64 (s.uopDispatchCycle prevDecCycle uop + uop.lat) ∧
      (uop.rs = (0, 0) → s.uopCurCycle prevDecCycle uop + 6 < 2 ^ 64 →
        s.uopDispatchCycle prevDecCycle uop = s.uopCurCycle prevDecCycle uop + 6)) := by
  have key : ∀ (f : Nat → Nat) (c : Nat), uop.rs = (0, 0) → c + 6 < 2 ^ 64 →
      max (max (Function.update f 0 c uop.rs.1) (Function.update f 0 c uop.rs.2))
        (w64 (c + (DISPATCH_STAGE - ISSUE_STAGE))) = c + 6 := by
    intro f c hrs hw
    rw [hrs]
    simp only [Function.update_same]
    rw [show DISPATCH_STAGE - ISSUE_STAGE = 6 from rfl, w64_of_lt hw]
    omega
  have hc : CacheModel.uopDispatchCycle st uop =
      max (max
          (Function.update st.core.regScoreboard 0 (st.core.uopCurCycle st.prevDecCycle uop)
            uop.rs.1)
          (Function.update st.core.regScoreboard 0 (st.core.uopCurCycle st.prevDecCycle uop)
            uop.rs.2))
        (w64 (st.core.uopCurCycle st.prevDecCycle uop + (DISPATCH_STAGE - ISSUE_STAGE))) := by
    simp only [CacheModel.uopDispatchCycle, CacheModel.uopIssue, CacheModel.uopCurCycle, MAX_self,
      MAX_eq_max]
  have hf : s.uopDispatchCycle prevDecCycle uop =
      max (max
          (Function.update s.regScoreboard 0 (s.uopCurCycle prevDecCycle uop) uop.rs.1)
          (Function.update s.regScoreboard 0 (s.uopCurCycle prevDecCycle uop) uop.rs.2))
        (w64 (s.uopCurCycle prevDecCycle uop + (DISPATCH_STAGE - ISSUE_STAGE))) := by
    simp only [FetchModel.uopDispatchCycle, MAX_self, MAX_eq_max]
  refine ⟨⟨hc, ?_, fun hrs hw => hc.trans (key _ _ hrs hw)⟩, hf, rfl,
    fun hrs hw => hf.trans (key _ _ hrs hw)⟩
  simp only [CacheModel.simUop, CacheModel.cache_uopLsu_curCycle, CacheModel.uopDispatchCycle,
    CacheModel.uopIssue, CacheModel.uopCurCycle, MAX_eq_max]

/-- Witness for C30: on a `CacheModel` and a `FetchModel` with
`curCycle = 10`, `decodeCycle = 10` and `regScoreboard[i] = 110` for every
`i`, register 0 included, a uop with `rs = [0, 0]` is dispatched in cycle
16. -/
theorem register_zero_sentinel_witness :
    ((generalUop 1 1 1).rs = (0, 0) ∧ (10 : Nat) + 6 < 2 ^ 64) ∧
    CacheModel.uopDispatchCycle
      ({ core := { cacheModel0 0 0 with
            curCycle := 10, decodeCycle := 10, regScoreboard := fun _ => 110 },
          loadIdx := 0, storeIdx := 0, prevDecCycle := 0 } : CacheLoop Unit)
      (generalUop 1 1 1) = 16 ∧
    ({ fetchModel0 10 10 none with regScoreboard := fun _ => 110 } :
      FetchModel Unit).uopDispatchCycle 0 (generalUop 1 1 1) = 16 :=
  ⟨⟨rfl, by decide⟩,
    ((register_zero_sentinel cache100
      { core := { cacheModel0 0 0 with
          curCycle := 10, decodeCycle := 10, regScoreboard := fun _ => 110 },
        loadIdx := 0, storeIdx := 0, prevDecCycle := 0 }
      (fetchModel0 0 4 none) 0 (generalUop 1 1 1)).1.2.2 rfl (by decide)).trans (by decide),
    ((register_zero_sentinel cache100 (cacheLoop0 (fun _ => 0) (fun _ => 0) 0)
      { fetchModel0 10 10 none with regScoreboard := fun _ => 110 } 0
      (generalUop 1 1 1)).2.2.2 rfl (by decide)).trans (by decide)⟩

/-! ## TAGE predictor: index, bounds and the fresh predictor -/

namespace BranchPredictorTage

theorem GetTageIndexLoop_history_free {s r : BranchPredictorTage}
    (h1 : s.index_size = r.index_size) (fuel sm lg : Nat) (b : mybitset) :
    GetTageIndexLoop s fuel sm lg b = GetTageIndexLoop r fuel sm lg b := by
  induction fuel generalizing sm lg b with
  | zero => rfl
  | succ n ih => simp only [GetTageIndexLoop, mybitset.set, h1, ih]

theorem GetTageIndex_history_free {s r : BranchPredictorTage}
    (h1 : s.index_size = r.index_size) (h3 : s.idx_mask = r.idx_mask) (PC t : Nat) :
    s.GetTageIndex PC t = r.GetTageIndex PC t := by
  simp only [GetTageIndex, GetTageIndexLoop_history_free h1, h1, h3]

end BranchPredictorTage

/-- C36. `GetTageIndex` does not read the history in any way that reaches its
result: two predictor states with the same `index_size` and `idx_mask` give
the same `GetTageIndex(PC, t)` for every `PC` and every table `t`, whatever
their `historyBuffer` (and their tables) hold; in particular replacing the
history of a state by any `h` leaves every index as it was. For `t ≠ 0` the
index is `c XOR (PC AND idx_mask)`, where the folded part `c` can be computed
on any state with the same `index_size`: `mybitset::set` never uses the value
it is given. -/
theorem GetTageIndex_ignores_history (s r : BranchPredictorTage) (PC t : Nat)
    (hi : s.index_size = r.index_size) (hm : s.idx_mask = r.idx_mask) :
    s.GetTageIndex PC t = r.GetTageIndex PC t ∧
    (∀ h : Nat, ({ s with historyBuffer := h } : BranchPredictorTage).GetTageIndex PC t =
      s.GetTageIndex PC t) ∧
    (t ≠ 0 →
      s.GetTageIndex PC t =
        (BranchPredictorTage.GetTageIndexLoop r (hist_lengths t) 0 (sub32 (hist_lengths t) 1)
          (mybitset.new r.index_size)).to_ulong ^^^ (PC &&& s.idx_mask)) := by
  refine ⟨BranchPredictorTage.GetTageIndex_history_free hi hm PC t,
    fun h => by apply BranchPredictorTage.GetTageIndex_history_free <;> rfl, fun ht => ?_⟩
  rw [BranchPredictorTage.GetTageIndex, if_neg ht]
  simp only [BranchPredictorTage.GetTageIndexLoop_history_free hi, hi]

/-- Witness for C36: the predictor of `BranchPredictorTage(4, 10)` before and
after `predict(2, true, 0)` has the histories 0 and 1, and
`GetTageIndex(2, 4)` is 1021 under both. -/
theorem GetTageIndex_ignores_history_witness :
    ((tage0.predictAll [(2, true, 0)]).index_size = tage0.index_size ∧
      (tage0.predictAll [(2, true, 0)]).idx_mask = tage0.idx_mask) ∧
    (tage0.predictAll [(2, true, 0)]).historyBuffer = 1 ∧ tage0.historyBuffer = 0 ∧
    tage0.GetTageIndex 2 4 = 1021 ∧
    (tage0.predictAll [(2, true, 0)]).GetTageIndex 2 4 = tage0.GetTageIndex 2 4 :=
  ⟨⟨by set_option maxRecDepth 100000 in decide, by set_option maxRecDepth 100000 in decide⟩,
    by set_option maxRecDepth 100000 in decide, rfl,
    by set_option maxRecDepth 100000 in decide,
    (GetTageIndex_ignores_history (tage0.predictAll [(2, true, 0)]) tage0 2 4
      (by set_option maxRecDepth 100000 in decide)
      (by set_option maxRecDepth 100000 in decide)).1⟩

namespace BranchPredictorTage

theorem new_fields {tn sz : Nat} {s0 : BranchPredictorTage} (h : new tn sz = some s0) :
    s0.useAltOnNa = 0 ∧ (∀ i, s0.basePredictor i = 3) ∧ (∀ t i, (s0.tage t i).counter = 0) ∧
    (∀ t i, (s0.tage t i).tag = 0) ∧ (∀ t i, (s0.tage t i).useful = false) ∧
    s0.historyBuffer = 0 ∧ s0.table_num = w8 tn ∧ s0.table_num ≤ 8 ∧ s0.index_size = w8 sz ∧
    s0.idx_mask = sub64 (w64 (1 <<< w8 sz)) 1 := by
  unfold new at h
  split_ifs at h with h8
  simp only [Option.some.injEq] at h
  subst h
  exact ⟨rfl, fun _ => rfl, fun _ _ => rfl, fun _ _ => rfl, fun _ _ => rfl, rfl, rfl, h8, rfl,
    rfl⟩

theorem GetPrediction_eq (s : BranchPredictorTage) (PC : Nat) :
    s.GetPrediction PC =
      (if (s.GetTagePredictions PC false).2 = true ∧
          (s.GetTagePredictions PC false).1.useAltOnNa > USE_ALT_COUNTER_MAX / 2
        then ((s.GetTagePredictions PC false).1.altProviderPred,
          (s.GetTagePredictions PC false).1)
        else ((s.GetTagePredictions PC false).1.providerPred,
          (s.GetTagePredictions PC false).1)) := rfl

end BranchPredictorTage

/-- C38. Let `BranchPredictorTage(_table_num, _index_size)` construct a
predictor (the assertion `table_num <= 8` holds). For every `PC` the first
`GetPrediction(PC)` returns false, and the first
`predict(PC, taken, target)` returns true exactly when `taken` is false:
`useAltOnNa` is 0, so the provider's prediction is returned, and that is
`0 > 3` for a tagged provider and `3 > 3` for the base predictor. -/
theorem fresh_predictor_predicts_not_taken (tn sz : Nat) (s0 : BranchPredictorTage)
    (h : BranchPredictorTage.new tn sz = some s0) (PC : Nat) :
    (s0.GetPrediction PC).1 = false ∧
    (∀ (taken : Bool) (target : Nat),
      ((s0.predict PC taken target).1 = true ↔ taken = false)) ∧
    s0.useAltOnNa = 0 ∧ (∀ i, s0.basePredictor i = 3) ∧ (∀ t i, (s0.tage t i).counter = 0) ∧
    (∀ t i, (s0.tage t i).tag = 0) := by
  obtain ⟨hu, hb, hc, ht, -⟩ := BranchPredictorTage.new_fields h
  have key : (s0.GetPrediction PC).1 = false := by
    rw [BranchPredictorTage.GetPrediction_eq]
    have e1 : (s0.GetTagePredictions PC false).1.useAltOnNa = 0 := by
      rw [BranchPredictorTage.GetTagePredictions_eq]
      exact hu
    have e2 : (s0.GetTagePredictions PC false).1.providerPred = false := by
      rw [BranchPredictorTage.GetTagePredictions_eq]
      dsimp only
      rw [hb, hc]
      split_ifs <;> decide
    rw [if_neg (by rw [e1]; exact fun h => absurd h.2 (by decide)), e2]
  refine ⟨key, fun taken target => ?_, hu, hb, hc, ht⟩
  have e : (s0.predict PC taken target).1 = (taken == (s0.GetPrediction PC).1) := rfl
  rw [e, key]
  cases taken <;> decide

/-- Witness for C38: the predictor of `BranchPredictorTage(4, 10)`. The lookup of
`PC = 0` hits the zero tags of tables 4 and 3, the lookup of `PC = 1024` hits
no table; both first predictions are false, and `predict(1024, true, 0)`
returns false. -/
theorem fresh_predictor_predicts_not_taken_witness :
    BranchPredictorTage.new 4 10 = some tage0 ∧
    (tage0.GetTagePredictions 0 false).1.providerIndex = 4 ∧
    (tage0.GetTagePredictions 1024 false).1.providerIndex = 0 ∧
    (tage0.GetPrediction 0).1 = false ∧ (tage0.GetPrediction 1024).1 = false ∧
    (tage0.predict 1024 true 0).1 = false :=
  ⟨rfl, by set_option maxRecDepth 100000 in decide,
    by set_option maxRecDepth 100000 in decide,
    (fresh_predictor_predicts_not_taken 4 10 tage0 rfl 0).1,
    (fresh_predictor_predicts_not_taken 4 10 tage0 rfl 1024).1,
    by set_option maxRecDepth 100000 in decide⟩

namespace BranchPredictorTage

theorem max_mask_eq (len : Nat) (h : len < 64) : mybitset.max_mask len = 2 ^ len - 1 := by
  have h1 : 2 ^ len < 2 ^ 64 := Nat.pow_lt_pow_right (by decide) h
  have h2 : 0 < 2 ^ len := Nat.two_pow_pos _
  unfold mybitset.max_mask sub64 w64
  rw [Nat.one_shiftLeft]
  generalize 2 ^ len = x at h1 h2 ⊢
  omega

theorem GetTageIndex_lt_pow (s : BranchPredictorTage) (PC t : Nat) (ht : t ≠ 0)
    (hsz : s.index_size < 64) (hm : s.idx_mask = 2 ^ s.index_size - 1) :
    s.GetTageIndex PC t < 2 ^ s.index_size := by
  have h2 : 0 < 2 ^ s.index_size := Nat.two_pow_pos _
  rw [GetTageIndex, if_neg ht]
  apply Nat.xor_lt_two_pow
  · have h1 := max_mask_eq s.index_size hsz
    have h3 : (GetTageIndexLoop s (hist_lengths t) 0 (sub32 (hist_lengths t) 1)
        (mybitset.new s.index_size)).to_ulong ≤ mybitset.max_mask s.index_size := by
      unfold mybitset.to_ulong
      rw [GetTageIndexLoop_len]
      exact Nat.and_le_right
    omega
  · have h1 : PC &&& s.idx_mask ≤ s.idx_mask := Nat.and_le_right
    omega

/-- The configuration of a predictor: the members that only the constructor
writes. -/
theorem UpdateProviderCounter_config (s : BranchPredictorTage) (d : Bool) :
    (s.UpdateProviderCounter d).table_num = s.table_num ∧
    (s.UpdateProviderCounter d).index_size = s.index_size ∧
    (s.UpdateProviderCounter d).idx_mask = s.idx_mask ∧
    (s.UpdateProviderCounter d).providerIndex = s.providerIndex ∧
    (s.UpdateProviderCounter d).providerPredIndex = s.providerPredIndex ∧
    (s.UpdateProviderCounter d).historyBuffer = s.historyBuffer := by
  unfold UpdateProviderCounter
  split_ifs <;> exact ⟨rfl, rfl, rfl, rfl, rfl, rfl⟩

theorem AllocateNewEntries_config (s : BranchPredictorTage) (PC : Nat) :
    (s.AllocateNewEntries PC).table_num = s.table_num ∧
    (s.AllocateNewEntries PC).index_size = s.index_size ∧
    (s.AllocateNewEntries PC).idx_mask = s.idx_mask ∧
    (s.AllocateNewEntries PC).providerIndex = s.providerIndex ∧
    (s.AllocateNewEntries PC).providerPredIndex = s.providerPredIndex ∧
    (s.AllocateNewEntries PC).basePredictor = s.basePredictor := by
  unfold AllocateNewEntries
  rw [AllocateNewEntriesLoop_frame]
  exact ⟨rfl, rfl, rfl, rfl, rfl, rfl⟩

theorem UpdateUseful_config (s : BranchPredictorTage) (d : Bool) :
    (s.UpdateUseful d).table_num = s.table_num ∧
    (s.UpdateUseful d).index_size = s.index_size ∧
    (s.UpdateUseful d).idx_mask = s.idx_mask ∧
    (s.UpdateUseful d).basePredictor = s.basePredictor := by
  unfold UpdateUseful
  simp only [SetU_fields]
  split_ifs <;> exact ⟨rfl, rfl, rfl, rfl⟩

theorem UpdatePredictor_config (s : BranchPredictorTage) (PC : Nat) (d p : Bool) (bt : Nat) :
    (s.UpdatePredictor PC d p bt).table_num = s.table_num ∧
    (s.UpdatePredictor PC d p bt).index_size = s.index_size ∧
    (s.UpdatePredictor PC d p bt).idx_mask = s.idx_mask := by
  rw [UpdatePredictor_eq]
  obtain ⟨a1, a2, a3, -⟩ := UpdateProviderCounter_config s d
  by_cases hdp : d ≠ p
  · rw [if_pos hdp]
    obtain ⟨b1, b2, b3, -⟩ := AllocateNewEntries_config (s.UpdateProviderCounter d) PC
    obtain ⟨c1, c2, c3, -⟩ :=
      UpdateUseful_config ((s.UpdateProviderCounter d).AllocateNewEntries PC) d
    exact ⟨c1.trans (b1.trans a1), c2.trans (b2.trans a2), c3.trans (b3.trans a3)⟩
  · rw [if_neg hdp]
    obtain ⟨c1, c2, c3, -⟩ := UpdateUseful_config (s.UpdateProviderCounter d) d
    exact ⟨c1.trans a1, c2.trans a2, c3.trans a3⟩

theorem GetPrediction_snd (s : BranchPredictorTage) (PC : Nat) :
    (s.GetPrediction PC).2 = (s.GetTagePredictions PC false).1 := by
  rw [GetPrediction_eq]
  split_ifs <;> rfl

theorem predict_config (s : BranchPredictorTage) (c : PredictCall) :
    (s.predict c.1 c.2.1 c.2.2).2.table_num = s.table_num ∧
    (s.predict c.1 c.2.1 c.2.2).2.index_size = s.index_size ∧
    (s.predict c.1 c.2.1 c.2.2).2.idx_mask = s.idx_mask := by
  have hp := GetPrediction_persistent s c.1
  simp only [persistent, Prod.mk.injEq] at hp
  obtain ⟨-, -, -, -, h1, h2, h3⟩ := hp
  obtain ⟨a1, a2, a3⟩ :=
    UpdatePredictor_config (s.GetPrediction c.1).2 c.1 c.2.1 (s.GetPrediction c.1).1 c.2.2
  exact ⟨a1.trans h1, a2.trans h2, a3.trans h3⟩

theorem predictAll_config (calls : List PredictCall) (s : BranchPredictorTage) :
    (s.predictAll calls).table_num = s.table_num ∧
    (s.predictAll calls).index_size = s.index_size ∧
    (s.predictAll calls).idx_mask = s.idx_mask := by
  induction calls generalizing s with
  | nil => exact ⟨rfl, rfl, rfl⟩
  | cons c cs ih =>
    obtain ⟨a1, a2, a3⟩ := ih (s.predict c.1 c.2.1 c.2.2).2
    obtain ⟨b1, b2, b3⟩ := predict_config s c
    exact ⟨a1.trans b1, a2.trans b2, a3.trans b3⟩

/-- The provider fields after a lookup, on a predictor whose index mask is
`2 ^ index_size - 1`. -/
theorem GetTagePredictions_provider_bounds (s : BranchPredictorTage) (PC : Nat) (u : Bool)
    (hsz : s.index_size ≤ 30) (hm : s.idx_mask = 2 ^ s.index_size - 1) :
    0 ≤ (s.GetTagePredictions PC u).1.providerIndex ∧
    (s.GetTagePredictions PC u).1.providerIndex ≤ s.table_num ∧
    ((s.GetTagePredictions PC u).1.providerIndex = 0 →
      (s.GetTagePredictions PC u).1.providerPredIndex < 128) ∧
    ((s.GetTagePredictions PC u).1.providerIndex ≠ 0 →
      (s.GetTagePredictions PC u).1.providerPredIndex < 2 ^ s.index_size) := by
  rw [GetTagePredictions_eq]
  dsimp only
  have h1 := topHit_le s PC s.table_num
  refine ⟨by omega, by omega, fun h0 => ?_, fun h0 => ?_⟩
  · have e : s.topHit PC s.table_num = 0 := by omega
    rw [if_pos e, w32_base_index]
    omega
  · have e : ¬ s.topHit PC s.table_num = 0 := by omega
    rw [if_neg e]
    have h2 := GetTageIndex_lt_pow s PC (s.topHit PC s.table_num) e (by omega) hm
    have h3 : w32 (s.GetTageIndex PC (s.topHit PC s.table_num)) ≤
        s.GetTageIndex PC (s.topHit PC s.table_num) := Nat.mod_le _ _
    omega

theorem UpdateProviderCounter_frame (s : BranchPredictorTage) (d : Bool) (t i : Nat) :
    (¬ (s.providerIndex ≠ 0 ∧ t = s.providerIndex.toNat ∧ i = s.providerPredIndex) →
      (s.UpdateProviderCounter d).tage t i = s.tage t i) ∧
    (¬ (s.providerIndex = 0 ∧ i = s.providerPredIndex) →
      (s.UpdateProviderCounter d).basePredictor i = s.basePredictor i) := by
  unfold UpdateProviderCounter
  by_cases h0 : s.providerIndex = 0
  · rw [if_pos h0]
    refine ⟨fun _ => rfl, fun h => ?_⟩
    show Function.update s.basePredictor _ _ i = _
    rw [Function.update_noteq (fun e => h ⟨h0, e⟩)]
  · rw [if_neg h0]
    refine ⟨fun h => ?_, fun _ => rfl⟩
    show Function.update s.tage _ _ t i = _
    by_cases e : t = s.providerIndex.toNat
    · subst e
      rw [Function.update_same, Function.update_noteq (fun e2 => h ⟨h0, rfl, e2⟩)]
    · rw [Function.update_noteq e]

theorem UpdateUseful_frame (s : BranchPredictorTage) (d : Bool) (t i : Nat)
    (h : ¬ (0 < s.providerIndex ∧ t = s.providerIndex.toNat ∧ i = s.providerPredIndex)) :
    (s.UpdateUseful d).tage t i = s.tage t i := by
  have key : ∀ v, (s.SetU v).tage t i = s.tage t i := fun v => by
    rw [SetU_fields]
    show (if 0 < s.providerIndex then _ else s.tage) t i = _
    by_cases h0 : 0 < s.providerIndex
    · rw [if_pos h0]
      by_cases e : t = s.providerIndex.toNat
      · subst e
        rw [Function.update_same, Function.update_noteq (fun e2 => h ⟨h0, rfl, e2⟩)]
      · rw [Function.update_noteq e]
    · rw [if_neg h0]
  unfold UpdateUseful
  simp only []
  split_ifs <;> first | exact key _ | rfl

end BranchPredictorTage

namespace BranchPredictorTage

/-- One `predict` call writes no table cell outside the tables `1 .. table_num`
of `2 ^ index_size` entries and no base-predictor cell outside `[0, 128)`. -/
theorem predict_frame (s : BranchPredictorTage) (PC : Nat) (taken : Bool) (target : Nat)
    (hsz : s.index_size ≤ 30) (hm : s.idx_mask = 2 ^ s.index_size - 1)
    (h8 : s.table_num ≤ 8) (t i : Nat) :
    (¬ (1 ≤ t ∧ t ≤ s.table_num ∧ i < 2 ^ s.index_size) →
      (s.predict PC taken target).2.tage t i = s.tage t i) ∧
    (¬ i < 128 → (s.predict PC taken target).2.basePredictor i = s.basePredictor i) := by
  obtain ⟨r, hr⟩ : ∃ r, r = (s.GetPrediction PC).2 := ⟨_, rfl⟩
  have hpers := GetPrediction_persistent s PC
  rw [← hr] at hpers
  simp only [persistent, Prod.mk.injEq] at hpers
  obtain ⟨pb, pt, -, -, ptn, pis, pim⟩ := hpers
  have hb := GetTagePredictions_provider_bounds s PC false hsz hm
  rw [← GetPrediction_snd, ← hr] at hb
  obtain ⟨b1, b2, b3, b4⟩ := hb
  have hpred : (s.predict PC taken target).2 =
      r.UpdatePredictor PC taken (s.GetPrediction PC).1 target := by rw [hr]; rfl
  rw [hpred, UpdatePredictor_eq]
  obtain ⟨p, hp⟩ : ∃ p : Nat, (p : Int) = r.providerIndex := ⟨r.providerIndex.toNat, by omega⟩
  obtain ⟨c1, c2, c3, c4, c5, -⟩ := UpdateProviderCounter_config r taken
  obtain ⟨r1, hr1⟩ : ∃ r1, r1 = r.UpdateProviderCounter taken := ⟨_, rfl⟩
  rw [← hr1] at c1 c2 c3 c4 c5 ⊢
  have f1 := UpdateProviderCounter_frame r taken t i
  rw [← hr1] at f1
  obtain ⟨x, hx⟩ : ∃ x, x = (if taken ≠ (s.GetPrediction PC).1 then r1.AllocateNewEntries PC
      else r1) := ⟨_, rfl⟩
  rw [← hx]
  obtain ⟨d1, d2, d3, d4, d5, d6⟩ := AllocateNewEntries_config r1 PC
  have hxp : x.providerIndex = r.providerIndex ∧ x.providerPredIndex = r.providerPredIndex ∧
      x.basePredictor = r1.basePredictor := by
    rw [hx]
    split_ifs
    · exact ⟨d4.trans c4, d5.trans c5, d6⟩
    · exact ⟨c4, c5, rfl⟩
  have hxt : ¬ (1 ≤ t ∧ t ≤ s.table_num ∧ i < 2 ^ s.index_size) → x.tage t i = r1.tage t i := by
    intro hin
    rw [hx]
    split_ifs
    · refine (AllocateNewEntries_tage r1 PC p (by rw [c4]; exact hp) (by omega) (by omega)
        t i).2 (fun hv => hin ⟨by omega, by omega, ?_⟩)
      rw [hv.2.2.1]
      have h2 := GetTageIndex_lt_pow r1 PC t (by omega) (by omega) (by rw [c3, c2, pim, pis]; exact hm)
      have h3 : w32 (r1.GetTageIndex PC t) ≤ r1.GetTageIndex PC t := Nat.mod_le _ _
      rw [c2, pis] at h2
      omega
    · rfl
  have f3 := UpdateUseful_frame x taken t i
  have f4 := (UpdateUseful_config x taken).2.2.2
  constructor
  · intro hin
    show (x.UpdateUseful taken).tage t i = _
    rw [f3, hxt hin, f1.1, pt]
    · rintro ⟨g1, g2, g3⟩
      apply hin
      have := b4 g1
      rw [g3]
      exact ⟨by omega, by omega, this⟩
    · rintro ⟨g1, g2, g3⟩
      apply hin
      rw [hxp.1] at g1 g2
      rw [hxp.2.1] at g3
      have := b4 (by omega)
      rw [g3]
      exact ⟨by omega, by omega, this⟩
  · intro hin
    show (x.UpdateUseful taken).basePredictor i = _
    rw [f4, hxp.2.2, f1.2, pb]
    rintro ⟨g1, g2⟩
    have := b3 g1
    omega

end BranchPredictorTage

/-- C37. Let `BranchPredictorTage(tn, sz)` with `1 ≤ sz ≤ 30` construct a
predictor, and let `s` be its state after any sequence of `predict` calls.
Then `index_size = sz` and `table_num ≤ 8` are as constructed, and: for every
`PC` and table `t ≠ 0`, `GetTageIndex(PC, t) < 2^sz`; in the state left by the
lookup of `predict`, on which `UpdatePredictor` runs,
`0 ≤ providerIndex ≤ table_num`, `providerPredIndex < 128` when
`providerIndex == 0` and `providerPredIndex < 2^sz` otherwise; a `predict` call
changes no cell `tage[t][i]` outside `1 ≤ t ≤ table_num`, `i < 2^sz` and no
cell `basePredictor[i]` outside `i < 128`. -/
theorem predictor_accesses_in_bounds (tn sz : Nat) (s0 : BranchPredictorTage)
    (calls : List BranchPredictorTage.PredictCall)
    (h : BranchPredictorTage.new tn sz = some s0) (h1 : 1 ≤ sz) (h30 : sz ≤ 30) :
    ((s0.predictAll calls).index_size = sz ∧ (s0.predictAll calls).table_num ≤ 8 ∧
      (s0.predictAll calls).table_num = s0.table_num) ∧
    (∀ PC t, t ≠ 0 → (s0.predictAll calls).GetTageIndex PC t < 2 ^ sz) ∧
    (∀ PC,
      0 ≤ ((s0.predictAll calls).GetPrediction PC).2.providerIndex ∧
      ((s0.predictAll calls).GetPrediction PC).2.providerIndex ≤
        (s0.predictAll calls).table_num ∧
      (((s0.predictAll calls).GetPrediction PC).2.providerIndex = 0 →
        ((s0.predictAll calls).GetPrediction PC).2.providerPredIndex < 128) ∧
      (((s0.predictAll calls).GetPrediction PC).2.providerIndex ≠ 0 →
        ((s0.predictAll calls).GetPrediction PC).2.providerPredIndex < 2 ^ sz)) ∧
    (∀ PC taken target t i,
      ((s0.predictAll calls).predict PC taken target).2.tage t i ≠
          (s0.predictAll calls).tage t i →
        1 ≤ t ∧ t ≤ (s0.predictAll calls).table_num ∧ i < 2 ^ sz) ∧
    (∀ PC taken target i,
      ((s0.predictAll calls).predict PC taken target).2.basePredictor i ≠
          (s0.predictAll calls).basePredictor i →
        i < 128) := by
  obtain ⟨-, -, -, -, -, -, n1, n2, n3, n4⟩ := BranchPredictorTage.new_fields h
  obtain ⟨a1, a2, a3⟩ := BranchPredictorTage.predictAll_config calls s0
  have hw : w8 sz = sz := by unfold w8; omega
  rw [hw] at n3 n4
  have hsz : (s0.predictAll calls).index_size = sz := a2.trans n3
  have hm : (s0.predictAll calls).idx_mask = 2 ^ (s0.predictAll calls).index_size - 1 := by
    rw [a3, n4, hsz]
    exact BranchPredictorTage.max_mask_eq sz (by omega)
  have h8 : (s0.predictAll calls).table_num ≤ 8 := by rw [a1]; exact n2
  refine ⟨⟨hsz, h8, a1⟩, fun PC t ht => ?_, fun PC => ?_, fun PC taken target t i hne => ?_,
    fun PC taken target i hne => ?_⟩
  · have := BranchPredictorTage.GetTageIndex_lt_pow (s0.predictAll calls) PC t ht
      (by omega) hm
    rw [hsz] at this
    exact this
  · have := BranchPredictorTage.GetTagePredictions_provider_bounds (s0.predictAll calls) PC
      false (by omega) hm
    rw [← BranchPredictorTage.GetPrediction_snd, hsz] at this
    exact this
  · by_contra hin
    rw [← hsz] at hin
    exact hne ((BranchPredictorTage.predict_frame (s0.predictAll calls) PC taken target
      (by omega) hm h8 t i).1 hin)
  · by_contra hin
    exact hne ((BranchPredictorTage.predict_frame (s0.predictAll calls) PC taken target
      (by omega) hm h8 0 i).2 hin)

/-- Witness for C37: the predictor of `BranchPredictorTage(4, 10)` after
`predict(2, true, 0)` and `predict(2, false, 0)`: `GetTageIndex(2, 4)` is
1021, below `2^10`, and the lookup of `PC = 2` has the base predictor as
provider with `providerPredIndex = 2`. -/
theorem predictor_accesses_in_bounds_witness :
    (BranchPredictorTage.new 4 10 = some tage0 ∧ 1 ≤ 10 ∧ 10 ≤ 30) ∧
    (tage0.predictAll [(2, true, 0), (2, false, 0)]).GetTageIndex 2 4 = 1021 ∧
    (tage0.predictAll [(2, true, 0), (2, false, 0)]).GetTageIndex 2 4 < 2 ^ 10 ∧
    ((tage0.predictAll [(2, true, 0), (2, false, 0)]).GetPrediction 2).2.providerIndex = 0 ∧
    ((tage0.predictAll [(2, true, 0), (2, false, 0)]).GetPrediction 2).2.providerPredIndex = 2 ∧
    ((tage0.predictAll [(2, true, 0)]).GetPrediction 2).2.providerIndex = 4 ∧
    ((tage0.predictAll [(2, true, 0)]).GetPrediction 2).2.providerPredIndex = 1021 :=
  ⟨⟨rfl, by decide, by decide⟩, by set_option maxRecDepth 100000 in decide,
    (predictor_accesses_in_bounds 4 10 tage0 [(2, true, 0), (2, false, 0)] rfl (by decide)
      (by decide)).2.1 2 4 (by decide),
    by set_option maxRecDepth 100000 in decide,
    by set_option maxRecDepth 100000 in decide,
    by set_option maxRecDepth 100000 in decide,
    by set_option maxRecDepth 100000 in decide⟩

/-! ## Timing cores: loads, fetch, barriers and per-cycle counters -/

namespace CacheModel

variable {κ : Type}

theorem cache_simUop_curCycle_add (fc : FilterCache κ) (st : CacheLoop κ) (uop : DynUop)
    (hw : (simUop fc st uop).core.curCycle + 6 < 2 ^ 64) :
    st.core.curCycle + 6 ≤ (simUop fc st uop).core.curCycle := by
  have e : (simUop fc st uop).core.curCycle =
      MAX (MAX st.core.curCycle (w64 (st.core.decodeCycle + sub32 uop.decCycle st.prevDecCycle)))
        (MAX (MAX (Function.update st.core.regScoreboard 0
              (MAX st.core.curCycle
                (w64 (st.core.decodeCycle + sub32 uop.decCycle st.prevDecCycle))) uop.rs.1)
            (Function.update st.core.regScoreboard 0
              (MAX st.core.curCycle
                (w64 (st.core.decodeCycle + sub32 uop.decCycle st.prevDecCycle))) uop.rs.2))
          (w64 (MAX (MAX st.core.curCycle
              (w64 (st.core.decodeCycle + sub32 uop.decCycle st.prevDecCycle)))
            (MAX st.core.curCycle
              (w64 (st.core.decodeCycle + sub32 uop.decCycle st.prevDecCycle))) +
            (DISPATCH_STAGE - ISSUE_STAGE)))) := by
    simp only [simUop, cache_uopLsu_curCycle, uopIssue]
  rw [e] at hw ⊢
  have e6 : DISPATCH_STAGE - ISSUE_STAGE = 6 := rfl
  rw [e6, MAX_self] at hw ⊢
  have hc : st.core.curCycle ≤ MAX st.core.curCycle
      (w64 (st.core.decodeCycle + sub32 uop.decCycle st.prevDecCycle)) := MAX_ge_left _ _
  generalize MAX st.core.curCycle
    (w64 (st.core.decodeCycle + sub32 uop.decCycle st.prevDecCycle)) = c at hw hc ⊢
  generalize MAX (Function.update st.core.regScoreboard 0 c uop.rs.1)
    (Function.update st.core.regScoreboard 0 c uop.rs.2) = x at hw ⊢
  simp only [MAX_eq_max, w64] at hw ⊢
  omega

theorem cache_foldl_simUop_curCycle_add (fc : FilterCache κ) (uops : List DynUop)
    (st : CacheLoop κ) (hw : (uops.foldl (simUop fc) st).core.curCycle + 6 < 2 ^ 64) :
    st.core.curCycle + 6 * uops.length ≤ (uops.foldl (simUop fc) st).core.curCycle := by
  induction uops generalizing st with
  | nil => simp
  | cons u us ih =>
    rw [List.foldl_cons] at hw ⊢
    have h1 := ih (simUop fc st u) hw
    have h2 := cache_foldl_simUop_curCycle fc us (simUop fc st u)
    have h3 := cache_simUop_curCycle_add fc st u (by omega)
    rw [List.length_cons]
    omega

end CacheModel

/-- C39. Let `CacheModel::bbl` return while a block `prev` of `n` uops waits
in `prevBbl`, so that the call simulates `prev`. If `curCycle + 6` does not
wrap around 64 bits for the value of `curCycle` that the call leaves (then no
sum `curCycle + 6` of the uop loop wraps around), `curCycle` after the call is
at least `curCycle` before it plus `6 * n`. -/
theorem curCycle_advances_six_per_uop {κ : Type} (fc : FilterCache κ)
    (lineBits total_pcount : Nat) (s s1 : CacheModel κ) (prev : BblInfo) (bblAddr : Nat)
    (bblInfo : BblInfo) (hprev : s.prevBbl = some prev)
    (h : CacheModel.bbl fc lineBits total_pcount s bblAddr bblInfo = some s1)
    (hw : s1.curCycle + 6 < 2 ^ 64) :
    s.curCycle + 6 * prev.oooBbl.uop.length ≤ s1.curCycle := by
  simp only [CacheModel.bbl, hprev, CacheModel.simulate] at h
  split_ifs at h
  simp only [Option.some.injEq] at h
  subst h
  rw [CacheModel.cache_frontend_curCycle] at hw ⊢
  exact CacheModel.cache_foldl_simUop_curCycle_add fc prev.oooBbl.uop _ hw

/-- Witness for C39: on a freshly constructed `CacheModel` (`curCycle = 0`,
`decodeCycle = 4`) that holds a block of two uops of latency 1 in `prevBbl`,
the `bbl` call leaves `curCycle = 16`, and `0 + 6 * 2 ≤ 16`. -/
theorem curCycle_advances_six_per_uop_witness :
    ∃ s1, CacheModel.bbl cache100 6 1
        { cacheModel0 0 0 with prevBbl := some (blockOf [generalUop 1 1 1, generalUop 1 2 2]) }
        4096 (blockOf []) = some s1 ∧
      s1.curCycle = 16 ∧ s1.curCycle + 6 < 2 ^ 64 ∧
      ({ cacheModel0 0 0 with
          prevBbl := some (blockOf [generalUop 1 1 1, generalUop 1 2 2]) } :
        CacheModel Unit).curCycle + 6 * 2 ≤ s1.curCycle :=
  ⟨_, rfl, by decide, by decide,
    curCycle_advances_six_per_uop cache100 6 1
      { cacheModel0 0 0 with prevBbl := some (blockOf [generalUop 1 1 1, generalUop 1 2 2]) }
      _ (blockOf [generalUop 1 1 1, generalUop 1 2 2]) 4096 (blockOf []) rfl rfl (by decide)⟩

namespace IssueModel

variable {W R Q : Type}

theorem issue_advancePosTimes_counters (env : IssueEnv W R Q) (n : Nat) (s : IssueModel W R Q) :
    (advancePosTimes env n s).curCycleRFReads = s.curCycleRFReads ∧
    (advancePosTimes env n s).curCycleIssuedUops = s.curCycleIssuedUops ∧
    (advancePosTimes env n s).ooo_width = s.ooo_width ∧
    (advancePosTimes env n s).ooo_prf_ports = s.ooo_prf_ports := by
  induction n generalizing s with
  | zero => exact ⟨rfl, rfl, rfl, rfl⟩
  | succ n ih =>
    rw [advancePosTimes]
    exact ih _

theorem issue_uopDecode_counters (env : IssueEnv W R Q) (s : IssueModel W R Q) (p : Nat)
    (uop : DynUop) :
    ((uopDecode env s p uop).curCycleRFReads = 0 ∨
      (uopDecode env s p uop).curCycleRFReads = s.curCycleRFReads) ∧
    (uopDecode env s p uop).ooo_width = s.ooo_width ∧
    (uopDecode env s p uop).ooo_prf_ports = s.ooo_prf_ports := by
  unfold uopDecode
  dsimp only
  split_ifs
  · obtain ⟨h1, -, h3, h4⟩ := issue_advancePosTimes_counters env
      (w32 (sub64 (MAX (w64 (s.decodeCycle + sub32 uop.decCycle p))
        (w64 (env.queueMinAllocCycle s.uopQueue))) s.curCycle))
      { s with
        decodeCycle := MAX (w64 (s.decodeCycle + sub32 uop.decCycle p))
          (w64 (env.queueMinAllocCycle s.uopQueue))
        curCycleIssuedUops := 0, curCycleRFReads := 0 }
    exact ⟨Or.inl h1, h3, h4⟩
  · exact ⟨Or.inr rfl, rfl, rfl⟩

theorem issue_uopIssueWidth_counters (env : IssueEnv W R Q) (s : IssueModel W R Q)
    (hw : 1 ≤ s.ooo_width) (hwr : s.ooo_width < 2 ^ 32) :
    1 ≤ (uopIssueWidth env s).curCycleIssuedUops ∧
    (uopIssueWidth env s).curCycleIssuedUops ≤ (uopIssueWidth env s).ooo_width ∧
    ((uopIssueWidth env s).curCycleRFReads = 0 ∨
      (uopIssueWidth env s).curCycleRFReads = s.curCycleRFReads) ∧
    (uopIssueWidth env s).ooo_width = s.ooo_width ∧
    (uopIssueWidth env s).ooo_prf_ports = s.ooo_prf_ports := by
  unfold uopIssueWidth
  dsimp only
  by_cases h : s.curCycleIssuedUops ≥ s.ooo_width
  · rw [if_pos h]
    refine ⟨?_, ?_, Or.inl rfl, rfl, rfl⟩
    · show 1 ≤ w32 (0 + 1)
      decide
    · show w32 (0 + 1) ≤ s.ooo_width
      exact hw
  · rw [if_neg h]
    refine ⟨?_, ?_, Or.inr rfl, rfl, rfl⟩
    · show 1 ≤ w32 (s.curCycleIssuedUops + 1)
      unfold w32
      omega
    · show w32 (s.curCycleIssuedUops + 1) ≤ s.ooo_width
      unfold w32
      omega

theorem issue_uopRFReads_counters (env : IssueEnv W R Q) (s : IssueModel W R Q) (uop : DynUop)
    (hp : 2 ≤ s.ooo_prf_ports) (h0 : s.curCycleRFReads ≤ s.ooo_prf_ports) :
    (uopRFReads env s uop).1.curCycleRFReads ≤ (uopRFReads env s uop).1.ooo_prf_ports ∧
    (uopRFReads env s uop).1.ooo_width = s.ooo_width ∧
    (uopRFReads env s uop).1.ooo_prf_ports = s.ooo_prf_ports := by
  have hk : ((if Function.update s.regScoreboard 0 s.curCycle uop.rs.1 < s.curCycle then 1
      else 0) +
    (if Function.update s.regScoreboard 0 s.curCycle uop.rs.2 < s.curCycle then 1 else 0)) ≤ 2 := by
    split_ifs <;> omega
  unfold uopRFReads
  dsimp only
  generalize ((if Function.update s.regScoreboard 0 s.curCycle uop.rs.1 < s.curCycle then 1
      else 0) +
    (if Function.update s.regScoreboard 0 s.curCycle uop.rs.2 < s.curCycle then 1 else 0)) = k
    at hk ⊢
  by_cases h : w32 (s.curCycleRFReads + k) > s.ooo_prf_ports
  · rw [if_pos h]
    refine ⟨?_, rfl, rfl⟩
    show sub32 (w32 (s.curCycleRFReads + k)) s.ooo_prf_ports ≤ s.ooo_prf_ports
    unfold sub32 w32 at *
    omega
  · rw [if_neg h]
    refine ⟨?_, rfl, rfl⟩
    show w32 (s.curCycleRFReads + k) ≤ s.ooo_prf_ports
    omega

theorem issue_uopSchedule_counters (env : IssueEnv W R Q) (s : IssueModel W R Q) (c0 c1 : Nat)
    (uop : DynUop) :
    ((uopSchedule env s c0 c1 uop).1.curCycleRFReads = 0 ∨
      (uopSchedule env s c0 c1 uop).1.curCycleRFReads = s.curCycleRFReads) ∧
    (uopSchedule env s c0 c1 uop).1.ooo_width = s.ooo_width ∧
    (uopSchedule env s c0 c1 uop).1.ooo_prf_ports = s.ooo_prf_ports := by
  unfold uopSchedule
  dsimp only
  split_ifs
  · exact ⟨Or.inl rfl, rfl, rfl⟩
  · exact ⟨Or.inr rfl, rfl, rfl⟩

theorem issue_uopLsu_counters (env : IssueEnv W R Q) (s : IssueModel W R Q) (li si d : Nat)
    (uop : DynUop) :
    (uopLsu env s li si d uop).1.curCycleRFReads = s.curCycleRFReads ∧
    (uopLsu env s li si d uop).1.ooo_width = s.ooo_width ∧
    (uopLsu env s li si d uop).1.ooo_prf_ports = s.ooo_prf_ports := by
  unfold uopLsu
  cases uop.type <;> exact ⟨rfl, rfl, rfl⟩

/-- One round of the uop loop: the bounds of the two counters after their
steps, and the invariant `curCycleRFReads ≤ ooo_prf_ports` at its end. -/
theorem issue_simUop_counters (env : IssueEnv W R Q) (st : IssueLoop W R Q) (uop : DynUop)
    (hp : 2 ≤ st.core.ooo_prf_ports) (hw : 1 ≤ st.core.ooo_width)
    (hwr : st.core.ooo_width < 2 ^ 32)
    (h0 : st.core.curCycleRFReads ≤ st.core.ooo_prf_ports) :
    (1 ≤ (uopIssueWidth env (uopDecode env st.core st.prevDecCycle uop)).curCycleIssuedUops ∧
      (uopIssueWidth env (uopDecode env st.core st.prevDecCycle uop)).curCycleIssuedUops ≤
        st.core.ooo_width) ∧
    (uopRFReads env (uopIssueWidth env (uopDecode env st.core st.prevDecCycle uop))
      uop).1.curCycleRFReads ≤ st.core.ooo_prf_ports ∧
    (simUop env st uop).core.curCycleRFReads ≤ (simUop env st uop).core.ooo_prf_ports ∧
    (simUop env st uop).core.ooo_width = st.core.ooo_width ∧
    (simUop env st uop).core.ooo_prf_ports = st.core.ooo_prf_ports := by
  obtain ⟨a1, a2, a3⟩ := issue_uopDecode_counters env st.core st.prevDecCycle uop
  obtain ⟨s1, hs1⟩ : ∃ s1, s1 = uopDecode env st.core st.prevDecCycle uop := ⟨_, rfl⟩
  rw [← hs1] at a1 a2 a3 ⊢
  obtain ⟨b1, b2, b3, b4, b5⟩ := issue_uopIssueWidth_counters env s1 (by omega) (by omega)
  obtain ⟨s2, hs2⟩ : ∃ s2, s2 = uopIssueWidth env s1 := ⟨_, rfl⟩
  rw [← hs2] at b1 b2 b3 b4 b5 ⊢
  obtain ⟨c1, c2, c3⟩ := issue_uopRFReads_counters env s2 uop (by omega)
    (by rcases a1 with h | h <;> rcases b3 with g | g <;> omega)
  obtain ⟨f, hf⟩ : ∃ f, f = uopRFReads env s2 uop := ⟨_, rfl⟩
  rw [← hf] at c1 c2 c3 ⊢
  obtain ⟨d1, d2, d3⟩ := issue_uopSchedule_counters env f.1 f.2.1 f.2.2 uop
  obtain ⟨d, hd⟩ : ∃ d, d = uopSchedule env f.1 f.2.1 f.2.2 uop := ⟨_, rfl⟩
  rw [← hd] at d1 d2 d3
  obtain ⟨e1, e2, e3⟩ := issue_uopLsu_counters env d.1 st.loadIdx st.storeIdx d.2 uop
  have hsim : (simUop env st uop).core.curCycleRFReads =
        (uopLsu env d.1 st.loadIdx st.storeIdx d.2 uop).1.curCycleRFReads ∧
      (simUop env st uop).core.ooo_width =
        (uopLsu env d.1 st.loadIdx st.storeIdx d.2 uop).1.ooo_width ∧
      (simUop env st uop).core.ooo_prf_ports =
        (uopLsu env d.1 st.loadIdx st.storeIdx d.2 uop).1.ooo_prf_ports := by
    rw [hd, hf, hs2, hs1]
    exact ⟨rfl, rfl, rfl⟩
  rw [hsim.1, hsim.2.1, hsim.2.2, e1, e2, e3]
  refine ⟨⟨b1, by omega⟩, by omega, ?_, by omega, by omega⟩
  rcases d1 with h | h <;> omega

theorem issue_foldl_simUop_counters (env : IssueEnv W R Q) (uops : List DynUop)
    (st : IssueLoop W R Q)
    (h0 : st.core.curCycleRFReads ≤ st.core.ooo_prf_ports) (hp : 2 ≤ st.core.ooo_prf_ports)
    (hw : 1 ≤ st.core.ooo_width) (hwr : st.core.ooo_width < 2 ^ 32) :
    (uops.foldl (simUop env) st).core.curCycleRFReads ≤
      (uops.foldl (simUop env) st).core.ooo_prf_ports ∧
    (uops.foldl (simUop env) st).core.ooo_width = st.core.ooo_width ∧
    (uops.foldl (simUop env) st).core.ooo_prf_ports = st.core.ooo_prf_ports := by
  induction uops generalizing st with
  | nil => exact ⟨h0, rfl, rfl⟩
  | cons u us ih =>
    obtain ⟨-, -, a3, a4, a5⟩ := issue_simUop_counters env st u hp hw hwr h0
    obtain ⟨b1, b2, b3⟩ := ih (simUop env st u) a3 (by omega) (by omega) (by omega)
    rw [List.foldl_cons]
    exact ⟨b1, b2.trans a4, b3.trans a5⟩

theorem issue_step_counters (env : IssueEnv W R Q) (s s1 : IssueModel W R Q) (e : CoreEvent)
    (h : step env s e = some s1)
    (h0 : s.curCycleRFReads ≤ s.ooo_prf_ports) (hp : 2 ≤ s.ooo_prf_ports)
    (hw : 1 ≤ s.ooo_width) (hwr : s.ooo_width < 2 ^ 32) :
    s1.curCycleRFReads ≤ s1.ooo_prf_ports ∧ s1.ooo_width = s.ooo_width ∧
    s1.ooo_prf_ports = s.ooo_prf_ports := by
  cases e with
  | load addr => simp only [step, Option.some.injEq] at h; subst h; exact ⟨h0, rfl, rfl⟩
  | store addr => simp only [step, Option.some.injEq] at h; subst h; exact ⟨h0, rfl, rfl⟩
  | predLoad addr pred =>
    simp only [step, Option.some.injEq] at h; subst h; exact ⟨h0, rfl, rfl⟩
  | predStore addr pred =>
    simp only [step, Option.some.injEq] at h; subst h; exact ⟨h0, rfl, rfl⟩
  | branch pc taken tn nn =>
    simp only [step, Option.some.injEq] at h; subst h; exact ⟨h0, rfl, rfl⟩
  | contextSwitch gid =>
    simp only [step, Option.some.injEq] at h; subst h
    unfold contextSwitch
    split_ifs <;> exact ⟨h0, rfl, rfl⟩
  | advance targetCycle =>
    simp only [step, advance] at h
    split_ifs at h
    simp only [Option.some.injEq] at h
    subst h
    exact ⟨Nat.zero_le _, rfl, rfl⟩
  | bbl bblAddr bblInfo total_pcount =>
    simp only [step, bbl] at h
    cases hprev : s.prevBbl with
    | none =>
      rw [hprev] at h
      simp only [Option.some.injEq] at h
      subst h
      exact ⟨h0, rfl, rfl⟩
    | some prev =>
      rw [hprev] at h
      simp only [simulate] at h
      split_ifs at h
      simp only [Option.some.injEq] at h
      subst h
      exact issue_foldl_simUop_counters env prev.oooBbl.uop
        { core := { s with prevBbl := some bblInfo }, loadIdx := 0, storeIdx := 0,
          prevDecCycle := 0 } h0 hp hw hwr

theorem issue_run_counters (env : IssueEnv W R Q) (es : List CoreEvent) (s s1 : IssueModel W R Q)
    (h : run env s es = some s1)
    (h0 : s.curCycleRFReads ≤ s.ooo_prf_ports) (hp : 2 ≤ s.ooo_prf_ports)
    (hw : 1 ≤ s.ooo_width) (hwr : s.ooo_width < 2 ^ 32) :
    s1.curCycleRFReads ≤ s1.ooo_prf_ports ∧ s1.ooo_width = s.ooo_width ∧
    s1.ooo_prf_ports = s.ooo_prf_ports := by
  induction es generalizing s with
  | nil =>
    simp only [run, Option.some.injEq] at h
    subst h
    exact ⟨h0, rfl, rfl⟩
  | cons e es ih =>
    simp only [run] at h
    cases hs : step env s e with
    | none => rw [hs] at h; exact absurd h (by simp)
    | some s2 =>
      rw [hs] at h
      change run env s2 es = some s1 at h
      obtain ⟨a1, a2, a3⟩ := issue_step_counters env s s2 e hs h0 hp hw hwr
      obtain ⟨b1, b2, b3⟩ := ih s2 h a1 (by omega) (by omega) (by omega)
      exact ⟨b1, b2.trans a2, b3.trans a3⟩

end IssueModel

/-- C40. Let an `IssueModel` have `ooo_prf_ports ≥ 2` and
`1 ≤ ooo_width < 2^32` (`ooo_width` is a `uint32_t`), and
`curCycleRFReads ≤ ooo_prf_ports`, as when both per-cycle counters are 0. For
any collaborators and any sequence of callbacks that returns, the state
reached has `curCycleRFReads ≤ ooo_prf_ports` and the same two parameters;
and in a `bbl` call made in that state, in the round of any uop `u` of the
uop loop, after any uops `pre` simulated before it: after the issue-width
step `1 ≤ curCycleIssuedUops ≤ ooo_width`, and after the RF-read-stall step
`curCycleRFReads ≤ ooo_prf_ports`. -/
theorem per_cycle_counters_within_limits {W R Q : Type} (env : IssueEnv W R Q)
    (s : IssueModel W R Q) (hp : 2 ≤ s.ooo_prf_ports) (hw : 1 ≤ s.ooo_width)
    (hwr : s.ooo_width < 2 ^ 32) (h0 : s.curCycleRFReads ≤ s.ooo_prf_ports) :
    ∀ (es : List CoreEvent) (s1 : IssueModel W R Q), IssueModel.run env s es = some s1 →
      (s1.curCycleRFReads ≤ s1.ooo_prf_ports ∧ s1.ooo_width = s.ooo_width ∧
        s1.ooo_prf_ports = s.ooo_prf_ports) ∧
      ∀ (bblInfo : BblInfo) (pre : List DynUop) (u : DynUop),
        1 ≤ (IssueModel.uopIssueWidth env
            (IssueModel.uopDecode env (IssueModel.roundStart env s1 bblInfo pre).core
              (IssueModel.roundStart env s1 bblInfo pre).prevDecCycle u)).curCycleIssuedUops ∧
        (IssueModel.uopIssueWidth env
            (IssueModel.uopDecode env (IssueModel.roundStart env s1 bblInfo pre).core
              (IssueModel.roundStart env s1 bblInfo pre).prevDecCycle u)).curCycleIssuedUops ≤
          s.ooo_width ∧
        (IssueModel.uopRFReads env
            (IssueModel.uopIssueWidth env
              (IssueModel.uopDecode env (IssueModel.roundStart env s1 bblInfo pre).core
                (IssueModel.roundStart env s1 bblInfo pre).prevDecCycle u))
            u).1.curCycleRFReads ≤ s.ooo_prf_ports := by
  intro es s1 hrun
  obtain ⟨a1, a2, a3⟩ := IssueModel.issue_run_counters env es s s1 hrun h0 hp hw hwr
  refine ⟨⟨a1, a2, a3⟩, fun bblInfo pre u => ?_⟩
  obtain ⟨b1, b2, b3⟩ := IssueModel.issue_foldl_simUop_counters env pre
    { core := { s1 with prevBbl := some bblInfo }, loadIdx := 0, storeIdx := 0,
      prevDecCycle := 0 } a1 (by rw [a3]; exact hp) (by rw [a2]; exact hw)
    (by rw [a2]; exact hwr)
  have e2 : (IssueModel.roundStart env s1 bblInfo pre).core.ooo_width = s.ooo_width := b2.trans a2
  have e3 : (IssueModel.roundStart env s1 bblInfo pre).core.ooo_prf_ports = s.ooo_prf_ports :=
    b3.trans a3
  obtain ⟨⟨c1, c2⟩, c3, -⟩ := IssueModel.issue_simUop_counters env
    (IssueModel.roundStart env s1 bblInfo pre) u (by omega) (by omega) (by omega) b1
  exact ⟨c1, by omega, by omega⟩

/-- Witness for C40: a freshly constructed `IssueModel` with `ooo_width = 4`
and `ooo_prf_ports = 2`, after a first `bbl` call. In the uop loop of the
next call, after four uops of the same decode cycle the issue-width step of
the fifth finds `curCycleIssuedUops = 4`, stalls and leaves the counter
at 1. -/
theorem per_cycle_counters_within_limits_witness :
    (2 ≤ (issueModel0 0 0).ooo_prf_ports ∧ 1 ≤ (issueModel0 0 0).ooo_width ∧
      (issueModel0 0 0).ooo_width < 2 ^ 32 ∧
      (issueModel0 0 0).curCycleRFReads ≤ (issueModel0 0 0).ooo_prf_ports) ∧
    ∃ s1, IssueModel.run issueEnv0 (issueModel0 0 0) [.bbl 4096 (blockOf []) 0] = some s1 ∧
      (IssueModel.roundStart issueEnv0 s1 (blockOf [])
        [generalUop 1 1 1, generalUop 1 2 2, generalUop 1 3 3,
          generalUop 1 4 4]).core.curCycleIssuedUops = 4 ∧
      (IssueModel.uopIssueWidth issueEnv0
          (IssueModel.uopDecode issueEnv0
            (IssueModel.roundStart issueEnv0 s1 (blockOf [])
              [generalUop 1 1 1, generalUop 1 2 2, generalUop 1 3 3, generalUop 1 4 4]).core
            (IssueModel.roundStart issueEnv0 s1 (blockOf [])
              [generalUop 1 1 1, generalUop 1 2 2, generalUop 1 3 3,
                generalUop 1 4 4]).prevDecCycle
            (generalUop 1 5 5))).curCycleIssuedUops = 1 ∧
      1 ≤ (IssueModel.uopIssueWidth issueEnv0
          (IssueModel.uopDecode issueEnv0
            (IssueModel.roundStart issueEnv0 s1 (blockOf [])
              [generalUop 1 1 1, generalUop 1 2 2, generalUop 1 3 3, generalUop 1 4 4]).core
            (IssueModel.roundStart issueEnv0 s1 (blockOf [])
              [generalUop 1 1 1, generalUop 1 2 2, generalUop 1 3 3,
                generalUop 1 4 4]).prevDecCycle
            (generalUop 1 5 5))).curCycleIssuedUops :=
  ⟨⟨by decide, by decide, by decide, by decide⟩, _, rfl, by decide, by decide,
    ((per_cycle_counters_within_limits issueEnv0 (issueModel0 0 0) (by decide) (by decide)
      (by decide) (by decide) [.bbl 4096 (blockOf []) 0] _ rfl).2 (blockOf [])
      [generalUop 1 1 1, generalUop 1 2 2, generalUop 1 3 3, generalUop 1 4 4]
      (generalUop 1 5 5)).1⟩

namespace CacheModel

variable {κ : Type}

theorem cache_step_loadAddrs (fc : FilterCache κ) (lineBits : Nat) (s s1 : CacheModel κ)
    (e : CoreEvent) (h : step fc lineBits s e = some s1) (hb : CoreEvent.bbls [e] = []) :
    (CoreEvent.bufferedLoads [e] = [] ∧ s1.loads = s.loads ∧ s1.loadAddrs = s.loadAddrs) ∨
    (∃ a, CoreEvent.bufferedLoads [e] = [a] ∧ s1.loads = w32 (s.loads + 1) ∧
      s1.loadAddrs = Function.update s.loadAddrs s.loads a) := by
  cases e with
  | load addr =>
    simp only [step, Option.some.injEq] at h; subst h
    exact Or.inr ⟨addr, rfl, rfl, rfl⟩
  | store addr =>
    simp only [step, Option.some.injEq] at h; subst h
    exact Or.inl ⟨rfl, rfl, rfl⟩
  | predLoad addr pred =>
    simp only [step, Option.some.injEq] at h; subst h
    refine Or.inr ⟨if pred then addr else predFalseAddr, rfl, ?_⟩
    unfold PredLoadFunc
    cases pred
    · exact ⟨rfl, rfl⟩
    · exact ⟨rfl, rfl⟩
  | predStore addr pred =>
    simp only [step, Option.some.injEq] at h; subst h
    unfold PredStoreFunc
    split_ifs <;> exact Or.inl ⟨rfl, rfl, rfl⟩
  | branch pc taken a b =>
    simp only [step, Option.some.injEq] at h; subst h
    exact Or.inl ⟨rfl, rfl, rfl⟩
  | bbl a b tp => simp [CoreEvent.bbls] at hb
  | contextSwitch gid =>
    simp only [step, Option.some.injEq] at h; subst h
    unfold contextSwitch
    split_ifs <;> exact Or.inl ⟨rfl, rfl, rfl⟩
  | advance targetCycle =>
    simp only [step, advance] at h
    split_ifs at h
    simp only [Option.some.injEq] at h
    subst h
    exact Or.inl ⟨rfl, rfl, rfl⟩

theorem bufferedLoads_cons (e : CoreEvent) (es : List CoreEvent) :
    CoreEvent.bufferedLoads (e :: es) = CoreEvent.bufferedLoads [e] ++ CoreEvent.bufferedLoads es := by
  cases e <;> rfl

theorem bbls_cons_nil (e : CoreEvent) (es : List CoreEvent) (h : CoreEvent.bbls (e :: es) = []) :
    CoreEvent.bbls [e] = [] ∧ CoreEvent.bbls es = [] := by
  cases e <;> simp_all [CoreEvent.bbls]

/-- The load callbacks of a trace without `bbl` events fill `loadAddrs` from
index `loads` on, in order. -/
theorem cache_run_loadAddrs (fc : FilterCache κ) (lineBits : Nat) (es : List CoreEvent)
    (s s1 : CacheModel κ) (h : run fc lineBits s es = some s1) (hb : CoreEvent.bbls es = [])
    (hl : s.loads + (CoreEvent.bufferedLoads es).length < 2 ^ 32) :
    s1.loads = s.loads + (CoreEvent.bufferedLoads es).length ∧
    (∀ i a, (CoreEvent.bufferedLoads es)[i]? = some a → s1.loadAddrs (s.loads + i) = a) ∧
    (∀ j, j < s.loads → s1.loadAddrs j = s.loadAddrs j) := by
  induction es generalizing s with
  | nil =>
    simp only [run, Option.some.injEq] at h
    subst h
    refine ⟨rfl, fun i a hi => ?_, fun _ _ => rfl⟩
    simp [CoreEvent.bufferedLoads] at hi
  | cons e es ih =>
    simp only [run] at h
    obtain ⟨hb1, hb2⟩ := bbls_cons_nil e es hb
    rw [bufferedLoads_cons] at hl ⊢
    cases hs : step fc lineBits s e with
    | none => rw [hs] at h; exact absurd h (by simp)
    | some s2 =>
      rw [hs] at h
      change run fc lineBits s2 es = some s1 at h
      rcases cache_step_loadAddrs fc lineBits s s2 e hs hb1 with ⟨e1, e2, e3⟩ | ⟨a0, e1, e2, e3⟩
      · rw [e1] at hl ⊢
        simp only [List.nil_append] at hl ⊢
        obtain ⟨i1, i2, i3⟩ := ih s2 h hb2 (by rw [e2]; exact hl)
        rw [e2] at i1 i2 i3
        rw [e3] at i3
        exact ⟨i1, i2, i3⟩
      · rw [e1] at hl ⊢
        simp only [List.singleton_append, List.length_cons] at hl ⊢
        have e2' : s2.loads = s.loads + 1 := by rw [e2]; unfold w32; omega
        obtain ⟨i1, i2, i3⟩ := ih s2 h hb2 (by rw [e2']; omega)
        rw [e2'] at i1 i2 i3
        refine ⟨by omega, fun i a hi => ?_, fun j hj => ?_⟩
        · cases i with
          | zero =>
            simp only [List.getElem?_cons_zero, Option.some.injEq] at hi
            rw [Nat.add_zero, i3 s.loads (by omega), e3, Function.update_same, hi]
          | succ k =>
            simp only [List.getElem?_cons_succ] at hi
            have := i2 k a hi
            rw [show s.loads + (k + 1) = s.loads + 1 + k by omega]
            exact this
        · rw [i3 j (by omega), e3, Function.update_noteq (by omega)]

theorem cache_uopLsu_loadAddrs (fc : FilterCache κ) (s : CacheModel κ) (li si d : Nat)
    (uop : DynUop) : (uopLsu fc s li si d uop).1.loadAddrs = s.loadAddrs := by
  unfold uopLsu
  cases uop.type <;> (dsimp only; try split_ifs) <;> rfl

theorem cache_simUop_loadAddrs (fc : FilterCache κ) (st : CacheLoop κ) (uop : DynUop) :
    (simUop fc st uop).core.loadAddrs = st.core.loadAddrs := by
  simp only [simUop, cache_uopLsu_loadAddrs, uopIssue]

theorem cache_foldl_simUop_loadAddrs (fc : FilterCache κ) (uops : List DynUop)
    (st : CacheLoop κ) : (uops.foldl (simUop fc) st).core.loadAddrs = st.core.loadAddrs := by
  induction uops generalizing st with
  | nil => rfl
  | cons u us ih => rw [List.foldl_cons, ih, cache_simUop_loadAddrs]

theorem cache_bbl_loads (fc : FilterCache κ) (lineBits tp : Nat) (s s1 : CacheModel κ)
    (a : Nat) (b : BblInfo) (h : bbl fc lineBits tp s a b = some s1) : s1.loads = 0 := by
  unfold bbl at h
  cases hp : s.prevBbl with
  | none =>
    rw [hp] at h
    simp only [Option.some.injEq] at h
    subst h
    rfl
  | some prev =>
    rw [hp] at h
    simp only [simulate] at h
    split_ifs at h
    simp only [Option.some.injEq] at h
    subst h
    exact (cache_frontend_loads _ _ _ _).1

end CacheModel

/-- C31. Let `loads` be 0, as every returning `bbl` call leaves it, and let
callbacks without a `bbl` event follow, buffering at most 256 load addresses
(the size of `loadAddrs`). In the uop loop of the next `bbl` call, a
`UOP_LOAD` uop `u` that comes after `i` other `UOP_LOAD` uops reads
`loadAddrs[i]`, which holds the `i`-th buffered address `addr` (from 0). With
`d = MAX(lastStoreAddrCommitCycle + 1, dispatchCycle)`: if `addr` is `-1`,
`commitCycle = d`, the filter cache is not called and nothing is recorded;
otherwise `commitCycle = l1d->load(addr, d) + 4` (a 64-bit sum), the filter
cache makes that one step, and exactly the one entry
`(curCycle, d, commitCycle)` is appended to the record log. -/
theorem load_uop_consumes_buffered_address {κ : Type} (fc : FilterCache κ) (lineBits : Nat)
    (s0 s : CacheModel κ) (es : List CoreEvent) (h0 : s0.loads = 0)
    (hb : CoreEvent.bbls es = []) (hrun : CacheModel.run fc lineBits s0 es = some s)
    (hlen : (CoreEvent.bufferedLoads es).length ≤ 256) :
    (∀ (tp : Nat) (c c1 : CacheModel κ) (a : Nat) (b : BblInfo),
      CacheModel.bbl fc lineBits tp c a b = some c1 → c1.loads = 0) ∧
    s.loads = (CoreEvent.bufferedLoads es).length ∧
    ∀ (bblInfo : BblInfo) (pre : List DynUop) (u : DynUop) (addr : Nat),
      u.type = .UOP_LOAD →
      (CoreEvent.bufferedLoads es)[pre.countP fun v => v.type = .UOP_LOAD]? = some addr →
      (CacheModel.simUops fc s bblInfo pre).loadIdx = (pre.countP fun v => v.type = .UOP_LOAD) ∧
      (CacheModel.simUops fc s bblInfo pre).core.loadAddrs
        (CacheModel.simUops fc s bblInfo pre).loadIdx = addr ∧
      CacheModel.uopMemDispatchCycle (CacheModel.simUops fc s bblInfo pre) u =
        max (CacheModel.uopDispatchCycle (CacheModel.simUops fc s bblInfo pre) u)
          (w64 ((CacheModel.simUops fc s bblInfo pre).core.lastStoreAddrCommitCycle + 1)) ∧
      (addr = predFalseAddr →
        CacheModel.uopCommitCycle fc (CacheModel.simUops fc s bblInfo pre) u =
          CacheModel.uopMemDispatchCycle (CacheModel.simUops fc s bblInfo pre) u ∧
        (CacheModel.simUop fc (CacheModel.simUops fc s bblInfo pre) u).core.l1d =
          (CacheModel.simUops fc s bblInfo pre).core.l1d ∧
        (CacheModel.simUop fc (CacheModel.simUops fc s bblInfo pre) u).core.cRec =
          (CacheModel.simUops fc s bblInfo pre).core.cRec) ∧
      (addr ≠ predFalseAddr →
        CacheModel.uopCommitCycle fc (CacheModel.simUops fc s bblInfo pre) u =
          w64 ((fc.load (CacheModel.simUops fc s bblInfo pre).core.l1d addr
            (CacheModel.uopMemDispatchCycle (CacheModel.simUops fc s bblInfo pre) u)).1 + 4) ∧
        (CacheModel.simUop fc (CacheModel.simUops fc s bblInfo pre) u).core.l1d =
          (fc.load (CacheModel.simUops fc s bblInfo pre).core.l1d addr
            (CacheModel.uopMemDispatchCycle (CacheModel.simUops fc s bblInfo pre) u)).2 ∧
        (CacheModel.simUop fc (CacheModel.simUops fc s bblInfo pre) u).core.cRec =
          (CacheModel.simUops fc s bblInfo pre).core.cRec ++
            [((CacheModel.simUop fc (CacheModel.simUops fc s bblInfo pre) u).core.curCycle,
              CacheModel.uopMemDispatchCycle (CacheModel.simUops fc s bblInfo pre) u,
              CacheModel.uopCommitCycle fc (CacheModel.simUops fc s bblInfo pre) u)]) := by
  obtain ⟨r1, r2, -⟩ := CacheModel.cache_run_loadAddrs fc lineBits es s0 s hrun hb
    (by rw [h0]; omega)
  rw [h0, Nat.zero_add] at r1
  refine ⟨fun tp c c1 a b h => CacheModel.cache_bbl_loads fc lineBits tp c c1 a b h, r1,
    fun bblInfo pre u addr hu hget => ?_⟩
  have hi : (pre.countP fun v => v.type = .UOP_LOAD) < (CoreEvent.bufferedLoads es).length := by
    by_contra hn
    rw [List.getElem?_eq_none (by omega)] at hget
    exact absurd hget (by simp)
  have ha := r2 _ addr hget
  rw [h0, Nat.zero_add] at ha
  obtain ⟨i1, -, -, -⟩ := CacheModel.cache_foldl_simUop_idx fc pre
    { core := { s with prevBbl := some bblInfo }, loadIdx := 0, storeIdx := 0, prevDecCycle := 0 }
    (show (0 : Nat) < 2 ^ 32 by decide) (show (0 : Nat) < 2 ^ 32 by decide)
  have i2 := CacheModel.cache_foldl_simUop_loadAddrs fc pre
    { core := { s with prevBbl := some bblInfo }, loadIdx := 0, storeIdx := 0, prevDecCycle := 0 }
  have hidx : (CacheModel.simUops fc s bblInfo pre).loadIdx =
      (pre.countP fun v => v.type = .UOP_LOAD) := by
    have hcl : (pre.countP fun v => v.type = .UOP_LOAD) < 2 ^ 32 := by omega
    simp only [Nat.zero_add, w32, Nat.mod_eq_of_lt hcl] at i1
    exact i1
  have hadr : (CacheModel.simUops fc s bblInfo pre).core.loadAddrs
      (CacheModel.simUops fc s bblInfo pre).loadIdx = addr := by
    rw [hidx]
    unfold CacheModel.simUops
    rw [i2]
    exact ha
  obtain ⟨l1, l2, -, -⟩ := CacheModel.cache_simUop_load fc (CacheModel.simUops fc s bblInfo pre)
    u hu
  have hc := CacheModel.cache_uopCommitCycle_load fc (CacheModel.simUops fc s bblInfo pre) u hu
  rw [hadr] at l1 l2 hc
  refine ⟨hidx, hadr, ?_, fun hp => ?_, fun hp => ?_⟩
  · unfold CacheModel.uopMemDispatchCycle CacheModel.uopDispatchCycle
    rw [MAX_eq_max, max_comm]
    rfl
  · rw [if_neg (fun h => h hp)] at hc
    exact ⟨hc, l1 hp⟩
  · rw [if_pos hp] at hc
    exact ⟨hc, l2 hp⟩

/-- Witness for C31: on a freshly constructed `CacheModel` on `cache100`
(`loads = 0`), `PredLoadFunc(0x80, false)` and `LoadFunc(0x40)` buffer `-1`
and `0x40`. In the next uop loop a first `UOP_LOAD` commits in its dispatch
cycle 10 and records nothing; the second reads `0x40` and commits in cycle
`(16 + 100) + 4 = 120`. -/
theorem load_uop_consumes_buffered_address_witness :
    ((cacheModel0 0 0).loads = 0 ∧
      CoreEvent.bbls [CoreEvent.predLoad 0x80 false, CoreEvent.load 0x40] = [] ∧
      (CoreEvent.bufferedLoads [CoreEvent.predLoad 0x80 false, CoreEvent.load 0x40]).length ≤
        256) ∧
    CoreEvent.bufferedLoads [CoreEvent.predLoad 0x80 false, CoreEvent.load 0x40] =
      [predFalseAddr, 0x40] ∧
    ∃ s, CacheModel.run cache100 6 (cacheModel0 0 0)
        [CoreEvent.predLoad 0x80 false, CoreEvent.load 0x40] = some s ∧
      CacheModel.uopCommitCycle cache100 (CacheModel.simUops cache100 s (blockOf []) [])
        (uopOf .UOP_LOAD 0 1 1) = 10 ∧
      CacheModel.uopCommitCycle cache100
        (CacheModel.simUops cache100 s (blockOf []) [uopOf .UOP_LOAD 0 1 1])
        (uopOf .UOP_LOAD 0 2 2) = 120 ∧
      (CacheModel.simUops cache100 s (blockOf []) [uopOf .UOP_LOAD 0 1 1]).core.loadAddrs
        (CacheModel.simUops cache100 s (blockOf []) [uopOf .UOP_LOAD 0 1 1]).loadIdx = 0x40 :=
  ⟨⟨rfl, rfl, by decide⟩, rfl, _, rfl, by decide, by decide,
    ((load_uop_consumes_buffered_address cache100 6 (cacheModel0 0 0) _
      [CoreEvent.predLoad 0x80 false, CoreEvent.load 0x40] rfl rfl rfl (by decide)).2.2
      (blockOf []) [uopOf .UOP_LOAD 0 1 1] (uopOf .UOP_LOAD 0 2 2) 0x40 rfl rfl).2.1⟩

namespace CacheModel

variable {κ : Type}

theorem cache_fetchLoop_rounds (lineSize endAddr fuel fetchAddr : Nat) (s : CacheModel κ)
    (c : Nat) (hc : c < 2 ^ 64) :
    (fetchLoop lineSize endAddr fuel fetchAddr (s, c)).1 =
      { s with
        cRec := s.cRec ++
          List.replicate (fetchRounds lineSize endAddr fuel fetchAddr)
            (s.curCycle, s.curCycle, w64 (s.curCycle + L1I_LAT)) } ∧
    (fetchLoop lineSize endAddr fuel fetchAddr (s, c)).2 =
      w64 (c + L1I_LAT * fetchRounds lineSize endAddr fuel fetchAddr) := by
  induction fuel generalizing fetchAddr s c with
  | zero =>
    simp only [fetchLoop, fetchRounds, List.replicate_zero, List.append_nil, Nat.mul_zero,
      Nat.add_zero, w64_of_lt hc, and_self]
  | succ n ih =>
    simp only [fetchLoop, fetchRounds]
    by_cases h : fetchAddr < endAddr
    · simp only [h, if_true]
      obtain ⟨i1, i2⟩ := ih (w64 (fetchAddr + lineSize))
        { s with cRec := s.cRec ++ [(s.curCycle, s.curCycle, w64 (s.curCycle + L1I_LAT))] }
        (w64 (c + L1I_LAT)) (Nat.mod_lt _ (by decide))
      rw [i1, i2]
      refine ⟨?_, ?_⟩
      · simp only [List.append_assoc, List.singleton_append, Nat.add_comm 1,
          List.replicate_succ]
      · rw [w64_add_w64, Nat.mul_add, Nat.mul_one]
        congr 1
        omega
    · simp only [h, if_false, List.replicate_zero, List.append_nil, Nat.mul_zero, Nat.add_zero,
        w64_of_lt hc, and_self]

theorem ceil_div_step (x ls : Nat) (hls : 0 < ls) (hx : 0 < x) :
    (x + ls - 1) / ls = 1 + (x - ls + ls - 1) / ls := by
  by_cases h : ls ≤ x
  · have e : x + ls - 1 = (x - ls + ls - 1) + ls := by omega
    rw [e, Nat.add_div_right _ hls]
    omega
  · have e1 : x - ls = 0 := by omega
    rw [e1, Nat.zero_add, Nat.div_eq_of_lt (by omega : ls - 1 < ls)]
    exact Nat.div_eq_of_lt_le (by omega) (by omega)

/-- Without wrap-around of `fetchAddr` the loop makes `ceil((endAddr -
fetchAddr) / lineSize)` rounds, as soon as the bound on the rounds allows
that many. -/
theorem cache_fetchRounds_eq (lineSize endAddr fuel fetchAddr : Nat) (hls : 0 < lineSize)
    (hw : endAddr + lineSize ≤ 2 ^ 64) (hf : endAddr ≤ fetchAddr + fuel) :
    fetchRounds lineSize endAddr fuel fetchAddr =
      (endAddr - fetchAddr + lineSize - 1) / lineSize := by
  induction fuel generalizing fetchAddr with
  | zero =>
    have e : endAddr - fetchAddr = 0 := by omega
    rw [fetchRounds, e, Nat.zero_add, Nat.div_eq_of_lt (by omega)]
  | succ n ih =>
    rw [fetchRounds]
    by_cases h : fetchAddr < endAddr
    · rw [if_pos h]
      have e1 : w64 (fetchAddr + lineSize) = fetchAddr + lineSize := by unfold w64; omega
      rw [e1, ih _ (by omega), ceil_div_step (endAddr - fetchAddr) lineSize hls (by omega)]
      have e2 : endAddr - (fetchAddr + lineSize) = endAddr - fetchAddr - lineSize := by omega
      rw [e2]
    · rw [if_neg h]
      have e : endAddr - fetchAddr = 0 := by omega
      rw [e, Nat.zero_add, Nat.div_eq_of_lt (by omega)]

end CacheModel

theorem linesOverlapped_eq (bblAddr bytes lineSize : Nat) (hls : 0 < lineSize)
    (hb : 0 < bytes) :
    linesOverlapped bblAddr bytes lineSize =
      (bblAddr + bytes - 1) / lineSize + 1 - bblAddr / lineSize := by
  have himg : ((Finset.range bytes).image fun k => (bblAddr + k) / lineSize) =
      Finset.Icc (bblAddr / lineSize) ((bblAddr + bytes - 1) / lineSize) := by
    ext x
    simp only [Finset.mem_image, Finset.mem_range, Finset.mem_Icc]
    constructor
    · rintro ⟨k, hk, rfl⟩
      exact ⟨Nat.div_le_div_right (by omega), Nat.div_le_div_right (by omega)⟩
    · rintro ⟨h1, h2⟩
      rcases Nat.eq_or_lt_of_le h1 with e | e
      · exact ⟨0, hb, by rw [Nat.add_zero, e]⟩
      · have h3 : bblAddr < x * lineSize := (Nat.div_lt_iff_lt_mul hls).mp e
        have h4 : x * lineSize ≤ bblAddr + bytes - 1 := (Nat.le_div_iff_mul_le hls).mp h2
        refine ⟨x * lineSize - bblAddr, by omega, ?_⟩
        have e2 : bblAddr + (x * lineSize - bblAddr) = x * lineSize := by omega
        rw [e2, Nat.mul_div_cancel _ hls]
  unfold linesOverlapped
  rw [himg, Nat.card_Icc]

theorem linesOverlapped_aligned (bblAddr bytes lineSize : Nat) (hls : 0 < lineSize)
    (ha : lineSize ∣ bblAddr) :
    linesOverlapped bblAddr bytes lineSize = (bytes + lineSize - 1) / lineSize := by
  rcases Nat.eq_zero_or_pos bytes with hb | hb
  · subst hb
    rw [Nat.zero_add, Nat.div_eq_of_lt (by omega)]
    rfl
  · rw [linesOverlapped_eq _ _ _ hls hb]
    obtain ⟨m, rfl⟩ := ha
    have e1 : lineSize * m + bytes - 1 = (bytes - 1) + lineSize * m := by omega
    have e2 : bytes + lineSize - 1 = (bytes - 1) + lineSize := by omega
    have h1 : (lineSize * m + bytes - 1) / lineSize = (bytes - 1) / lineSize + m := by
      rw [e1, Nat.add_mul_div_left _ _ hls]
    have h2 : lineSize * m / lineSize = m := Nat.mul_div_cancel_left _ hls
    have h3 : (bytes + lineSize - 1) / lineSize = (bytes - 1) / lineSize + 1 := by
      rw [e2, Nat.add_div_right _ hls]
    rw [h1, h2, h3]
    clear h1 h2 h3 e1 e2
    generalize (bytes - 1) / lineSize = q
    omega

namespace CacheModel

variable {κ : Type}

theorem cache_frontend_eq (lineBits : Nat) (s : CacheModel κ) (bblAddr : Nat) (bblInfo : BblInfo) :
    frontend lineBits s bblAddr bblInfo =
      { s with
        cRec := s.cRec ++
          List.replicate
            (fetchRounds (w32 (1 <<< lineBits)) (w64 (bblAddr + bblInfo.bytes))
              (w64 (bblAddr + bblInfo.bytes) - bblAddr) bblAddr)
            (s.curCycle, s.curCycle, w64 (s.curCycle + L1I_LAT))
        decodeCycle :=
          MAX (w64 (w64 (sub64 s.decodeCycle (DECODE_STAGE - FETCH_STAGE) + L1I_LAT *
              fetchRounds (w32 (1 <<< lineBits)) (w64 (bblAddr + bblInfo.bytes))
                (w64 (bblAddr + bblInfo.bytes) - bblAddr) bblAddr) +
            (DECODE_STAGE - FETCH_STAGE)))
            (w64 (s.decodeCycle + 1)) } := by
  have hc : sub64 s.decodeCycle (DECODE_STAGE - FETCH_STAGE) < 2 ^ 64 := Nat.mod_lt _ (by decide)
  obtain ⟨h1, h2⟩ := cache_fetchLoop_rounds (w32 (1 <<< lineBits))
    (w64 (bblAddr + bblInfo.bytes)) (w64 (bblAddr + bblInfo.bytes) - bblAddr) bblAddr s _ hc
  unfold frontend
  simp only []
  rw [h1, h2]
  unfold MAX
  split_ifs <;> rfl

end CacheModel

/-- Counterexample to C32 as stated: with `lineBits = 6`, the `bbl` call for a
block of 4 bytes at `bblAddr = 62` on a freshly constructed `CacheModel`
(`decodeCycle = 4`, an empty block waiting in `prevBbl`) makes one
`cRec.record` call, while the byte range `[62, 66)` overlaps two cache lines of
64 bytes; `decodeCycle` becomes `4 + 3 = 7`, not `4 + 3 * 2`. -/
theorem fetch_rounds_are_not_lines :
    linesOverlapped 62 (blockOf []).bytes (1 <<< 6) = 2 ∧
    ∃ s1, CacheModel.bbl cache100 6 1 { cacheModel0 0 0 with prevBbl := some (blockOf []) } 62
        (blockOf []) = some s1 ∧
      s1.cRec.length = 1 ∧ s1.decodeCycle = 7 ∧
      s1.decodeCycle ≠ max (4 + 1) (4 + 3 * linesOverlapped 62 (blockOf []).bytes (1 <<< 6)) :=
  ⟨by decide, _, rfl, by decide, by decide, by decide⟩

/-- C32 (as amended). In the frontend part of `CacheModel::bbl`, for
`lineBits < 32` and without wrap-around of `fetchAddr` and `decodeCycle`, the
number `n` of `cRec.record` calls and of `L1I_LAT` increments of `fetchCycle`
is `ceil(bytes / lineSize)` with `lineSize = 1 << lineBits`: the records
`(curCycle, curCycle, curCycle + 3)` are appended `n` times, and afterwards
`decodeCycle = max(decodeCycle_old + 1, decodeCycle_old + 3 * n)`. When
`bblAddr` is a multiple of `lineSize`, `n` is the number of distinct cache
lines that the byte range `[bblAddr, bblAddr + bytes)` overlaps. -/
theorem frontend_fetch_rounds {κ : Type} (lineBits : Nat) (s : CacheModel κ) (bblAddr : Nat)
    (bblInfo : BblInfo) (hl : lineBits < 32)
    (hw : bblAddr + bblInfo.bytes + 2 ^ lineBits ≤ 2 ^ 64)
    (hd : s.decodeCycle + 1 + 3 * ((bblInfo.bytes + 2 ^ lineBits - 1) / 2 ^ lineBits) < 2 ^ 64) :
    CacheModel.fetchRounds (w32 (1 <<< lineBits)) (w64 (bblAddr + bblInfo.bytes))
        (w64 (bblAddr + bblInfo.bytes) - bblAddr) bblAddr =
      (bblInfo.bytes + 2 ^ lineBits - 1) / 2 ^ lineBits ∧
    (CacheModel.frontend lineBits s bblAddr bblInfo).cRec =
      s.cRec ++ List.replicate ((bblInfo.bytes + 2 ^ lineBits - 1) / 2 ^ lineBits)
        (s.curCycle, s.curCycle, w64 (s.curCycle + 3)) ∧
    (CacheModel.fetchLoop (w32 (1 <<< lineBits)) (w64 (bblAddr + bblInfo.bytes))
        (w64 (bblAddr + bblInfo.bytes) - bblAddr) bblAddr
        (s, sub64 s.decodeCycle (DECODE_STAGE - FETCH_STAGE))).2 =
      w64 (sub64 s.decodeCycle 3 + 3 * ((bblInfo.bytes + 2 ^ lineBits - 1) / 2 ^ lineBits)) ∧
    (CacheModel.frontend lineBits s bblAddr bblInfo).decodeCycle =
      max (s.decodeCycle + 1)
        (s.decodeCycle + 3 * ((bblInfo.bytes + 2 ^ lineBits - 1) / 2 ^ lineBits)) ∧
    (2 ^ lineBits ∣ bblAddr →
      (bblInfo.bytes + 2 ^ lineBits - 1) / 2 ^ lineBits =
        linesOverlapped bblAddr bblInfo.bytes (2 ^ lineBits)) := by
  have hls : 0 < 2 ^ lineBits := Nat.two_pow_pos _
  have e1 : w32 (1 <<< lineBits) = 2 ^ lineBits := CacheModel.w32_lineSize lineBits hl
  have e2 : w64 (bblAddr + bblInfo.bytes) = bblAddr + bblInfo.bytes := by unfold w64; omega
  have hn : CacheModel.fetchRounds (w32 (1 <<< lineBits)) (w64 (bblAddr + bblInfo.bytes))
      (w64 (bblAddr + bblInfo.bytes) - bblAddr) bblAddr =
      (bblInfo.bytes + 2 ^ lineBits - 1) / 2 ^ lineBits := by
    rw [e1, e2, CacheModel.cache_fetchRounds_eq _ _ _ _ hls (by omega) (by omega)]
    congr 2
    omega
  have hc : sub64 s.decodeCycle (DECODE_STAGE - FETCH_STAGE) < 2 ^ 64 := Nat.mod_lt _ (by decide)
  have e3 : DECODE_STAGE - FETCH_STAGE = 3 := rfl
  have e4 : L1I_LAT = 3 := rfl
  refine ⟨hn, ?_, ?_, ?_, fun ha => (linesOverlapped_aligned _ _ _ hls ha).symm⟩
  · rw [CacheModel.cache_frontend_eq, hn, e4]
  · rw [(CacheModel.cache_fetchLoop_rounds _ _ _ _ s _ hc).2, hn, e3, e4]
  · rw [CacheModel.cache_frontend_eq, hn, e3, e4, MAX_eq_max]
    show max _ _ = _
    generalize (bblInfo.bytes + 2 ^ lineBits - 1) / 2 ^ lineBits = n at hd ⊢
    unfold w64 sub64
    omega

/-- Witness for C32 (as amended): with `lineBits = 6`, the frontend for a
block of 4 bytes at the line-aligned address 4096 on a freshly constructed
`CacheModel` makes `ceil(4 / 64) = 1` record, the number of lines that
`[4096, 4100)` overlaps, and leaves `decodeCycle = max(4 + 1, 4 + 3) = 7`. -/
theorem frontend_fetch_rounds_witness :
    ((6 : Nat) < 32 ∧ 4096 + (blockOf []).bytes + 2 ^ 6 ≤ 2 ^ 64 ∧
      (cacheModel0 0 0).decodeCycle + 1 + 3 * (((blockOf []).bytes + 2 ^ 6 - 1) / 2 ^ 6) <
        2 ^ 64) ∧
    linesOverlapped 4096 (blockOf []).bytes (2 ^ 6) = 1 ∧
    (CacheModel.frontend 6 (cacheModel0 0 0) 4096 (blockOf [])).decodeCycle = 7 ∧
    (CacheModel.frontend 6 (cacheModel0 0 0) 4096 (blockOf [])).decodeCycle =
      max ((cacheModel0 0 0).decodeCycle + 1)
        ((cacheModel0 0 0).decodeCycle + 3 * (((blockOf []).bytes + 2 ^ 6 - 1) / 2 ^ 6)) :=
  ⟨⟨by decide, by decide, by decide⟩, by decide, by decide,
    (frontend_fetch_rounds 6 (cacheModel0 0 0) 4096 (blockOf []) (by decide) (by decide)
      (by decide)).2.2.2.1⟩

namespace FetchModel

variable {κ : Type}

theorem fetch_simUop_eraseType (st : FetchLoop κ) (u : DynUop) :
    simUop st u.eraseType = simUop st u := rfl

theorem fetch_foldl_simUop_eraseType (uops : List DynUop) (st : FetchLoop κ) :
    (uops.map DynUop.eraseType).foldl simUop st = uops.foldl simUop st := by
  induction uops generalizing st with
  | nil => rfl
  | cons u us ih => rw [List.map_cons, List.foldl_cons, List.foldl_cons, ih, fetch_simUop_eraseType]

theorem fetch_simulate_eraseTypes (fc : FilterCache κ) (lineBits tp : Nat) (s : FetchModel κ)
    (prev : BblInfo) (a : Nat) (b : BblInfo) :
    simulate fc lineBits tp s prev.eraseTypes a b = simulate fc lineBits tp s prev a b := by
  unfold simulate simUops
  simp only [BblInfo.eraseTypes, fetch_foldl_simUop_eraseType]

theorem fetch_foldl_simUop_curCycle_max (us : List DynUop) (st : FetchLoop κ) (u : DynUop)
    (hw : st.core.decodeCycle + decodeSum (u :: us) st.prevDecCycle < 2 ^ 64) :
    ((u :: us).foldl simUop st).core.curCycle =
      max st.core.curCycle ((u :: us).foldl simUop st).core.decodeCycle := by
  induction us generalizing st u with
  | nil =>
    simp only [List.foldl_cons, List.foldl_nil, simUop, MAX_eq_max]
  | cons v vs ih =>
    have hw1 := hw
    simp only [decodeSum] at hw1
    have h1 : (simUop st u).core.decodeCycle =
        st.core.decodeCycle + sub32 u.decCycle st.prevDecCycle := by
      rw [(fetch_simUop_decodeCycle st u).1, w64_of_lt (by omega)]
    have h2 := (fetch_simUop_decodeCycle st u).2
    have hw2 : (simUop st u).core.decodeCycle + decodeSum (v :: vs) (simUop st u).prevDecCycle <
        2 ^ 64 := by
      rw [h1, h2]
      simp only [decodeSum]
      omega
    have hd := fetch_foldl_simUop_decodeCycle (v :: vs) (simUop st u) hw2
    have hc : (simUop st u).core.curCycle =
        max st.core.curCycle (simUop st u).core.decodeCycle := by
      simp only [simUop, MAX_eq_max]
    rw [List.foldl_cons, ih (simUop st u) v hw2, hc]
    generalize ((v :: vs).foldl simUop (simUop st u)).core.decodeCycle = fin at hd ⊢
    omega

end FetchModel

/-- Counterexample to C33 as stated: on a `FetchModel` with the clocks of the
constructor (`curCycle = 0`, `decodeCycle = 4`) and a block without uops
waiting in `prevBbl`, the uop loop of `bbl` makes no round: after it
`curCycle` is still 0 and `decodeCycle` is 4, so `curCycle` is not
`max(curCycle_before, decodeCycle after the loop) = 4`; the call returns with
`curCycle = 0`. -/
theorem empty_uop_loop_keeps_curCycle :
    (FetchModel.simUops (fetchModel0 0 4 (some (blockOf []))) (blockOf [])
        (blockOf []).oooBbl.uop).core.curCycle = 0 ∧
    (FetchModel.simUops (fetchModel0 0 4 (some (blockOf []))) (blockOf [])
        (blockOf []).oooBbl.uop).core.decodeCycle = 4 ∧
    (FetchModel.simUops (fetchModel0 0 4 (some (blockOf []))) (blockOf [])
        (blockOf []).oooBbl.uop).core.curCycle ≠
      max (fetchModel0 0 4 (some (blockOf []))).curCycle
        (FetchModel.simUops (fetchModel0 0 4 (some (blockOf []))) (blockOf [])
          (blockOf []).oooBbl.uop).core.decodeCycle ∧
    ∃ s1, FetchModel.bbl cache100 6 1 (fetchModel0 0 4 (some (blockOf []))) 4096 (blockOf []) =
        some s1 ∧ s1.curCycle = 0 :=
  ⟨rfl, rfl, by decide, _, rfl, rfl⟩

/-- C33 (as amended). In `FetchModel::bbl` the timing of a uop does not read
its type and `curCycle` is never raised to `dispatchCycle`: in every round of
the uop loop, with `curCycle` the value after the decode step of the round and
`regScoreboard[0] = curCycle`,
`dispatchCycle = max(max(regScoreboard[rs[0]], regScoreboard[rs[1]]), curCycle + 6)`
and `commitCycle = dispatchCycle + lat` in 64-bit arithmetic, the round leaves
`curCycle` at the value of its decode step, and a uop with another type gives
the same round. After the uop loop over a block with at least one uop, without
wrap-around of `decodeCycle`,
`curCycle = max(curCycle_before, decodeCycle after the loop)`. Two blocks that
differ only in the `type` fields of their uops give the same result of
`bbl`. -/
theorem fetch_uop_timing_ignores_type {κ : Type} (fc : FilterCache κ)
    (lineBits total_pcount : Nat) (s : FetchModel κ) (prev : BblInfo) (bblAddr : Nat)
    (bblInfo : BblInfo) (hprev : s.prevBbl = some prev) (hne : prev.oooBbl.uop ≠ [])
    (hw : s.decodeCycle + decodeSum prev.oooBbl.uop 0 < 2 ^ 64) :
    (∀ (st : FetchLoop κ) (u : DynUop),
      FetchModel.uopDispatchCycle st.core st.prevDecCycle u =
        max (max
            (Function.update st.core.regScoreboard 0
              (FetchModel.uopCurCycle st.core st.prevDecCycle u) u.rs.1)
            (Function.update st.core.regScoreboard 0
              (FetchModel.uopCurCycle st.core st.prevDecCycle u) u.rs.2))
          (w64 (FetchModel.uopCurCycle st.core st.prevDecCycle u + 6)) ∧
      FetchModel.uopCommitCycle st.core st.prevDecCycle u =
        w64 (FetchModel.uopDispatchCycle st.core st.prevDecCycle u + u.lat) ∧
      (FetchModel.simUop st u).lastCommitCycle =
        FetchModel.uopCommitCycle st.core st.prevDecCycle u ∧
      (FetchModel.simUop st u).core.curCycle =
        max st.core.curCycle (FetchModel.simUop st u).core.decodeCycle ∧
      ∀ t, FetchModel.simUop st { u with type := t } = FetchModel.simUop st u) ∧
    (FetchModel.simUops s bblInfo prev.oooBbl.uop).core.curCycle =
      max s.curCycle (FetchModel.simUops s bblInfo prev.oooBbl.uop).core.decodeCycle ∧
    (∀ prev2 : BblInfo, prev2.eraseTypes = prev.eraseTypes →
      FetchModel.bbl fc lineBits total_pcount { s with prevBbl := some prev2 } bblAddr bblInfo =
        FetchModel.bbl fc lineBits total_pcount s bblAddr bblInfo) := by
  refine ⟨fun st u => ⟨?_, rfl, rfl, ?_, fun _ => rfl⟩, ?_, fun prev2 h2 => ?_⟩
  · simp only [FetchModel.uopDispatchCycle, MAX_eq_max, MAX_self, max_self]
    rfl
  · simp only [FetchModel.simUop, MAX_eq_max]
  · obtain ⟨u, us, hu⟩ : ∃ u us, prev.oooBbl.uop = u :: us := by
      cases h : prev.oooBbl.uop with
      | nil => exact absurd h hne
      | cons u us => exact ⟨u, us, rfl⟩
    unfold FetchModel.simUops
    rw [hu] at hw ⊢
    exact FetchModel.fetch_foldl_simUop_curCycle_max us _ u hw
  · unfold FetchModel.bbl
    simp only [hprev]
    have e1 := FetchModel.fetch_simulate_eraseTypes fc lineBits total_pcount s prev bblAddr bblInfo
    have e2 := FetchModel.fetch_simulate_eraseTypes fc lineBits total_pcount
      { s with prevBbl := some prev2 } prev2 bblAddr bblInfo
    rw [← e1, ← e2, h2]
    rfl

/-- Witness for C33 (as amended): on a `FetchModel` with `curCycle = 0` and
`decodeCycle = 4`, a waiting block of a `UOP_LOAD` decoded in cycle 0 and a
`UOP_STORE` decoded in cycle 2 leaves the uop loop with `decodeCycle = 6` and
`curCycle = max(0, 6) = 6`, and `bbl` gives the same result as for the block
with two `UOP_GENERAL` uops of the same fields. -/
theorem fetch_uop_timing_ignores_type_witness :
    ((fetchModel0 0 4 (some (blockOf [uopOf .UOP_LOAD 0 1 0, uopOf .UOP_STORE 2 2 0]))).prevBbl =
        some (blockOf [uopOf .UOP_LOAD 0 1 0, uopOf .UOP_STORE 2 2 0]) ∧
      (blockOf [uopOf .UOP_LOAD 0 1 0, uopOf .UOP_STORE 2 2 0]).oooBbl.uop ≠ [] ∧
      (fetchModel0 0 4 (some (blockOf [uopOf .UOP_LOAD 0 1 0, uopOf .UOP_STORE 2 2 0]))).decodeCycle +
          decodeSum (blockOf [uopOf .UOP_LOAD 0 1 0, uopOf .UOP_STORE 2 2 0]).oooBbl.uop 0 <
        2 ^ 64) ∧
    (FetchModel.simUops
        (fetchModel0 0 4 (some (blockOf [uopOf .UOP_LOAD 0 1 0, uopOf .UOP_STORE 2 2 0])))
        (blockOf []) (blockOf [uopOf .UOP_LOAD 0 1 0, uopOf .UOP_STORE 2 2 0]).oooBbl.uop
      ).core.curCycle = 6 ∧
    (FetchModel.simUops
        (fetchModel0 0 4 (some (blockOf [uopOf .UOP_LOAD 0 1 0, uopOf .UOP_STORE 2 2 0])))
        (blockOf []) (blockOf [uopOf .UOP_LOAD 0 1 0, uopOf .UOP_STORE 2 2 0]).oooBbl.uop
      ).core.curCycle =
      max (fetchModel0 0 4
          (some (blockOf [uopOf .UOP_LOAD 0 1 0, uopOf .UOP_STORE 2 2 0]))).curCycle
        (FetchModel.simUops
          (fetchModel0 0 4 (some (blockOf [uopOf .UOP_LOAD 0 1 0, uopOf .UOP_STORE 2 2 0])))
          (blockOf []) (blockOf [uopOf .UOP_LOAD 0 1 0, uopOf .UOP_STORE 2 2 0]).oooBbl.uop
        ).core.decodeCycle ∧
    FetchModel.bbl cache100 6 1
        { fetchModel0 0 4 (some (blockOf [uopOf .UOP_LOAD 0 1 0, uopOf .UOP_STORE 2 2 0])) with
          prevBbl := some (blockOf [uopOf .UOP_GENERAL 0 1 0, uopOf .UOP_GENERAL 2 2 0]) }
        4096 (blockOf []) =
      FetchModel.bbl cache100 6 1
        (fetchModel0 0 4 (some (blockOf [uopOf .UOP_LOAD 0 1 0, uopOf .UOP_STORE 2 2 0])))
        4096 (blockOf []) :=
  ⟨⟨rfl, by decide, by decide⟩, by decide,
    (fetch_uop_timing_ignores_type cache100 6 1
      (fetchModel0 0 4 (some (blockOf [uopOf .UOP_LOAD 0 1 0, uopOf .UOP_STORE 2 2 0])))
      (blockOf [uopOf .UOP_LOAD 0 1 0, uopOf .UOP_STORE 2 2 0]) 4096 (blockOf []) rfl
      (by decide) (by decide)).2.1,
    (fetch_uop_timing_ignores_type cache100 6 1
      (fetchModel0 0 4 (some (blockOf [uopOf .UOP_LOAD 0 1 0, uopOf .UOP_STORE 2 2 0])))
      (blockOf [uopOf .UOP_LOAD 0 1 0, uopOf .UOP_STORE 2 2 0]) 4096 (blockOf []) rfl
      (by decide) (by decide)).2.2
      (blockOf [uopOf .UOP_GENERAL 0 1 0, uopOf .UOP_GENERAL 2 2 0]) (by decide)⟩

namespace FetchModel

variable {κ : Type}

theorem fetch_wrongPathTrace_length_le (fc : FilterCache κ) (lineSize wpa lcc n i : Nat)
    (r : FetchModel κ × Nat) :
    (wrongPathTrace fc lineSize wpa lcc n i r).length ≤ n := by
  induction n generalizing i r with
  | zero => simp [wrongPathTrace]
  | succ n ih =>
    obtain ⟨s, c⟩ := r
    simp only [wrongPathTrace]
    split_ifs
    · simp
    · simp only [List.length_cons]
      exact Nat.succ_le_succ (ih _ _)

theorem fetch_wrongPathTrace_length_eq (fc : FilterCache κ) (lineSize wpa lcc n i : Nat)
    (r : FetchModel κ × Nat)
    (h : ∀ t ∈ wrongPathTrace fc lineSize wpa lcc n i r, t.2.2 ≤ lcc) :
    (wrongPathTrace fc lineSize wpa lcc n i r).length = n := by
  induction n generalizing i r with
  | zero => simp [wrongPathTrace]
  | succ n ih =>
    obtain ⟨s, c⟩ := r
    simp only [wrongPathTrace] at h ⊢
    split_ifs at h ⊢ with hgt
    · have := h _ (List.mem_singleton.mpr rfl)
      dsimp only at this
      omega
    · simp only [List.length_cons]
      rw [ih _ _ (fun t ht => h t (List.mem_cons_of_mem _ ht))]

theorem fetch_wrongPathTrace_addr (fc : FilterCache κ) (lineSize wpa lcc n i : Nat)
    (r : FetchModel κ × Nat) (hi : i + n < 2 ^ 32) (k : Nat) (t : Nat × Nat × Nat)
    (h : (wrongPathTrace fc lineSize wpa lcc n i r)[k]? = some t) :
    t.1 = w64 (wpa + w32 (lineSize * (i + k))) := by
  induction n generalizing i r k with
  | zero => simp [wrongPathTrace] at h
  | succ n ih =>
    obtain ⟨s, c⟩ := r
    simp only [wrongPathTrace] at h
    have e1 : w32 (i + 1) = i + 1 := by unfold w32; omega
    split_ifs at h with hgt
    · cases k with
      | zero =>
        simp only [List.getElem?_cons_zero, Option.some.injEq] at h
        rw [← h]
        rfl
      | succ k => simp at h
    · cases k with
      | zero =>
        simp only [List.getElem?_cons_zero, Option.some.injEq] at h
        rw [← h]
        rfl
      | succ k =>
        simp only [List.getElem?_cons_succ] at h
        have e2 : i + 1 + k = i + (k + 1) := by omega
        rw [ih _ _ (by rw [e1]; omega) k h, e1, e2]

theorem fetch_wrongPathLoop_cRec (fc : FilterCache κ) (lineSize wpa lcc n i : Nat)
    (s : FetchModel κ) (c : Nat) :
    (wrongPathLoop fc lineSize wpa lcc n i (s, c)).1.cRec =
      s.cRec ++ (wrongPathTrace fc lineSize wpa lcc n i (s, c)).map
        (fun t => (s.curCycle, s.curCycle, w64 (s.curCycle + t.2.1))) := by
  induction n generalizing i s c with
  | zero => simp [wrongPathLoop, wrongPathTrace]
  | succ n ih =>
    simp only [wrongPathLoop, wrongPathTrace]
    split_ifs with hgt
    · simp
    · rw [ih]
      simp

theorem fetch_frontendBranch_cRec (fc : FilterCache κ) (lineSize lcc : Nat) (s : FetchModel κ)
    (fetchCycle : Nat) :
    (frontendBranch fc lineSize lcc s fetchCycle).1.cRec =
      s.cRec ++ (wrongPathFetches fc lineSize lcc s fetchCycle).map
        (fun t => (s.curCycle, s.curCycle, w64 (s.curCycle + t.2.1))) := by
  unfold frontendBranch wrongPathFetches
  simp only []
  by_cases hpc : s.branchPc ≠ 0
  · rw [if_pos hpc, if_pos hpc]
    by_cases hp : (s.branchPred.predict s.branchPc s.branchTaken
        (if s.branchTaken then s.branchTakenNpc else s.branchNotTakenNpc)).1 = false
    · rw [if_pos hp, if_pos hp]
      exact fetch_wrongPathLoop_cRec fc lineSize _ lcc _ 0 _ fetchCycle
    · rw [if_neg hp, if_neg hp]
      simp
  · rw [if_neg hpc, if_neg hpc]
    simp

end FetchModel

/-- Counterexample to C34 as stated: with `lineBits = 7` (`lineSize = 128`)
the bound of the wrong-path loop is the integer quotient `5*64/128 = 2`,
while `ceil(5 * 64 / 128) = 3`. On `cacheLog` (every response 100 cycles after
the request), with the mispredicted branch `branch(1024, true, 1280, 1028)`
pending, `fetchCycle = 1` and `lastCommitCycle = 1000`, the loop makes two
loads, at 1028 and 1156, with response cycles 101 and 209, none above
`lastCommitCycle`; and the call of `bbl` that simulates a block of one uop of
latency 1000 (`lastCommitCycle = 1010`) makes the same two wrong-path loads
before the fetch of the next block at 4096. -/
theorem wrong_path_bound_is_floor :
    FetchModel.wrongPathFetches cacheLog (w32 (1 <<< 7)) 1000 (fetchModelLog none) 1 =
      [(1028, 100, 101), (1156, 100, 209)] ∧
    (∀ t ∈ FetchModel.wrongPathFetches cacheLog (w32 (1 <<< 7)) 1000 (fetchModelLog none) 1,
      t.2.2 ≤ 1000) ∧
    (FetchModel.frontendBranch cacheLog (w32 (1 <<< 7)) 1000 (fetchModelLog none) 1).1.l1i =
      [(1028, 0), (1156, 0)] ∧
    (FetchModel.wrongPathFetches cacheLog (w32 (1 <<< 7)) 1000 (fetchModelLog none) 1).length ≠
      (5 * 64 + w32 (1 <<< 7) - 1) / w32 (1 <<< 7) ∧
    (FetchModel.bbl cacheLog 7 1 (fetchModelLog (some (blockOf [generalUop 1000 1 1]))) 4096
        (blockOf [])).map (fun s1 => (s1.l1i, s1.mispredBranches)) =
      some ([(1028, 4), (1156, 4), (4096, 4)], 1) := by
  set_option maxRecDepth 100000 in decide

/-- C34 (as amended). In `FetchModel::bbl` with `lineBits < 32`, on a
misprediction (`branchPc` not 0 and `predict` returns false) the wrong-path
loop makes at most `floor(5 * 64 / lineSize)` loads from the L1I, which is at
most `ceil(5 * 64 / lineSize)`, each with one `cRec.record` call; it makes
exactly `floor(5 * 64 / lineSize)` loads when no wrong-path response cycle
exceeds `lastCommitCycle`, and this is `ceil(5 * 64 / lineSize)` when
`lineSize` is at most 64. The k-th load (k from 0) is at
`wrongPathAddr + lineSize * k` in 64-bit arithmetic, where `wrongPathAddr` is
`branchNotTakenNpc` if the branch was taken and `branchTakenNpc` otherwise. -/
theorem wrong_path_loads {κ : Type} (fc : FilterCache κ) (lineBits lastCommitCycle : Nat)
    (s : FetchModel κ) (fetchCycle : Nat) (hl : lineBits < 32) (hpc : s.branchPc ≠ 0)
    (hmis : (s.branchPred.predict s.branchPc s.branchTaken
      (if s.branchTaken then s.branchTakenNpc else s.branchNotTakenNpc)).1 = false) :
    w32 (1 <<< lineBits) = 2 ^ lineBits ∧
    FetchModel.wrongPathFetches fc (w32 (1 <<< lineBits)) lastCommitCycle s fetchCycle =
      FetchModel.wrongPathTrace fc (2 ^ lineBits)
        (if s.branchTaken then s.branchNotTakenNpc else s.branchTakenNpc) lastCommitCycle
        (5 * 64 / 2 ^ lineBits) 0
        ({ s with
            branchPred := (s.branchPred.predict s.branchPc s.branchTaken
              (if s.branchTaken then s.branchTakenNpc else s.branchNotTakenNpc)).2
            mispredBranches := w64 (s.mispredBranches + 1) }, fetchCycle) ∧
    (FetchModel.frontendBranch fc (w32 (1 <<< lineBits)) lastCommitCycle s fetchCycle).1.cRec =
      s.cRec ++
        (FetchModel.wrongPathFetches fc (w32 (1 <<< lineBits)) lastCommitCycle s fetchCycle).map
          (fun t => (s.curCycle, s.curCycle, w64 (s.curCycle + t.2.1))) ∧
    (FetchModel.wrongPathFetches fc (w32 (1 <<< lineBits)) lastCommitCycle s fetchCycle).length ≤
      5 * 64 / 2 ^ lineBits ∧
    5 * 64 / 2 ^ lineBits ≤ (5 * 64 + 2 ^ lineBits - 1) / 2 ^ lineBits ∧
    ((∀ t ∈ FetchModel.wrongPathFetches fc (w32 (1 <<< lineBits)) lastCommitCycle s fetchCycle,
        t.2.2 ≤ lastCommitCycle) →
      (FetchModel.wrongPathFetches fc (w32 (1 <<< lineBits)) lastCommitCycle s
        fetchCycle).length = 5 * 64 / 2 ^ lineBits) ∧
    (lineBits ≤ 6 → 5 * 64 / 2 ^ lineBits = (5 * 64 + 2 ^ lineBits - 1) / 2 ^ lineBits) ∧
    (∀ k t,
      (FetchModel.wrongPathFetches fc (w32 (1 <<< lineBits)) lastCommitCycle s fetchCycle)[k]? =
        some t →
      t.1 = w64 ((if s.branchTaken then s.branchNotTakenNpc else s.branchTakenNpc) +
        2 ^ lineBits * k)) := by
  have hls : w32 (1 <<< lineBits) = 2 ^ lineBits := CacheModel.w32_lineSize lineBits hl
  have hpos : 0 < 2 ^ lineBits := Nat.two_pow_pos _
  have hf : FetchModel.wrongPathFetches fc (w32 (1 <<< lineBits)) lastCommitCycle s fetchCycle =
      FetchModel.wrongPathTrace fc (2 ^ lineBits)
        (if s.branchTaken then s.branchNotTakenNpc else s.branchTakenNpc) lastCommitCycle
        (5 * 64 / 2 ^ lineBits) 0
        ({ s with
            branchPred := (s.branchPred.predict s.branchPc s.branchTaken
              (if s.branchTaken then s.branchTakenNpc else s.branchNotTakenNpc)).2
            mispredBranches := w64 (s.mispredBranches + 1) }, fetchCycle) := by
    unfold FetchModel.wrongPathFetches
    simp only []
    rw [if_pos hpc, if_pos hmis, hls]
  have hn : 5 * 64 / 2 ^ lineBits ≤ 320 := Nat.div_le_self _ _
  refine ⟨hls, hf, FetchModel.fetch_frontendBranch_cRec fc _ lastCommitCycle s fetchCycle, ?_,
    Nat.div_le_div_right (by omega), fun h => ?_, fun h6 => ?_, fun k t h => ?_⟩
  · rw [hf]
    exact FetchModel.fetch_wrongPathTrace_length_le _ _ _ _ _ _ _
  · rw [hf] at h ⊢
    exact FetchModel.fetch_wrongPathTrace_length_eq _ _ _ _ _ _ _ h
  · interval_cases lineBits <;> decide
  · rw [hf] at h
    have hk : k < 5 * 64 / 2 ^ lineBits := by
      have h1 := FetchModel.fetch_wrongPathTrace_length_le fc (2 ^ lineBits)
        (if s.branchTaken then s.branchNotTakenNpc else s.branchTakenNpc) lastCommitCycle
        (5 * 64 / 2 ^ lineBits) 0
        ({ s with
            branchPred := (s.branchPred.predict s.branchPc s.branchTaken
              (if s.branchTaken then s.branchTakenNpc else s.branchNotTakenNpc)).2
            mispredBranches := w64 (s.mispredBranches + 1) }, fetchCycle)
      have h2 := (List.getElem?_eq_some.mp h).1
      omega
    have h3 := FetchModel.fetch_wrongPathTrace_addr fc _ _ _ _ 0 _ (by omega) k t h
    have h4 : 2 ^ lineBits * k < 2 ^ 32 := by
      have : 2 ^ lineBits * k ≤ 2 ^ lineBits * (5 * 64 / 2 ^ lineBits) :=
        Nat.mul_le_mul_left _ (Nat.le_of_lt hk)
      have := Nat.mul_div_le (5 * 64) (2 ^ lineBits)
      omega
    rw [h3, Nat.zero_add]
    unfold w32
    rw [Nat.mod_eq_of_lt h4]

/-- Witness for C34 (as amended): with `lineBits = 6` on `cacheLog`, the
mispredicted branch `branch(1024, true, 1280, 1028)`, `fetchCycle = 1` and
`lastCommitCycle = 1000`, the wrong-path loop makes `5 * 64 / 64 = 5` loads,
at `1028 + 64 * k`, with response cycles 101, 205, 309, 413 and 517; with
`lastCommitCycle = 150` it stops after the second load. -/
theorem wrong_path_loads_witness :
    ((6 : Nat) < 32 ∧ (fetchModelLog none).branchPc ≠ 0 ∧
      ((fetchModelLog none).branchPred.predict (fetchModelLog none).branchPc
        (fetchModelLog none).branchTaken
        (if (fetchModelLog none).branchTaken then (fetchModelLog none).branchTakenNpc
          else (fetchModelLog none).branchNotTakenNpc)).1 = false) ∧
    FetchModel.wrongPathFetches cacheLog (w32 (1 <<< 6)) 1000 (fetchModelLog none) 1 =
      [(1028, 100, 101), (1092, 100, 205), (1156, 100, 309), (1220, 100, 413),
        (1284, 100, 517)] ∧
    FetchModel.wrongPathFetches cacheLog (w32 (1 <<< 6)) 150 (fetchModelLog none) 1 =
      [(1028, 100, 101), (1092, 100, 205)] ∧
    (FetchModel.frontendBranch cacheLog (w32 (1 <<< 6)) 1000 (fetchModelLog none) 1).1.l1i =
      [(1028, 0), (1092, 0), (1156, 0), (1220, 0), (1284, 0)] ∧
    (FetchModel.wrongPathFetches cacheLog (w32 (1 <<< 6)) 1000 (fetchModelLog none) 1).length =
      5 * 64 / 2 ^ 6 ∧
    5 * 64 / 2 ^ 6 = (5 * 64 + 2 ^ 6 - 1) / 2 ^ 6 := by
  have hp : ((fetchModelLog none).branchPred.predict (fetchModelLog none).branchPc
      (fetchModelLog none).branchTaken
      (if (fetchModelLog none).branchTaken then (fetchModelLog none).branchTakenNpc
        else (fetchModelLog none).branchNotTakenNpc)).1 = false := by
    set_option maxRecDepth 100000 in decide
  have h := wrong_path_loads cacheLog 6 1000 (fetchModelLog none) 1 (by decide) (by decide) hp
  refine ⟨⟨by decide, by decide, hp⟩, ?_, ?_, ?_, ?_, h.2.2.2.2.2.2.1 (by decide)⟩
  · set_option maxRecDepth 100000 in decide
  · set_option maxRecDepth 100000 in decide
  · set_option maxRecDepth 100000 in decide
  · exact h.2.2.2.2.2.1 (by set_option maxRecDepth 100000 in decide)

namespace CacheModel

variable {κ β : Type}

end CacheModel

namespace FetchModel

variable {κ β : Type}

end FetchModel

end MeMo
